import Mathlib

/-!
# lsmon: remote sampling engine and its ring buffers

A shallow embedding of `mon/node.go` and `mon/common.go`.

* Go slices are Lean lists (oldest element first), Go maps from device names to
  slices are association lists read with `mapGet` (a missing key reads as the
  empty slice, as `m[k]` does in Go) and written with `mapSet`.
* `uint64` values are naturals below `2^64`, `int64` values are integers wrapped
  by `wrapInt64`, Go `int` limits are integers.
* `float64` values are modelled by `Float64`: a finite value is held as the
  rational it denotes, and `NaN`, `+Inf`, `-Inf` are separate constructors.
  Every conversion and every arithmetic operation rounds its exact result to
  the nearest binary64 value, ties to even (`Float64.ofRat`), one operation at
  a time (no fused multiply-add); the IEEE rules for division by zero and for
  the special values are kept, the sign of a zero is not.
* The library functions `math.Log10` and `math.Pow` are arguments of
  `scaleMaxValue`: their values are not fixed by the source.
* What a call reads from the remote host is an explicit `Remote` argument; the
  field `Node.remoteReads` records every remote path a step has read.
-/

namespace Lsmon

/-! ## Machine arithmetic -/

/-- Wrap an integer into the range of a Go int64 (two's complement). -/
def wrapInt64 (x : Int) : Int := (x + 2 ^ 63) % 2 ^ 64 - 2 ^ 63

/-- Subtraction of two Go uint64 values: the difference modulo 2^64. -/
def subUint64 (a b : Nat) : Nat := (a + 2 ^ 64 - b % 2 ^ 64) % 2 ^ 64

/-! ## float64 -/

/-- A Go float64: a finite value, held as the rational it denotes, or one of
the three special values. -/
inductive Float64 where
  | fin (q : ℚ)
  | posInf
  | negInf
  | nan
deriving DecidableEq

/-- Rounding of a rational to the nearest integer, a tie going to the even
neighbour. -/
def roundHalfEven (x : ℚ) : Int :=
  if x - ⌊x⌋ < 1 / 2 then ⌊x⌋
  else if 1 / 2 < x - ⌊x⌋ then ⌊x⌋ + 1
  else if ⌊x⌋ % 2 = 0 then ⌊x⌋ else ⌊x⌋ + 1

/-- The binary exponent of the last place of the binary64 format at q: 52 below
the exponent of q (the integer e with 2^e ≤ |q| < 2^(e+1)), and -1074 in the
subnormal range. -/
def ulpExp (q : ℚ) : Int := max (Int.log 2 |q|) (-1022) - 52

namespace Float64

/-- The float64 value of an exact result q: the nearest multiple of 2^ulpExp, a
tie going to the even multiple (IEEE 754 round to nearest, ties to even), and
an infinity of the sign of q when that value reaches 2^1024. -/
def ofRat (q : ℚ) : Float64 :=
  if (2 : ℚ) ^ (1024 : ℤ) ≤
      |(roundHalfEven (q / (2 : ℚ) ^ ulpExp q) : ℚ) * (2 : ℚ) ^ ulpExp q| then
    (if 0 < q then posInf else negInf)
  else fin ((roundHalfEven (q / (2 : ℚ) ^ ulpExp q) : ℚ) * (2 : ℚ) ^ ulpExp q)

/-- Conversion float64(x) of an unsigned counter: the nearest float64. -/
def ofNat (n : Nat) : Float64 := ofRat (n : ℚ)

/-- Negation. -/
def neg : Float64 → Float64
  | fin q => fin (-q)
  | posInf => negInf
  | negInf => posInf
  | nan => nan

/-- Addition: the exact sum rounded, with the IEEE rules for the special
values. -/
def add : Float64 → Float64 → Float64
  | fin a, fin b => ofRat (a + b)
  | nan, _ => nan
  | _, nan => nan
  | posInf, negInf => nan
  | negInf, posInf => nan
  | posInf, _ => posInf
  | _, posInf => posInf
  | negInf, _ => negInf
  | _, negInf => negInf

/-- Subtraction. -/
def sub (a b : Float64) : Float64 := add a (neg b)

/-- An infinity of the sign of a non-zero rational. -/
def infOfSign (q : ℚ) : Float64 := if 0 < q then posInf else negInf

/-- Multiplication: the exact product rounded, with the IEEE rules for the
special values. -/
def mul : Float64 → Float64 → Float64
  | fin a, fin b => ofRat (a * b)
  | nan, _ => nan
  | _, nan => nan
  | fin a, posInf => if a = 0 then nan else infOfSign a
  | fin a, negInf => if a = 0 then nan else infOfSign (-a)
  | posInf, fin b => if b = 0 then nan else infOfSign b
  | negInf, fin b => if b = 0 then nan else infOfSign (-b)
  | posInf, posInf => posInf
  | negInf, negInf => posInf
  | posInf, negInf => negInf
  | negInf, posInf => negInf

/-- Division: the exact quotient rounded, with the IEEE rules: 0/0 is NaN, x/0
is an infinity of the sign of x (a zero divisor is taken as +0, which is what a
float64 subtraction of equal values produces), Inf/Inf is NaN. -/
def div : Float64 → Float64 → Float64
  | fin a, fin b => if b = 0 then (if a = 0 then nan else infOfSign a) else ofRat (a / b)
  | nan, _ => nan
  | _, nan => nan
  | fin _, posInf => fin 0
  | fin _, negInf => fin 0
  | posInf, fin b => if 0 ≤ b then posInf else negInf
  | negInf, fin b => if 0 ≤ b then negInf else posInf
  | posInf, posInf => nan
  | posInf, negInf => nan
  | negInf, posInf => nan
  | negInf, negInf => nan

end Float64

open Float64 in
/-- The function sumFloat64 of common.go: the running sum, starting at 0.0. -/
def sumFloat64 (values : List Float64) : Float64 :=
  values.foldl (fun sum v => Float64.add sum v) (fin 0)

/-! ## Data model -/

/-- Modelled from the spec: linux.CPUStat of the goprocinfo library (not under
src/), the ten cumulative tick counters of one /proc/stat line. -/
structure CPUStat where
  Id : String
  User : Nat
  Nice : Nat
  System : Nat
  Idle : Nat
  IOWait : Nat
  IRQ : Nat
  SoftIRQ : Nat
  Steal : Nat
  Guest : Nat
  GuestNice : Nat
deriving DecidableEq

/-- Modelled from the spec: linux.Stat of the goprocinfo library (not under
src/), reduced to the two fields MonitoringCPUUsage uses. -/
structure Stat where
  CPUStatAll : CPUStat
  CPUStats : List CPUStat
deriving DecidableEq

/-- Modelled from the spec: linux.DiskStat of the goprocinfo library (not under
src/), reduced to the fields MonitoringDiskIO uses. -/
structure DiskStat where
  Name : String
  ReadIOs : Nat
  ReadSectors : Nat
  WriteIOs : Nat
  WriteSectors : Nat
deriving DecidableEq

/-- Modelled from the spec: DiskStat.GetReadBytes of the goprocinfo library (not
under src/); bytes derive as sectors × 512, in int64. -/
def DiskStat.GetReadBytes (s : DiskStat) : Int := wrapInt64 (wrapInt64 s.ReadSectors * 512)

/-- Modelled from the spec: DiskStat.GetWriteBytes of the goprocinfo library (not
under src/); bytes derive as sectors × 512, in int64. -/
def DiskStat.GetWriteBytes (s : DiskStat) : Int := wrapInt64 (wrapInt64 s.WriteSectors * 512)

/-- Modelled from the spec: linux.NetworkStat of the goprocinfo library (not
under src/), reduced to the fields MonitoringNetworkIO uses. -/
structure NetworkStat where
  Iface : String
  RxBytes : Nat
  RxPackets : Nat
  TxBytes : Nat
  TxPackets : Nat
deriving DecidableEq

/-- The struct CPUUsage: the aggregate counters (embedded CPUStat), the per-core
counters and the time of the sample. -/
structure CPUUsage where
  toCPUStat : CPUStat
  Detail : List CPUStat
  Timestamp : Nat
deriving DecidableEq

/-- The struct DiskIO. -/
structure DiskIO where
  Device : String
  ReadIOs : Nat
  ReadBytes : Int
  WriteIOs : Nat
  WriteBytes : Int
deriving DecidableEq

/-- The struct NetworkIO. -/
structure NetworkIO where
  Device : String
  RXPackets : Nat
  RXBytes : Nat
  TXPackets : Nat
  TXBytes : Nat
deriving DecidableEq

/-- Read m[k] of a Go map of slices: the stored slice, or the empty slice when
the key is missing. -/
def mapGet {α : Type} (m : List (String × List α)) (k : String) : List α :=
  match m.lookup k with
  | some v => v
  | none => []

/-- Assignment m[k] = v of a Go map: replace the entry of k, or add one. -/
def mapSet {α : Type} (m : List (String × List α)) (k : String) (v : List α) :
    List (String × List α) :=
  match m with
  | [] => [(k, v)]
  | (k', v') :: rest => if k' = k then (k, v) :: rest else (k', v') :: mapSet rest k v

/-- The struct Node, without its connection handle, mutex and UI parts. The
last field is not in the source: it lists the remote paths read so far. -/
structure Node where
  ServerName : String
  PathProcStat : String
  PathProcCpuinfo : String
  PathProcMeminfo : String
  PathProcUptime : String
  PathProcLoadavg : String
  PathProcMounts : String
  PathProcDiskStats : String
  cpuUsage : List CPUUsage
  cpuUsageLimit : Int
  DiskIOs : List (String × List DiskIO)
  DiskIOsLimit : Int
  DiskReadIOBytes : List Int
  DiskWriteIOBytes : List Int
  NetworkIOs : List (String × List NetworkIO)
  NetworkIOsLimit : Int
  NetworkRXBytes : List Nat
  NetworkRXPackets : List Nat
  NetworkTXBytes : List Nat
  NetworkTXPackets : List Nat
  remoteReads : List String
deriving DecidableEq

/-- The constructor NewNode: default paths, empty series, limits of 480. -/
def NewNode (name : String) : Node :=
  { ServerName := name
    PathProcStat := "/proc/stat"
    PathProcCpuinfo := "/proc/cpuinfo"
    PathProcMeminfo := "/proc/meminfo"
    PathProcUptime := "/proc/uptime"
    PathProcLoadavg := "/proc/loadavg"
    PathProcMounts := "/proc/mounts"
    PathProcDiskStats := "/proc/diskstats"
    cpuUsage := []
    cpuUsageLimit := 480
    DiskIOs := []
    DiskIOsLimit := 480
    DiskReadIOBytes := []
    DiskWriteIOBytes := []
    NetworkIOs := []
    NetworkIOsLimit := 480
    NetworkRXBytes := []
    NetworkRXPackets := []
    NetworkTXBytes := []
    NetworkTXPackets := []
    remoteReads := [] }

/-- What one call observes of the remote host: the answer of CheckClientAlive,
the clock, and the result of each read (none is a read or parse error). -/
structure Remote where
  alive : Bool
  now : Nat
  ReadStat : String → Option Stat
  ReadDiskStats : String → Option (List DiskStat)
  ReadData : String → Option String
  ReadNetworkStat : String → Option (List NetworkStat)

/-! ## The samplers -/

/-- The statement pair "xs = append(xs, x); if len(xs) > limit then xs = xs[1:]"
shared by the three samplers. The slice expression is applied to a slice that
has just been appended to, so it cannot fail. -/
def appendEvict {α : Type} (limit : Int) (xs : List α) (x : α) : List α :=
  let ys := xs ++ [x]
  if (ys.length : Int) > limit then ys.tail else ys

/-- The method Node.MonitoringCPUUsage. -/
def MonitoringCPUUsage (n : Node) (r : Remote) : Node :=
  if !r.alive then
    { n with cpuUsage := [] }
  else
    let timestamp := r.now
    let n1 := { n with remoteReads := n.remoteReads ++ [n.PathProcStat] }
    match r.ReadStat n.PathProcStat with
    | none => n1
    | some stat =>
      let stats := stat.CPUStats
      let cpuUsage : CPUUsage := ⟨stat.CPUStatAll, stats, timestamp⟩
      { n1 with cpuUsage := appendEvict n1.cpuUsageLimit n1.cpuUsage cpuUsage }

/-- The test regexp.MatchString("^md-", s). -/
def matchMdPrefix (s : String) : Bool := "md-".isPrefixOf s

/-- The body of the loop of MonitoringDiskIO for one diskstats entry. The
pattern is matched against the variable device, which is still the empty
string at that point, as in the source. -/
def monitoringDiskIOStep (r : Remote) (n : Node) (stat : DiskStat) : Node :=
  let device := ""
  let go (n : Node) (device : String) : Node :=
    let diskIO : DiskIO :=
      ⟨device, stat.ReadIOs, stat.GetReadBytes, stat.WriteIOs, stat.GetWriteBytes⟩
    let series := appendEvict n.DiskIOsLimit (mapGet n.DiskIOs device) diskIO
    { n with DiskIOs := mapSet n.DiskIOs device series }
  if matchMdPrefix device then
    let sysDeviceName := "/sys/block/" ++ stat.Name ++ "/dm/name"
    let n1 := { n with remoteReads := n.remoteReads ++ [sysDeviceName] }
    match r.ReadData sysDeviceName with
    | none => n1
    | some mapperDeviceName => go n1 ("/dev/mapper/" ++ mapperDeviceName)
  else
    go n ("/dev/" ++ stat.Name)

/-- The method Node.MonitoringDiskIO. -/
def MonitoringDiskIO (n : Node) (r : Remote) : Node :=
  if !r.alive then
    { n with DiskIOs := [] }
  else
    let n1 := { n with remoteReads := n.remoteReads ++ [n.PathProcDiskStats] }
    match r.ReadDiskStats n.PathProcDiskStats with
    | none => n1
    | some stats => stats.foldl (monitoringDiskIOStep r) n1

/-- The body of the loop of MonitoringNetworkIO for one interface. -/
def monitoringNetworkIOStep (n : Node) (stat : NetworkStat) : Node :=
  let networkIO : NetworkIO :=
    ⟨stat.Iface, stat.RxPackets, stat.RxBytes, stat.TxPackets, stat.TxBytes⟩
  let series := appendEvict n.NetworkIOsLimit (mapGet n.NetworkIOs stat.Iface) networkIO
  { n with NetworkIOs := mapSet n.NetworkIOs stat.Iface series }

/-- The method Node.MonitoringNetworkIO. -/
def MonitoringNetworkIO (n : Node) (r : Remote) : Node :=
  if !r.alive then
    { n with NetworkIOs := [] }
  else
    let n1 := { n with remoteReads := n.remoteReads ++ ["/proc/net/dev"] }
    match r.ReadNetworkStat "/proc/net/dev" with
    | none => n1
    | some stats => stats.foldl monitoringNetworkIOStep n1

/-- One pass of the ticker loop of Node.StartMonitoring: the three samplers in
order, each with its own view of the remote host. -/
def startMonitoringTick (n : Node) (r1 r2 r3 : Remote) : Node :=
  MonitoringNetworkIO ( MonitoringDiskIO (MonitoringCPUUsage n r1) r2) r3

/-! ## Derived rate buffers -/

/-- The slice expression xs[1:], which fails at run time on an empty slice. -/
def sliceFrom1 {α : Type} (xs : List α) : Option (List α) :=
  match xs with
  | [] => none
  | _ :: rest => some rest

/-- The statement "if len(xs) > limit then xs = xs[1:]" of the rate functions;
none is the run-time failure of the slice expression. -/
def evictHead {α : Type} (limit : Int) (xs : List α) : Option (List α) :=
  if (xs.length : Int) > limit then sliceFrom1 xs else some xs

/-- The branch "if len(buf) == 0 then append(buf, 0) else append(buf, v)". -/
def appendRate {α : Type} (zero : α) (buf : List α) (v : α) : List α :=
  if buf.length = 0 then buf ++ [zero] else buf ++ [v]

/-- The method Node.getDiskIOBytes; none is a run-time failure. -/
def getDiskIOBytes (n : Node) (device : String) : Option Node :=
  if device.utf8ByteSize = 0 then
    some n
  else
    let diskIO := mapGet n.DiskIOs device
    let n1 : Node :=
      if h : diskIO.length > 1 then
        let preReadIOBytes := diskIO[ diskIO.length - 2].ReadBytes
        let preWriteIOBytes := diskIO[ diskIO.length - 2].WriteBytes
        let readIOBytes := wrapInt64 ( diskIO[ diskIO.length - 1].ReadBytes - preReadIOBytes)
        let writeIOBytes := wrapInt64 ( diskIO[ diskIO.length - 1].WriteBytes - preWriteIOBytes)
        { n with
          DiskReadIOBytes := appendRate 0 n.DiskReadIOBytes readIOBytes
          DiskWriteIOBytes := appendRate 0 n.DiskWriteIOBytes writeIOBytes }
      else n
    match evictHead n1.DiskIOsLimit n1.DiskReadIOBytes with
    | none => none
    | some rd =>
      match evictHead n1.DiskIOsLimit n1.DiskWriteIOBytes with
      | none => none
      | some wr => some { n1 with DiskReadIOBytes := rd, DiskWriteIOBytes := wr }

/-- The method Node.getNetworkIO; none is a run-time failure. The four length
tests are the ones of the source, in its order: NetworkRXBytes, NetworkTXBytes,
NetworkRXBytes again, NetworkRXPackets. -/
def getNetworkIO (n : Node) (device : String) : Option Node :=
  if device.utf8ByteSize = 0 then
    some n
  else
    let networkIO := mapGet n.NetworkIOs device
    if h : networkIO.length > 1 then
      let preRXBytes := networkIO[ networkIO.length - 2].RXBytes
      let preRXPackets := networkIO[ networkIO.length - 2].RXPackets
      let preTXBytes := networkIO[ networkIO.length - 2].TXBytes
      let preTXPackets := networkIO[ networkIO.length - 2].TXPackets
      let rxBytes := subUint64 networkIO[ networkIO.length - 1].RXBytes preRXBytes
      let rxPackets := subUint64 networkIO[ networkIO.length - 1].RXPackets preRXPackets
      let txBytes := subUint64 networkIO[ networkIO.length - 1].TXBytes preTXBytes
      let txPackets := subUint64 networkIO[ networkIO.length - 1].TXPackets preTXPackets
      let rxB := appendRate 0 n.NetworkRXBytes rxBytes
      let rxP := appendRate 0 n.NetworkRXPackets rxPackets
      let txB := appendRate 0 n.NetworkTXBytes txBytes
      let txP := appendRate 0 n.NetworkTXPackets txPackets
      match evictHead n.NetworkIOsLimit rxB with
      | none => none
      | some rxB1 =>
        match evictHead n.NetworkIOsLimit txB with
        | none => none
        | some txB1 =>
          match evictHead n.NetworkIOsLimit rxB1 with
          | none => none
          | some rxB2 =>
            match evictHead n.NetworkIOsLimit rxP with
            | none => none
            | some rxP1 =>
              some { n with
                NetworkRXBytes := rxB2
                NetworkRXPackets := rxP1
                NetworkTXBytes := txB1
                NetworkTXPackets := txP }
    else some n

/-! ## CPU utilization and graph scaling -/

/-- The ten arguments float64(c.User), ..., float64(c.GuestNice) that the CPU
readers pass to sumFloat64. -/
def tenCounters (c : CPUStat) : List Float64 :=
  [Float64.ofNat c.User, Float64.ofNat c.Nice, Float64.ofNat c.System, Float64.ofNat c.Idle,
   Float64.ofNat c.IOWait, Float64.ofNat c.IRQ, Float64.ofNat c.SoftIRQ, Float64.ofNat c.Steal,
   Float64.ofNat c.Guest, Float64.ofNat c.GuestNice]

/-- The expression (totalDiff - idleDiff) / totalDiff * 100 that the CPU readers
compute from a later sample l and a previous sample p. -/
def usageBetween (l p : CPUStat) : Float64 :=
  let lUsageTotal := sumFloat64 (tenCounters l)
  let pUsageTotal := sumFloat64 (tenCounters p)
  let lIdle := Float64.ofNat l.Idle
  let pIdle := Float64.ofNat p.Idle
  let totalDiff := Float64.sub lUsageTotal pUsageTotal
  let idleDiff := Float64.sub lIdle pIdle
  Float64.mul (Float64.div (Float64.sub totalDiff idleDiff) totalDiff) (Float64.fin 100)

/-- The method Node.GetCPUUsage; the flag is the answer of CheckClientAlive. The
error result of the source is nil on every path and is left out. -/
def GetCPUUsage (n : Node) (alive : Bool) : Float64 :=
  if !alive then
    Float64.fin 0
  else if h : n.cpuUsage.length ≥ 2 then
    let lUsage := n.cpuUsage[n.cpuUsage.length - 1]
    let pUsage := n.cpuUsage[n.cpuUsage.length - 2]
    usageBetween lUsage.toCPUStat pUsage.toCPUStat
  else
    Float64.fin 0

/-- The call math.Floor(x): the greatest integer value not above x, which is
a float64 whenever x is; the special values are returned as they are. -/
def mathFloor : Float64 → Float64
  | Float64.fin q => Float64.fin (⌊q⌋ : ℤ)
  | x => x

/-- The call math.Ceil(x): the least integer value not below x. -/
def mathCeil : Float64 → Float64
  | Float64.fin q => Float64.fin (⌈q⌉ : ℤ)
  | x => x

/-- The function scaleMaxValue of common.go. The functions math.Log10 and
math.Pow of the Go standard library are the arguments log10 and pow: the source
does not fix their values. -/
def scaleMaxValue (log10 : Float64 → Float64) (pow : Float64 → Float64 → Float64)
    (maxValue : Float64) : Float64 :=
  if maxValue = Float64.fin 0 then
    Float64.fin 10
  else
    let scale := pow (Float64.fin 10) (mathFloor (log10 maxValue))
    Float64.mul (mathCeil (Float64.div maxValue scale)) scale


/-! ## Graph encoders (graph.go) -/

/-- The comparison a < b of two float64 values; false when one is NaN. -/
def Float64.lt : Float64 → Float64 → Bool
  | Float64.fin a, Float64.fin b => decide (a < b)
  | Float64.nan, _ => false
  | _, Float64.nan => false
  | Float64.negInf, Float64.negInf => false
  | Float64.negInf, _ => true
  | _, Float64.negInf => false
  | Float64.posInf, _ => false
  | _, Float64.posInf => true

/-- The call math.Abs(x). -/
def Float64.abs : Float64 → Float64
  | Float64.fin q => Float64.fin |q|
  | Float64.posInf => Float64.posInf
  | Float64.negInf => Float64.posInf
  | Float64.nan => Float64.nan

/-- Conversion float64(i) of a Go int: the nearest float64. -/
def Float64.ofInt (i : Int) : Float64 := Float64.ofRat (i : ℚ)

/-- Truncation of a rational towards zero. -/
def truncRat (q : ℚ) : Int := if 0 ≤ q then ⌊q⌋ else ⌈q⌉

/-- Conversion int(x) of a float64, with int 64 bits wide: the fraction is
discarded. For NaN, for the infinities and for a value outside the int64 range
the Go specification leaves the result to the implementation; conv gives that
result. -/
def Float64.toInt (conv : Float64 → Int) : Float64 → Int
  | Float64.fin q =>
    if -(2 : Int) ^ 63 ≤ truncRat q ∧ truncRat q < (2 : Int) ^ 63 then truncRat q
    else conv (Float64.fin q)
  | x => conv x

/-- The struct Graph. -/
structure Graph where
  Data : List Float64
  Min : Float64
  Max : Float64
  ColorMode : Int

/-- The table sparklineTicks. -/
def sparklineTicks : List String := ["▁", "▂", "▃", "▄", "▅", "▆", "▇", "█"]

/-- The table graphSymbols, keyed by the two bucket digits. -/
def graphSymbols : List (String × String) :=
  [("00", "⠀"), ("01", "⢀"), ("02", "⢠"), ("03", "⢰"), ("04", "⢸"),
   ("10", "⡀"), ("11", "⣀"), ("12", "⣠"), ("13", "⣰"), ("14", "⣸"),
   ("20", "⡄"), ("21", "⣄"), ("22", "⣤"), ("23", "⣴"), ("24", "⣼"),
   ("30", "⡆"), ("31", "⣆"), ("32", "⣦"), ("33", "⣶"), ("34", "⣾"),
   ("40", "⡇"), ("41", "⣇"), ("42", "⣧"), ("43", "⣷"), ("44", "⣿")]

/-- The index expression sparklineTicks[tick]; none is the run-time failure of
an index out of range. -/
def tickGlyph (tick : Int) : Option String :=
  if 0 ≤ tick ∧ tick < (sparklineTicks.length : Int) then sparklineTicks[tick.toNat]? else none

/-- The loop of Sparkline that widens min and max over the data. -/
def dataRange (data : List Float64) (start : Float64) : Float64 × Float64 :=
  data.foldl
    (fun (mm : Float64 × Float64) num =>
      let lo := if Float64.lt num mm.1 then num else mm.1
      let hi := if Float64.lt mm.2 num then num else mm.2
      (lo, hi))
    (start, start)

/-- A loop that appends one result per element, in order, and stops with the
first run-time failure. -/
def mapOrFail {α β : Type} (f : α → Option β) : List α → Option (List β)
  | [] => some []
  | a :: rest =>
    match f a with
    | none => none
    | some b =>
      match mapOrFail f rest with
      | none => none
      | some bs => some (b :: bs)

/-- The method Graph.Sparkline; none is a run-time failure. -/
def Sparkline (conv : Float64 → Int) (g : Graph) : Option (List String) :=
  match g.Data with
  | [] => some []
  | first :: _ =>
    let mm : Float64 × Float64 :=
      if g.Min = Float64.fin 0 ∧ g.Max = Float64.fin 0 then dataRange g.Data first
      else (g.Min, g.Max)
    let min := mm.1
    let max := mm.2
    let sizeRatio0 := Float64.div (Float64.ofNat sparklineTicks.length) (Float64.ofNat g.Data.length)
    let sizeRatio := if Float64.lt (Float64.fin 1) sizeRatio0 then Float64.fin 1 else sizeRatio0
    let numTicks0 := Float64.toInt conv (Float64.mul sizeRatio (Float64.ofNat sparklineTicks.length))
    let numTicks := if numTicks0 < 1 then 1 else numTicks0
    if Float64.lt (Float64.abs (Float64.sub max min)) (Float64.ofRat (1 / 10000000)) then
      mapOrFail (fun _ => tickGlyph 0) g.Data
    else
      let scale := Float64.div (Float64.ofInt (numTicks - 1)) (Float64.sub max min)
      mapOrFail
        (fun n =>
          let tick0 := Float64.toInt conv
            (Float64.add (Float64.mul (Float64.sub n min) scale) (Float64.fin (1 / 2)))
          let tick := if tick0 ≥ numTicks then numTicks - 1 else tick0
          tickGlyph tick)
        g.Data

/-- The closure getSymbolIndex of usageToSymbol. -/
def getSymbolIndex (value : Float64) : Nat :=
  if Float64.lt value (Float64.fin 25) then 1
  else if Float64.lt value (Float64.fin 50) then 2
  else if Float64.lt value (Float64.fin 75) then 3
  else 4

/-- The function usageToSymbol: the glyph and the format template. A key that
is missing from the table reads as the empty string. -/
def usageToSymbol (current next : Float64) : String × String :=
  let currentIndex := getSymbolIndex current
  let nextIndex := getSymbolIndex next
  let template :=
    if currentIndex = 4 ∨ nextIndex = 4 then "[#fa1e1e]%s[none]"
    else if currentIndex = 3 ∨ nextIndex = 3 then "[#E78101]%s[none]"
    else if currentIndex = 2 ∨ nextIndex = 2 then "[#f2e266]%s[none]"
    else if currentIndex = 1 ∨ nextIndex = 1 then "[#4897d4]%s[none]"
    else if currentIndex = 0 ∧ nextIndex = 0 then "%s"
    else "%s"
  let key := toString currentIndex ++ toString nextIndex
  ((graphSymbols.lookup key).getD "", template)

/-- The call fmt.Sprintf(template, symbol) for a template with one %s verb. -/
def sprintfSymbol (template symbol : String) : String := template.replace "%s" symbol

/-- The array graphArray of BrailleLine after its loop: the entry of an even
index i is the formatted symbol of Data[i] and Data[i+1] (0.0 when i is the last
index), the entry of an odd index is the empty string it was created with. -/
def brailleArray : List Float64 → List String
  | [] => []
  | [current] =>
    [sprintfSymbol (usageToSymbol current (Float64.fin 0)).2
      (usageToSymbol current (Float64.fin 0)).1]
  | current :: next :: rest =>
    sprintfSymbol (usageToSymbol current next).2 (usageToSymbol current next).1 :: "" ::
      brailleArray rest

/-- The method Graph.BrailleLine: every entry of graphArray, in order. -/
def BrailleLine (g : Graph) : List String := brailleArray g.Data

/-- The call strings.Join(parts, ""). -/
def stringsJoin (parts : List String) : String := parts.foldl (fun acc p => acc ++ p) ""

/-! ## Disk and network snapshots (node.go) -/

/-- The table fstype: the filesystem types that appear in disk snapshots. -/
def fstype (t : String) : Bool :=
  ["ext2", "ext3", "ext4", "btrfs", "xfs", "vfat", "ntfs", "exfat", "reiserfs", "jfs", "zfs",
    "udev", "tmpfs"].contains t

/-- Modelled from the spec: linux.Mount of the goprocinfo library (not under
src/), one entry {device, mountPoint, fsType} of /proc/mounts. -/
structure Mount where
  Device : String
  MountPoint : String
  FSType : String
deriving DecidableEq

/-- Modelled from the spec: linux.Disk of the goprocinfo library (not under
src/), the answer {total, used, free} of a mountpoint query, in bytes. -/
structure Disk where
  All : Nat
  Used : Nat
  Free : Nat
deriving DecidableEq

/-- The struct DiskUsage. -/
structure DiskUsage where
  MountPoint : String
  FSType : String
  Device : String
  All : Nat
  Used : Nat
  Free : Nat
  ReadIOBytes : List Int
  WriteIOBytes : List Int
deriving DecidableEq

/-- What GetDiskUsage observes of the remote host: whether the connection
pointer is set, the answer of CheckClientAlive, and the result of each read
(none is an error). -/
structure RemoteFS where
  connected : Bool
  alive : Bool
  ReadMounts : String → Option (List Mount)
  ReadDisk : String → Option Disk

/-- A loop over a list that threads a state and stops at the first run-time
failure of its body. -/
def foldOrFail {σ α : Type} (f : σ → α → Option σ) : σ → List α → Option σ
  | st, [] => some st
  | st, a :: rest =>
    match f st a with
    | none => none
    | some st1 => foldOrFail f st1 rest

/-- The body of the loop of GetDiskUsage for one mount; the state is the node
and the entries collected so far. -/
def getDiskUsageStep (r : RemoteFS) (st : Node × List DiskUsage) (m : Mount) :
    Option (Node × List DiskUsage) :=
  let n1 := { st.1 with remoteReads := st.1.remoteReads ++ [m.MountPoint] }
  match r.ReadDisk m.MountPoint with
  | none => some (n1, st.2)
  | some disk =>
    if fstype m.FSType then
      match getDiskIOBytes n1 m.Device with
      | none => none
      | some n2 =>
        let diskUsage : DiskUsage :=
          ⟨m.MountPoint, m.FSType, m.Device, disk.All, disk.Used, disk.Free,
            n2.DiskReadIOBytes, n2.DiskWriteIOBytes⟩
        some (n2, st.2 ++ [diskUsage])
    else some (n1, st.2)

/-- The method Node.GetDiskUsage: the node afterwards, the entries, and whether
the error result is set; none is a run-time failure. -/
def GetDiskUsage (n : Node) (r : RemoteFS) : Option (Node × List DiskUsage × Bool) :=
  if !r.connected then some (n, [], false)
  else if !r.alive then some (n, [], false)
  else
    let n1 := { n with remoteReads := n.remoteReads ++ [n.PathProcMounts] }
    match r.ReadMounts n.PathProcMounts with
    | none => some (n1, [], true)
    | some mounts =>
      match foldOrFail (getDiskUsageStep r) (n1, []) mounts with
      | none => none
      | some st => some (st.1, st.2, false)

/-- The struct NetworkUsage. -/
structure NetworkUsage where
  Device : String
  IPv4Address : String
  IPv6Address : String
  RXBytes : List Nat
  TXBytes : List Nat
  RXPackets : List Nat
  TXPackets : List Nat
deriving DecidableEq

/-- Modelled from the spec: sshproc.IPv4 of the go-sshproc library (not under
src/), an entry {iface, ipv4, netmaskBits}. -/
structure IPv4 where
  Interface : String
  IPAddress : String
  NetmaskSize : Nat
deriving DecidableEq

/-- Modelled from the spec: sshproc.IPv6 of the go-sshproc library (not under
src/), an entry {iface, ipv6, prefixBits}. -/
structure IPv6 where
  Interface : String
  IPAddress : String
  Prefix : String
deriving DecidableEq

/-- What GetNetworkUsage observes of the remote host: the answer of
CheckClientAlive, whether the connection pointer is set, and the results of
GetIPv4 and GetIPV6 (none is an error). -/
structure RemoteNet where
  alive : Bool
  connected : Bool
  GetIPv4 : Option (List IPv4)
  GetIPV6 : Option (List IPv6)

/-- The body of the first loop of GetNetworkUsage for one key of the copied
map. The copy holds the slices of NetworkIOs, which getNetworkIO does not
write, so the length test reads the node's map. -/
def getNetworkUsageStep (st : Node × List NetworkUsage) (device : String) :
    Option (Node × List NetworkUsage) :=
  if (mapGet st.1.NetworkIOs device).length > 1 then
    match getNetworkIO st.1 device with
    | none => none
    | some n2 =>
      let networkUsage : NetworkUsage :=
        ⟨device, "", "", n2.NetworkRXBytes, n2.NetworkTXBytes, n2.NetworkRXPackets,
          n2.NetworkTXPackets⟩
      some (n2, st.2 ++ [networkUsage])
  else some st

/-- The body of the second loop of GetNetworkUsage: the addresses of one
entry, each taken from the first list element of the same interface. -/
def setAddresses (r : RemoteNet) (u : NetworkUsage) : NetworkUsage :=
  match r.GetIPv4 with
  | none => u
  | some ipv4 =>
    match r.GetIPV6 with
    | none => u
    | some ipv6 =>
      let u1 :=
        match ipv4.find? (fun ip => decide (ip.Interface = u.Device)) with
        | some ip => { u with IPv4Address := ip.IPAddress ++ "/" ++ toString ip.NetmaskSize }
        | none => u
      match ipv6.find? (fun ip => decide (ip.Interface = u1.Device)) with
      | some ip => { u1 with IPv6Address := ip.IPAddress ++ "/" ++ ip.Prefix }
      | none => u1

/-- The method Node.GetNetworkUsage: the node afterwards, the entries, and
whether the error result is set; none is a run-time failure. The list order
is the order in which the range statement visits the keys of the copied
map, which Go leaves unspecified. -/
def GetNetworkUsage (n : Node) (r : RemoteNet) (order : List String) :
    Option (Node × List NetworkUsage × Bool) :=
  if !r.alive then some (n, [], true)
  else if !r.connected then some (n, [], false)
  else if n.NetworkIOs.length = 0 then some (n, [], true)
  else
    match foldOrFail getNetworkUsageStep (n, []) order with
    | none => none
    | some st => some (st.1, st.2.map (setAddresses r), false)

/-! ## Memory usage (node.go) -/

/-- Multiplication of two Go uint64 values: the product modulo 2^64. -/
def mulUint64 (a b : Nat) : Nat := (a * b) % 2 ^ 64

/-- Modelled from the spec: linux.MemInfo of the goprocinfo library (not under
src/), the kilobyte values MemTotal, MemFree, Buffers, Cached, SwapTotal and
SwapFree of /proc/meminfo. -/
structure MemInfo where
  MemTotal : Nat
  MemFree : Nat
  Buffers : Nat
  Cached : Nat
  SwapTotal : Nat
  SwapFree : Nat
deriving DecidableEq

/-- What GetMemoryUsage observes of the remote host: the answer of
CheckClientAlive and the result of reading a meminfo file (an error carries
its message). -/
structure RemoteMem where
  alive : Bool
  ReadMemInfo : String → Except String MemInfo

/-- The results of GetMemoryUsage: four byte counts and the error, if any. -/
structure MemoryUsageResult where
  memUsed : Nat
  memTotal : Nat
  swapUsed : Nat
  swapTotal : Nat
  err : Option String
deriving DecidableEq

/-- The method Node.GetMemoryUsage. -/
def GetMemoryUsage (n : Node) (r : RemoteMem) : MemoryUsageResult :=
  if !r.alive then
    ⟨0, 0, 0, 0, some "Node is not connected"⟩
  else
    match r.ReadMemInfo n.PathProcMeminfo with
    | Except.error e => ⟨0, 0, 0, 0, some e⟩
    | Except.ok meminfo =>
      let memUsed := mulUint64
        (subUint64 (subUint64 (subUint64 meminfo.MemTotal meminfo.MemFree) meminfo.Buffers)
          meminfo.Cached) 1024
      let memTotal := mulUint64 meminfo.MemTotal 1024
      let swapUsed := mulUint64 (subUint64 meminfo.SwapTotal meminfo.SwapFree) 1024
      let swapTotal := mulUint64 meminfo.SwapTotal 1024
      ⟨memUsed, memTotal, swapUsed, swapTotal, none⟩

/-! ## Per-core CPU usage (node.go, node_top_cpu.go) -/

/-- The struct CPUUsageTop. -/
structure CPUUsageTop where
  Low : Float64
  Normal : Float64
  Kernel : Float64
  Guest : Float64
  Total : Float64
deriving DecidableEq

/-- The body of the loop of GetCPUCoreUsage for the entries l and p of a core in
the later and in the previous sample. The four differences l.Nice-p.Nice,
l.User-p.User, l.System-p.System and l.Guest-p.Guest are taken on uint64 values
before the conversion to float64; the totals and the idle counters are
converted first and subtracted as float64. -/
def coreUsageBetween (l p : CPUStat) : CPUUsageTop :=
  let lUsageTotal := sumFloat64 (tenCounters l)
  let pUsageTotal := sumFloat64 (tenCounters p)
  let lIdle := Float64.ofNat l.Idle
  let pIdle := Float64.ofNat p.Idle
  let totalDiff := Float64.sub lUsageTotal pUsageTotal
  let idleDiff := Float64.sub lIdle pIdle
  { Low := Float64.div (Float64.ofNat (subUint64 l.Nice p.Nice)) totalDiff
    Normal := Float64.div (Float64.ofNat (subUint64 l.User p.User)) totalDiff
    Kernel := Float64.div (Float64.ofNat (subUint64 l.System p.System)) totalDiff
    Guest := Float64.div (Float64.ofNat (subUint64 l.Guest p.Guest)) totalDiff
    Total := Float64.div (Float64.sub totalDiff idleDiff) totalDiff }

/-- The loop "for i := 0; i < len(lUsage.Detail); i++" of GetCPUCoreUsage over
the per-core entries of the later and of the previous sample; pUsage.Detail[i]
fails at run time when the previous sample has no entry i (none). -/
def coreUsages : List CPUStat → List CPUStat → Option (List CPUUsageTop)
  | [], _ => some []
  | _ :: _, [] => none
  | l :: ls, p :: ps =>
    match coreUsages ls ps with
    | none => none
    | some rest => some (coreUsageBetween l p :: rest)

/-- The method Node.GetCPUCoreUsage; the flag is the answer of CheckClientAlive,
none is a run-time failure. The error result of the source is nil on every path
and is left out; the nil slice of the first return is the empty list. -/
def GetCPUCoreUsage (n : Node) (alive : Bool) : Option (List CPUUsageTop) :=
  if !alive then
    some []
  else if h : n.cpuUsage.length ≥ 2 then
    let lUsage := n.cpuUsage[n.cpuUsage.length - 1]
    let pUsage := n.cpuUsage[n.cpuUsage.length - 2]
    coreUsages lUsage.Detail pUsage.Detail
  else
    some []

/-- The sum of two Go int values, 64 bits wide. -/
def addInt (a b : Int) : Int := wrapInt64 (a + b)

/-- The cells that a loop "for i := lo; i < hi; i++ { bar += cell }" appends. -/
def barSegment (lo hi : Int) (cell : String) : List String :=
  List.replicate (hi - lo).toNat cell

/-- The five loops of TopCPUUsage.Update that build the bar of one core from the
four segment lengths, as the list of the pieces appended to bar, in order. -/
def topCPUBarCells (lowBarLength normalBarLength kernelBarLength guestBarLength : Int) :
    List String :=
  let barLength : Int := 30
  barSegment 0 lowBarLength "[blue]|" ++
  barSegment lowBarLength (addInt lowBarLength normalBarLength) "[green]|" ++
  barSegment (addInt lowBarLength normalBarLength)
    (addInt (addInt lowBarLength normalBarLength) kernelBarLength) "[red]|" ++
  barSegment (addInt (addInt lowBarLength normalBarLength) kernelBarLength)
    (addInt (addInt (addInt lowBarLength normalBarLength) kernelBarLength) guestBarLength)
    "[yellow]|" ++
  barSegment (addInt (addInt (addInt lowBarLength normalBarLength) kernelBarLength) guestBarLength)
    barLength "[node] "

/-- The four segment lengths that TopCPUUsage.Update computes for one core. -/
def topCPUBarLengths (conv : Float64 → Int) (usage : CPUUsageTop) : Int × Int × Int × Int :=
  let barLength : Int := 30
  let lowBarLength := Float64.toInt conv (Float64.mul usage.Low (Float64.ofInt barLength))
  let normalBarLength := Float64.toInt conv (Float64.mul usage.Normal (Float64.ofInt barLength))
  let kernelBarLength := Float64.toInt conv (Float64.mul usage.Kernel (Float64.ofInt barLength))
  let guestBarLength := Float64.toInt conv (Float64.mul usage.Guest (Float64.ofInt barLength))
  (lowBarLength, normalBarLength, kernelBarLength, guestBarLength)

/-- The string bar that TopCPUUsage.Update builds for one core. -/
def topCPUBar (conv : Float64 → Int) (usage : CPUUsageTop) : String :=
  let lengths := topCPUBarLengths conv usage
  stringsJoin (topCPUBarCells lengths.1 lengths.2.1 lengths.2.2.1 lengths.2.2.2) ++ "[none]"

/-! ## CPU usage with a history window (node.go) -/

/-- One pass of the loop "for i := 1; i < bound; i++" that GetCPUUsageWithSparkline
and GetCPUUsageWithBrailleLine share, for i = k + 1 (so l = k + 1 and p = k + 2):
the value appended to usages. -/
def cpuWindowEntry (n : Node) (k : Nat) : Float64 :=
  if h : n.cpuUsage.length < (k + 2) + 1 then
    Float64.fin 0
  else
    let lUsage := n.cpuUsage[n.cpuUsage.length - (k + 1)]
    let pUsage := n.cpuUsage[n.cpuUsage.length - (k + 2)]
    usageBetween lUsage.toCPUStat pUsage.toCPUStat

/-- The slice usages after the loop "for i := 1; i < bound; i++". -/
def cpuUsageWindow (n : Node) (bound : Nat) : List Float64 :=
  (List.range (bound - 1)).map (cpuWindowEntry n)

/-- The method Node.GetCPUUsageWithSparkline: the results usage and sparkline;
the flag is the answer of CheckClientAlive, none is a run-time failure. The
error result of the source is nil on every path and is left out. -/
def GetCPUUsageWithSparkline (conv : Float64 → Int) (n : Node) (alive : Bool) :
    Option (Float64 × String) :=
  if !alive then
    some (Float64.fin 0, "")
  else
    let sparklineNums := 11
    let usages := cpuUsageWindow n sparklineNums
    match usages[0]? with
    | none => none
    | some usage =>
      if usages.length > 2 then
        match Sparkline conv ⟨usages, Float64.fin 0, Float64.fin 100, 0⟩ with
        | none => none
        | some glyphs => some (usage, stringsJoin glyphs)
      else
        some (usage, "")

/-- The method Node.GetCPUUsageWithBrailleLine: the results usage and
brailleLine; the flag is the answer of CheckClientAlive, none is a run-time
failure. -/
def GetCPUUsageWithBrailleLine (n : Node) (alive : Bool) : Option (Float64 × String) :=
  if !alive then
    some (Float64.fin 0, "")
  else
    let usages := cpuUsageWindow n 22
    match usages[0]? with
    | none => none
    | some usage =>
      if usages.length > 0 then
        some (usage, stringsJoin (BrailleLine ⟨usages, Float64.fin 0, Float64.fin 100, 0⟩))
      else
        some (usage, "")

/-! ## Kernel version (node.go) -/

/-- The fields of a text between its space characters: one more field than
there are spaces, empty fields included. -/
def splitAtSpaces : List Char → List (List Char)
  | [] => [[]]
  | c :: cs =>
    if c = ' ' then [] :: splitAtSpaces cs
    else
      match splitAtSpaces cs with
      | [] => [[c]]
      | w :: ws => (c :: w) :: ws

/-- The call strings.Split(s, " "). -/
def stringsSplitSpace (s : String) : List String := (splitAtSpaces s.toList).map String.mk

/-- What GetKernelVersion observes of the remote host: the answer of
CheckClientAlive and the result of reading a file (an error carries its
message). -/
structure RemoteData where
  alive : Bool
  ReadData : String → Except String String

/-- The method Node.GetKernelVersion: the version, or the error. -/
def GetKernelVersion (r : RemoteData) : Except String String :=
  if !r.alive then
    Except.error "Node is not connected"
  else
    match r.ReadData "/proc/version" with
    | Except.error e => Except.error e
    | Except.ok data =>
      let versionSlice := stringsSplitSpace data
      if versionSlice.length < 3 then
        Except.error "Kernel Version is not found"
      else
        Except.ok (" ".intercalate (versionSlice.take 3))

/-! ## Network table (node_top.go, node_top_network.go, common.go) -/

/-- The variable IOCount of node_top.go. -/
def IOCount : Nat := 50

/-- The function maxFloat64 of common.go; nums[0] fails at run time on an empty
slice (none). -/
def maxFloat64 : List Float64 → Option Float64
  | [] => none
  | first :: rest =>
    some ((first :: rest).foldl (fun max num => if Float64.lt max num then num else max) first)

/-- The loop "for i := 1; i < IOCount+1; i++" of TopNetworkInfomation.Update for
one series: entry k of the result is the value appended for i = k + 1, which is
0 when i >= len(series) and float64(series[len(series)-i]) otherwise. -/
def ioWindow (series : List Nat) : List Float64 :=
  (List.range IOCount).map (fun k =>
    if h : k + 1 ≥ series.length then Float64.fin 0
    else Float64.ofNat series[series.length - (k + 1)])

/-- The string brailleLine of the RXBytes block of TopNetworkInfomation.Update
for one NetworkUsage; the block is entered when the RXBytes series is not
empty (otherwise the cell is "-" and there is no Braille line, here the empty
string); none is a run-time failure. -/
def rxBytesBrailleLine (log10 : Float64 → Float64) (pow : Float64 → Float64 → Float64)
    (networkUsage : NetworkUsage) : Option String :=
  let rxBytesLength := networkUsage.RXBytes.length
  if rxBytesLength > 0 then
    let rxBytes := ioWindow networkUsage.RXBytes
    match maxFloat64 rxBytes with
    | none => none
    | some m =>
      let maxBytes := scaleMaxValue log10 pow m
      let readGraph : Graph := ⟨rxBytes, Float64.fin 0, maxBytes, 0⟩
      some (stringsJoin (BrailleLine readGraph))
  else
    some ""

/-- The string brailleLine of the TXBytes block of TopNetworkInfomation.Update
for one NetworkUsage. The slice rxBytes is the one the RXBytes block left
behind: the window of RXBytes, or nil when that series is empty. The Graph is
built with Data: rxBytes and Max from txBytes, as in the source. -/
def txBytesBrailleLine (log10 : Float64 → Float64) (pow : Float64 → Float64 → Float64)
    (networkUsage : NetworkUsage) : Option String :=
  let rxBytesLength := networkUsage.RXBytes.length
  let rxBytes : List Float64 := if rxBytesLength > 0 then ioWindow networkUsage.RXBytes else []
  let txBytesLength := networkUsage.TXBytes.length
  if txBytesLength > 0 then
    let txBytes := ioWindow networkUsage.TXBytes
    match maxFloat64 txBytes with
    | none => none
    | some m =>
      let maxBytes := scaleMaxValue log10 pow m
      let readGraph : Graph := ⟨rxBytes, Float64.fin 0, maxBytes, 0⟩
      some (stringsJoin (BrailleLine readGraph))
  else
    some ""

/-! ## The samplers statement by statement (node.go) -/

/-- The three series of a node that the samplers write. -/
inductive Series where
  | cpuUsage
  | DiskIOs
  | NetworkIOs
deriving DecidableEq

/-- A statement of a sampler, as far as the lock and the series of the node are
concerned: n.Lock(), n.Unlock(), a read from the remote host, an assignment to a
series or to one of its entries, and an evaluation of len of a series in a
condition. -/
inductive Access where
  | lock
  | unlock
  | remoteRead
  | write (s : Series)
  | lenTest (s : Series)
deriving DecidableEq

/-- A statement that was executed, with the node after it. -/
structure Step where
  access : Access
  after : Node
deriving DecidableEq

/-- The node after the last statement of a sequence that started from n. -/
def lastNode (n : Node) : List Step → Node
  | [] => n
  | s :: rest => lastNode s.after rest

/-- The statements of a loop "for _, stat := range stats", each pass starting
from the node the previous one left. -/
def stepsOfLoop {α : Type} (body : Node → α → List Step) (n : Node) : List α → List Step
  | [] => []
  | a :: rest => body n a ++ stepsOfLoop body (lastNode n (body n a)) rest

/-- The statements that MonitoringCPUUsage executes, in order. -/
def MonitoringCPUUsageSteps (n : Node) (r : Remote) : List Step :=
  if !r.alive then
    [⟨Access.lock, n⟩,
     ⟨Access.write Series.cpuUsage, { n with cpuUsage := [] }⟩,
     ⟨Access.unlock, { n with cpuUsage := [] }⟩]
  else
    let timestamp := r.now
    let n1 := { n with remoteReads := n.remoteReads ++ [n.PathProcStat] }
    match r.ReadStat n.PathProcStat with
    | none => [⟨Access.remoteRead, n1⟩]
    | some stat =>
      let stats := stat.CPUStats
      let cpuUsage : CPUUsage := ⟨stat.CPUStatAll, stats, timestamp⟩
      let n2 := { n1 with cpuUsage := n1.cpuUsage ++ [cpuUsage] }
      [⟨Access.remoteRead, n1⟩,
       ⟨Access.write Series.cpuUsage, n2⟩,
       ⟨Access.lenTest Series.cpuUsage, n2⟩] ++
      (if (n2.cpuUsage.length : Int) > n2.cpuUsageLimit then
        [⟨Access.lock, n2⟩,
         ⟨Access.write Series.cpuUsage, { n2 with cpuUsage := n2.cpuUsage.tail }⟩,
         ⟨Access.unlock, { n2 with cpuUsage := n2.cpuUsage.tail }⟩]
      else [])

/-- The statements of one pass of the loop of MonitoringDiskIO. -/
def diskBodySteps (r : Remote) (n : Node) (stat : DiskStat) : List Step :=
  let device := ""
  let go (n : Node) (device : String) : List Step :=
    let diskIO : DiskIO :=
      ⟨device, stat.ReadIOs, stat.GetReadBytes, stat.WriteIOs, stat.GetWriteBytes⟩
    let n1 := { n with DiskIOs := mapSet n.DiskIOs device (mapGet n.DiskIOs device ++ [ diskIO]) }
    [⟨Access.lock, n⟩,
     ⟨Access.write Series.DiskIOs, n1⟩,
     ⟨Access.unlock, n1⟩,
     ⟨Access.lenTest Series.DiskIOs, n1⟩] ++
    (if ((mapGet n1.DiskIOs device).length : Int) > n1.DiskIOsLimit then
      let n2 := { n1 with DiskIOs := mapSet n1.DiskIOs device (mapGet n1.DiskIOs device).tail }
      [⟨Access.lock, n1⟩, ⟨Access.write Series.DiskIOs, n2⟩, ⟨Access.unlock, n2⟩]
    else [])
  if matchMdPrefix device then
    let sysDeviceName := "/sys/block/" ++ stat.Name ++ "/dm/name"
    let n1 := { n with remoteReads := n.remoteReads ++ [sysDeviceName] }
    match r.ReadData sysDeviceName with
    | none => [⟨Access.remoteRead, n1⟩]
    | some mapperDeviceName =>
      ⟨Access.remoteRead, n1⟩ :: go n1 ("/dev/mapper/" ++ mapperDeviceName)
  else
    go n ("/dev/" ++ stat.Name)

/-- The statements that MonitoringDiskIO executes, in order. -/
def MonitoringDiskIOSteps (n : Node) (r : Remote) : List Step :=
  if !r.alive then
    [⟨Access.lock, n⟩,
     ⟨Access.write Series.DiskIOs, { n with DiskIOs := [] }⟩,
     ⟨Access.unlock, { n with DiskIOs := [] }⟩]
  else
    let n1 := { n with remoteReads := n.remoteReads ++ [n.PathProcDiskStats] }
    match r.ReadDiskStats n.PathProcDiskStats with
    | none => [⟨Access.remoteRead, n1⟩]
    | some stats => ⟨Access.remoteRead, n1⟩ :: stepsOfLoop (diskBodySteps r) n1 stats

/-- The statements of one pass of the loop of MonitoringNetworkIO. -/
def networkBodySteps (n : Node) (stat : NetworkStat) : List Step :=
  let networkIO : NetworkIO :=
    ⟨stat.Iface, stat.RxPackets, stat.RxBytes, stat.TxPackets, stat.TxBytes⟩
  let n1 :=
    { n with
      NetworkIOs := mapSet n.NetworkIOs stat.Iface (mapGet n.NetworkIOs stat.Iface ++ [ networkIO]) }
  [⟨Access.lock, n⟩,
   ⟨Access.write Series.NetworkIOs, n1⟩,
   ⟨Access.unlock, n1⟩,
   ⟨Access.lenTest Series.NetworkIOs, n1⟩] ++
  (if ((mapGet n1.NetworkIOs stat.Iface).length : Int) > n1.NetworkIOsLimit then
    let n2 :=
      { n1 with
        NetworkIOs := mapSet n1.NetworkIOs stat.Iface (mapGet n1.NetworkIOs stat.Iface).tail }
    [⟨Access.lock, n1⟩, ⟨Access.write Series.NetworkIOs, n2⟩, ⟨Access.unlock, n2⟩]
  else [])

/-- The statements that MonitoringNetworkIO executes, in order. -/
def MonitoringNetworkIOSteps (n : Node) (r : Remote) : List Step :=
  if !r.alive then
    [⟨Access.lock, n⟩,
     ⟨Access.write Series.NetworkIOs, { n with NetworkIOs := [] }⟩,
     ⟨Access.unlock, { n with NetworkIOs := [] }⟩]
  else
    let n1 := { n with remoteReads := n.remoteReads ++ ["/proc/net/dev"] }
    match r.ReadNetworkStat "/proc/net/dev" with
    | none => [⟨Access.remoteRead, n1⟩]
    | some stats => ⟨Access.remoteRead, n1⟩ :: stepsOfLoop networkBodySteps n1 stats

/-! ## Runs of the node -/

/-- The operations that change a node: the three samplers, each with what it
observes of the remote host, and the two rate functions with their device. -/
inductive Action where
  | cpu (r : Remote)
  | disk (r : Remote)
  | network (r : Remote)
  | diskRate (device : String)
  | networkRate (device : String)

/-- One operation on a node; none is a run-time failure. -/
def step (n : Node) : Action → Option Node
  | Action.cpu r => some (MonitoringCPUUsage n r)
  | Action.disk r => some ( MonitoringDiskIO n r)
  | Action.network r => some ( MonitoringNetworkIO n r)
  | Action.diskRate device => getDiskIOBytes n device
  | Action.networkRate device => getNetworkIO n device

/-- A sequence of operations, from left to right. -/
def run (n : Node) : List Action → Option Node
  | [] => some n
  | a :: rest =>
    match step n a with
    | none => none
    | some m => run m rest

/-! ## Predicates and named values used by the statements -/

/-- The DiskIO record that MonitoringDiskIO stores for a diskstats entry on the
path taken when the device-mapper test is false. -/
def diskSample (stat : DiskStat) : DiskIO :=
  ⟨"/dev/" ++ stat.Name, stat.ReadIOs, stat.GetReadBytes, stat.WriteIOs, stat.GetWriteBytes⟩

/-- The NetworkIO record that MonitoringNetworkIO stores for an interface. -/
def networkSample (stat : NetworkStat) : NetworkIO :=
  ⟨stat.Iface, stat.RxPackets, stat.RxBytes, stat.TxPackets, stat.TxBytes⟩

/-- Every raw series is within its limit: cpuUsage, and the slice of every
device in DiskIOs and in NetworkIOs (a device without an entry has the empty
slice). -/
def RawSeriesBounded (n : Node) : Prop :=
  (n.cpuUsage.length : Int) ≤ n.cpuUsageLimit ∧
  (∀ d, ((mapGet n.DiskIOs d).length : Int) ≤ n.DiskIOsLimit) ∧
  (∀ d, ((mapGet n.NetworkIOs d).length : Int) ≤ n.NetworkIOsLimit)

/-- The sum of the ten counters of a CPUStat, as a natural number. -/
def tenSum (c : CPUStat) : Nat :=
  c.User + c.Nice + c.System + c.Idle + c.IOWait + c.IRQ + c.SoftIRQ + c.Steal + c.Guest +
    c.GuestNice

/-- A remote host that is alive and answers every read. -/
def demoRemote : Remote :=
  { alive := true
    now := 7
    ReadStat := fun _ => some ⟨⟨"cpu", 10, 0, 5, 80, 1, 0, 0, 0, 0, 0⟩, []⟩
    ReadDiskStats := fun _ => some [⟨"sda", 3, 16, 2, 8⟩]
    ReadData := fun _ => none
    ReadNetworkStat := fun _ => some [⟨"eth0", 1000, 10, 2000, 20⟩] }

/-- A node with capacity 1 that already holds one CPU sample. -/
def fullNode : Node :=
  { NewNode "host" with
    cpuUsageLimit := 1
    cpuUsage := [⟨⟨"cpu", 1, 0, 1, 8, 0, 0, 0, 0, 0, 0⟩, [], 5⟩] }

/-- A CPU sample with all counters at zero. -/
def zeroSample : CPUUsage := ⟨⟨"cpu", 0, 0, 0, 0, 0, 0, 0, 0, 0, 0⟩, [], 0⟩

/-- A CPU sample 100 ticks later, 25 of them idle. -/
def busySample : CPUUsage := ⟨⟨"cpu", 60, 0, 15, 25, 0, 0, 0, 0, 0, 0⟩, [], 2⟩

/-- A node whose two latest samples are zeroSample and busySample. -/
def busyNode : Node := { NewNode "host" with cpuUsage := [zeroSample, busySample] }

/-- A node whose two latest samples are identical. -/
def idleNode : Node := { NewNode "host" with cpuUsage := [busySample, busySample] }

/-- A CPU sample 100 ticks after zeroSample, 93 of them idle. -/
def sevenPercentSample : CPUUsage := ⟨⟨"cpu", 7, 0, 0, 93, 0, 0, 0, 0, 0, 0⟩, [], 2⟩

/-- A node whose two latest samples are zeroSample and sevenPercentSample. -/
def sevenPercentNode : Node := { NewNode "host" with cpuUsage := [zeroSample, sevenPercentSample] }

/-- A buffer after the test "if len(xs) > limit then xs = xs[1:]" when the slice
expression succeeds. -/
def dropOverflow {α : Type} (limit : Int) (xs : List α) : List α :=
  if (xs.length : Int) > limit then xs.tail else xs

/-- A node with two stored samples for the disk /dev/sda and for the interface
eth0, and empty rate buffers. -/
def coldNode : Node :=
  { NewNode "host" with
    DiskIOs := [("/dev/sda", [⟨"/dev/sda", 1, 100, 1, 50⟩, ⟨"/dev/sda", 2, 300, 2, 80⟩])]
    NetworkIOs := [("eth0", [⟨"eth0", 10, 1000, 20, 2000⟩, ⟨"eth0", 15, 1600, 27, 2900⟩])] }

/-- The node coldNode after one rate has been emitted into every buffer. -/
def warmNode : Node :=
  { coldNode with
    DiskReadIOBytes := [0]
    DiskWriteIOBytes := [0]
    NetworkRXBytes := [0]
    NetworkRXPackets := [0]
    NetworkTXBytes := [0]
    NetworkTXPackets := [0] }

/-- A node whose counters went backwards between the two latest samples: rxBytes
of eth0 from 10000 to 500, read bytes of /dev/sda from 4096 to 512. -/
def resetNode : Node :=
  { warmNode with
    DiskIOs := [("/dev/sda", [⟨"/dev/sda", 9, 4096, 9, 4096⟩, ⟨"/dev/sda", 1, 512, 1, 512⟩])]
    NetworkIOs := [("eth0", [⟨"eth0", 70, 10000, 70, 10000⟩, ⟨"eth0", 5, 500, 5, 500⟩])] }

/-- The last k elements of a list (the whole list when it has fewer). -/
def lastN {α : Type} (k : Nat) (xs : List α) : List α := xs.drop (xs.length - k)

/-- The CPU sample that MonitoringCPUUsage builds from a successful read of the
given path, if the read succeeds. -/
def cpuSampleOf (r : Remote) (path : String) : Option CPUUsage :=
  (r.ReadStat path).map (fun stat => ⟨stat.CPUStatAll, stat.CPUStats, r.now⟩)

/-- A remote host that is alive and whose /proc/stat total (10) is lower than
the one of demoRemote (96), as after a reboot. -/
def rebootedRemote : Remote :=
  { demoRemote with
    now := 9
    ReadStat := fun _ => some ⟨⟨"cpu", 1, 0, 1, 8, 0, 0, 0, 0, 0, 0⟩, []⟩ }

/-- A remote host that is not alive. -/
def deadRemote : Remote := { demoRemote with alive := false }

/-- The number of glyph levels Sparkline uses for a series of the given
length: all 8 up to 8 samples, else 64 / length (integer division), at
least 1. -/
def sparkLevels (len : Nat) : Int := if len ≤ 8 then 8 else max 1 ((64 / len : Nat) : Int)

/-- The rational a finite float64 denotes; 0 for the special values. -/
def Float64.toRat : Float64 → ℚ
  | Float64.fin q => q
  | _ => 0

/-- The float64 value (n - min)*scale + 0.5 that Sparkline computes for a sample
n, with scale = float64(levels - 1) / (max - min). -/
def sparkTickValue (levels : Int) (lo hi n : ℚ) : Float64 :=
  Float64.add
    (Float64.mul (Float64.sub (Float64.fin n) (Float64.fin lo))
      (Float64.div (Float64.ofInt (levels - 1)) (Float64.sub (Float64.fin hi) (Float64.fin lo))))
    (Float64.fin (1 / 2))

/-- The level of a sample n: the float64 value (n − lo) × scale + 0.5 with its
fraction discarded, and at most levels − 1. -/
def sparkTick (levels : Int) (lo hi n : ℚ) : Int :=
  min (levels - 1) ⌊(sparkTickValue levels lo hi n).toRat⌋

/-- Values of the library function math.Log10 at the inputs of the examples: 9
(0.954242509439325), 237 (2.374748346010104) and 10^15 + 1, where the formula
math.Log2(x) × (Ln2/Ln10) of the library evaluated in float64 gives
14.999999999999996, two units in the last place below 15; NaN stands for any
other input. -/
def log10At (x : Float64) : Float64 :=
  if x = Float64.fin 9 then Float64.fin (8595052419864062 / 2 ^ 53)
  else if x = Float64.fin 237 then Float64.fin (5347457883094903 / 2 ^ 51)
  else if x = Float64.fin (10 ^ 15 + 1) then Float64.fin (15 - 1 / 2 ^ 48)
  else Float64.nan

/-- Values of the library function math.Pow for a base and an exponent that is
a natural number up to 22, where the power of an integer base such as 10 is a
float64 itself when it is below 2^53 times a power of two; NaN stands for any
other input. -/
def powAt (x y : Float64) : Float64 :=
  match x, y with
  | Float64.fin a, Float64.fin b =>
    if 0 ≤ b ∧ b ≤ 22 ∧ b = (⌊b⌋ : ℤ) then Float64.ofRat (a ^ ⌊b⌋.toNat) else Float64.nan
  | _, _ => Float64.nan

/-- The colour template of a bucket: red for 4, orange for 3, yellow for 2, blue
for 1, no tag otherwise. -/
def colourTemplate (bucket : Nat) : String :=
  if bucket = 4 then "[#fa1e1e]%s[none]"
  else if bucket = 3 then "[#E78101]%s[none]"
  else if bucket = 2 then "[#f2e266]%s[none]"
  else if bucket = 1 then "[#4897d4]%s[none]"
  else "%s"

/-- One Braille column: the glyph of a pair of samples inside its template. -/
def brailleColumn (left right : Float64) : String :=
  sprintfSymbol (usageToSymbol left right).2 (usageToSymbol left right).1

/-- The columns of a series: one per pair of samples, a missing right sample
being taken as 0. -/
def brailleColumns : List Float64 → List String
  | [] => []
  | [left] => [brailleColumn left (Float64.fin 0)]
  | left :: right :: rest => brailleColumn left right :: brailleColumns rest

/-- A remote host whose /proc/diskstats lists the device-mapper name md-2 and
the partition sda1, and whose /sys/block/md-2/dm/name contains vg0-root. -/
def mapperRemote : Remote :=
  { alive := true
    now := 3
    ReadStat := fun _ => none
    ReadDiskStats := fun _ => some [⟨"md-2", 1, 8, 1, 8⟩, ⟨"sda1", 2, 16, 2, 16⟩]
    ReadData := fun path => if path = "/sys/block/md-2/dm/name" then some "vg0-root" else none
    ReadNetworkStat := fun _ => none }

/-- A remote host with the mounts / (ext4), /proc (proc) and /boot (vfat), all
of which answer a mountpoint query. -/
def mixedMounts : RemoteFS :=
  { connected := true
    alive := true
    ReadMounts := fun _ =>
      some [⟨"/dev/sda2", "/", "ext4"⟩, ⟨"proc", "/proc", "proc"⟩, ⟨"/dev/sda1", "/boot", "vfat"⟩]
    ReadDisk := fun _ => some ⟨1000, 400, 600⟩ }

/-- The first difference of a disk counter of a device, as a list: the int64
difference of the two latest stored samples, or nothing when the device name is
empty or fewer than two samples are stored. -/
def diskRate (field : DiskIO → Int) (ios : List (String × List DiskIO)) (device : String) :
    List Int :=
  if device.utf8ByteSize = 0 then []
  else
    let series := mapGet ios device
    if h : series.length > 1 then
      [wrapInt64 (field series[series.length - 1] - field series[series.length - 2])]
    else []

/-- The first difference of a network counter of an interface, as a list: the
uint64 difference of the two latest stored samples, or nothing when the name is
empty or fewer than two samples are stored. -/
def networkRate (field : NetworkIO → Nat) (ios : List (String × List NetworkIO))
    (device : String) : List Nat :=
  if device.utf8ByteSize = 0 then []
  else
    let series := mapGet ios device
    if h : series.length > 1 then
      [subUint64 (field series[series.length - 1]) (field series[series.length - 2])]
    else []

/-- The read and write series reported device by device when one pair of
buffers is shared: each device gets the series of the device before it,
followed by its own first difference. -/
def diskSeriesAfter (ios : List (String × List DiskIO)) (bufR bufW : List Int) :
    List Mount → List (String × List Int × List Int)
  | [] => []
  | m :: rest =>
    let rd := bufR ++ diskRate (fun s => s.ReadBytes) ios m.Device
    let wr := bufW ++ diskRate (fun s => s.WriteBytes) ios m.Device
    (m.Device, rd, wr) :: diskSeriesAfter ios rd wr rest

/-- The RX bytes, TX bytes, RX packets and TX packets series reported interface
by interface when the four buffers are shared: each interface gets the series
of the interface before it, followed by its own first differences. -/
def networkSeriesAfter (ios : List (String × List NetworkIO))
    (rxB txB rxP txP : List Nat) :
    List String → List (String × List Nat × List Nat × List Nat × List Nat)
  | [] => []
  | d :: rest =>
    let rxB1 := rxB ++ networkRate (fun s => s.RXBytes) ios d
    let txB1 := txB ++ networkRate (fun s => s.TXBytes) ios d
    let rxP1 := rxP ++ networkRate (fun s => s.RXPackets) ios d
    let txP1 := txP ++ networkRate (fun s => s.TXPackets) ios d
    (d, rxB1, txB1, rxP1, txP1) :: networkSeriesAfter ios rxB1 txB1 rxP1 txP1 rest

/-- A node that monitors the disks /dev/sda (read counter 100, then 300) and
/dev/sdb (5000, then 12000) and has emitted one rate already. -/
def twoDiskNode : Node :=
  { NewNode "host" with
    DiskIOs :=
      [("/dev/sda", [⟨"/dev/sda", 1, 100, 1, 50⟩, ⟨"/dev/sda", 2, 300, 2, 80⟩]),
       ("/dev/sdb", [⟨"/dev/sdb", 1, 5000, 1, 900⟩, ⟨"/dev/sdb", 2, 12000, 2, 1000⟩])]
    DiskReadIOBytes := [0]
    DiskWriteIOBytes := [0]
    NetworkIOs :=
      [("eth0", [⟨"eth0", 10, 1000, 20, 2000⟩, ⟨"eth0", 15, 1600, 27, 2900⟩]),
       ("eth1", [⟨"eth1", 1, 10, 2, 20⟩, ⟨"eth1", 4, 50, 7, 90⟩])]
    NetworkRXBytes := [0]
    NetworkRXPackets := [0]
    NetworkTXBytes := [0]
    NetworkTXPackets := [0] }

/-- A remote host on which /dev/sda is mounted on / and /dev/sdb on /data. -/
def twoDiskMounts : RemoteFS :=
  { connected := true
    alive := true
    ReadMounts := fun _ => some [⟨"/dev/sda", "/", "ext4"⟩, ⟨"/dev/sdb", "/data", "xfs"⟩]
    ReadDisk := fun _ => some ⟨1000, 400, 600⟩ }

/-- A remote host that is alive and reports no addresses. -/
def plainNet : RemoteNet :=
  { alive := true, connected := true, GetIPv4 := some [], GetIPV6 := some [] }

/-- The two disk rate buffers are within DiskIOsLimit. -/
def DiskRatesBounded (n : Node) : Prop :=
  (n.DiskReadIOBytes.length : Int) ≤ n.DiskIOsLimit ∧
  (n.DiskWriteIOBytes.length : Int) ≤ n.DiskIOsLimit

/-- A node with one stored sample for /dev/sda and for eth0 and one value in
every rate buffer. -/
def oneSampleNode : Node :=
  { warmNode with
    DiskIOs := [("/dev/sda", [⟨"/dev/sda", 1, 100, 1, 50⟩])]
    NetworkIOs := [("eth0", [⟨"eth0", 10, 1000, 20, 2000⟩])] }

/-- A remote host that is alive, whose /proc/stat cannot be read, and whose
other files can. -/
def statFailsRemote : Remote := { demoRemote with ReadStat := fun _ => none }

/-- A remote host that is alive, whose /proc/diskstats cannot be read, and whose
other files can. -/
def diskFailsRemote : Remote := { demoRemote with ReadDiskStats := fun _ => none }

/-- A remote host that is alive, whose /proc/net/dev cannot be read, and whose
other files can. -/
def netFailsRemote : Remote := { demoRemote with ReadNetworkStat := fun _ => none }

/-- Two samples of one core: ten ticks of user time more in the later one, and a
guest counter that went down from 5 to 3. -/
def guestDropNode : Node :=
  { NewNode "host" with
    cpuUsage :=
      [⟨⟨"cpu", 0, 0, 0, 0, 0, 0, 0, 0, 5, 0⟩, [⟨"cpu0", 0, 0, 0, 0, 0, 0, 0, 0, 5, 0⟩], 0⟩,
       ⟨⟨"cpu", 10, 0, 0, 0, 0, 0, 0, 0, 3, 0⟩, [⟨"cpu0", 10, 0, 0, 0, 0, 0, 0, 0, 3, 0⟩], 2⟩] }

/-- Two samples in which core 0 is listed both times and a second core only in
the later one. -/
def newCoreNode : Node :=
  { NewNode "host" with
    cpuUsage :=
      [⟨⟨"cpu", 0, 0, 0, 0, 0, 0, 0, 0, 0, 0⟩, [⟨"cpu0", 0, 0, 0, 0, 0, 0, 0, 0, 0, 0⟩], 0⟩,
       ⟨⟨"cpu", 60, 0, 15, 25, 0, 0, 0, 0, 0, 0⟩,
        [⟨"cpu0", 60, 0, 15, 25, 0, 0, 0, 0, 0, 0⟩, ⟨"cpu1", 1, 0, 0, 0, 0, 0, 0, 0, 0, 0⟩], 2⟩] }

/-- Two samples of one core, 100 ticks apart: 10 nice, 40 user, 20 system, 5
guest, 25 idle. -/
def oneCoreNode : Node :=
  { NewNode "host" with
    cpuUsage :=
      [⟨⟨"cpu", 0, 0, 0, 0, 0, 0, 0, 0, 0, 0⟩, [⟨"cpu0", 0, 0, 0, 0, 0, 0, 0, 0, 0, 0⟩], 0⟩,
       ⟨⟨"cpu", 40, 10, 20, 25, 0, 0, 0, 0, 5, 0⟩,
        [⟨"cpu0", 40, 10, 20, 25, 0, 0, 0, 0, 5, 0⟩], 2⟩] }

/-- Every counter of a CPUStat is a uint64 value. -/
def CountersUint64 (c : CPUStat) : Prop :=
  c.User < 2 ^ 64 ∧ c.Nice < 2 ^ 64 ∧ c.System < 2 ^ 64 ∧ c.Idle < 2 ^ 64 ∧ c.IOWait < 2 ^ 64 ∧
  c.IRQ < 2 ^ 64 ∧ c.SoftIRQ < 2 ^ 64 ∧ c.Steal < 2 ^ 64 ∧ c.Guest < 2 ^ 64 ∧
  c.GuestNice < 2 ^ 64

/-- No counter of the later entry l is below the one of the previous entry p. -/
def CountersNonDecreasing (p l : CPUStat) : Prop :=
  p.User ≤ l.User ∧ p.Nice ≤ l.Nice ∧ p.System ≤ l.System ∧ p.Idle ≤ l.Idle ∧
  p.IOWait ≤ l.IOWait ∧ p.IRQ ≤ l.IRQ ∧ p.SoftIRQ ≤ l.SoftIRQ ∧ p.Steal ≤ l.Steal ∧
  p.Guest ≤ l.Guest ∧ p.GuestNice ≤ l.GuestNice

/-- A node after its first successful CPU sample. -/
def firstTickNode : Node := { NewNode "host" with cpuUsage := [busySample] }

/-- A node with three samples: zeroSample twice, then busySample. -/
def threeSampleNode : Node :=
  { NewNode "host" with cpuUsage := [zeroSample, zeroSample, busySample] }

/-- An alive remote host whose /proc/version has the given content. -/
def versionRemote (content : String) : RemoteData :=
  { alive := true, ReadData := fun _ => Except.ok content }

/-- The Braille line the TXBytes cell is specified to show: the BrailleLine of
the window built from the TXBytes series, joined. -/
def txBrailleFromTXData (networkUsage : NetworkUsage) : String :=
  stringsJoin (brailleArray (ioWindow networkUsage.TXBytes))

/-- An interface that received 1000 bytes per second lately and sent
nothing. -/
def receivingOnly : NetworkUsage :=
  { Device := "eth0", IPv4Address := "", IPv6Address := ""
    RXBytes := [0, 1000], TXBytes := [0, 0], RXPackets := [0, 1], TXPackets := [0, 0] }

/-- The same interface with 1000 bytes per second sent as well. -/
def receivingAndSending : NetworkUsage := { receivingOnly with TXBytes := [0, 1000] }

/-- Whether the lock is held after a statement, given whether it was held
before. -/
def heldAfter (held : Bool) : Access → Bool
  | Access.lock => true
  | Access.unlock => false
  | _ => held

/-- Whether the lock is held after a sequence of statements. -/
def lockAfter (held : Bool) : List Step → Bool
  | [] => held
  | s :: rest => lockAfter (heldAfter held s.access) rest

/-- Every assignment to a series in the sequence happens while the lock is
held. -/
def writesLocked (held : Bool) : List Step → Bool
  | [] => true
  | s :: rest =>
    (match s.access with
      | Access.write _ => held
      | _ => true) && writesLocked (heldAfter held s.access) rest

/-- Every assignment to a series and every length test of a series in the
sequence happens while the lock is held. -/
def lockDiscipline (held : Bool) : List Step → Bool
  | [] => true
  | s :: rest =>
    (match s.access with
      | Access.write _ => held
      | Access.lenTest _ => held
      | _ => true) && lockDiscipline (heldAfter held s.access) rest

/-- The nodes that a reader who takes the lock can find: the node after every
statement after which the sampler does not hold the lock. -/
def observable (held : Bool) : List Step → List Node
  | [] => []
  | s :: rest =>
    (if heldAfter held s.access then [] else [s.after]) ++
      observable (heldAfter held s.access) rest

/-- A node whose series of eth0 and of /dev/sda are at their capacity of one
sample, like its cpuUsage. -/
def saturatedNode : Node :=
  { fullNode with
    DiskIOsLimit := 1
    DiskIOs := [("/dev/sda", [⟨"/dev/sda", 1, 100, 1, 50⟩])]
    NetworkIOsLimit := 1
    NetworkIOs := [("eth0", [⟨"eth0", 10, 1000, 20, 2000⟩])] }

/-- The node after the append of the sample of a diskstats entry to the series
of its device. -/
def diskAppended (n : Node) (stat : DiskStat) : Node :=
  let device := (diskSample stat).Device
  { n with DiskIOs := mapSet n.DiskIOs device (mapGet n.DiskIOs device ++ [diskSample stat]) }

/-- The node after that append and the removal of the oldest sample of the
series. -/
def diskEvicted (n : Node) (stat : DiskStat) : Node :=
  let device := (diskSample stat).Device
  { n with
    DiskIOs := mapSet n.DiskIOs device (mapGet n.DiskIOs device ++ [diskSample stat]).tail }

/-- The node after the append of the sample of an interface to its series. -/
def networkAppended (n : Node) (stat : NetworkStat) : Node :=
  let device := stat.Iface
  { n with
    NetworkIOs := mapSet n.NetworkIOs device (mapGet n.NetworkIOs device ++ [networkSample stat]) }

/-- The node after that append and the removal of the oldest sample of the
series. -/
def networkEvicted (n : Node) (stat : NetworkStat) : Node :=
  let device := stat.Iface
  { n with
    NetworkIOs :=
      mapSet n.NetworkIOs device (mapGet n.NetworkIOs device ++ [networkSample stat]).tail }

/-- A node whose two latest samples have the user counter 2^53 and 2^53 + 1 and
every other counter 0. -/
def hugeCounterNode : Node :=
  { NewNode "host" with
    cpuUsage :=
      [⟨⟨"cpu", 9007199254740992, 0, 0, 0, 0, 0, 0, 0, 0, 0⟩, [], 0⟩,
       ⟨⟨"cpu", 9007199254740993, 0, 0, 0, 0, 0, 0, 0, 0, 0⟩, [], 2⟩] }

/-- Two samples of one core whose user counter is 2^53 and then 2^53 + 1, every
other counter 0. -/
def hugeCoreNode : Node :=
  { NewNode "host" with
    cpuUsage :=
      [⟨⟨"cpu", 9007199254740992, 0, 0, 0, 0, 0, 0, 0, 0, 0⟩,
        [⟨"cpu0", 9007199254740992, 0, 0, 0, 0, 0, 0, 0, 0, 0⟩], 0⟩,
       ⟨⟨"cpu", 9007199254740993, 0, 0, 0, 0, 0, 0, 0, 0, 0⟩,
        [⟨"cpu0", 9007199254740993, 0, 0, 0, 0, 0, 0, 0, 0, 0⟩], 2⟩] }

/-- Two samples of one core, 10 ticks apart: 1 nice, 2 user, 7 idle. -/
def tenthsNode : Node :=
  { NewNode "host" with
    cpuUsage :=
      [⟨⟨"cpu", 0, 0, 0, 0, 0, 0, 0, 0, 0, 0⟩, [⟨"cpu0", 0, 0, 0, 0, 0, 0, 0, 0, 0, 0⟩], 0⟩,
       ⟨⟨"cpu", 2, 1, 0, 7, 0, 0, 0, 0, 0, 0⟩, [⟨"cpu0", 2, 1, 0, 7, 0, 0, 0, 0, 0, 0⟩], 2⟩] }

/-- Two samples whose ten counters both add up to 2^53 + 2: user 2^53 + 2 in the
previous one, user 2^53, nice 1 and system 1 in the later one. -/
def roundedSumNode : Node :=
  { NewNode "host" with
    cpuUsage :=
      [⟨⟨"cpu", 9007199254740994, 0, 0, 0, 0, 0, 0, 0, 0, 0⟩, [], 0⟩,
       ⟨⟨"cpu", 9007199254740992, 1, 1, 0, 0, 0, 0, 0, 0, 0⟩, [], 2⟩] }

/-! # Properties -/

/-! ## Rounding to float64 -/

theorem roundHalfEven_intCast (z : Int) : roundHalfEven (z : ℚ) = z := by
  simp [roundHalfEven]

theorem roundHalfEven_cases (x : ℚ) :
    roundHalfEven x = ⌊x⌋ ∧ x - ⌊x⌋ ≤ 1 / 2 ∨ roundHalfEven x = ⌊x⌋ + 1 ∧ 1 / 2 ≤ x - ⌊x⌋ := by
  unfold roundHalfEven
  by_cases h1 : x - ⌊x⌋ < 1 / 2
  · left
    rw [if_pos h1]
    exact ⟨rfl, le_of_lt h1⟩
  · rw [if_neg h1]
    by_cases h2 : 1 / 2 < x - ⌊x⌋
    · right
      rw [if_pos h2]
      exact ⟨rfl, le_of_lt h2⟩
    · rw [if_neg h2]
      have h3 : x - ⌊x⌋ = 1 / 2 := le_antisymm (not_lt.mp h2) (not_lt.mp h1)
      by_cases h4 : ⌊x⌋ % 2 = 0
      · left
        rw [if_pos h4]
        exact ⟨rfl, le_of_eq h3⟩
      · right
        rw [if_neg h4]
        exact ⟨rfl, le_of_eq h3.symm⟩

theorem roundHalfEven_error (x : ℚ) : |(roundHalfEven x : ℚ) - x| ≤ 1 / 2 := by
  have hf := Int.floor_le x
  have hl := Int.lt_floor_add_one x
  rw [abs_le]
  rcases roundHalfEven_cases x with ⟨h, hb⟩ | ⟨h, hb⟩
  · rw [h]
    constructor <;> linarith
  · rw [h]
    push_cast
    constructor <;> linarith

theorem roundHalfEven_le_of_le (x : ℚ) (K : Int) (h : x ≤ K) : roundHalfEven x ≤ K := by
  have hf : ⌊x⌋ ≤ K := Int.floor_le_iff.mpr (by linarith)
  rcases roundHalfEven_cases x with ⟨h1, _⟩ | ⟨h1, hb⟩
  · rw [h1]
    exact hf
  · rw [h1]
    by_contra hc
    have hK : ⌊x⌋ = K := by omega
    rw [hK] at hb
    linarith

theorem roundHalfEven_ge_of_ge (x : ℚ) (K : Int) (h : (K : ℚ) ≤ x) : K ≤ roundHalfEven x := by
  have hf : K ≤ ⌊x⌋ := Int.le_floor.mpr h
  rcases roundHalfEven_cases x with ⟨h1, _⟩ | ⟨h1, _⟩ <;> rw [h1] <;> omega

theorem roundHalfEven_mono (x y : ℚ) (h : x ≤ y) : roundHalfEven x ≤ roundHalfEven y := by
  have hfl : ⌊x⌋ ≤ ⌊y⌋ := Int.floor_mono h
  by_cases heq : ⌊x⌋ = ⌊y⌋
  · unfold roundHalfEven
    rw [heq]
    by_cases a1 : x - ⌊y⌋ < 1 / 2
    · rw [if_pos a1]
      split
      · exact le_refl _
      · split
        · omega
        · split <;> omega
    · rw [if_neg a1]
      have b1 : ¬ (y - ⌊y⌋ < 1 / 2) := by
        intro hb
        apply a1
        linarith
      rw [if_neg b1]
      by_cases a2 : 1 / 2 < x - ⌊y⌋
      · have b2 : 1 / 2 < y - ⌊y⌋ := by linarith
        rw [if_pos a2, if_pos b2]
      · rw [if_neg a2]
        split
        · split <;> omega
        · split <;> omega
  · have hlt : ⌊x⌋ + 1 ≤ ⌊y⌋ := by omega
    have hx : roundHalfEven x ≤ ⌊x⌋ + 1 := by
      rcases roundHalfEven_cases x with ⟨h1, _⟩ | ⟨h1, _⟩
      · omega
      · omega
    have hy : ⌊y⌋ ≤ roundHalfEven y := by
      rcases roundHalfEven_cases y with ⟨h1, _⟩ | ⟨h1, _⟩
      · omega
      · omega
    omega

theorem roundHalfEven_of_near (x : ℚ) (m : Int) (h1 : (m : ℚ) - 1 / 2 < x)
    (h2 : x < (m : ℚ) + 1 / 2) : roundHalfEven x = m := by
  have hf := Int.floor_le x
  have hl := Int.lt_floor_add_one x
  rcases roundHalfEven_cases x with ⟨h, hb⟩ | ⟨h, hb⟩
  · rw [h]
    have a1 : ((⌊x⌋ : ℤ) : ℚ) < m + 1 := by linarith
    have a2 : ((m : ℤ) : ℚ) < ⌊x⌋ + 1 := by linarith
    have a3 : ⌊x⌋ < m + 1 := by exact_mod_cast a1
    have a4 : m < ⌊x⌋ + 1 := by exact_mod_cast a2
    omega
  · rw [h]
    have a1 : ((⌊x⌋ : ℤ) : ℚ) < m := by linarith
    have a2 : ((m : ℤ) : ℚ) < ⌊x⌋ + 2 := by linarith
    have a3 : ⌊x⌋ < m := by exact_mod_cast a1
    have a4 : m < ⌊x⌋ + 2 := by exact_mod_cast a2
    omega

theorem roundHalfEven_tie_down (m : Int) (hm : m % 2 = 0) :
    roundHalfEven ((m : ℚ) + 1 / 2) = m := by
  have hfl : ⌊(m : ℚ) + 1 / 2⌋ = m := Int.floor_eq_iff.mpr ⟨by linarith, by linarith⟩
  unfold roundHalfEven
  rw [hfl]
  have h1 : ¬ ((m : ℚ) + 1 / 2 - m < 1 / 2) := by
    intro h
    linarith
  have h2 : ¬ (1 / 2 < (m : ℚ) + 1 / 2 - m) := by
    intro h
    linarith
  rw [if_neg h1, if_neg h2, if_pos hm]

theorem roundHalfEven_tie_up (m : Int) (hm : m % 2 = 0) :
    roundHalfEven ((m : ℚ) - 1 / 2) = m := by
  have hfl : ⌊(m : ℚ) - 1 / 2⌋ = m - 1 := Int.floor_eq_iff.mpr
    ⟨by push_cast; linarith, by push_cast; linarith⟩
  unfold roundHalfEven
  rw [hfl]
  have h1 : ¬ ((m : ℚ) - 1 / 2 - ((m - 1 : ℤ) : ℚ) < 1 / 2) := by
    push_cast
    intro h
    linarith
  have h2 : ¬ (1 / 2 < (m : ℚ) - 1 / 2 - ((m - 1 : ℤ) : ℚ)) := by
    push_cast
    intro h
    linarith
  have h3 : ¬ ((m - 1) % 2 = 0) := by omega
  rw [if_neg h1, if_neg h2, if_neg h3]
  omega

theorem roundHalfEven_nonneg (x : ℚ) (h : 0 ≤ x) : 0 ≤ roundHalfEven x :=
  roundHalfEven_ge_of_ge x 0 (by simpa using h)

theorem intLog2_of_bounds (q : ℚ) (e : Int) (hq : 0 < q) (h0 : (2 : ℚ) ^ e ≤ q)
    (h1 : q < (2 : ℚ) ^ (e + 1)) : Int.log 2 q = e := by
  have hlo : e ≤ Int.log 2 q :=
    (Int.zpow_le_iff_le_log (b := 2) (by norm_num) hq (x := e)).mp (by exact_mod_cast h0)
  have hhi : Int.log 2 q < e + 1 :=
    (Int.lt_zpow_iff_log_lt (b := 2) (by norm_num) hq (x := e + 1)).mp (by exact_mod_cast h1)
  omega

theorem intLog2_lt (q : ℚ) (E : Int) (hq : 0 < q) (h1 : q < (2 : ℚ) ^ E) : Int.log 2 q < E :=
  (Int.lt_zpow_iff_log_lt (b := 2) (by norm_num) hq (x := E)).mp (by exact_mod_cast h1)

theorem intLog2_ge (q : ℚ) (e : Int) (hq : 0 < q) (h0 : (2 : ℚ) ^ e ≤ q) : e ≤ Int.log 2 q :=
  (Int.zpow_le_iff_le_log (b := 2) (by norm_num) hq (x := e)).mp (by exact_mod_cast h0)

theorem two_zpow_eq_cast (k : Int) (hk : 0 ≤ k) :
    (2 : ℚ) ^ k = (((2 : Int) ^ k.toNat : Int) : ℚ) := by
  obtain ⟨j, rfl⟩ := Int.eq_ofNat_of_zero_le hk
  simp

theorem two_zpow_pos (k : Int) : (0 : ℚ) < (2 : ℚ) ^ k := zpow_pos (by norm_num) k

theorem ulpExp_of_bounds (q : ℚ) (e : Int) (h0 : (2 : ℚ) ^ e ≤ |q|) (h1 : |q| < (2 : ℚ) ^ (e + 1))
    (he : -1022 ≤ e) : ulpExp q = e - 52 := by
  have hq : 0 < |q| := lt_of_lt_of_le (two_zpow_pos e) h0
  unfold ulpExp
  rw [intLog2_of_bounds |q| e hq h0 h1, max_eq_left he]

theorem ulpExp_ge (q : ℚ) : -1074 ≤ ulpExp q := by
  unfold ulpExp
  have := le_max_right (Int.log 2 |q|) (-1022)
  omega

theorem ulpExp_le (q : ℚ) (E : Int) (hq : q ≠ 0) (h1 : |q| < (2 : ℚ) ^ E) (hE : -1021 ≤ E) :
    ulpExp q ≤ E - 53 := by
  have hpos : 0 < |q| := abs_pos.mpr hq
  have hlog := intLog2_lt |q| E hpos h1
  unfold ulpExp
  have : max (Int.log 2 |q|) (-1022) ≤ E - 1 := max_le (by omega) (by omega)
  omega

namespace Float64

theorem ofRat_zero : ofRat 0 = fin 0 := by
  unfold ofRat
  simp [roundHalfEven]
  norm_num

/-- The rounded value when it does not overflow. -/
theorem ofRat_of_lt (q : ℚ)
    (h : |(roundHalfEven (q / (2 : ℚ) ^ ulpExp q) : ℚ) * (2 : ℚ) ^ ulpExp q| < (2 : ℚ) ^ (1024 : ℤ)) :
    ofRat q = fin ((roundHalfEven (q / (2 : ℚ) ^ ulpExp q) : ℚ) * (2 : ℚ) ^ ulpExp q) := by
  unfold ofRat
  rw [if_neg (not_le.mpr h)]

theorem ofRat_abs_le (q : ℚ) (E : Int) (hq : q ≠ 0) (h1 : |q| < (2 : ℚ) ^ E) (hE : -1021 ≤ E) :
    |(roundHalfEven (q / (2 : ℚ) ^ ulpExp q) : ℚ) * (2 : ℚ) ^ ulpExp q| ≤ (2 : ℚ) ^ E := by
  have hu := ulpExp_le q E hq h1 hE
  have hupos := two_zpow_pos (ulpExp q)
  have hE' : (2 : ℚ) ^ E = (((2 : Int) ^ (E - ulpExp q).toNat : Int) : ℚ) * (2 : ℚ) ^ ulpExp q := by
    rw [← two_zpow_eq_cast _ (by omega), ← zpow_add₀ (by norm_num)]
    congr 1
    omega
  obtain ⟨hq1, hq2⟩ := abs_lt.mp h1
  have hle : roundHalfEven (q / (2 : ℚ) ^ ulpExp q) ≤ (2 : Int) ^ (E - ulpExp q).toNat := by
    apply roundHalfEven_le_of_le
    rw [div_le_iff₀ hupos, ← hE']
    exact le_of_lt hq2
  have hge : -(2 : Int) ^ (E - ulpExp q).toNat ≤ roundHalfEven (q / (2 : ℚ) ^ ulpExp q) := by
    apply roundHalfEven_ge_of_ge
    rw [le_div_iff₀ hupos]
    push_cast
    rw [neg_mul]
    have := hE'
    push_cast at this
    rw [← this]
    exact le_of_lt hq1
  rw [abs_mul, abs_of_pos hupos, hE']
  apply mul_le_mul_of_nonneg_right _ (le_of_lt hupos)
  rw [abs_le]
  constructor
  · exact_mod_cast hge
  · exact_mod_cast hle

/-- The rounded value of a rational below 2^E in absolute value, E at most
1023. -/
theorem ofRat_of_abs_lt (q : ℚ) (E : Int) (h1 : |q| < (2 : ℚ) ^ E) (hE : -1021 ≤ E)
    (hE2 : E ≤ 1023) :
    ofRat q = fin ((roundHalfEven (q / (2 : ℚ) ^ ulpExp q) : ℚ) * (2 : ℚ) ^ ulpExp q) := by
  by_cases hq : q = 0
  · subst hq
    rw [ofRat_zero]
    simp [roundHalfEven]
  have hEov : (2 : ℚ) ^ E < (2 : ℚ) ^ (1024 : ℤ) :=
    zpow_lt_zpow_right₀ (by norm_num) (by omega)
  exact ofRat_of_lt q (lt_of_le_of_lt (ofRat_abs_le q E hq h1 hE) hEov)

theorem ofRat_eval_pos (q : ℚ) (e m : Int) (h0 : (2 : ℚ) ^ e ≤ q) (h1 : q < (2 : ℚ) ^ (e + 1))
    (he : -1022 ≤ e) (he2 : e ≤ 1022) (hm : roundHalfEven (q / (2 : ℚ) ^ (e - 52)) = m) :
    ofRat q = fin ((m : ℚ) * (2 : ℚ) ^ (e - 52)) := by
  have hq : 0 < q := lt_of_lt_of_le (two_zpow_pos e) h0
  have hu : ulpExp q = e - 52 :=
    ulpExp_of_bounds q e (by rw [abs_of_pos hq]; exact h0) (by rw [abs_of_pos hq]; exact h1) he
  rw [ofRat_of_abs_lt q (e + 1) (by rw [abs_of_pos hq]; exact h1) (by omega) (by omega), hu, hm]

theorem ofRat_eval_neg (q : ℚ) (e m : Int) (h0 : (2 : ℚ) ^ e ≤ -q) (h1 : -q < (2 : ℚ) ^ (e + 1))
    (he : -1022 ≤ e) (he2 : e ≤ 1022) (hm : roundHalfEven (q / (2 : ℚ) ^ (e - 52)) = m) :
    ofRat q = fin ((m : ℚ) * (2 : ℚ) ^ (e - 52)) := by
  have hq : q < 0 := by
    have := lt_of_lt_of_le (two_zpow_pos e) h0
    linarith
  have hu : ulpExp q = e - 52 :=
    ulpExp_of_bounds q e (by rw [abs_of_neg hq]; exact h0) (by rw [abs_of_neg hq]; exact h1) he
  rw [ofRat_of_abs_lt q (e + 1) (by rw [abs_of_neg hq]; exact h1) (by omega) (by omega), hu, hm]

/-- The values of the format are fixed: an integer below 2^53 in absolute value
times a power of two from 2^-1074 on, below 2^1024. -/
theorem ofRat_fixed (R k : Int) (hR : |R| < 2 ^ 53) (hk : -1074 ≤ k)
    (hov : |(R : ℚ) * (2 : ℚ) ^ k| < (2 : ℚ) ^ (1024 : ℤ)) :
    ofRat ((R : ℚ) * (2 : ℚ) ^ k) = fin ((R : ℚ) * (2 : ℚ) ^ k) := by
  by_cases hR0 : R = 0
  · subst hR0
    simp [ofRat_zero]
  have hq0 : (R : ℚ) * (2 : ℚ) ^ k ≠ 0 :=
    mul_ne_zero (by exact_mod_cast hR0) (ne_of_gt (two_zpow_pos k))
  have habs : |(R : ℚ) * (2 : ℚ) ^ k| < (2 : ℚ) ^ (53 + k) := by
    rw [abs_mul, abs_of_pos (two_zpow_pos k), zpow_add₀ (by norm_num)]
    apply mul_lt_mul_of_pos_right _ (two_zpow_pos k)
    rw [← Int.cast_abs]
    exact_mod_cast hR
  have hu : ulpExp ((R : ℚ) * (2 : ℚ) ^ k) ≤ k := by
    have := ulpExp_le _ (53 + k) hq0 habs (by omega)
    omega
  have hd : (R : ℚ) * (2 : ℚ) ^ k / (2 : ℚ) ^ ulpExp ((R : ℚ) * (2 : ℚ) ^ k) =
      ((R * (2 : Int) ^ (k - ulpExp ((R : ℚ) * (2 : ℚ) ^ k)).toNat : Int) : ℚ) := by
    rw [mul_div_assoc, ← zpow_sub₀ (by norm_num), two_zpow_eq_cast _ (by omega)]
    push_cast
    rfl
  have hr : (roundHalfEven ((R : ℚ) * (2 : ℚ) ^ k / (2 : ℚ) ^ ulpExp ((R : ℚ) * (2 : ℚ) ^ k)) : ℚ) *
      (2 : ℚ) ^ ulpExp ((R : ℚ) * (2 : ℚ) ^ k) = (R : ℚ) * (2 : ℚ) ^ k := by
    rw [hd, roundHalfEven_intCast, ← hd]
    field_simp
  rw [ofRat_of_lt _ (by rw [hr]; exact hov), hr]

theorem ofRat_intCast (z : Int) (hz : |z| < 2 ^ 53) : ofRat (z : ℚ) = fin (z : ℚ) := by
  have h := ofRat_fixed z 0 hz (by norm_num) (by
    simp only [zpow_zero, mul_one]
    have : ((|z| : ℤ) : ℚ) < ((2 ^ 53 : ℤ) : ℚ) := by exact_mod_cast hz
    have h2 : ((2 ^ 53 : ℤ) : ℚ) < (2 : ℚ) ^ (1024 : ℤ) := by norm_num
    have h3 : |(z : ℚ)| = ((|z| : ℤ) : ℚ) := by simp
    rw [h3]
    linarith)
  simpa using h

theorem ofRat_natCast (n : Nat) (hn : n < 2 ^ 53) : ofRat (n : ℚ) = fin (n : ℚ) := by
  have := ofRat_intCast (n : Int) (by rw [abs_of_nonneg (by omega)]; exact_mod_cast hn)
  simpa using this

/-- Rounding a value below 2^E in absolute value (E from -1021 to 1023) gives a
finite value at most 2^(E-54) away, of the same sign, and at most 2^E in
absolute value. -/
theorem ofRat_near (q : ℚ) (E : Int) (h1 : |q| < (2 : ℚ) ^ E) (hE : -1021 ≤ E) (hE2 : E ≤ 1023) :
    ∃ r : ℚ, ofRat q = fin r ∧ |r - q| ≤ (2 : ℚ) ^ (E - 54) ∧ |r| ≤ (2 : ℚ) ^ E ∧
      (0 ≤ q → 0 ≤ r) ∧ (q ≤ 0 → r ≤ 0) := by
  by_cases hq : q = 0
  · subst hq
    exact ⟨0, ofRat_zero, by simp [le_of_lt (two_zpow_pos _)], by simp [le_of_lt (two_zpow_pos _)],
      fun _ => le_refl _, fun _ => le_refl _⟩
  have hu := ulpExp_le q E hq h1 hE
  have hupos := two_zpow_pos (ulpExp q)
  refine ⟨_, ofRat_of_abs_lt q E h1 hE hE2, ?_, ofRat_abs_le q E hq h1 hE, ?_, ?_⟩
  · have herr := roundHalfEven_error (q / (2 : ℚ) ^ ulpExp q)
    have h2 : (roundHalfEven (q / (2 : ℚ) ^ ulpExp q) : ℚ) * (2 : ℚ) ^ ulpExp q - q =
        ((roundHalfEven (q / (2 : ℚ) ^ ulpExp q) : ℚ) - q / (2 : ℚ) ^ ulpExp q) *
          (2 : ℚ) ^ ulpExp q := by
      field_simp
    rw [h2, abs_mul, abs_of_pos hupos]
    have h3 : (2 : ℚ) ^ (E - 54) = 1 / 2 * (2 : ℚ) ^ (E - 53) := by
      rw [show E - 53 = (E - 54) + 1 by ring, zpow_add_one₀ (by norm_num)]
      ring
    rw [h3]
    apply mul_le_mul herr _ (le_of_lt hupos) (by norm_num)
    exact zpow_le_zpow_right₀ (by norm_num) hu
  · intro h0
    apply mul_nonneg _ (le_of_lt hupos)
    exact_mod_cast roundHalfEven_nonneg _ (div_nonneg h0 (le_of_lt hupos))
  · intro h0
    apply mul_nonpos_of_nonpos_of_nonneg _ (le_of_lt hupos)
    have : roundHalfEven (q / (2 : ℚ) ^ ulpExp q) ≤ 0 :=
      roundHalfEven_le_of_le _ 0 (by simpa using div_nonpos_of_nonpos_of_nonneg h0 (le_of_lt hupos))
    exact_mod_cast this

/-- Rounding a value of the normal range changes it by at most the fraction
2^-53 of its absolute value. -/
theorem ofRat_rel (q : ℚ) (h0 : (2 : ℚ) ^ (-1022 : ℤ) ≤ |q|) (h1 : |q| < (2 : ℚ) ^ (1023 : ℤ)) :
    ∃ r : ℚ, ofRat q = fin r ∧ |r - q| ≤ |q| / 2 ^ 53 := by
  have hpos : 0 < |q| := lt_of_lt_of_le (two_zpow_pos _) h0
  have hq : q ≠ 0 := abs_pos.mp hpos
  have hlo := intLog2_ge |q| (-1022) hpos h0
  have hhi := intLog2_lt |q| 1023 hpos h1
  have hb0 : (2 : ℚ) ^ Int.log 2 |q| ≤ |q| := by
    have := Int.zpow_log_le_self (b := 2) (by norm_num) hpos
    exact_mod_cast this
  have hb1 : |q| < (2 : ℚ) ^ (Int.log 2 |q| + 1) := by
    have := Int.lt_zpow_succ_log_self (b := 2) (by norm_num) |q|
    exact_mod_cast this
  obtain ⟨r, hr, herr, _, _, _⟩ := ofRat_near q (Int.log 2 |q| + 1) hb1 (by omega) (by omega)
  refine ⟨r, hr, le_trans herr ?_⟩
  have h2 : (2 : ℚ) ^ (Int.log 2 |q| + 1 - 54) = (2 : ℚ) ^ Int.log 2 |q| / 2 ^ 53 := by
    rw [show Int.log 2 |q| + 1 - 54 = Int.log 2 |q| - 53 by ring, zpow_sub₀ (by norm_num)]
    norm_num
  rw [h2]
  exact div_le_div_of_nonneg_right hb0 (by norm_num)

/-- Rounding does not cross an integer from below, where the last place is at
most the unit. -/
theorem ofRat_le_intCast (q r : ℚ) (K : Int) (hu : ulpExp q ≤ 0) (h : q ≤ K)
    (hr : ofRat q = fin r) : r ≤ K := by
  unfold ofRat at hr
  split at hr
  · split at hr <;> cases hr
  · injection hr with hr
    rw [← hr]
    have hupos := two_zpow_pos (ulpExp q)
    have hK : (K : ℚ) = ((K * (2 : Int) ^ (-ulpExp q).toNat : Int) : ℚ) * (2 : ℚ) ^ ulpExp q := by
      rw [Int.cast_mul, ← two_zpow_eq_cast (-ulpExp q) (by omega), mul_assoc,
        ← zpow_add₀ (by norm_num)]
      simp
    rw [hK]
    apply mul_le_mul_of_nonneg_right _ (le_of_lt hupos)
    have : roundHalfEven (q / (2 : ℚ) ^ ulpExp q) ≤ K * (2 : Int) ^ (-ulpExp q).toNat := by
      apply roundHalfEven_le_of_le
      rw [div_le_iff₀ hupos, ← hK]
      exact h
    exact_mod_cast this

/-- Rounding does not cross an integer from above, where the last place is at
most the unit. -/
theorem ofRat_ge_intCast (q r : ℚ) (K : Int) (hu : ulpExp q ≤ 0) (h : (K : ℚ) ≤ q)
    (hr : ofRat q = fin r) : (K : ℚ) ≤ r := by
  unfold ofRat at hr
  split at hr
  · split at hr <;> cases hr
  · injection hr with hr
    rw [← hr]
    have hupos := two_zpow_pos (ulpExp q)
    have hK : (K : ℚ) = ((K * (2 : Int) ^ (-ulpExp q).toNat : Int) : ℚ) * (2 : ℚ) ^ ulpExp q := by
      rw [Int.cast_mul, ← two_zpow_eq_cast (-ulpExp q) (by omega), mul_assoc,
        ← zpow_add₀ (by norm_num)]
      simp
    rw [hK]
    apply mul_le_mul_of_nonneg_right _ (le_of_lt hupos)
    have : K * (2 : Int) ^ (-ulpExp q).toNat ≤ roundHalfEven (q / (2 : ℚ) ^ ulpExp q) := by
      apply roundHalfEven_ge_of_ge
      rw [le_div_iff₀ hupos, ← hK]
      exact h
    exact_mod_cast this

theorem ofNat_of_lt (n : Nat) (hn : n < 2 ^ 53) : ofNat n = fin (n : ℚ) := ofRat_natCast n hn

theorem add_natCast (a b : Nat) (h : a + b < 2 ^ 53) :
    add (fin (a : ℚ)) (fin (b : ℚ)) = fin ((a + b : Nat) : ℚ) := by
  have := ofRat_natCast (a + b) h
  simp only [add]
  rw [← this]
  push_cast
  rfl

theorem sub_intCast (a b : Int) (h : |a - b| < 2 ^ 53) :
    sub (fin (a : ℚ)) (fin (b : ℚ)) = fin ((a : ℚ) - b) := by
  have := ofRat_intCast (a - b) h
  simp only [sub, neg, add]
  rw [← sub_eq_add_neg]
  push_cast at this
  exact this

end Float64

theorem matchMdPrefix_empty : matchMdPrefix "" = false := by decide

theorem mapGet_mapSet_same {α : Type} (m : List (String × List α)) (k : String) (v : List α) :
    mapGet (mapSet m k v) k = v := by
  induction m with
  | nil => simp [mapSet, mapGet, List.lookup]
  | cons e rest ih =>
    obtain ⟨k', v'⟩ := e
    by_cases hk : k' = k
    · simp [mapSet, hk, mapGet, List.lookup]
    · have hk' : (k == k') = false := by simpa using fun h => hk h.symm
      simp only [mapSet, hk, if_false]
      simp only [mapGet, List.lookup, hk'] at ih ⊢
      exact ih

theorem mapGet_mapSet_other {α : Type} (m : List (String × List α)) (k d : String) (v : List α)
    (hd : d ≠ k) : mapGet (mapSet m k v) d = mapGet m d := by
  induction m with
  | nil =>
    have hd' : (d == k) = false := by simpa using hd
    simp [mapSet, mapGet, List.lookup, hd']
  | cons e rest ih =>
    obtain ⟨k', v'⟩ := e
    by_cases hk : k' = k
    · subst hk
      have hd' : (d == k') = false := by simpa using hd
      simp [mapSet, mapGet, List.lookup, hd']
    · simp only [mapSet, hk, if_false]
      by_cases hdk : d = k'
      · subst hdk
        simp [mapGet, List.lookup]
      · have hd' : (d == k') = false := by simpa using hdk
        simp only [mapGet, List.lookup, hd'] at ih ⊢
        exact ih

theorem appendEvict_length_le {α : Type} (limit : Int) (xs : List α) (x : α)
    (h : (xs.length : Int) ≤ limit) : ((appendEvict limit xs x).length : Int) ≤ limit := by
  unfold appendEvict
  simp only []
  split
  · simp only [List.length_tail, List.length_append, List.length_singleton, Nat.add_sub_cancel]
    exact h
  · omega

theorem appendEvict_at_capacity {α : Type} (limit : Int) (y : α) (rest : List α) (x : α)
    (h : (((y :: rest).length : Nat) : Int) = limit) :
    appendEvict limit (y :: rest) x = rest ++ [x] := by
  unfold appendEvict
  simp only [List.cons_append, List.length_cons, List.length_append, List.length_singleton,
    List.tail_cons]
  rw [if_pos]
  simp only [List.length_cons] at h
  omega


theorem monitoringDiskIOStep_eq (r : Remote) (n : Node) (stat : DiskStat) :
    monitoringDiskIOStep r n stat =
      { n with
        DiskIOs := mapSet n.DiskIOs (diskSample stat).Device
          (appendEvict n.DiskIOsLimit (mapGet n.DiskIOs (diskSample stat).Device)
            (diskSample stat)) } := by
  simp [monitoringDiskIOStep, matchMdPrefix_empty, diskSample]

theorem diskFold_frame (r : Remote) (stats : List DiskStat) (n : Node) :
    ∃ m, stats.foldl (monitoringDiskIOStep r) n = { n with DiskIOs := m } := by
  induction stats generalizing n with
  | nil => exact ⟨n.DiskIOs, rfl⟩
  | cons a rest ih =>
    obtain ⟨m, hm⟩ := ih (monitoringDiskIOStep r n a)
    refine ⟨m, ?_⟩
    rw [List.foldl_cons, hm, monitoringDiskIOStep_eq]

theorem diskFold_get (r : Remote) (stats : List DiskStat) (n : Node) (d : String) :
    mapGet (stats.foldl (monitoringDiskIOStep r) n).DiskIOs d =
      ((stats.filter (fun t => decide ((diskSample t).Device = d))).map diskSample).foldl
        (appendEvict n.DiskIOsLimit) (mapGet n.DiskIOs d) := by
  induction stats generalizing n with
  | nil => rfl
  | cons a rest ih =>
    rw [List.foldl_cons, ih, monitoringDiskIOStep_eq]
    by_cases hd : (diskSample a).Device = d
    · subst hd
      simp [mapGet_mapSet_same]
    · have hd' : d ≠ (diskSample a).Device := fun h => hd h.symm
      simp [mapGet_mapSet_other _ _ _ _ hd', hd]

theorem networkFold_frame (stats : List NetworkStat) (n : Node) :
    ∃ m, stats.foldl monitoringNetworkIOStep n = { n with NetworkIOs := m } := by
  induction stats generalizing n with
  | nil => exact ⟨n.NetworkIOs, rfl⟩
  | cons a rest ih =>
    obtain ⟨m, hm⟩ := ih (monitoringNetworkIOStep n a)
    refine ⟨m, ?_⟩
    rw [List.foldl_cons, hm]
    rfl

theorem networkFold_get (stats : List NetworkStat) (n : Node) (d : String) :
    mapGet (stats.foldl monitoringNetworkIOStep n).NetworkIOs d =
      ((stats.filter (fun t => decide (t.Iface = d))).map networkSample).foldl
        (appendEvict n.NetworkIOsLimit) (mapGet n.NetworkIOs d) := by
  induction stats generalizing n with
  | nil => rfl
  | cons a rest ih =>
    rw [List.foldl_cons, ih]
    by_cases hd : a.Iface = d
    · subst hd
      simp [monitoringNetworkIOStep, networkSample, mapGet_mapSet_same]
    · have hd' : d ≠ a.Iface := fun h => hd h.symm
      simp [monitoringNetworkIOStep, mapGet_mapSet_other _ _ _ _ hd', hd]

theorem foldl_appendEvict_length_le {α : Type} (limit : Int) (samples xs : List α)
    (h : (xs.length : Int) ≤ limit) :
    ((samples.foldl (appendEvict limit) xs).length : Int) ≤ limit := by
  induction samples generalizing xs with
  | nil => exact h
  | cons a rest ih => exact ih _ (appendEvict_length_le limit xs a h)

theorem devPath_injective (a b : String) (h : "/dev/" ++ a = "/dev/" ++ b) : a = b := by
  have h1 := congrArg String.data h
  simp only [String.data_append, List.append_cancel_left_eq] at h1
  exact String.ext h1


theorem rawSeriesBounded_cpu (n : Node) (r : Remote) (hb : RawSeriesBounded n) :
    RawSeriesBounded (MonitoringCPUUsage n r) := by
  obtain ⟨hc, hd, hn⟩ := hb
  unfold MonitoringCPUUsage
  cases r.alive with
  | false => exact ⟨by simp only [Bool.not_false, if_true, List.length_nil]; omega, hd, hn⟩
  | true =>
    cases r.ReadStat n.PathProcStat with
    | none => exact ⟨hc, hd, hn⟩
    | some stat => exact ⟨appendEvict_length_le _ _ _ hc, hd, hn⟩

theorem rawSeriesBounded_disk (n : Node) (r : Remote) (hb : RawSeriesBounded n) :
    RawSeriesBounded ( MonitoringDiskIO n r) := by
  obtain ⟨hc, hd, hn⟩ := hb
  have h0 : (0 : Int) ≤ n.DiskIOsLimit := le_trans (Int.natCast_nonneg _) (hd "")
  unfold MonitoringDiskIO
  cases r.alive with
  | false => exact ⟨hc, fun d => by simpa [mapGet] using h0, hn⟩
  | true =>
    cases r.ReadDiskStats n.PathProcDiskStats with
    | none => exact ⟨hc, hd, hn⟩
    | some stats =>
      simp only [Bool.not_true, Bool.false_eq_true, if_false]
      obtain ⟨m, hm⟩ := diskFold_frame r stats
        { n with remoteReads := n.remoteReads ++ [n.PathProcDiskStats] }
      refine ⟨by rw [hm]; exact hc, fun d => ?_, by rw [hm]; exact hn⟩
      rw [diskFold_get]
      rw [hm]
      exact foldl_appendEvict_length_le _ _ _ (hd d)

theorem rawSeriesBounded_network (n : Node) (r : Remote) (hb : RawSeriesBounded n) :
    RawSeriesBounded ( MonitoringNetworkIO n r) := by
  obtain ⟨hc, hd, hn⟩ := hb
  have h0 : (0 : Int) ≤ n.NetworkIOsLimit := le_trans (Int.natCast_nonneg _) (hn "")
  unfold MonitoringNetworkIO
  cases r.alive with
  | false => exact ⟨hc, hd, fun d => by simpa [mapGet] using h0⟩
  | true =>
    cases r.ReadNetworkStat "/proc/net/dev" with
    | none => exact ⟨hc, hd, hn⟩
    | some stats =>
      simp only [Bool.not_true, Bool.false_eq_true, if_false]
      obtain ⟨m, hm⟩ := networkFold_frame stats
        { n with remoteReads := n.remoteReads ++ ["/proc/net/dev"] }
      refine ⟨by rw [hm]; exact hc, by rw [hm]; exact hd, fun d => ?_⟩
      rw [networkFold_get]
      rw [hm]
      exact foldl_appendEvict_length_le _ _ _ (hn d)

/-- C1. Ring-buffer bound for the raw series: from a node whose cpuUsage and
whose per-device slices in DiskIOs and NetworkIOs are within their limits, a
step of MonitoringCPUUsage, of MonitoringDiskIO or of MonitoringNetworkIO leads
to a node with the same property; and when a series with an oldest element x
was exactly at capacity and the step read one sample for it, the series
afterwards is the old one without x, followed by that sample. -/
theorem raw_series_ring_buffer (n : Node) (r : Remote) (hb : RawSeriesBounded n) :
    RawSeriesBounded (MonitoringCPUUsage n r) ∧
    RawSeriesBounded ( MonitoringDiskIO n r) ∧
    RawSeriesBounded ( MonitoringNetworkIO n r) ∧
    (∀ stat x rest, r.alive = true → r.ReadStat n.PathProcStat = some stat →
      n.cpuUsage = x :: rest → ((x :: rest).length : Int) = n.cpuUsageLimit →
      (MonitoringCPUUsage n r).cpuUsage = rest ++ [⟨stat.CPUStatAll, stat.CPUStats, r.now⟩]) ∧
    (∀ stats s x rest, r.alive = true → r.ReadDiskStats n.PathProcDiskStats = some stats →
      stats.filter (fun t => decide (t.Name = s.Name)) = [s] →
      mapGet n.DiskIOs ("/dev/" ++ s.Name) = x :: rest →
      ((x :: rest).length : Int) = n.DiskIOsLimit →
      mapGet ( MonitoringDiskIO n r).DiskIOs ("/dev/" ++ s.Name) = rest ++ [diskSample s]) ∧
    (∀ stats s x rest, r.alive = true → r.ReadNetworkStat "/proc/net/dev" = some stats →
      stats.filter (fun t => decide (t.Iface = s.Iface)) = [s] →
      mapGet n.NetworkIOs s.Iface = x :: rest →
      ((x :: rest).length : Int) = n.NetworkIOsLimit →
      mapGet ( MonitoringNetworkIO n r).NetworkIOs s.Iface = rest ++ [networkSample s]) := by
  refine ⟨rawSeriesBounded_cpu n r hb, rawSeriesBounded_disk n r hb,
    rawSeriesBounded_network n r hb, ?_, ?_, ?_⟩
  · intro stat x rest ha hs hx hlen
    simp only [MonitoringCPUUsage, ha, hs, hx, Bool.not_true, Bool.false_eq_true, if_false]
    exact appendEvict_at_capacity _ _ _ _ hlen
  · intro stats s x rest ha hs hf hx hlen
    simp only [ MonitoringDiskIO, ha, hs, Bool.not_true, Bool.false_eq_true, if_false]
    rw [diskFold_get]
    have hfilter : stats.filter (fun t => decide ((diskSample t).Device = "/dev/" ++ s.Name))
        = [s] := by
      rw [← hf]
      apply List.filter_congr
      intro t _
      simp only [diskSample, decide_eq_decide]
      exact ⟨devPath_injective _ _, fun h => by rw [h]⟩
    rw [hfilter]
    simp only [List.map_cons, List.map_nil, List.foldl_cons, List.foldl_nil, hx]
    exact appendEvict_at_capacity _ _ _ _ hlen
  · intro stats s x rest ha hs hf hx hlen
    simp only [ MonitoringNetworkIO, ha, hs, Bool.not_true, Bool.false_eq_true, if_false]
    rw [networkFold_get, hf]
    simp only [List.map_cons, List.map_nil, List.foldl_cons, List.foldl_nil, hx]
    exact appendEvict_at_capacity _ _ _ _ hlen


theorem fullNode_bounded : RawSeriesBounded fullNode := by
  refine ⟨by decide, fun d => ?_, fun d => ?_⟩ <;> simp [fullNode, NewNode, mapGet]

/-- Witness for C1: the node fullNode is at capacity; the step evicts its only
sample and stores the one just read. -/
theorem raw_series_ring_buffer_witness :
    RawSeriesBounded fullNode ∧
    (MonitoringCPUUsage fullNode demoRemote).cpuUsage =
      [⟨⟨"cpu", 10, 0, 5, 80, 1, 0, 0, 0, 0, 0⟩, [], 7⟩] :=
  ⟨fullNode_bounded,
    (raw_series_ring_buffer fullNode demoRemote fullNode_bounded).2.2.2.1 _ _ _ rfl rfl rfl rfl⟩


theorem getElem_last_of_two {α : Type} (xs pre : List α) (p l : α) (hs : xs = pre ++ [p, l])
    (h : xs.length - 1 < xs.length) : xs[xs.length - 1] = l := by
  subst hs
  simp [List.getElem_append_right]

theorem getElem_prev_of_two {α : Type} (xs pre : List α) (p l : α) (hs : xs = pre ++ [p, l])
    (h : xs.length - 2 < xs.length) : xs[xs.length - 2] = p := by
  subst hs
  simp [List.getElem_append_right]

theorem sumFloat64_tenCounters (c : CPUStat) (h : tenSum c < 2 ^ 53) :
    sumFloat64 (tenCounters c) = Float64.fin (tenSum c : ℚ) := by
  simp only [tenSum] at h
  have h0 : Float64.fin 0 = Float64.fin ((0 : Nat) : ℚ) := by simp
  simp only [sumFloat64, tenCounters, List.foldl_cons, List.foldl_nil]
  rw [h0, Float64.ofNat_of_lt c.User (by omega), Float64.ofNat_of_lt c.Nice (by omega),
    Float64.ofNat_of_lt c.System (by omega), Float64.ofNat_of_lt c.Idle (by omega),
    Float64.ofNat_of_lt c.IOWait (by omega), Float64.ofNat_of_lt c.IRQ (by omega),
    Float64.ofNat_of_lt c.SoftIRQ (by omega), Float64.ofNat_of_lt c.Steal (by omega),
    Float64.ofNat_of_lt c.Guest (by omega), Float64.ofNat_of_lt c.GuestNice (by omega),
    Float64.add_natCast _ _ (by omega), Float64.add_natCast _ _ (by omega),
    Float64.add_natCast _ _ (by omega), Float64.add_natCast _ _ (by omega),
    Float64.add_natCast _ _ (by omega), Float64.add_natCast _ _ (by omega),
    Float64.add_natCast _ _ (by omega), Float64.add_natCast _ _ (by omega),
    Float64.add_natCast _ _ (by omega), Float64.add_natCast _ _ (by omega)]
  simp [tenSum]

theorem idle_le_tenSum (c : CPUStat) : c.Idle ≤ tenSum c := by
  simp only [tenSum]
  omega

theorem usageBetween_eq (l p : CPUStat) (hl : tenSum l < 2 ^ 53) (hp : tenSum p < 2 ^ 53) :
    usageBetween l p =
      Float64.mul (Float64.div
        (Float64.fin (((tenSum l : ℚ) - tenSum p) - ((l.Idle : ℚ) - p.Idle)))
        (Float64.fin ((tenSum l : ℚ) - tenSum p))) (Float64.fin 100) := by
  have hil := idle_le_tenSum l
  have hip := idle_le_tenSum p
  have h1 : Float64.sub (Float64.fin ((tenSum l : Int) : ℚ)) (Float64.fin ((tenSum p : Int) : ℚ)) =
      Float64.fin (((tenSum l : Int) : ℚ) - (tenSum p : Int)) :=
    Float64.sub_intCast _ _ (by rw [abs_lt]; omega)
  have h2 : Float64.sub (Float64.fin ((l.Idle : Int) : ℚ)) (Float64.fin ((p.Idle : Int) : ℚ)) =
      Float64.fin (((l.Idle : Int) : ℚ) - (p.Idle : Int)) :=
    Float64.sub_intCast _ _ (by rw [abs_lt]; omega)
  have h3 : Float64.sub
      (Float64.fin ((((tenSum l : Int) - (tenSum p : Int) : Int)) : ℚ))
      (Float64.fin ((((l.Idle : Int) - (p.Idle : Int) : Int)) : ℚ)) =
      Float64.fin (((((tenSum l : Int) - (tenSum p : Int) : Int)) : ℚ) -
        (((l.Idle : Int) - (p.Idle : Int) : Int))) :=
    Float64.sub_intCast _ _ (by rw [abs_lt]; omega)
  push_cast at h1 h2 h3
  simp only [usageBetween, sumFloat64_tenCounters l hl, sumFloat64_tenCounters p hp,
    Float64.ofNat_of_lt l.Idle (by omega), Float64.ofNat_of_lt p.Idle (by omega), h1, h2, h3]

theorem getCPUUsage_two (n : Node) (pre : List CPUUsage) (p l : CPUUsage)
    (hs : n.cpuUsage = pre ++ [p, l]) :
    GetCPUUsage n true = usageBetween l.toCPUStat p.toCPUStat := by
  have hlen : n.cpuUsage.length ≥ 2 := by simp [hs]
  simp only [GetCPUUsage, Bool.not_true, Bool.false_eq_true, if_false, hlen, dite_true]
  rw [getElem_last_of_two n.cpuUsage pre p l hs, getElem_prev_of_two n.cpuUsage pre p l hs]

/-- The quotient x = b / d of two integers below 2^53 in absolute value, d not
0, divided and multiplied by 100 in float64: the result is finite and within the
fraction 2^-51 of the exact value. -/
theorem percent_of_quotient (b d : Int) (hb : |b| < 2 ^ 53) (hd : |d| < 2 ^ 53) (hd0 : d ≠ 0) :
    ∃ r : ℚ,
      Float64.mul (Float64.div (Float64.fin (b : ℚ)) (Float64.fin (d : ℚ))) (Float64.fin 100) =
        Float64.fin r ∧
      |r - (b : ℚ) / d * 100| ≤ |(b : ℚ) / d * 100| / 2 ^ 51 := by
  have hdq : (d : ℚ) ≠ 0 := by exact_mod_cast hd0
  simp only [Float64.div, hdq, if_false]
  by_cases hb0 : b = 0
  · subst hb0
    refine ⟨0, ?_, by simp⟩
    simp [Float64.ofRat_zero, Float64.mul]
  have hbq : (b : ℚ) ≠ 0 := by exact_mod_cast hb0
  have hbabs : (1 : ℚ) ≤ |(b : ℚ)| := by
    rw [← Int.cast_abs]
    exact_mod_cast Int.one_le_abs hb0
  have hdabs : (1 : ℚ) ≤ |(d : ℚ)| := by
    rw [← Int.cast_abs]
    exact_mod_cast Int.one_le_abs hd0
  have hb53 : |(b : ℚ)| < 2 ^ 53 := by
    rw [← Int.cast_abs]
    exact_mod_cast hb
  have hd53 : |(d : ℚ)| < 2 ^ 53 := by
    rw [← Int.cast_abs]
    exact_mod_cast hd
  have hdpos : (0 : ℚ) < |(d : ℚ)| := by linarith
  have hx : |(b : ℚ) / d| = |(b : ℚ)| / |(d : ℚ)| := abs_div _ _
  have hxlo : (1 : ℚ) / 2 ^ 53 ≤ |(b : ℚ) / d| := by
    rw [hx, div_le_div_iff (by norm_num) hdpos]
    nlinarith
  have hxhi : |(b : ℚ) / d| < 2 ^ 53 := by
    rw [hx, div_lt_iff₀ hdpos]
    nlinarith
  obtain ⟨r1, hr1, he1⟩ := Float64.ofRat_rel ((b : ℚ) / d)
    (le_trans (by norm_num) hxlo) (lt_trans hxhi (by norm_num))
  rw [hr1]
  simp only [Float64.mul]
  have ha0 : (0 : ℚ) ≤ |(b : ℚ) / d| := abs_nonneg _
  have hr1lo : |(b : ℚ) / d| - |(b : ℚ) / d| / 2 ^ 53 ≤ |r1| := by
    have := abs_sub_abs_le_abs_sub ((b : ℚ) / d) r1
    rw [abs_sub_comm] at this
    linarith
  have hr1hi : |r1| ≤ |(b : ℚ) / d| + |(b : ℚ) / d| / 2 ^ 53 := by
    have := abs_sub_abs_le_abs_sub r1 ((b : ℚ) / d)
    linarith
  have h100 : |r1 * 100| = |r1| * 100 := by
    rw [abs_mul]
    norm_num
  obtain ⟨r2, hr2, he2⟩ := Float64.ofRat_rel (r1 * 100)
    (by
      rw [h100]
      have : (2 : ℚ) ^ (-1022 : ℤ) ≤ 1 / 2 ^ 54 := by norm_num
      have h5 : |(b : ℚ) / d| / 2 ^ 53 ≤ |(b : ℚ) / d| / 2 := by
        apply div_le_div_of_nonneg_left ha0 (by norm_num) (by norm_num)
      have h6 : (1 : ℚ) / 2 ^ 54 ≤ |r1| := by
        have : (1 : ℚ) / 2 ^ 54 = 1 / 2 ^ 53 / 2 := by norm_num
        linarith
      have h7 : |r1| ≤ |r1| * 100 := by nlinarith [abs_nonneg r1]
      exact le_trans this (le_trans h6 h7))
    (by
      rw [h100]
      have h5 : |(b : ℚ) / d| / 2 ^ 53 ≤ |(b : ℚ) / d| := by
        apply div_le_self ha0 (by norm_num)
      have h6 : |r1| * 100 < 2 ^ 54 * 100 := by nlinarith
      have : (2 : ℚ) ^ 54 * 100 < (2 : ℚ) ^ (1023 : ℤ) := by norm_num
      linarith)
  refine ⟨r2, hr2, ?_⟩
  have hsplit : r2 - (b : ℚ) / d * 100 = (r2 - r1 * 100) + (r1 - (b : ℚ) / d) * 100 := by ring
  have htri : |r2 - (b : ℚ) / d * 100| ≤ |r2 - r1 * 100| + |r1 - (b : ℚ) / d| * 100 := by
    rw [hsplit]
    have := abs_add (r2 - r1 * 100) ((r1 - (b : ℚ) / d) * 100)
    rw [abs_mul (r1 - (b : ℚ) / d) 100] at this
    norm_num at this
    linarith
  have hx100 : |(b : ℚ) / d * 100| = |(b : ℚ) / d| * 100 := by
    rw [abs_mul]
    norm_num
  rw [hx100]
  rw [h100] at he2
  have e1 : |r2 - r1 * 100| ≤ (|(b : ℚ) / d| + |(b : ℚ) / d| / 2 ^ 53) * 100 / 2 ^ 53 := by
    apply le_trans he2
    apply div_le_div_of_nonneg_right _ (by norm_num)
    nlinarith
  have e2 : (|(b : ℚ) / d| + |(b : ℚ) / d| / 2 ^ 53) * 100 / 2 ^ 53 + |(b : ℚ) / d| / 2 ^ 53 * 100 ≤
      |(b : ℚ) / d| * 100 / 2 ^ 51 := by
    have : (|(b : ℚ) / d| + |(b : ℚ) / d| / 2 ^ 53) * 100 / 2 ^ 53 + |(b : ℚ) / d| / 2 ^ 53 * 100 =
        |(b : ℚ) / d| * (100 * (2 + 1 / 2 ^ 53) / 2 ^ 53) := by ring
    rw [this]
    have h2 : |(b : ℚ) / d| * 100 / 2 ^ 51 = |(b : ℚ) / d| * (100 / 2 ^ 51) := by ring
    rw [h2]
    apply mul_le_mul_of_nonneg_left _ ha0
    norm_num
  nlinarith

/-- C2 (amended). CPU utilization formula: on an alive node whose two latest
samples are p and l with sum(l.ten) > sum(p.ten) and all sums below 2^53,
GetCPUUsage returns the float64 value of (Δtotal − Δidle) / Δtotal × 100, where
Δtotal is the difference of the sums of the ten counters and Δidle =
l.idle − p.idle: the two differences and their difference are exact, the
quotient and the product with 100 are rounded, and the result is finite and
within the fraction 2^-51 of the exact value; with Δtotal = 100 and Δidle = 25
the result is exactly 75. -/
theorem cpu_usage_formula (n : Node) (pre : List CPUUsage) (p l : CPUUsage)
    (hs : n.cpuUsage = pre ++ [p, l]) (hl : tenSum l.toCPUStat < 2 ^ 53)
    (hgt : tenSum l.toCPUStat > tenSum p.toCPUStat) :
    GetCPUUsage n true =
      Float64.mul (Float64.div
        (Float64.fin (((tenSum l.toCPUStat : ℚ) - tenSum p.toCPUStat)
            - ((l.toCPUStat.Idle : ℚ) - p.toCPUStat.Idle)))
        (Float64.fin ((tenSum l.toCPUStat : ℚ) - tenSum p.toCPUStat))) (Float64.fin 100) ∧
    (∃ r : ℚ, GetCPUUsage n true = Float64.fin r ∧
      |r - (((tenSum l.toCPUStat : ℚ) - tenSum p.toCPUStat)
            - ((l.toCPUStat.Idle : ℚ) - p.toCPUStat.Idle))
          / ((tenSum l.toCPUStat : ℚ) - tenSum p.toCPUStat) * 100| ≤
        |(((tenSum l.toCPUStat : ℚ) - tenSum p.toCPUStat)
            - ((l.toCPUStat.Idle : ℚ) - p.toCPUStat.Idle))
          / ((tenSum l.toCPUStat : ℚ) - tenSum p.toCPUStat) * 100| / 2 ^ 51) ∧
    ((tenSum l.toCPUStat : ℤ) - tenSum p.toCPUStat = 100 →
      (l.toCPUStat.Idle : ℤ) - p.toCPUStat.Idle = 25 →
      GetCPUUsage n true = Float64.fin 75) := by
  have hp : tenSum p.toCPUStat < 2 ^ 53 := by omega
  have hil := idle_le_tenSum l.toCPUStat
  have hip := idle_le_tenSum p.toCPUStat
  have hmain := (getCPUUsage_two n pre p l hs).trans
    (usageBetween_eq l.toCPUStat p.toCPUStat hl hp)
  refine ⟨hmain, ?_, fun ht hi => ?_⟩
  · rw [hmain]
    have h := percent_of_quotient
      (((tenSum l.toCPUStat : Int) - tenSum p.toCPUStat) -
        ((l.toCPUStat.Idle : Int) - p.toCPUStat.Idle))
      ((tenSum l.toCPUStat : Int) - tenSum p.toCPUStat)
      (by rw [abs_lt]; omega) (by rw [abs_lt]; omega) (by omega)
    push_cast at h
    exact h
  · have ht' : ((tenSum l.toCPUStat : ℚ) - tenSum p.toCPUStat) = 100 := by exact_mod_cast ht
    have hi' : ((l.toCPUStat.Idle : ℚ) - p.toCPUStat.Idle) = 25 := by exact_mod_cast hi
    rw [hmain, ht', hi']
    have h34 : Float64.ofRat ((100 - 25 : ℚ) / 100) = Float64.fin (3 / 4) := by
      have := Float64.ofRat_fixed 3 (-2) (by norm_num) (by norm_num)
        (by rw [abs_of_pos (by norm_num)]; norm_num)
      norm_num at this
      norm_num
      exact this
    have h75 : Float64.ofRat ((3 : ℚ) / 4 * 100) = Float64.fin 75 := by
      have := Float64.ofRat_natCast 75 (by norm_num)
      norm_num at this
      norm_num
      exact this
    have h75b : Float64.ofRat (75 : ℚ) = Float64.fin 75 := by
      have := Float64.ofRat_natCast 75 (by norm_num)
      norm_num at this
      exact this
    simp only [Float64.div, Float64.mul, h34, h75]
    norm_num
    exact h75b

/-- Witness for C2: 100 ticks of which 25 idle give 75. -/
theorem cpu_usage_formula_witness : GetCPUUsage busyNode true = Float64.fin 75 :=
  (cpu_usage_formula busyNode [] zeroSample busySample rfl (by decide) (by decide)).2.2
    (by decide) (by decide)

theorem add_fin_zero (r : ℚ) (hr : Float64.ofRat r = Float64.fin r) :
    Float64.add (Float64.fin r) (Float64.fin 0) = Float64.fin r := by
  simp only [Float64.add, add_zero, hr]

theorem zero_add_fin (r : ℚ) (hr : Float64.ofRat r = Float64.fin r) :
    Float64.add (Float64.fin 0) (Float64.fin r) = Float64.fin r := by
  simp only [Float64.add, zero_add, hr]

theorem float64_mul_fin (a b : ℚ) :
    Float64.mul (Float64.fin a) (Float64.fin b) = Float64.ofRat (a * b) := rfl

theorem float64_add_fin (a b : ℚ) :
    Float64.add (Float64.fin a) (Float64.fin b) = Float64.ofRat (a + b) := rfl

theorem float64_sub_fin (a b : ℚ) :
    Float64.sub (Float64.fin a) (Float64.fin b) = Float64.ofRat (a - b) := by
  simp only [Float64.sub, Float64.neg, Float64.add, sub_eq_add_neg]

theorem float64_div_fin (a b : ℚ) (hb : b ≠ 0) :
    Float64.div (Float64.fin a) (Float64.fin b) = Float64.ofRat (a / b) := by
  simp only [Float64.div, hb, if_false]

/-- The sum of the ten counters of a line whose only counter that is not 0 is
the user counter. -/
theorem sumFloat64_user_only (id : String) (u : Nat) (r : ℚ)
    (hu : Float64.ofNat u = Float64.fin r) (hr : Float64.ofRat r = Float64.fin r) :
    sumFloat64 (tenCounters ⟨id, u, 0, 0, 0, 0, 0, 0, 0, 0, 0⟩) = Float64.fin r := by
  have hz : Float64.ofNat 0 = Float64.fin 0 := by
    simp only [Float64.ofNat, Nat.cast_zero, Float64.ofRat_zero]
  have ht : tenCounters ⟨id, u, 0, 0, 0, 0, 0, 0, 0, 0, 0⟩ =
      [Float64.ofNat u, Float64.ofNat 0, Float64.ofNat 0, Float64.ofNat 0, Float64.ofNat 0,
       Float64.ofNat 0, Float64.ofNat 0, Float64.ofNat 0, Float64.ofNat 0, Float64.ofNat 0] := rfl
  rw [ht, hu, hz]
  simp only [sumFloat64, List.foldl, zero_add_fin r hr, add_fin_zero r hr]

theorem usageBetween_of_equal_sums (l p : CPUStat) (r : ℚ)
    (hl : sumFloat64 (tenCounters l) = Float64.fin r)
    (hp : sumFloat64 (tenCounters p) = Float64.fin r)
    (hli : l.Idle = 0) (hpi : p.Idle = 0) : usageBetween l p = Float64.nan := by
  simp only [usageBetween, hl, hp, hli, hpi, Float64.ofNat, Nat.cast_zero, Float64.ofRat_zero,
    Float64.sub, Float64.neg, Float64.add, neg_zero, add_zero, add_neg_cancel, Float64.div,
    if_true, Float64.mul]

/-- With 100 ticks of which 93 idle the quotient 0.07 is rounded and the product
with 100 is the float64 next above 7. -/
theorem getCPUUsage_seven_percent :
    GetCPUUsage sevenPercentNode true = Float64.fin (7 + 1 / 2 ^ 50) := by
  have h7 : Float64.ofRat ((7 / 100) : ℚ) = Float64.fin (1261007895663739 / 18014398509481984) := by
    rw [Float64.ofRat_eval_pos (7 / 100) (-4) (5044031582654956) (by norm_num) (by norm_num)
      (by norm_num) (by norm_num)
      (roundHalfEven_of_near _ (5044031582654956) (by norm_num) (by norm_num))]
    norm_num
  have h7b : Float64.ofRat ((31525197391593475 / 4503599627370496) : ℚ) = Float64.fin (7881299347898369 / 1125899906842624) := by
    rw [Float64.ofRat_eval_pos (31525197391593475 / 4503599627370496) (2) (7881299347898369) (by norm_num) (by norm_num)
      (by norm_num) (by norm_num)
      (roundHalfEven_of_near _ (7881299347898369) (by norm_num) (by norm_num))]
    norm_num
  rw [getCPUUsage_two sevenPercentNode [] zeroSample sevenPercentSample rfl,
    usageBetween_eq _ _ (by decide) (by decide)]
  have e1 : (((tenSum sevenPercentSample.toCPUStat : ℚ) - tenSum zeroSample.toCPUStat)
      - ((sevenPercentSample.toCPUStat.Idle : ℚ) - zeroSample.toCPUStat.Idle)) = 7 := by
    norm_num [tenSum, sevenPercentSample, zeroSample]
  have e2 : ((tenSum sevenPercentSample.toCPUStat : ℚ) - tenSum zeroSample.toCPUStat) = 100 := by
    norm_num [tenSum, sevenPercentSample, zeroSample]
  have e3 : ((1261007895663739 / 18014398509481984 : ℚ) * 100) =
      31525197391593475 / 4503599627370496 := by norm_num
  rw [e1, e2, float64_div_fin _ _ (by norm_num), h7, float64_mul_fin, e3, h7b]
  norm_num

/-- Counterexample for C2: with a user counter of 2^53 in the previous sample
and 2^53 + 1 in the later one the sum grew by one tick, none of it idle, but
both sums are 2^53 as float64 and GetCPUUsage returns NaN, not 100; for a node
that is not alive GetCPUUsage returns 0 whatever the samples are; and with
Δtotal = 100 and Δidle = 93 the result is 7 + 2^-50, the float64 next above the
exact value 7 of (Δtotal − Δidle) / Δtotal × 100. -/
theorem cpu_usage_of_huge_counters_is_nan :
    hugeCounterNode.cpuUsage.length = 2 ∧
    GetCPUUsage hugeCounterNode true = Float64.nan ∧
    GetCPUUsage busyNode false = Float64.fin 0 ∧
    sevenPercentNode.cpuUsage = [zeroSample, sevenPercentSample] ∧
    ((100 : ℚ) - 93) / 100 * 100 = 7 ∧
    GetCPUUsage sevenPercentNode true = Float64.fin (7 + 1 / 2 ^ 50) := by
  refine ⟨rfl, ?_, rfl, rfl, by norm_num, getCPUUsage_seven_percent⟩
  rw [getCPUUsage_two hugeCounterNode []
    ⟨⟨"cpu", 9007199254740992, 0, 0, 0, 0, 0, 0, 0, 0, 0⟩, [], 0⟩
    ⟨⟨"cpu", 9007199254740993, 0, 0, 0, 0, 0, 0, 0, 0, 0⟩, [], 2⟩ rfl]
  have h53 : Float64.ofRat 9007199254740992 = Float64.fin 9007199254740992 := by
    rw [Float64.ofRat_eval_pos 9007199254740992 53 4503599627370496 (by norm_num) (by norm_num)
      (by norm_num) (by norm_num)
      (by
        rw [show (9007199254740992 : ℚ) / (2 : ℚ) ^ ((53 : ℤ) - 52) =
          ((4503599627370496 : ℤ) : ℚ) by norm_num]
        exact roundHalfEven_intCast _)]
    norm_num
  have h53p : Float64.ofRat 9007199254740993 = Float64.fin 9007199254740992 := by
    rw [Float64.ofRat_eval_pos 9007199254740993 53 4503599627370496 (by norm_num) (by norm_num)
      (by norm_num) (by norm_num)
      (by
        rw [show (9007199254740993 : ℚ) / (2 : ℚ) ^ ((53 : ℤ) - 52) =
          ((4503599627370496 : ℤ) : ℚ) + 1 / 2 by norm_num]
        exact roundHalfEven_tie_down 4503599627370496 (by decide))]
    norm_num
  show usageBetween ⟨"cpu", 9007199254740993, 0, 0, 0, 0, 0, 0, 0, 0, 0⟩
    ⟨"cpu", 9007199254740992, 0, 0, 0, 0, 0, 0, 0, 0, 0⟩ = Float64.nan
  exact usageBetween_of_equal_sums _ _ 9007199254740992
    (sumFloat64_user_only "cpu" 9007199254740993 9007199254740992
      (by rw [Float64.ofNat, Nat.cast_ofNat]; exact h53p) h53)
    (sumFloat64_user_only "cpu" 9007199254740992 9007199254740992
      (by rw [Float64.ofNat, Nat.cast_ofNat]; exact h53) h53)
    rfl rfl

theorem evictHead_of_nonneg {α : Type} (limit : Int) (xs : List α) (h : 0 ≤ limit) :
    evictHead limit xs = some (dropOverflow limit xs) := by
  unfold evictHead dropOverflow
  cases xs with
  | nil =>
    have : ¬ (((([] : List α).length : Nat) : Int) > limit) := by simpa using h
    simp only [this, if_false]
  | cons a rest => split <;> rfl

theorem appendRate_eq {α : Type} (zero : α) (buf : List α) (v : α) :
    appendRate zero buf v = buf ++ [if buf.length = 0 then zero else v] := by
  unfold appendRate
  split <;> rfl

theorem dropOverflow_append_getLast {α : Type} (limit : Int) (xs : List α) (v : α)
    (h : 0 < limit) : (dropOverflow limit (xs ++ [v])).getLast? = some v := by
  unfold dropOverflow
  split
  · rename_i hlen
    cases xs with
    | nil => simp at hlen; omega
    | cons a rest => simp
  · simp

theorem dropOverflow_twice_append_getLast {α : Type} (limit : Int) (xs : List α) (v : α)
    (h : 0 < limit) :
    (dropOverflow limit (dropOverflow limit (xs ++ [v]))).getLast? = some v := by
  by_cases hlen : (((xs ++ [v]).length : Nat) : Int) > limit
  · cases xs with
    | nil => simp at hlen; omega
    | cons a rest =>
      have h1 : dropOverflow limit ((a :: rest) ++ [v]) = rest ++ [v] := by
        unfold dropOverflow
        rw [if_pos hlen]
        rfl
      rw [h1]
      exact dropOverflow_append_getLast limit rest v h
  · have h1 : dropOverflow limit (xs ++ [v]) = xs ++ [v] := by
      unfold dropOverflow
      rw [if_neg hlen]
    rw [h1]
    exact dropOverflow_append_getLast limit xs v h

theorem dropOverflow_length_le {α : Type} (limit : Int) (xs : List α) (h0 : 0 ≤ limit)
    (h : (xs.length : Int) ≤ limit + 1) : ((dropOverflow limit xs).length : Int) ≤ limit := by
  unfold dropOverflow
  split
  · cases xs with
    | nil => simpa using h0
    | cons a rest => simp at h ⊢; omega
  · omega

theorem getDiskIOBytes_two (n : Node) (device : String) (pre : List DiskIO) (p l : DiskIO)
    (hdev : device.utf8ByteSize ≠ 0) (hs : mapGet n.DiskIOs device = pre ++ [p, l])
    (h0 : 0 ≤ n.DiskIOsLimit) :
    getDiskIOBytes n device = some
      { n with
        DiskReadIOBytes := dropOverflow n.DiskIOsLimit
          (appendRate 0 n.DiskReadIOBytes (wrapInt64 (l.ReadBytes - p.ReadBytes)))
        DiskWriteIOBytes := dropOverflow n.DiskIOsLimit
          (appendRate 0 n.DiskWriteIOBytes (wrapInt64 (l.WriteBytes - p.WriteBytes))) } := by
  have hlen : (mapGet n.DiskIOs device).length > 1 := by simp [hs]
  simp only [getDiskIOBytes, hdev, if_false, hlen, dite_true]
  rw [getElem_last_of_two _ pre p l hs, getElem_prev_of_two _ pre p l hs]
  simp only [evictHead_of_nonneg _ _ h0]

theorem getNetworkIO_two (n : Node) (device : String) (pre : List NetworkIO) (p l : NetworkIO)
    (hdev : device.utf8ByteSize ≠ 0) (hs : mapGet n.NetworkIOs device = pre ++ [p, l])
    (h0 : 0 ≤ n.NetworkIOsLimit) :
    getNetworkIO n device = some
      { n with
        NetworkRXBytes := dropOverflow n.NetworkIOsLimit (dropOverflow n.NetworkIOsLimit
          (appendRate 0 n.NetworkRXBytes (subUint64 l.RXBytes p.RXBytes)))
        NetworkRXPackets := dropOverflow n.NetworkIOsLimit
          (appendRate 0 n.NetworkRXPackets (subUint64 l.RXPackets p.RXPackets))
        NetworkTXBytes := dropOverflow n.NetworkIOsLimit
          (appendRate 0 n.NetworkTXBytes (subUint64 l.TXBytes p.TXBytes))
        NetworkTXPackets :=
          appendRate 0 n.NetworkTXPackets (subUint64 l.TXPackets p.TXPackets) } := by
  have hlen : (mapGet n.NetworkIOs device).length > 1 := by simp [hs]
  simp only [ getNetworkIO, hdev, if_false, hlen, dite_true]
  rw [getElem_last_of_two _ pre p l hs, getElem_prev_of_two _ pre p l hs]
  simp only [evictHead_of_nonneg _ _ h0]


theorem utf8ByteSize_ne_zero (s : String) (h : s ≠ "") : s.utf8ByteSize ≠ 0 := by
  obtain ⟨cs⟩ := s
  cases cs with
  | nil => exact absurd rfl h
  | cons c rest =>
    have hc := Char.utf8Size_pos c
    simp only [String.utf8ByteSize, String.utf8ByteSize.go]
    omega

theorem wrapInt64_of_range (x : Int) (h1 : -(2 : Int) ^ 63 ≤ x) (h2 : x < 2 ^ 63) :
    wrapInt64 x = x := by
  unfold wrapInt64
  rw [Int.emod_eq_of_lt (by omega) (by omega)]
  omega

theorem subUint64_of_le (a b : Nat) (h : b ≤ a) (ha : a < 2 ^ 64) : subUint64 a b = a - b := by
  unfold subUint64
  omega

theorem subUint64_of_lt (a b : Nat) (h : a < b) (hb : b < 2 ^ 64) :
    subUint64 a b = a + 2 ^ 64 - b := by
  unfold subUint64
  omega

/-- C3 (amended). Rate derivation: for a disk and an interface that have at
least two stored samples (previous p, latest l) on a node with positive limits,
the value that getDiskIOBytes and getNetworkIO append to each rate buffer, which
is the last element of the buffer after the call, is 0 when that buffer was
empty before the call and the latest counter minus the previous one otherwise,
the subtraction being the one of int64 (disk) and of uint64 (network); without
overflow that is the exact difference. -/
theorem rate_is_first_difference (n : Node) (disk iface : String)
    (dpre : List DiskIO) (dp dl : DiskIO) (npre : List NetworkIO) (np nl : NetworkIO)
    (hdisk : disk ≠ "") (hiface : iface ≠ "")
    (hd : mapGet n.DiskIOs disk = dpre ++ [dp, dl])
    (hn : mapGet n.NetworkIOs iface = npre ++ [np, nl])
    (hdl : 0 < n.DiskIOsLimit) (hnl : 0 < n.NetworkIOsLimit) :
    (∃ m, getDiskIOBytes n disk = some m ∧
      m.DiskReadIOBytes.getLast? = some
        (if n.DiskReadIOBytes.length = 0 then 0 else wrapInt64 (dl.ReadBytes - dp.ReadBytes)) ∧
      m.DiskWriteIOBytes.getLast? = some
        (if n.DiskWriteIOBytes.length = 0 then 0
          else wrapInt64 (dl.WriteBytes - dp.WriteBytes))) ∧
    (∃ m, getNetworkIO n iface = some m ∧
      m.NetworkRXBytes.getLast? = some
        (if n.NetworkRXBytes.length = 0 then 0 else subUint64 nl.RXBytes np.RXBytes) ∧
      m.NetworkTXBytes.getLast? = some
        (if n.NetworkTXBytes.length = 0 then 0 else subUint64 nl.TXBytes np.TXBytes) ∧
      m.NetworkRXPackets.getLast? = some
        (if n.NetworkRXPackets.length = 0 then 0 else subUint64 nl.RXPackets np.RXPackets) ∧
      m.NetworkTXPackets.getLast? = some
        (if n.NetworkTXPackets.length = 0 then 0 else subUint64 nl.TXPackets np.TXPackets)) ∧
    (∀ x : Int, -(2 : Int) ^ 63 ≤ x → x < 2 ^ 63 → wrapInt64 x = x) ∧
    (∀ a b : Nat, b ≤ a → a < 2 ^ 64 → subUint64 a b = a - b) := by
  refine ⟨⟨_, getDiskIOBytes_two n disk dpre dp dl (utf8ByteSize_ne_zero _ hdisk) hd
      (le_of_lt hdl), ?_, ?_⟩,
    ⟨_, getNetworkIO_two n iface npre np nl (utf8ByteSize_ne_zero _ hiface) hn (le_of_lt hnl),
      ?_, ?_, ?_, ?_⟩, wrapInt64_of_range, subUint64_of_le⟩
  · simp only [appendRate_eq]
    exact dropOverflow_append_getLast _ _ _ hdl
  · simp only [appendRate_eq]
    exact dropOverflow_append_getLast _ _ _ hdl
  · simp only [appendRate_eq]
    exact dropOverflow_twice_append_getLast _ _ _ hnl
  · simp only [appendRate_eq]
    exact dropOverflow_append_getLast _ _ _ hnl
  · simp only [appendRate_eq]
    exact dropOverflow_append_getLast _ _ _ hnl
  · simp only [appendRate_eq]
    exact List.getLast?_concat _

/-- Witness for C3: on warmNode the six appended values are the six differences
of the stored counters. -/
theorem rate_is_first_difference_witness :
    (∃ m, getDiskIOBytes warmNode "/dev/sda" = some m ∧
      m.DiskReadIOBytes.getLast? = some 200 ∧ m.DiskWriteIOBytes.getLast? = some 30) ∧
    (∃ m, getNetworkIO warmNode "eth0" = some m ∧
      m.NetworkRXBytes.getLast? = some 600 ∧ m.NetworkTXBytes.getLast? = some 900 ∧
      m.NetworkRXPackets.getLast? = some 5 ∧ m.NetworkTXPackets.getLast? = some 7) := by
  have h := rate_is_first_difference warmNode "/dev/sda" "eth0" [] _ _ [] _ _
    (by decide) (by decide) rfl rfl (by decide) (by decide)
  exact ⟨h.1, h.2.1⟩

/-- Counterexample for C3: coldNode holds two samples of /dev/sda whose read
counters differ by 200, yet the first call, made on an empty rate buffer,
appends 0. -/
theorem first_rate_is_zero :
    mapGet coldNode.DiskIOs "/dev/sda" =
      [⟨"/dev/sda", 1, 100, 1, 50⟩, ⟨"/dev/sda", 2, 300, 2, 80⟩] ∧
    coldNode.DiskReadIOBytes = [] ∧
    Option.map (fun m => m.DiskReadIOBytes) (getDiskIOBytes coldNode "/dev/sda") = some [0] ∧
    (300 : Int) - 100 ≠ 0 := by
  decide


/-- C4 (amended). Counter reset: for a disk and an interface whose two latest
stored samples are p and l, on a node with positive limits, both rate functions
return and leave the source series DiskIOs and NetworkIOs unchanged; and for
every counter whose latest value is lower than the previous one, the value
appended to a non-empty rate buffer is the negative number l − p for a disk
counter and the wrapped-around unsigned value l + 2^64 − p for a network
counter. -/
theorem counter_reset_is_not_handled (n : Node) (disk iface : String)
    (dpre : List DiskIO) (dp dl : DiskIO) (npre : List NetworkIO) (np nl : NetworkIO)
    (hdisk : disk ≠ "") (hiface : iface ≠ "")
    (hd : mapGet n.DiskIOs disk = dpre ++ [dp, dl])
    (hn : mapGet n.NetworkIOs iface = npre ++ [np, nl])
    (hdl : 0 < n.DiskIOsLimit) (hnl : 0 < n.NetworkIOsLimit) :
    (∃ m, getDiskIOBytes n disk = some m ∧ m.DiskIOs = n.DiskIOs ∧
      (dl.ReadBytes < dp.ReadBytes → dp.ReadBytes - dl.ReadBytes ≤ 2 ^ 63 →
        n.DiskReadIOBytes ≠ [] →
        m.DiskReadIOBytes.getLast? = some (dl.ReadBytes - dp.ReadBytes)) ∧
      (dl.WriteBytes < dp.WriteBytes → dp.WriteBytes - dl.WriteBytes ≤ 2 ^ 63 →
        n.DiskWriteIOBytes ≠ [] →
        m.DiskWriteIOBytes.getLast? = some (dl.WriteBytes - dp.WriteBytes))) ∧
    (∃ m, getNetworkIO n iface = some m ∧ m.NetworkIOs = n.NetworkIOs ∧
      (nl.RXBytes < np.RXBytes → np.RXBytes < 2 ^ 64 → n.NetworkRXBytes ≠ [] →
        m.NetworkRXBytes.getLast? = some (nl.RXBytes + 2 ^ 64 - np.RXBytes)) ∧
      (nl.TXBytes < np.TXBytes → np.TXBytes < 2 ^ 64 → n.NetworkTXBytes ≠ [] →
        m.NetworkTXBytes.getLast? = some (nl.TXBytes + 2 ^ 64 - np.TXBytes)) ∧
      (nl.RXPackets < np.RXPackets → np.RXPackets < 2 ^ 64 → n.NetworkRXPackets ≠ [] →
        m.NetworkRXPackets.getLast? = some (nl.RXPackets + 2 ^ 64 - np.RXPackets)) ∧
      (nl.TXPackets < np.TXPackets → np.TXPackets < 2 ^ 64 → n.NetworkTXPackets ≠ [] →
        m.NetworkTXPackets.getLast? = some (nl.TXPackets + 2 ^ 64 - np.TXPackets))) := by
  have hne : ∀ {α : Type} (xs : List α), xs ≠ [] → ¬ xs.length = 0 := fun xs h h0 =>
    h (List.length_eq_zero.mp h0)
  refine ⟨⟨_, getDiskIOBytes_two n disk dpre dp dl (utf8ByteSize_ne_zero _ hdisk) hd
      (le_of_lt hdl), rfl, ?_, ?_⟩,
    ⟨_, getNetworkIO_two n iface npre np nl (utf8ByteSize_ne_zero _ hiface) hn (le_of_lt hnl),
      rfl, ?_, ?_, ?_, ?_⟩⟩
  · intro hlt hr hb
    simp only [appendRate_eq, hne _ hb, if_false]
    rw [wrapInt64_of_range _ (by omega) (by omega)]
    exact dropOverflow_append_getLast _ _ _ hdl
  · intro hlt hr hb
    simp only [appendRate_eq, hne _ hb, if_false]
    rw [wrapInt64_of_range _ (by omega) (by omega)]
    exact dropOverflow_append_getLast _ _ _ hdl
  · intro hlt hr hb
    simp only [appendRate_eq, hne _ hb, if_false]
    rw [subUint64_of_lt _ _ hlt hr]
    exact dropOverflow_twice_append_getLast _ _ _ hnl
  · intro hlt hr hb
    simp only [appendRate_eq, hne _ hb, if_false]
    rw [subUint64_of_lt _ _ hlt hr]
    exact dropOverflow_append_getLast _ _ _ hnl
  · intro hlt hr hb
    simp only [appendRate_eq, hne _ hb, if_false]
    rw [subUint64_of_lt _ _ hlt hr]
    exact dropOverflow_append_getLast _ _ _ hnl
  · intro hlt hr hb
    simp only [appendRate_eq, hne _ hb, if_false]
    rw [subUint64_of_lt _ _ hlt hr]
    exact List.getLast?_concat _

/-- Witness for C4: on resetNode the read rate of /dev/sda is 512 − 4096 and the
RX byte rate of eth0 is 500 + 2^64 − 10000. -/
theorem counter_reset_is_not_handled_witness :
    (∃ m, getDiskIOBytes resetNode "/dev/sda" = some m ∧ m.DiskIOs = resetNode.DiskIOs ∧
      m.DiskReadIOBytes.getLast? = some (-3584)) ∧
    (∃ m, getNetworkIO resetNode "eth0" = some m ∧ m.NetworkIOs = resetNode.NetworkIOs ∧
      m.NetworkRXBytes.getLast? = some 18446744073709542116) := by
  have h := counter_reset_is_not_handled resetNode "/dev/sda" "eth0" [] _ _ [] _ _
    (by decide) (by decide) rfl rfl (by decide) (by decide)
  obtain ⟨⟨m, hm, hs, hr, _⟩, ⟨k, hk, hks, hrx, _⟩⟩ := h
  exact ⟨⟨m, hm, hs, hr (by decide) (by decide) (by decide)⟩,
    ⟨k, hk, hks, hrx (by decide) (by decide) (by decide)⟩⟩

/-- Counterexample for C4: rxBytes of eth0 went from 10000 to 500; the call
appends the wrapped difference 18446744073709542116, not 0, and the stored
series of eth0 is the same as before. -/
theorem counter_reset_rate_wraps :
    mapGet resetNode.NetworkIOs "eth0" =
      [⟨"eth0", 70, 10000, 70, 10000⟩, ⟨"eth0", 5, 500, 5, 500⟩] ∧
    Option.map (fun m => m.NetworkRXBytes) ( getNetworkIO resetNode "eth0") =
      some [0, 18446744073709542116] ∧
    Option.map (fun m => mapGet m.NetworkIOs "eth0") ( getNetworkIO resetNode "eth0") =
      some [⟨"eth0", 70, 10000, 70, 10000⟩, ⟨"eth0", 5, 500, 5, 500⟩] := by
  decide


theorem appendEvict_lastN {α : Type} (k : Nat) (xs : List α) (x : α) :
    appendEvict (k : Int) (lastN k xs) x = lastN k (xs ++ [x]) := by
  unfold appendEvict lastN
  simp only [List.length_append, List.length_drop, List.length_singleton]
  by_cases h : xs.length + 1 ≤ k
  · have h1 : xs.length - k = 0 := by omega
    have h2 : xs.length + 1 - k = 0 := by omega
    have h3 : ¬ (((xs.length - (xs.length - k) + 1 : Nat) : Int) > (k : Int)) := by
      rw [h1]
      simp only [Nat.sub_zero, gt_iff_lt, not_lt]
      exact_mod_cast h
    rw [if_neg h3, h1, h2]
    rfl
  · have h3 : (((xs.length - (xs.length - k) + 1 : Nat) : Int) > (k : Int)) := by
      have : xs.length - (xs.length - k) = k := by omega
      rw [this]
      exact_mod_cast Nat.lt_succ_self k
    rw [if_pos h3]
    have h4 : xs.length + 1 - k = (xs.length - k) + 1 := by omega
    rw [h4, ← List.drop_drop, List.drop_append_of_le_length (by omega)]
    simp

theorem monitoringCPUUsage_alive (n : Node) (r : Remote) (ha : r.alive = true) :
    (MonitoringCPUUsage n r).cpuUsageLimit = n.cpuUsageLimit ∧
    (MonitoringCPUUsage n r).PathProcStat = n.PathProcStat ∧
    (MonitoringCPUUsage n r).cpuUsage =
      (match cpuSampleOf r n.PathProcStat with
        | none => n.cpuUsage
        | some c => appendEvict n.cpuUsageLimit n.cpuUsage c) := by
  unfold MonitoringCPUUsage cpuSampleOf
  simp only [ha, Bool.not_true, Bool.false_eq_true, if_false]
  cases r.ReadStat n.PathProcStat <;> exact ⟨rfl, rfl, rfl⟩

theorem cpuFold_lastN (rs : List Remote) (halive : ∀ r ∈ rs, r.alive = true) (n : Node)
    (k : Nat) (acc : List CPUUsage) (hk : n.cpuUsageLimit = (k : Int))
    (hacc : n.cpuUsage = lastN k acc) :
    (rs.foldl MonitoringCPUUsage n).cpuUsage =
      lastN k (acc ++ rs.filterMap (fun r => cpuSampleOf r n.PathProcStat)) := by
  induction rs generalizing n acc with
  | nil => simpa using hacc
  | cons r rest ih =>
    have ha : r.alive = true := halive r (List.mem_cons_self _ _)
    obtain ⟨h1, h2, h3⟩ := monitoringCPUUsage_alive n r ha
    have hrest : ∀ q ∈ rest, q.alive = true := fun q hq => halive q (List.mem_cons_of_mem _ hq)
    rw [List.foldl_cons]
    cases hc : cpuSampleOf r n.PathProcStat with
    | none =>
      rw [hc] at h3
      have := ih hrest (MonitoringCPUUsage n r) acc (by rw [h1, hk]) (by rw [h3, hacc])
      rw [this, h2]
      simp [List.filterMap_cons, hc]
    | some c =>
      rw [hc] at h3
      have := ih hrest (MonitoringCPUUsage n r) (acc ++ [c]) (by rw [h1, hk])
        (by rw [h3, hacc, hk]; exact appendEvict_lastN k acc c)
      rw [this, h2]
      simp [List.filterMap_cons, hc]

/-- C5 (amended). CPU series: in every state reached from NewNode by
MonitoringCPUUsage steps on an alive node, cpuUsage is the sequence of the last
480 (or fewer) successfully read samples, in the order they were read, whatever
their totals: a sample with a lower total than the one stored before it is
appended like any other and the series is not reset. -/
theorem cpu_series_is_recent_samples (name : String) (rs : List Remote)
    (halive : ∀ r ∈ rs, r.alive = true) :
    (rs.foldl MonitoringCPUUsage (NewNode name)).cpuUsage =
      lastN 480 (rs.filterMap (fun r => cpuSampleOf r "/proc/stat")) := by
  have h := cpuFold_lastN rs halive (NewNode name) 480 [] rfl rfl
  simpa using h

/-- Witness for C5: two reads on an alive node, the second with a lower total;
both samples are stored, in read order. -/
theorem cpu_series_is_recent_samples_witness :
    ([demoRemote, rebootedRemote].foldl MonitoringCPUUsage (NewNode "host")).cpuUsage =
      [⟨⟨"cpu", 10, 0, 5, 80, 1, 0, 0, 0, 0, 0⟩, [], 7⟩,
       ⟨⟨"cpu", 1, 0, 1, 8, 0, 0, 0, 0, 0, 0⟩, [], 9⟩] :=
  cpu_series_is_recent_samples "host" [demoRemote, rebootedRemote] (by decide)

/-- Counterexample for C5: after a read with total 96 and a read with total 10
on an alive node, the two samples are adjacent in cpuUsage although the later
total is lower. -/
theorem cpu_totals_can_decrease :
    demoRemote.alive = true ∧ rebootedRemote.alive = true ∧
    (MonitoringCPUUsage (MonitoringCPUUsage (NewNode "host") demoRemote) rebootedRemote).cpuUsage
      = [⟨⟨"cpu", 10, 0, 5, 80, 1, 0, 0, 0, 0, 0⟩, [], 7⟩,
         ⟨⟨"cpu", 1, 0, 1, 8, 0, 0, 0, 0, 0, 0⟩, [], 9⟩] ∧
    tenSum ⟨"cpu", 1, 0, 1, 8, 0, 0, 0, 0, 0, 0⟩ < tenSum ⟨"cpu", 10, 0, 5, 80, 1, 0, 0, 0, 0, 0⟩ := by
  decide


/-- C6 (amended). Clear on disconnect: after one pass of the StartMonitoring
loop during which CheckClientAlive is false for the three samplers, the raw
series cpuUsage, DiskIOs and NetworkIOs are empty and nothing else of the node
has changed; in particular the derived rate buffers DiskReadIOBytes,
DiskWriteIOBytes, NetworkRXBytes, NetworkTXBytes, NetworkRXPackets and
NetworkTXPackets are the ones of before the tick. -/
theorem dead_tick_clears_raw_series_only (n : Node) (r1 r2 r3 : Remote)
    (h1 : r1.alive = false) (h2 : r2.alive = false) (h3 : r3.alive = false) :
    startMonitoringTick n r1 r2 r3 = { n with cpuUsage := [], DiskIOs := [], NetworkIOs := [] } ∧
    (startMonitoringTick n r1 r2 r3).cpuUsage = [] ∧
    (∀ d, mapGet (startMonitoringTick n r1 r2 r3).DiskIOs d = []) ∧
    (∀ d, mapGet (startMonitoringTick n r1 r2 r3).NetworkIOs d = []) ∧
    (startMonitoringTick n r1 r2 r3).DiskReadIOBytes = n.DiskReadIOBytes ∧
    (startMonitoringTick n r1 r2 r3).DiskWriteIOBytes = n.DiskWriteIOBytes ∧
    (startMonitoringTick n r1 r2 r3).NetworkRXBytes = n.NetworkRXBytes ∧
    (startMonitoringTick n r1 r2 r3).NetworkTXBytes = n.NetworkTXBytes ∧
    (startMonitoringTick n r1 r2 r3).NetworkRXPackets = n.NetworkRXPackets ∧
    (startMonitoringTick n r1 r2 r3).NetworkTXPackets = n.NetworkTXPackets := by
  have h : startMonitoringTick n r1 r2 r3 =
      { n with cpuUsage := [], DiskIOs := [], NetworkIOs := [] } := by
    simp [startMonitoringTick, MonitoringCPUUsage, MonitoringDiskIO, MonitoringNetworkIO, h1, h2,
      h3]
  rw [h]
  exact ⟨rfl, rfl, fun _ => rfl, fun _ => rfl, rfl, rfl, rfl, rfl, rfl, rfl⟩

/-- Witness for C6: a dead tick on warmNode. -/
theorem dead_tick_clears_raw_series_only_witness :
    (startMonitoringTick warmNode deadRemote deadRemote deadRemote).cpuUsage = [] ∧
    (startMonitoringTick warmNode deadRemote deadRemote deadRemote).NetworkTXPackets = [0] :=
  ⟨(dead_tick_clears_raw_series_only warmNode deadRemote deadRemote deadRemote rfl rfl rfl).2.1,
    (dead_tick_clears_raw_series_only warmNode deadRemote deadRemote deadRemote
      rfl rfl rfl).2.2.2.2.2.2.2.2.2⟩

/-- Counterexample for C6: warmNode holds one value in each derived rate
buffer; after a tick on a host that is not alive the raw series are empty but
the six rate buffers still hold their value. -/
theorem dead_tick_keeps_rate_buffers :
    deadRemote.alive = false ∧
    (startMonitoringTick warmNode deadRemote deadRemote deadRemote).DiskIOs = [] ∧
    (startMonitoringTick warmNode deadRemote deadRemote deadRemote).DiskReadIOBytes = [0] ∧
    (startMonitoringTick warmNode deadRemote deadRemote deadRemote).DiskWriteIOBytes = [0] ∧
    (startMonitoringTick warmNode deadRemote deadRemote deadRemote).NetworkRXBytes = [0] ∧
    (startMonitoringTick warmNode deadRemote deadRemote deadRemote).NetworkTXBytes = [0] ∧
    (startMonitoringTick warmNode deadRemote deadRemote deadRemote).NetworkRXPackets = [0] ∧
    (startMonitoringTick warmNode deadRemote deadRemote deadRemote).NetworkTXPackets = [0] := by
  decide

/-- C7. Clear on disconnect, raw series: when CheckClientAlive is false,
MonitoringCPUUsage returns the node with cpuUsage empty, MonitoringDiskIO the
node with DiskIOs the empty map and MonitoringNetworkIO the node with
NetworkIOs the empty map; nothing else changes, so no sample is appended, and
the list of remote paths read is the one of before the step. -/
theorem dead_sampler_clears_and_returns (n : Node) (r : Remote) (h : r.alive = false) :
    MonitoringCPUUsage n r = { n with cpuUsage := [] } ∧
    MonitoringDiskIO n r = { n with DiskIOs := [] } ∧
    MonitoringNetworkIO n r = { n with NetworkIOs := [] } ∧
    (MonitoringCPUUsage n r).remoteReads = n.remoteReads ∧
    ( MonitoringDiskIO n r).remoteReads = n.remoteReads ∧
    ( MonitoringNetworkIO n r).remoteReads = n.remoteReads ∧
    (∀ d, mapGet ( MonitoringDiskIO n r).DiskIOs d = []) ∧
    (∀ d, mapGet ( MonitoringNetworkIO n r).NetworkIOs d = []) := by
  have hc : MonitoringCPUUsage n r = { n with cpuUsage := [] } := by
    simp [MonitoringCPUUsage, h]
  have hd : MonitoringDiskIO n r = { n with DiskIOs := [] } := by
    simp [ MonitoringDiskIO, h]
  have hn : MonitoringNetworkIO n r = { n with NetworkIOs := [] } := by
    simp [ MonitoringNetworkIO, h]
  rw [hc, hd, hn]
  exact ⟨rfl, rfl, rfl, rfl, rfl, rfl, fun _ => rfl, fun _ => rfl⟩

/-- Witness for C7: the three samplers on warmNode with a host that is not
alive. -/
theorem dead_sampler_clears_and_returns_witness :
    (MonitoringCPUUsage warmNode deadRemote).cpuUsage = [] ∧
    ( MonitoringDiskIO warmNode deadRemote).DiskIOs = [] ∧
    ( MonitoringNetworkIO warmNode deadRemote).NetworkIOs = [] ∧
    ( MonitoringNetworkIO warmNode deadRemote).remoteReads = [] := by
  have h := dead_sampler_clears_and_returns warmNode deadRemote rfl
  exact ⟨by rw [h.1], by rw [h.2.1], by rw [h.2.2.1], h.2.2.2.2.2.1⟩


theorem networkRate_repeat (k : Nat) (device : String) (hdev : device ≠ "") (n : Node)
    (pre : List NetworkIO) (p l : NetworkIO)
    (hs : mapGet n.NetworkIOs device = pre ++ [p, l]) (h0 : 0 ≤ n.NetworkIOsLimit) :
    ∃ m, run n (List.replicate k (Action.networkRate device)) = some m ∧
      m.NetworkTXPackets.length = n.NetworkTXPackets.length + k ∧
      m.NetworkIOsLimit = n.NetworkIOsLimit := by
  induction k generalizing n with
  | zero => exact ⟨n, rfl, rfl, rfl⟩
  | succ k ih =>
    have hstep := getNetworkIO_two n device pre p l (utf8ByteSize_ne_zero _ hdev) hs h0
    obtain ⟨n1, hn1, hios, hlim1, htx⟩ : ∃ n1, getNetworkIO n device = some n1 ∧
        n1.NetworkIOs = n.NetworkIOs ∧ n1.NetworkIOsLimit = n.NetworkIOsLimit ∧
        n1.NetworkTXPackets.length = n.NetworkTXPackets.length + 1 :=
      ⟨_, hstep, rfl, rfl, by simp [appendRate_eq]⟩
    obtain ⟨m, hm, hlen, hlim⟩ := ih n1 (by rw [hios]; exact hs) (by rw [hlim1]; exact h0)
    refine ⟨m, ?_, ?_, by rw [hlim, hlim1]⟩
    · rw [List.replicate_succ]
      simp only [run, step, hn1]
      exact hm
    · rw [hlen, htx]
      omega

/-- C8, the failing run. From NewNode, two samples of eth0 followed by 481 calls
of getNetworkIO for eth0 leave 481 values in NetworkTXPackets, while
NetworkIOsLimit is 480. -/
theorem tx_packets_buffer_exceeds_limit :
    Option.map (fun m => (m.NetworkTXPackets.length, m.NetworkIOsLimit))
      (run (NewNode "host")
        (Action.network demoRemote :: Action.network demoRemote ::
          List.replicate 481 (Action.networkRate "eth0"))) = some (481, 480) := by
  obtain ⟨m, hm, hlen, hlim⟩ := networkRate_repeat 481 "eth0" (by decide)
    ( MonitoringNetworkIO ( MonitoringNetworkIO (NewNode "host") demoRemote) demoRemote)
    [] ⟨"eth0", 10, 1000, 20, 2000⟩ ⟨"eth0", 10, 1000, 20, 2000⟩ (by decide) (by decide)
  have hrun : ∀ (n : Node) (r : Remote) (rest : List Action),
      run n (Action.network r :: rest) = run ( MonitoringNetworkIO n r) rest :=
    fun _ _ _ => rfl
  rw [hrun, hrun, hm, Option.map_some', hlen, hlim]
  rfl


/-- C9 (amended). Zero delta: on an alive node whose two latest samples are p
and l, both with a counter sum below 2^53, when the totals are equal
GetCPUUsage returns NaN if the idle counters are equal too (for instance for
identical samples), +Inf if idle went down and -Inf if idle went up; when the
later total is lower it returns the float64 value of
(Δtotal − Δidle) / Δtotal × 100 as for a positive delta, the quotient and the
product rounded, which is finite and within the fraction 2^-51 of the exact
value. No zero is substituted. -/
theorem cpu_usage_zero_delta (n : Node) (pre : List CPUUsage) (p l : CPUUsage)
    (hs : n.cpuUsage = pre ++ [p, l]) (hl : tenSum l.toCPUStat < 2 ^ 53)
    (hp : tenSum p.toCPUStat < 2 ^ 53) :
    (tenSum l.toCPUStat = tenSum p.toCPUStat → l.toCPUStat.Idle = p.toCPUStat.Idle →
      GetCPUUsage n true = Float64.nan) ∧
    (tenSum l.toCPUStat = tenSum p.toCPUStat → l.toCPUStat.Idle < p.toCPUStat.Idle →
      GetCPUUsage n true = Float64.posInf) ∧
    (tenSum l.toCPUStat = tenSum p.toCPUStat → p.toCPUStat.Idle < l.toCPUStat.Idle →
      GetCPUUsage n true = Float64.negInf) ∧
    (tenSum l.toCPUStat < tenSum p.toCPUStat →
      GetCPUUsage n true =
        Float64.mul (Float64.div
          (Float64.fin (((tenSum l.toCPUStat : ℚ) - tenSum p.toCPUStat)
              - ((l.toCPUStat.Idle : ℚ) - p.toCPUStat.Idle)))
          (Float64.fin ((tenSum l.toCPUStat : ℚ) - tenSum p.toCPUStat))) (Float64.fin 100) ∧
      ∃ r : ℚ, GetCPUUsage n true = Float64.fin r ∧
        |r - (((tenSum l.toCPUStat : ℚ) - tenSum p.toCPUStat)
              - ((l.toCPUStat.Idle : ℚ) - p.toCPUStat.Idle))
            / ((tenSum l.toCPUStat : ℚ) - tenSum p.toCPUStat) * 100| ≤
          |(((tenSum l.toCPUStat : ℚ) - tenSum p.toCPUStat)
              - ((l.toCPUStat.Idle : ℚ) - p.toCPUStat.Idle))
            / ((tenSum l.toCPUStat : ℚ) - tenSum p.toCPUStat) * 100| / 2 ^ 51) := by
  have hil := idle_le_tenSum l.toCPUStat
  have hip := idle_le_tenSum p.toCPUStat
  have hmain := (getCPUUsage_two n pre p l hs).trans
    (usageBetween_eq l.toCPUStat p.toCPUStat hl hp)
  refine ⟨fun ht hi => ?_, fun ht hi => ?_, fun ht hi => ?_, fun ht => ⟨hmain, ?_⟩⟩
  · rw [hmain, ht, hi]
    simp only [sub_self, Float64.div, if_true, Float64.mul]
  · have h1 : (l.toCPUStat.Idle : ℚ) < p.toCPUStat.Idle := by exact_mod_cast hi
    have h2 : (0 : ℚ) < 0 - ((l.toCPUStat.Idle : ℚ) - p.toCPUStat.Idle) := by linarith
    have h3 : ¬ ((0 : ℚ) - ((l.toCPUStat.Idle : ℚ) - p.toCPUStat.Idle) = 0) := ne_of_gt h2
    rw [hmain, ht]
    simp only [sub_self, Float64.div, if_true, h3, if_false, Float64.infOfSign, h2, Float64.mul]
    norm_num
  · have h1 : (p.toCPUStat.Idle : ℚ) < l.toCPUStat.Idle := by exact_mod_cast hi
    have h2 : ¬ ((0 : ℚ) < 0 - ((l.toCPUStat.Idle : ℚ) - p.toCPUStat.Idle)) := by
      intro h
      linarith
    have h3 : ¬ ((0 : ℚ) - ((l.toCPUStat.Idle : ℚ) - p.toCPUStat.Idle) = 0) := by
      intro h
      linarith
    rw [hmain, ht]
    simp only [sub_self, Float64.div, if_true, h3, if_false, Float64.infOfSign, h2, Float64.mul]
    norm_num
  · rw [hmain]
    have h := percent_of_quotient
      (((tenSum l.toCPUStat : Int) - tenSum p.toCPUStat) -
        ((l.toCPUStat.Idle : Int) - p.toCPUStat.Idle))
      ((tenSum l.toCPUStat : Int) - tenSum p.toCPUStat)
      (by rw [abs_lt]; omega) (by rw [abs_lt]; omega) (by omega)
    push_cast at h
    exact h

/-- Witness for C9: two identical samples give NaN. -/
theorem cpu_usage_zero_delta_witness : GetCPUUsage idleNode true = Float64.nan :=
  (cpu_usage_zero_delta idleNode [] busySample busySample rfl (by decide) (by decide)).1 rfl rfl

/-- The sum of the ten counters of a line whose only counters that are not 0 are
user, nice and system: the three additions round one after the other. -/
theorem sumFloat64_user_nice_system (id : String) (u ni sy : Nat) (a b c x y : ℚ)
    (hu : Float64.ofNat u = Float64.fin a) (hn : Float64.ofNat ni = Float64.fin b)
    (hs : Float64.ofNat sy = Float64.fin c) (ha : Float64.ofRat a = Float64.fin a)
    (hx : Float64.ofRat (a + b) = Float64.fin x) (hy : Float64.ofRat (x + c) = Float64.fin y)
    (hyy : Float64.ofRat y = Float64.fin y) :
    sumFloat64 (tenCounters ⟨id, u, ni, sy, 0, 0, 0, 0, 0, 0, 0⟩) = Float64.fin y := by
  have hz : Float64.ofNat 0 = Float64.fin 0 := by
    simp only [Float64.ofNat, Nat.cast_zero, Float64.ofRat_zero]
  have ht : tenCounters ⟨id, u, ni, sy, 0, 0, 0, 0, 0, 0, 0⟩ =
      [Float64.ofNat u, Float64.ofNat ni, Float64.ofNat sy, Float64.ofNat 0, Float64.ofNat 0,
       Float64.ofNat 0, Float64.ofNat 0, Float64.ofNat 0, Float64.ofNat 0, Float64.ofNat 0] := rfl
  have e1 : Float64.add (Float64.fin a) (Float64.fin b) = Float64.fin x := by
    rw [float64_add_fin, hx]
  have e2 : Float64.add (Float64.fin x) (Float64.fin c) = Float64.fin y := by
    rw [float64_add_fin, hy]
  rw [ht, hu, hn, hs, hz]
  simp only [sumFloat64, List.foldl, zero_add_fin a ha, e1, e2, add_fin_zero y hyy]

/-- The expression of usageBetween when both idle counters are 0 and the two
float64 sums are known. -/
theorem usageBetween_of_sums (l p : CPUStat) (a b d : ℚ)
    (hl : sumFloat64 (tenCounters l) = Float64.fin a)
    (hp : sumFloat64 (tenCounters p) = Float64.fin b)
    (hli : l.Idle = 0) (hpi : p.Idle = 0)
    (hd : Float64.ofRat (a - b) = Float64.fin d) (hdd : Float64.ofRat d = Float64.fin d) :
    usageBetween l p =
      Float64.mul (Float64.div (Float64.fin d) (Float64.fin d)) (Float64.fin 100) := by
  have hz : Float64.ofNat 0 = Float64.fin 0 := by
    simp only [Float64.ofNat, Nat.cast_zero, Float64.ofRat_zero]
  have e1 : Float64.sub (Float64.fin a) (Float64.fin b) = Float64.fin d := by
    rw [float64_sub_fin, hd]
  have e2 : Float64.sub (Float64.fin 0) (Float64.fin 0) = Float64.fin 0 := by
    rw [float64_sub_fin, sub_self, Float64.ofRat_zero]
  have e3 : Float64.sub (Float64.fin d) (Float64.fin 0) = Float64.fin d := by
    rw [float64_sub_fin, sub_zero, hdd]
  unfold usageBetween
  rw [hl, hp, hli, hpi, hz]
  simp only [e1, e2, e3]

/-- Counterexample for C9: the two latest samples of idleNode are identical, so
the total delta is 0, and GetCPUUsage returns NaN, which is not 0. And the two
samples of roundedSumNode have the same counter sum 2^53 + 2 and the same idle
counter, but the float64 sum of the later one is 2^53 (each addition of 1 is
rounded away), the float64 delta is -2 and GetCPUUsage returns 100. -/
theorem cpu_usage_of_identical_samples_is_nan :
    idleNode.cpuUsage = [busySample, busySample] ∧
    GetCPUUsage idleNode true = Float64.nan ∧
    GetCPUUsage idleNode true ≠ Float64.fin 0 ∧
    roundedSumNode.cpuUsage =
      [⟨⟨"cpu", 2 ^ 53 + 2, 0, 0, 0, 0, 0, 0, 0, 0, 0⟩, [], 0⟩,
       ⟨⟨"cpu", 2 ^ 53, 1, 1, 0, 0, 0, 0, 0, 0, 0⟩, [], 2⟩] ∧
    tenSum ⟨"cpu", 2 ^ 53, 1, 1, 0, 0, 0, 0, 0, 0, 0⟩ =
      tenSum ⟨"cpu", 2 ^ 53 + 2, 0, 0, 0, 0, 0, 0, 0, 0, 0⟩ ∧
    GetCPUUsage roundedSumNode true = Float64.fin 100 := by
  have h : GetCPUUsage idleNode true = Float64.nan := by
    rw [getCPUUsage_two idleNode [] busySample busySample rfl,
      usageBetween_eq _ _ (by decide) (by decide)]
    simp only [sub_self, Float64.div, if_true, Float64.mul]
  refine ⟨rfl, h, ?_, by decide, by decide, ?_⟩
  · rw [h]
    exact fun hne => Float64.noConfusion hne
  have h53 : Float64.ofRat 9007199254740992 = Float64.fin 9007199254740992 := by
    rw [Float64.ofRat_eval_pos 9007199254740992 53 4503599627370496 (by norm_num) (by norm_num)
      (by norm_num) (by norm_num)
      (by
        rw [show (9007199254740992 : ℚ) / (2 : ℚ) ^ ((53 : ℤ) - 52) =
          ((4503599627370496 : ℤ) : ℚ) by norm_num]
        exact roundHalfEven_intCast _)]
    norm_num
  have h53p : Float64.ofRat (9007199254740992 + 1) = Float64.fin 9007199254740992 := by
    rw [Float64.ofRat_eval_pos (9007199254740992 + 1) 53 4503599627370496 (by norm_num)
      (by norm_num) (by norm_num) (by norm_num)
      (by
        rw [show ((9007199254740992 : ℚ) + 1) / (2 : ℚ) ^ ((53 : ℤ) - 52) =
          ((4503599627370496 : ℤ) : ℚ) + 1 / 2 by norm_num]
        exact roundHalfEven_tie_down 4503599627370496 (by decide))]
    norm_num
  have h53q : Float64.ofRat 9007199254740994 = Float64.fin 9007199254740994 := by
    rw [Float64.ofRat_eval_pos 9007199254740994 53 4503599627370497 (by norm_num) (by norm_num)
      (by norm_num) (by norm_num)
      (by
        rw [show (9007199254740994 : ℚ) / (2 : ℚ) ^ ((53 : ℤ) - 52) =
          ((4503599627370497 : ℤ) : ℚ) by norm_num]
        exact roundHalfEven_intCast _)]
    norm_num
  have h1 : Float64.ofNat 1 = Float64.fin 1 := by
    have e := Float64.ofNat_of_lt 1 (by norm_num)
    rw [Nat.cast_one] at e
    exact e
  have hm2 : Float64.ofRat (-2) = Float64.fin (-2) := by
    have e := Float64.ofRat_intCast (-2) (by norm_num)
    norm_num at e
    exact e
  have h100 : Float64.ofRat 100 = Float64.fin 100 := by
    have e := Float64.ofRat_natCast 100 (by norm_num)
    rw [Nat.cast_ofNat] at e
    exact e
  have hone : Float64.ofRat 1 = Float64.fin 1 := by
    have e := Float64.ofRat_natCast 1 (by norm_num)
    rw [Nat.cast_one] at e
    exact e
  rw [getCPUUsage_two roundedSumNode []
    ⟨⟨"cpu", 9007199254740994, 0, 0, 0, 0, 0, 0, 0, 0, 0⟩, [], 0⟩
    ⟨⟨"cpu", 9007199254740992, 1, 1, 0, 0, 0, 0, 0, 0, 0⟩, [], 2⟩ rfl]
  show usageBetween ⟨"cpu", 9007199254740992, 1, 1, 0, 0, 0, 0, 0, 0, 0⟩
    ⟨"cpu", 9007199254740994, 0, 0, 0, 0, 0, 0, 0, 0, 0⟩ = Float64.fin 100
  rw [usageBetween_of_sums _ _ 9007199254740992 9007199254740994 (-2)
    (sumFloat64_user_nice_system "cpu" 9007199254740992 1 1 9007199254740992 1 1
      9007199254740992 9007199254740992
      (by rw [Float64.ofNat, Nat.cast_ofNat]; exact h53) h1 h1 h53 h53p h53p h53)
    (sumFloat64_user_only "cpu" 9007199254740994 9007199254740994
      (by rw [Float64.ofNat, Nat.cast_ofNat]; exact h53q) h53q)
    rfl rfl
    (by rw [show (9007199254740992 : ℚ) - 9007199254740994 = -2 by norm_num]; exact hm2) hm2,
    float64_div_fin _ _ (by norm_num), div_self (by norm_num), hone, float64_mul_fin, one_mul,
    h100]

theorem ulpExp_mono (a b : ℚ) (ha : 0 < a) (hab : a ≤ b) : ulpExp a ≤ ulpExp b := by
  unfold ulpExp
  rw [abs_of_pos ha, abs_of_pos (lt_of_lt_of_le ha hab)]
  have h := Int.log_mono_right (b := 2) ha hab
  exact sub_le_sub_right (max_le_max h le_rfl) 52

theorem ulpExp_of_one_le (x : ℚ) (hx : 1 ≤ x) : ulpExp x = Int.log 2 x - 52 := by
  unfold ulpExp
  rw [abs_of_pos (by linarith)]
  have h : 0 ≤ Int.log 2 x := by
    have := Int.log_mono_right (b := 2) (by norm_num : (0 : ℚ) < 1) hx
    simpa using this
  rw [max_eq_left (by omega)]

/-- A finite float64 is an integer multiple of its unit in the last place. -/
theorem float_mantissa (q : ℚ) (h : Float64.ofRat q = Float64.fin q) :
    ∃ A : Int, q = (A : ℚ) * (2 : ℚ) ^ ulpExp q := by
  unfold Float64.ofRat at h
  split_ifs at h
  injection h with h
  exact ⟨_, h.symm⟩

/-- Two positive float64 values a < b are at least one unit in the last place
of a apart. -/
theorem float_succ (a b : ℚ) (ha : 0 < a) (hab : a < b) (hfa : Float64.ofRat a = Float64.fin a)
    (hfb : Float64.ofRat b = Float64.fin b) : a + (2 : ℚ) ^ ulpExp a ≤ b := by
  obtain ⟨A, hA⟩ := float_mantissa a hfa
  obtain ⟨B, hB⟩ := float_mantissa b hfb
  have hu := ulpExp_mono a b ha (le_of_lt hab)
  have hpos := two_zpow_pos (ulpExp a)
  have hsplit : (2 : ℚ) ^ ulpExp b = (2 : ℚ) ^ (ulpExp b - ulpExp a) * (2 : ℚ) ^ ulpExp a := by
    rw [← zpow_add₀ (by norm_num)]
    congr 1
    ring
  rw [hsplit, two_zpow_eq_cast (ulpExp b - ulpExp a) (by omega), ← mul_assoc,
    ← Int.cast_mul] at hB
  have hlt : (A : ℚ) * (2 : ℚ) ^ ulpExp a <
      ((B * (2 : Int) ^ (ulpExp b - ulpExp a).toNat : Int) : ℚ) * (2 : ℚ) ^ ulpExp a := by
    rw [← hA, ← hB]
    exact hab
  have hlt2 : (A : ℚ) < ((B * (2 : Int) ^ (ulpExp b - ulpExp a).toNat : Int) : ℚ) :=
    lt_of_mul_lt_mul_right hlt (le_of_lt hpos)
  have hlt3 : A + 1 ≤ B * (2 : Int) ^ (ulpExp b - ulpExp a).toNat := by
    have : A < B * (2 : Int) ^ (ulpExp b - ulpExp a).toNat := by exact_mod_cast hlt2
    omega
  have hle : ((A + 1 : Int) : ℚ) ≤ ((B * (2 : Int) ^ (ulpExp b - ulpExp a).toNat : Int) : ℚ) := by
    exact_mod_cast hlt3
  have := mul_le_mul_of_nonneg_right hle (le_of_lt hpos)
  rw [← hB] at this
  calc a + (2 : ℚ) ^ ulpExp a = ((A + 1 : Int) : ℚ) * (2 : ℚ) ^ ulpExp a := by
        rw [Int.cast_add, Int.cast_one, add_mul, one_mul, ← hA]
    _ ≤ b := this

/-- The unit in the last place of a positive value a exceeds a / 2^53. -/
theorem two_ulpExp_gt (a : ℚ) (ha : 0 < a) : a / 2 ^ 53 < (2 : ℚ) ^ ulpExp a := by
  have h1 : a < (2 : ℚ) ^ (Int.log 2 a + 1) := by
    have := Int.lt_zpow_succ_log_self (b := 2) (by norm_num) a
    exact_mod_cast this
  have h2 : Int.log 2 a - 52 ≤ ulpExp a := by
    unfold ulpExp
    rw [abs_of_pos ha]
    exact sub_le_sub_right (le_max_left _ _) 52
  have h3 : (2 : ℚ) ^ (Int.log 2 a - 52) ≤ (2 : ℚ) ^ ulpExp a :=
    zpow_le_zpow_right₀ (by norm_num) h2
  have h4 : (2 : ℚ) ^ (Int.log 2 a + 1) = (2 : ℚ) ^ (Int.log 2 a - 52) * 2 ^ 53 := by
    rw [show Int.log 2 a + 1 = (Int.log 2 a - 52) + 53 by ring, zpow_add₀ (by norm_num)]
    norm_num
  rw [h4] at h1
  have h5 : a / 2 ^ 53 < (2 : ℚ) ^ (Int.log 2 a - 52) := by
    rw [div_lt_iff₀ (by norm_num)]
    exact h1
  linarith

/-- A value x strictly between the integers j ≥ 1 and j + 1 whose distance to j
exceeds j / 2^53 rounds to a float64 above j. -/
theorem ofRat_gt_intCast (x y : ℚ) (j : Int) (hj : 1 ≤ j) (hjx : (j : ℚ) < x)
    (hxj : x < (j : ℚ) + 1) (hx : x < 2 ^ 53) (hgap : (j : ℚ) / 2 ^ 53 < x - j)
    (hy : Float64.ofRat x = Float64.fin y) : (j : ℚ) < y := by
  by_contra hcon
  have hyj : y ≤ (j : ℚ) := not_lt.mp hcon
  have hj1 : (1 : ℚ) ≤ (j : ℚ) := by exact_mod_cast hj
  have hx1 : (1 : ℚ) ≤ x := by linarith
  have hx0 : (0 : ℚ) < x := by linarith
  have hux : ulpExp x = Int.log 2 x - 52 := ulpExp_of_one_le x hx1
  have hlog0 : 0 ≤ Int.log 2 x := by
    have := Int.log_mono_right (b := 2) (by norm_num : (0 : ℚ) < 1) hx1
    simpa using this
  have hlog53 : Int.log 2 x < 53 := intLog2_lt x 53 hx0 (by exact_mod_cast hx)
  have hpos := two_zpow_pos (ulpExp x)
  have hyeq : y = (roundHalfEven (x / (2 : ℚ) ^ ulpExp x) : ℚ) * (2 : ℚ) ^ ulpExp x := by
    unfold Float64.ofRat at hy
    split_ifs at hy
    injection hy with hy
    exact hy.symm
  have hJ : (j : ℚ) = ((j * (2 : Int) ^ (-ulpExp x).toNat : Int) : ℚ) * (2 : ℚ) ^ ulpExp x := by
    rw [Int.cast_mul, ← two_zpow_eq_cast (-ulpExp x) (by omega), mul_assoc,
      ← zpow_add₀ (by norm_num)]
    simp
  have hr : (roundHalfEven (x / (2 : ℚ) ^ ulpExp x) : ℚ) ≤
      ((j * (2 : Int) ^ (-ulpExp x).toNat : Int) : ℚ) := by
    have h : (roundHalfEven (x / (2 : ℚ) ^ ulpExp x) : ℚ) * (2 : ℚ) ^ ulpExp x ≤
        ((j * (2 : Int) ^ (-ulpExp x).toNat : Int) : ℚ) * (2 : ℚ) ^ ulpExp x := by
      rw [← hyeq, ← hJ]
      exact hyj
    exact le_of_mul_le_mul_right h hpos
  have herr := roundHalfEven_error (x / (2 : ℚ) ^ ulpExp x)
  rw [abs_le] at herr
  have h1 : x / (2 : ℚ) ^ ulpExp x - 1 / 2 ≤
      ((j * (2 : Int) ^ (-ulpExp x).toNat : Int) : ℚ) := by linarith [herr.1]
  have h2 : x - (2 : ℚ) ^ ulpExp x / 2 ≤ (j : ℚ) := by
    have := mul_le_mul_of_nonneg_right h1 (le_of_lt hpos)
    rw [← hJ, sub_mul, div_mul_cancel₀ _ (ne_of_gt hpos)] at this
    linarith
  have hpow : (2 : ℚ) ^ Int.log 2 x ≤ (j : ℚ) := by
    have hle : (2 : ℚ) ^ Int.log 2 x ≤ x := by
      have := Int.zpow_log_le_self (b := 2) (by norm_num) hx0
      exact_mod_cast this
    rw [two_zpow_eq_cast (Int.log 2 x) hlog0] at hle ⊢
    have hlt : (((2 : Int) ^ (Int.log 2 x).toNat : Int) : ℚ) < ((j + 1 : Int) : ℚ) := by
      push_cast
      push_cast at hle
      linarith
    have : (2 : Int) ^ (Int.log 2 x).toNat < j + 1 := by exact_mod_cast hlt
    have : (2 : Int) ^ (Int.log 2 x).toNat ≤ j := by omega
    exact_mod_cast this
  have hu2 : (2 : ℚ) ^ ulpExp x = (2 : ℚ) ^ Int.log 2 x / 2 ^ 52 := by
    rw [hux, zpow_sub₀ (by norm_num)]
    norm_num
  rw [hu2] at h2
  have h53 : (2 : ℚ) ^ Int.log 2 x / 2 ^ 52 / 2 ≤ (j : ℚ) / 2 ^ 53 := by
    have : (2 : ℚ) ^ Int.log 2 x / 2 ^ 52 / 2 = (2 : ℚ) ^ Int.log 2 x / 2 ^ 53 := by
      rw [div_div]
      norm_num
    rw [this]
    exact div_le_div_of_nonneg_right hpow (by norm_num)
  linarith

/-- The product of an integer k and 10^e is a float64 when k·5^e is below
2^53. -/
theorem ofRat_mul_pow10 (k : Int) (e : Nat) (hk : |k| * 5 ^ e < 2 ^ 53) (he : e ≤ 900) :
    Float64.ofRat ((k : ℚ) * (10 : ℚ) ^ e) = Float64.fin ((k : ℚ) * (10 : ℚ) ^ e) := by
  have h10 : (k : ℚ) * (10 : ℚ) ^ e = ((k * 5 ^ e : Int) : ℚ) * (2 : ℚ) ^ (e : ℤ) := by
    rw [show (10 : ℚ) = 5 * 2 by norm_num, mul_pow, zpow_natCast]
    push_cast
    ring
  have hR : |k * 5 ^ e| < 2 ^ 53 := by
    rw [abs_mul, abs_of_pos (pow_pos (by norm_num : (0 : Int) < 5) e)]
    exact hk
  rw [h10]
  apply Float64.ofRat_fixed _ _ hR (by omega)
  rw [abs_mul, abs_of_pos (two_zpow_pos _)]
  have h53 : |((k * 5 ^ e : Int) : ℚ)| < 2 ^ 53 := by
    rw [← Int.cast_abs]
    exact_mod_cast hR
  calc |((k * 5 ^ e : Int) : ℚ)| * (2 : ℚ) ^ (e : ℤ) < 2 ^ 53 * (2 : ℚ) ^ (e : ℤ) :=
        mul_lt_mul_of_pos_right h53 (two_zpow_pos _)
    _ = (2 : ℚ) ^ ((53 : ℤ) + e) := by
        rw [zpow_add₀ (by norm_num)]
        norm_num
    _ ≤ (2 : ℚ) ^ (1024 : ℤ) := zpow_le_zpow_right₀ (by norm_num) (by omega)

theorem small_mul_pow5 (k : Int) (e : Nat) (hk : |k| ≤ 10) (he : e ≤ 21) :
    |k| * 5 ^ e < 2 ^ 53 := by
  have h5 : (5 : Int) ^ e ≤ 5 ^ 21 := pow_le_pow_right₀ (by norm_num) he
  have h0 : (0 : Int) ≤ 5 ^ e := le_of_lt (pow_pos (by norm_num) e)
  calc |k| * 5 ^ e ≤ 10 * 5 ^ 21 := mul_le_mul hk h5 h0 (by norm_num)
    _ < 2 ^ 53 := by norm_num

/-- The quotient of a float64 M in a decade [10^e, 10^(e+1)), e ≤ 21, by 10^e
rounds to a float64 whose ceiling is the ceiling of the exact quotient. -/
theorem ceil_of_decade_quotient (M y : ℚ) (e : Nat) (hM : Float64.ofRat M = Float64.fin M)
    (h0 : (10 : ℚ) ^ e ≤ M) (h1 : M < (10 : ℚ) ^ (e + 1)) (he : e ≤ 21)
    (hy : Float64.ofRat (M / (10 : ℚ) ^ e) = Float64.fin y) :
    ⌈y⌉ = ⌈M / (10 : ℚ) ^ e⌉ := by
  have hs : (0 : ℚ) < (10 : ℚ) ^ e := by positivity
  have hx1 : 1 ≤ M / (10 : ℚ) ^ e := (one_le_div hs).mpr h0
  have hx10 : M / (10 : ℚ) ^ e < 10 := by
    rw [div_lt_iff₀ hs]
    rw [pow_succ] at h1
    linarith
  have hk1 : 1 ≤ ⌈M / (10 : ℚ) ^ e⌉ := Int.one_le_ceil_iff.mpr (by linarith)
  have hk10 : ⌈M / (10 : ℚ) ^ e⌉ ≤ 10 := Int.ceil_le.mpr (by push_cast; linarith)
  have hxk : M / (10 : ℚ) ^ e ≤ (⌈M / (10 : ℚ) ^ e⌉ : ℤ) := Int.le_ceil _
  have hkx : ((⌈M / (10 : ℚ) ^ e⌉ : ℤ) : ℚ) < M / (10 : ℚ) ^ e + 1 := Int.ceil_lt_add_one _
  have habs : |M / (10 : ℚ) ^ e| < (2 : ℚ) ^ (4 : ℤ) := by
    rw [abs_of_pos (by linarith)]
    norm_num
    linarith
  have hux : ulpExp (M / (10 : ℚ) ^ e) ≤ 0 := by
    have := ulpExp_le (M / (10 : ℚ) ^ e) 4 (by linarith) habs (by norm_num)
    omega
  have hyk : y ≤ (⌈M / (10 : ℚ) ^ e⌉ : ℤ) :=
    Float64.ofRat_le_intCast _ y _ hux hxk hy
  have hky : ((⌈M / (10 : ℚ) ^ e⌉ : ℤ) : ℚ) - 1 < y := by
    rcases eq_or_lt_of_le hxk with heq | hlt
    · have := Float64.ofRat_ge_intCast _ y ⌈M / (10 : ℚ) ^ e⌉ hux (le_of_eq heq.symm) hy
      linarith
    · have hj1 : 1 ≤ ⌈M / (10 : ℚ) ^ e⌉ - 1 := by
        by_contra h
        have h1k : ⌈M / (10 : ℚ) ^ e⌉ = 1 := by omega
        rw [h1k] at hlt
        push_cast at hlt
        linarith
      have hjx : ((⌈M / (10 : ℚ) ^ e⌉ - 1 : Int) : ℚ) < M / (10 : ℚ) ^ e := by
        push_cast
        linarith
      have hjs := ofRat_mul_pow10 (⌈M / (10 : ℚ) ^ e⌉ - 1) e
        (small_mul_pow5 _ e (by rw [abs_le]; omega) he) (by omega)
      have hjsM : ((⌈M / (10 : ℚ) ^ e⌉ - 1 : Int) : ℚ) * (10 : ℚ) ^ e < M := by
        have := mul_lt_mul_of_pos_right hjx hs
        rwa [div_mul_cancel₀ _ (ne_of_gt hs)] at this
      have hjpos : (0 : ℚ) < ((⌈M / (10 : ℚ) ^ e⌉ - 1 : Int) : ℚ) := by
        have : (1 : ℚ) ≤ ((⌈M / (10 : ℚ) ^ e⌉ - 1 : Int) : ℚ) := by exact_mod_cast hj1
        linarith
      have hjspos : (0 : ℚ) < ((⌈M / (10 : ℚ) ^ e⌉ - 1 : Int) : ℚ) * (10 : ℚ) ^ e :=
        mul_pos hjpos hs
      have hsucc := float_succ _ M hjspos hjsM hjs hM
      have hgt := two_ulpExp_gt _ hjspos
      have hgap : ((⌈M / (10 : ℚ) ^ e⌉ - 1 : Int) : ℚ) / 2 ^ 53 <
          M / (10 : ℚ) ^ e - ((⌈M / (10 : ℚ) ^ e⌉ - 1 : Int) : ℚ) := by
        have h3 : ((⌈M / (10 : ℚ) ^ e⌉ - 1 : Int) : ℚ) * (10 : ℚ) ^ e / 2 ^ 53 <
            M - ((⌈M / (10 : ℚ) ^ e⌉ - 1 : Int) : ℚ) * (10 : ℚ) ^ e := by linarith
        have h4 : M / (10 : ℚ) ^ e - ((⌈M / (10 : ℚ) ^ e⌉ - 1 : Int) : ℚ) =
            (M - ((⌈M / (10 : ℚ) ^ e⌉ - 1 : Int) : ℚ) * (10 : ℚ) ^ e) / (10 : ℚ) ^ e := by
          rw [sub_div, mul_div_assoc, div_self (ne_of_gt hs), mul_one]
        rw [h4, lt_div_iff₀ hs]
        calc ((⌈M / (10 : ℚ) ^ e⌉ - 1 : Int) : ℚ) / 2 ^ 53 * (10 : ℚ) ^ e
            = ((⌈M / (10 : ℚ) ^ e⌉ - 1 : Int) : ℚ) * (10 : ℚ) ^ e / 2 ^ 53 := by ring
          _ < _ := h3
      have := ofRat_gt_intCast (M / (10 : ℚ) ^ e) y (⌈M / (10 : ℚ) ^ e⌉ - 1) hj1 hjx
        (by push_cast; linarith) (by linarith) hgap hy
      push_cast at this
      exact this
  rw [Int.ceil_eq_iff]
  exact ⟨hky, hyk⟩

/-- The value of scaleMaxValue on a float64 M of the decade [10^e, 10^(e+1)),
e ≤ 21, when the library calls give the exponent e and the power 10^e. -/
theorem scaleMaxValue_decade (log10 : Float64 → Float64)
    (pow : Float64 → Float64 → Float64) (M : ℚ) (e : Nat)
    (hM : Float64.ofRat M = Float64.fin M)
    (h0 : (10 : ℚ) ^ e ≤ M) (h1 : M < (10 : ℚ) ^ (e + 1)) (he : e ≤ 21)
    (hlog : mathFloor (log10 (Float64.fin M)) = Float64.fin (e : ℚ))
    (hpow : pow (Float64.fin 10) (Float64.fin (e : ℚ)) = Float64.fin ((10 : ℚ) ^ e)) :
    scaleMaxValue log10 pow (Float64.fin M) =
      Float64.fin (((⌈M / (10 : ℚ) ^ e⌉ : ℤ) : ℚ) * (10 : ℚ) ^ e) := by
  have hs : (0 : ℚ) < (10 : ℚ) ^ e := by positivity
  have hx1 : 1 ≤ M / (10 : ℚ) ^ e := (one_le_div hs).mpr h0
  have hx10 : M / (10 : ℚ) ^ e < 10 := by
    rw [div_lt_iff₀ hs]
    rw [pow_succ] at h1
    linarith
  have hk1 : 1 ≤ ⌈M / (10 : ℚ) ^ e⌉ := Int.one_le_ceil_iff.mpr (by linarith)
  have hk10 : ⌈M / (10 : ℚ) ^ e⌉ ≤ 10 := Int.ceil_le.mpr (by push_cast; linarith)
  have habs : |M / (10 : ℚ) ^ e| < (2 : ℚ) ^ (4 : ℤ) := by
    rw [abs_of_pos (by linarith)]
    norm_num
    linarith
  obtain ⟨y, hy, -⟩ := Float64.ofRat_near (M / (10 : ℚ) ^ e) 4 habs (by norm_num) (by norm_num)
  have hceil := ceil_of_decade_quotient M y e hM h0 h1 he hy
  have hne : ¬ (Float64.fin M = Float64.fin 0) := by
    intro h
    injection h with h
    linarith
  have hd : Float64.div (Float64.fin M) (Float64.fin ((10 : ℚ) ^ e)) = Float64.fin y := by
    simp only [Float64.div, ne_of_gt hs, if_false]
    exact hy
  simp only [scaleMaxValue, hne, if_false, hlog, hpow, hd, mathCeil, hceil, Float64.mul]
  exact ofRat_mul_pow10 _ e (small_mul_pow5 _ e (by rw [abs_le]; omega) he) (by omega)

theorem mathFloor_fin (q : ℚ) : mathFloor (Float64.fin q) = Float64.fin ((⌊q⌋ : ℤ) : ℚ) := rfl

theorem scaleMaxValue_zero (log10 : Float64 → Float64) (pow : Float64 → Float64 → Float64) :
    scaleMaxValue log10 pow (Float64.fin 0) = Float64.fin 10 := by
  simp only [scaleMaxValue, if_true]

theorem powAt_ten (e : Nat) (he : e ≤ 22) :
    powAt (Float64.fin 10) (Float64.fin (e : ℚ)) = Float64.fin ((10 : ℚ) ^ e) := by
  have hc : (0 : ℚ) ≤ (e : ℚ) ∧ (e : ℚ) ≤ 22 ∧ (e : ℚ) = ((⌊(e : ℚ)⌋ : ℤ) : ℚ) :=
    ⟨by positivity, by exact_mod_cast he, by simp⟩
  have ht : ⌊(e : ℚ)⌋.toNat = e := by simp
  have h5 : |(1 : Int)| * 5 ^ e < 2 ^ 53 := by
    have : (5 : Int) ^ e ≤ 5 ^ 22 := pow_le_pow_right₀ (by norm_num) he
    rw [abs_one, one_mul]
    exact lt_of_le_of_lt this (by norm_num)
  have h := ofRat_mul_pow10 1 e h5 (by omega)
  rw [Int.cast_one, one_mul] at h
  show (if (0 : ℚ) ≤ (e : ℚ) ∧ (e : ℚ) ≤ 22 ∧ (e : ℚ) = ((⌊(e : ℚ)⌋ : ℤ) : ℚ) then
    Float64.ofRat ((10 : ℚ) ^ ⌊(e : ℚ)⌋.toNat) else Float64.nan) = _
  rw [if_pos hc, ht, h]

theorem float64_fin_ne (a b : ℚ) (h : a ≠ b) : ¬ (Float64.fin a = Float64.fin b) := by
  intro hab
  injection hab with hab
  exact h hab

theorem log10At_9 : mathFloor (log10At (Float64.fin 9)) = Float64.fin ((0 : Nat) : ℚ) := by
  have h : log10At (Float64.fin 9) = Float64.fin (8595052419864062 / 2 ^ 53) := by
    unfold log10At
    rw [if_pos rfl]
  rw [h]
  have hf : ⌊(8595052419864062 / 2 ^ 53 : ℚ)⌋ = 0 :=
    Int.floor_eq_iff.mpr ⟨by norm_num, by norm_num⟩
  simp only [mathFloor, hf, Int.cast_zero, Nat.cast_zero]

theorem log10At_237 : mathFloor (log10At (Float64.fin 237)) = Float64.fin ((2 : Nat) : ℚ) := by
  have h : log10At (Float64.fin 237) = Float64.fin (5347457883094903 / 2 ^ 51) := by
    unfold log10At
    rw [if_neg (float64_fin_ne _ _ (by norm_num)), if_pos rfl]
  rw [h]
  have hf : ⌊(5347457883094903 / 2 ^ 51 : ℚ)⌋ = 2 :=
    Int.floor_eq_iff.mpr ⟨by norm_num, by norm_num⟩
  simp only [mathFloor, hf, Int.cast_ofNat, Nat.cast_ofNat]

theorem ofRat_of_small_nat (n : Nat) (hn : n < 2 ^ 53) (q : ℚ) (hq : q = (n : ℚ)) :
    Float64.ofRat q = Float64.fin q := by
  rw [hq]
  exact Float64.ofRat_natCast n hn

/-- C11 (amended). Graph-max scaling, stated values: scaleMaxValue(237) = 300,
scaleMaxValue(0) = 10 and scaleMaxValue(9) = 9, the observed maximum 9 being
itself a multiple of 10^0; the library calls are taken to give
math.Floor(math.Log10(237)) = 2, math.Pow(10, 2) = 100,
math.Floor(math.Log10(9)) = 0 and math.Pow(10, 0) = 1. -/
theorem scaleMaxValue_stated_values (log10 : Float64 → Float64)
    (pow : Float64 → Float64 → Float64)
    (hlog237 : mathFloor (log10 (Float64.fin 237)) = Float64.fin 2)
    (hpow2 : pow (Float64.fin 10) (Float64.fin 2) = Float64.fin 100)
    (hlog9 : mathFloor (log10 (Float64.fin 9)) = Float64.fin 0)
    (hpow0 : pow (Float64.fin 10) (Float64.fin 0) = Float64.fin 1) :
    scaleMaxValue log10 pow (Float64.fin 237) = Float64.fin 300 ∧
    scaleMaxValue log10 pow (Float64.fin 0) = Float64.fin 10 ∧
    scaleMaxValue log10 pow (Float64.fin 9) = Float64.fin 9 := by
  have h237 := scaleMaxValue_decade log10 pow 237 2
    (ofRat_of_small_nat 237 (by norm_num) 237 (by norm_num))
    (by norm_num) (by norm_num) (by norm_num)
    (by rw [Nat.cast_ofNat]; exact hlog237)
    (by rw [Nat.cast_ofNat]; norm_num; exact hpow2)
  have h9 := scaleMaxValue_decade log10 pow 9 0
    (ofRat_of_small_nat 9 (by norm_num) 9 (by norm_num))
    (by norm_num) (by norm_num) (by norm_num)
    (by rw [Nat.cast_zero]; exact hlog9)
    (by rw [Nat.cast_zero]; norm_num; exact hpow0)
  have hc237 : ⌈(237 : ℚ) / (10 : ℚ) ^ 2⌉ = 3 :=
    Int.ceil_eq_iff.mpr ⟨by norm_num, by norm_num⟩
  have hc9 : ⌈(9 : ℚ) / (10 : ℚ) ^ 0⌉ = 9 :=
    Int.ceil_eq_iff.mpr ⟨by norm_num, by norm_num⟩
  rw [hc237] at h237
  rw [hc9] at h9
  refine ⟨?_, scaleMaxValue_zero log10 pow, ?_⟩
  · rw [h237]
    norm_num
  · rw [h9]
    norm_num

/-- Witness for C11: the stated values with a logarithm that gives
2.374748346010104 at 237 and 0.954242509439325 at 9 and a power function that
gives 100 for 10^2 and 1 for 10^0. -/
theorem scaleMaxValue_stated_values_witness :
    scaleMaxValue log10At powAt (Float64.fin 237) = Float64.fin 300 ∧
    scaleMaxValue log10At powAt (Float64.fin 0) = Float64.fin 10 ∧
    scaleMaxValue log10At powAt (Float64.fin 9) = Float64.fin 9 :=
  scaleMaxValue_stated_values log10At powAt
    (by have h := log10At_237; rw [Nat.cast_ofNat] at h; exact h)
    (by have h := powAt_ten 2 (by norm_num); rw [Nat.cast_ofNat] at h; norm_num at h; exact h)
    (by have h := log10At_9; rw [Nat.cast_zero] at h; exact h)
    (by have h := powAt_ten 0 (by norm_num); rw [Nat.cast_zero] at h; norm_num at h; exact h)

/-- Counterexample for C11: the scale of the observed maximum 9 is 9, not 10. -/
theorem scaleMaxValue_of_nine_is_not_ten :
    scaleMaxValue log10At powAt (Float64.fin 9) = Float64.fin 9 ∧
    scaleMaxValue log10At powAt (Float64.fin 9) ≠ Float64.fin 10 := by
  have h9 := scaleMaxValue_decade log10At powAt 9 0
    (ofRat_of_small_nat 9 (by norm_num) 9 (by norm_num))
    (by norm_num) (by norm_num) (by norm_num) log10At_9 (powAt_ten 0 (by norm_num))
  have hc9 : ⌈(9 : ℚ) / (10 : ℚ) ^ 0⌉ = 9 :=
    Int.ceil_eq_iff.mpr ⟨by norm_num, by norm_num⟩
  rw [hc9] at h9
  have h : scaleMaxValue log10At powAt (Float64.fin 9) = Float64.fin 9 := by
    rw [h9]
    norm_num
  refine ⟨h, ?_⟩
  rw [h]
  exact float64_fin_ne _ _ (by norm_num)

theorem ofRat_cases (q : ℚ) :
    Float64.ofRat q = Float64.posInf ∨ Float64.ofRat q = Float64.negInf ∨
      Float64.ofRat q =
        Float64.fin ((roundHalfEven (q / (2 : ℚ) ^ ulpExp q) : ℚ) * (2 : ℚ) ^ ulpExp q) := by
  unfold Float64.ofRat
  split_ifs
  · exact Or.inl rfl
  · exact Or.inr (Or.inl rfl)
  · exact Or.inr (Or.inr rfl)

theorem ofRat_fin_eq (q r : ℚ) (hr : Float64.ofRat q = Float64.fin r) :
    r = (roundHalfEven (q / (2 : ℚ) ^ ulpExp q) : ℚ) * (2 : ℚ) ^ ulpExp q := by
  unfold Float64.ofRat at hr
  split_ifs at hr
  injection hr with hr
  exact hr.symm

/-- Rounding a value that is not negative gives +Inf or a finite value that is
not negative. -/
theorem ofRat_of_nonneg (q : ℚ) (h0 : 0 ≤ q) :
    Float64.ofRat q = Float64.posInf ∨ ∃ r : ℚ, Float64.ofRat q = Float64.fin r ∧ 0 ≤ r := by
  unfold Float64.ofRat
  split_ifs with h1 h2
  · exact Or.inl rfl
  · exfalso
    have hq : q = 0 := le_antisymm (not_lt.mp h2) h0
    subst hq
    simp [roundHalfEven] at h1
    have : (0 : ℚ) < 2 ^ 1024 := by positivity
    linarith
  · refine Or.inr ⟨_, rfl, ?_⟩
    apply mul_nonneg _ (le_of_lt (two_zpow_pos _))
    exact_mod_cast roundHalfEven_nonneg _ (div_nonneg h0 (le_of_lt (two_zpow_pos _)))

theorem ofRat_nonneg (q r : ℚ) (h0 : 0 ≤ q) (hr : Float64.ofRat q = Float64.fin r) : 0 ≤ r := by
  rcases ofRat_of_nonneg q h0 with h | ⟨r2, h, h2⟩
  · rw [h] at hr
    cases hr
  · rw [h] at hr
    injection hr with hr
    rw [← hr]
    exact h2

/-- Rounding does not cross a positive float64 from above. -/
theorem ofRat_ge_float (c q r : ℚ) (hc0 : 0 < c) (hc : Float64.ofRat c = Float64.fin c)
    (h : c ≤ q) (hr : Float64.ofRat q = Float64.fin r) : c ≤ r := by
  have hq0 : 0 < q := lt_of_lt_of_le hc0 h
  obtain ⟨C, hC⟩ := float_mantissa c hc
  have hreq := ofRat_fin_eq q r hr
  have hmono := ulpExp_mono c q hc0 h
  have hupos := two_zpow_pos (ulpExp q)
  rcases eq_or_lt_of_le hmono with heq | hlt
  · rw [heq] at hC
    have h1 : C ≤ roundHalfEven (q / (2 : ℚ) ^ ulpExp q) := by
      apply roundHalfEven_ge_of_ge
      rw [le_div_iff₀ hupos, ← hC]
      exact h
    rw [hreq]
    calc c = (C : ℚ) * (2 : ℚ) ^ ulpExp q := hC
      _ ≤ _ := mul_le_mul_of_nonneg_right (by exact_mod_cast h1) (le_of_lt hupos)
  · have hlq : -1022 < Int.log 2 q ∧ Int.log 2 c < Int.log 2 q := by
      unfold ulpExp at hlt
      rw [abs_of_pos hc0, abs_of_pos hq0] at hlt
      have h3 : max (Int.log 2 c) (-1022) < max (Int.log 2 q) (-1022) := by omega
      rw [max_lt_iff, lt_max_iff, lt_max_iff] at h3
      obtain ⟨h4, h5⟩ := h3
      constructor
      · rcases h5 with h5 | h5
        · exact h5
        · omega
      · rcases h4 with h4 | h4
        · exact h4
        · rcases h5 with h5 | h5
          · omega
          · omega
    have huq : ulpExp q = Int.log 2 q - 52 := by
      unfold ulpExp
      rw [abs_of_pos hq0, max_eq_left (by omega)]
    have hpq : (2 : ℚ) ^ Int.log 2 q ≤ q := by
      have := Int.zpow_log_le_self (b := 2) (by norm_num) hq0
      exact_mod_cast this
    have hcl : c < (2 : ℚ) ^ (Int.log 2 c + 1) := by
      have := Int.lt_zpow_succ_log_self (b := 2) (by norm_num) c
      exact_mod_cast this
    have hle : (2 : ℚ) ^ (Int.log 2 c + 1) ≤ (2 : ℚ) ^ Int.log 2 q :=
      zpow_le_zpow_right₀ (by norm_num) (by omega)
    have hsplit : (2 : ℚ) ^ Int.log 2 q = (((2 : Int) ^ 52 : Int) : ℚ) * (2 : ℚ) ^ ulpExp q := by
      rw [huq, show Int.log 2 q = 52 + (Int.log 2 q - 52) by ring, zpow_add₀ (by norm_num)]
      norm_num
    have h1 : (2 : Int) ^ 52 ≤ roundHalfEven (q / (2 : ℚ) ^ ulpExp q) := by
      apply roundHalfEven_ge_of_ge
      rw [le_div_iff₀ hupos, ← hsplit]
      exact hpq
    rw [hreq]
    calc c ≤ (2 : ℚ) ^ Int.log 2 q := by linarith
      _ = (((2 : Int) ^ 52 : Int) : ℚ) * (2 : ℚ) ^ ulpExp q := hsplit
      _ ≤ _ := mul_le_mul_of_nonneg_right (by exact_mod_cast h1) (le_of_lt hupos)

theorem ofRat_half : Float64.ofRat (1 / 2) = Float64.fin (1 / 2) := by
  have h := Float64.ofRat_fixed 1 (-1) (by norm_num) (by norm_num)
    (by rw [abs_of_pos (by norm_num)]; norm_num)
  norm_num at h
  norm_num
  exact h

/-- The float64 constant 0.0000001 of Sparkline. -/
theorem ofRat_rangeEpsilon :
    Float64.ofRat (1 / 10000000) = Float64.fin (7555786372591432 / 2 ^ 76) := by
  rw [Float64.ofRat_eval_pos (1 / 10000000) (-24) (7555786372591432) (by norm_num) (by norm_num)
    (by norm_num) (by norm_num)
    (roundHalfEven_of_near _ (7555786372591432) (by norm_num) (by norm_num))]
  norm_num

theorem rangeEpsilon_float :
    Float64.ofRat (7555786372591432 / 2 ^ 76) = Float64.fin (7555786372591432 / 2 ^ 76) := by
  have h := Float64.ofRat_fixed 7555786372591432 (-76) (by norm_num) (by norm_num)
    (by rw [abs_of_pos (by norm_num)]; norm_num)
  norm_num at h
  norm_num
  exact h

theorem float64_lt_fin (a b : ℚ) :
    Float64.lt (Float64.fin a) (Float64.fin b) = decide (a < b) := rfl

theorem float64_abs_fin (a : ℚ) : Float64.abs (Float64.fin a) = Float64.fin |a| := rfl

/-- The test math.Abs(max-min) < 0.0000001 of Sparkline fails for a range of at
least 1/10^7. -/
theorem range_test_of_ge (lo hi : ℚ) (h : 1 / 10000000 ≤ hi - lo) :
    Float64.lt (Float64.abs (Float64.sub (Float64.fin hi) (Float64.fin lo)))
      (Float64.ofRat (1 / 10000000)) = false := by
  have hpos : (0 : ℚ) < hi - lo := lt_of_lt_of_le (by norm_num) h
  rw [float64_sub_fin, ofRat_rangeEpsilon]
  rcases ofRat_of_nonneg (hi - lo) (le_of_lt hpos) with hinf | ⟨r, hr, hr0⟩
  · rw [hinf]
    rfl
  · have hge := ofRat_ge_float (7555786372591432 / 2 ^ 76) (hi - lo) r (by norm_num)
      rangeEpsilon_float (le_trans (by norm_num) h) hr
    rw [hr, float64_abs_fin, float64_lt_fin, abs_of_nonneg hr0]
    exact decide_eq_false (not_lt.mpr hge)

theorem truncRat_of_nonneg (q : ℚ) (h : 0 ≤ q) : truncRat q = ⌊q⌋ := by
  simp [truncRat, h]

theorem toInt_fin_of_trunc (conv : Float64 → Int) (q : ℚ)
    (h : -(2 : Int) ^ 63 ≤ truncRat q ∧ truncRat q < (2 : Int) ^ 63) :
    Float64.toInt conv (Float64.fin q) = truncRat q := by
  simp only [Float64.toInt]
  rw [if_pos h]

theorem toInt_fin_of_range (conv : Float64 → Int) (q : ℚ) (h0 : 0 ≤ q) (h1 : q < 2 ^ 63) :
    Float64.toInt conv (Float64.fin q) = ⌊q⌋ := by
  have hf0 : (0 : Int) ≤ ⌊q⌋ := Int.floor_nonneg.mpr h0
  have hf1 : ⌊q⌋ < (2 : Int) ^ 63 := by
    rw [Int.floor_lt]
    exact_mod_cast h1
  rw [toInt_fin_of_trunc conv q (by rw [truncRat_of_nonneg q h0]; exact ⟨by omega, hf1⟩),
    truncRat_of_nonneg q h0]

theorem ofNat_eight : Float64.ofNat 8 = Float64.fin 8 := by
  have h := Float64.ofNat_of_lt 8 (by norm_num)
  rw [Nat.cast_ofNat] at h
  exact h

/-- The float64 product sizeRatio × 8 of Sparkline for a series of more than 8
samples: its integer part is 64 / len. -/
theorem sizeRatio_floor (len : Nat) (h9 : 8 < len) (r w : ℚ)
    (hr : Float64.ofRat (8 / (len : ℚ)) = Float64.fin r)
    (hw : Float64.ofRat (r * 8) = Float64.fin w) :
    r ≤ 1 ∧ 0 ≤ w ∧ w < 2 ^ 63 ∧ ⌊w⌋ = ((64 / len : Nat) : Int) := by
  have hlpos : (0 : ℚ) < len := by
    have : 0 < len := by omega
    exact_mod_cast this
  have hl9 : (9 : ℚ) ≤ len := by exact_mod_cast h9
  have hx0 : (0 : ℚ) < 8 / (len : ℚ) := by positivity
  have hx1 : 8 / (len : ℚ) < 1 := by
    rw [div_lt_iff₀ hlpos]
    linarith
  have habsx : |8 / (len : ℚ)| < (2 : ℚ) ^ (0 : ℤ) := by
    rw [abs_of_pos hx0]
    simpa using hx1
  have hux : ulpExp (8 / (len : ℚ)) ≤ 0 := by
    have := ulpExp_le (8 / (len : ℚ)) 0 (ne_of_gt hx0) habsx (by norm_num)
    omega
  obtain ⟨r2, hr2, herr, -, -, -⟩ := Float64.ofRat_near (8 / (len : ℚ)) 0 habsx (by norm_num)
    (by norm_num)
  have hrr : r2 = r := by
    rw [hr] at hr2
    injection hr2 with hr2
    exact hr2.symm
  subst hrr
  have hr0 : 0 ≤ r2 := ofRat_nonneg _ r2 (le_of_lt hx0) hr
  have hr1 : r2 ≤ ((1 : Int) : ℚ) :=
    Float64.ofRat_le_intCast _ r2 1 hux (by push_cast; exact le_of_lt hx1) hr
  push_cast at hr1
  have hq0 : 0 ≤ r2 * 8 := by positivity
  have habsq : |r2 * 8| < (2 : ℚ) ^ (4 : ℤ) := by
    rw [abs_of_nonneg hq0]
    norm_num
    linarith
  obtain ⟨w2, hw2, herr2, -, -, -⟩ := Float64.ofRat_near (r2 * 8) 4 habsq (by norm_num)
    (by norm_num)
  have hww : w2 = w := by
    rw [hw] at hw2
    injection hw2 with hw2
    exact hw2.symm
  subst hww
  have hw0 : 0 ≤ w2 := ofRat_nonneg _ w2 hq0 hw
  rw [abs_le] at herr herr2
  norm_num at herr herr2
  -- the quotient 64 / len
  have hN1 : (64 / len) * len ≤ 64 := Nat.div_mul_le_self 64 len
  have hN2 : 65 ≤ (64 / len + 1) * len := by
    have := Nat.lt_div_mul_add (a := 64) (b := len) (by omega)
    rw [Nat.add_mul, Nat.one_mul]
    exact this
  have hN7 : 64 / len ≤ 7 := by
    calc 64 / len ≤ 64 / 9 := Nat.div_le_div_left h9 (by norm_num)
      _ = 7 := by norm_num
  generalize 64 / len = N at hN1 hN2 hN7 ⊢
  have hN1q : (N : ℚ) * len ≤ 64 := by exact_mod_cast hN1
  have hN2q : (65 : ℚ) ≤ ((N : ℚ) + 1) * len := by exact_mod_cast hN2
  have hN7q : (N : ℚ) ≤ 7 := by exact_mod_cast hN7
  have hNnn : (0 : ℚ) ≤ (N : ℚ) := by positivity
  -- lower bound
  have hlow : (N : ℚ) ≤ w2 := by
    by_cases hN0 : N = 0
    · rw [hN0]
      simpa using hw0
    · have hNpos : (0 : ℚ) < (N : ℚ) := by
        have : 0 < N := Nat.pos_of_ne_zero hN0
        exact_mod_cast this
      have hcf : Float64.ofRat ((N : ℚ) / 8) = Float64.fin ((N : ℚ) / 8) := by
        have h := Float64.ofRat_fixed (N : Int) (-3)
          (by rw [abs_lt]; omega) (by norm_num)
          (by
            rw [abs_of_nonneg (by positivity)]
            have h3 : ((N : Int) : ℚ) * (2 : ℚ) ^ (-3 : ℤ) ≤ 7 := by
              rw [Int.cast_natCast]
              norm_num
              linarith
            exact lt_of_le_of_lt h3 (by norm_num))
        have e : ((N : Int) : ℚ) * (2 : ℚ) ^ (-3 : ℤ) = (N : ℚ) / 8 := by
          rw [Int.cast_natCast]
          norm_num
          ring
        rw [e] at h
        exact h
      have hcx : (N : ℚ) / 8 ≤ 8 / (len : ℚ) := by
        rw [div_le_div_iff (by norm_num) hlpos]
        linarith
      have h1 := ofRat_ge_float _ _ r2 (by positivity) hcf hcx hr
      have huq : ulpExp (r2 * 8) ≤ 0 := by
        have hne : r2 * 8 ≠ 0 := by
          have : 0 < r2 := by
            have : 0 < (N : ℚ) / 8 := by positivity
            linarith
          positivity
        have := ulpExp_le (r2 * 8) 4 hne habsq (by norm_num)
        omega
      have h2 := Float64.ofRat_ge_intCast (r2 * 8) w2 (N : Int) huq
        (by rw [Int.cast_natCast]; linarith) hw
      rw [Int.cast_natCast] at h2
      exact h2
  -- upper bound
  have hup : w2 < (N : ℚ) + 1 := by
    have h64 : 8 / (len : ℚ) * 8 ≤ (N : ℚ) + 1 - 1 / 65 := by
      have h1 : 8 / (len : ℚ) * 8 = 64 / (len : ℚ) := by ring
      rw [h1, div_le_iff₀ hlpos]
      have h2 : ((N : ℚ) + 1 - 1 / 65) * len = ((N : ℚ) + 1) * len - len / 65 := by ring
      rw [h2]
      have h3 : (len : ℚ) / 65 ≤ ((N : ℚ) + 1) * len / 65 := by
        apply div_le_div_of_nonneg_right _ (by norm_num)
        nlinarith
      linarith
    linarith [herr.2, herr2.2]
  refine ⟨hr1, hw0, by linarith, ?_⟩
  rw [Int.floor_eq_iff]
  exact ⟨by rw [Int.cast_natCast]; exact hlow, by rw [Int.cast_natCast]; exact hup⟩

theorem sparkline_numTicks (conv : Float64 → Int) (len : Nat) (hlen : 0 < len)
    (h53 : len < 2 ^ 53) :
    (let sizeRatio0 := Float64.div (Float64.ofNat sparklineTicks.length) (Float64.ofNat len)
     let sizeRatio := if Float64.lt (Float64.fin 1) sizeRatio0 then Float64.fin 1 else sizeRatio0
     let numTicks0 := Float64.toInt conv (Float64.mul sizeRatio (Float64.ofNat sparklineTicks.length))
     if numTicks0 < 1 then 1 else numTicks0) = sparkLevels len := by
  have hl : (len : ℚ) ≠ 0 := by exact_mod_cast (Nat.pos_iff_ne_zero.mp hlen)
  have hlpos : (0 : ℚ) < len := by exact_mod_cast hlen
  have h8 : sparklineTicks.length = 8 := rfl
  have hx0 : (0 : ℚ) < 8 / (len : ℚ) := by positivity
  have hx8 : 8 / (len : ℚ) ≤ 8 := by
    rw [div_le_iff₀ hlpos]
    have : (1 : ℚ) ≤ len := by exact_mod_cast hlen
    linarith
  have habsx : |8 / (len : ℚ)| < (2 : ℚ) ^ (4 : ℤ) := by
    rw [abs_of_pos hx0]
    norm_num
    linarith
  have hux : ulpExp (8 / (len : ℚ)) ≤ 0 := by
    have := ulpExp_le (8 / (len : ℚ)) 4 (ne_of_gt hx0) habsx (by norm_num)
    omega
  obtain ⟨r, hr, -⟩ := Float64.ofRat_near (8 / (len : ℚ)) 4 habsx (by norm_num) (by norm_num)
  have hdiv : Float64.div (Float64.ofNat sparklineTicks.length) (Float64.ofNat len) =
      Float64.fin r := by
    rw [h8, ofNat_eight, Float64.ofNat_of_lt len h53, float64_div_fin _ _ hl, hr]
  simp only []
  rw [hdiv, h8, ofNat_eight, float64_lt_fin]
  have h88 : Float64.ofRat (1 * 8) = Float64.fin 8 := by
    have h := Float64.ofRat_natCast 8 (by norm_num)
    rw [Nat.cast_ofNat] at h
    rw [one_mul]
    exact h
  have hto8 : Float64.toInt conv (Float64.fin 8) = 8 := by
    rw [toInt_fin_of_range conv 8 (by norm_num) (by norm_num)]
    norm_num
  by_cases hle : len ≤ 8
  · have hx1 : ((1 : Int) : ℚ) ≤ 8 / (len : ℚ) := by
      rw [le_div_iff₀ hlpos]
      have : (len : ℚ) ≤ 8 := by exact_mod_cast hle
      push_cast
      linarith
    have hr1 := Float64.ofRat_ge_intCast _ r 1 hux hx1 hr
    push_cast at hr1
    have hsr : (if decide (1 < r) = true then Float64.fin 1 else Float64.fin r) =
        Float64.fin 1 := by
      by_cases h1 : 1 < r
      · rw [if_pos (decide_eq_true h1)]
      · rw [if_neg (by simpa using h1)]
        have : r = 1 := le_antisymm (not_lt.mp h1) hr1
        rw [this]
    rw [hsr, float64_mul_fin, h88, hto8]
    simp [sparkLevels, hle]
  · have h9 : 8 < len := by omega
    have hrw : ∃ w, Float64.ofRat (r * 8) = Float64.fin w := by
      have hr0 : 0 ≤ r := ofRat_nonneg _ r (le_of_lt hx0) hr
      have hr1 : r ≤ ((1 : Int) : ℚ) :=
        Float64.ofRat_le_intCast _ r 1 hux (by
          push_cast
          rw [div_le_iff₀ hlpos]
          have : (9 : ℚ) ≤ len := by exact_mod_cast h9
          linarith) hr
      push_cast at hr1
      obtain ⟨w, hw, -⟩ := Float64.ofRat_near (r * 8) 4 (by
        rw [abs_of_nonneg (by positivity)]
        norm_num
        linarith) (by norm_num) (by norm_num)
      exact ⟨w, hw⟩
    obtain ⟨w, hw⟩ := hrw
    obtain ⟨hr1, hw0, hw63, hfl⟩ := sizeRatio_floor len h9 r w hr hw
    have hsr : (if decide (1 < r) = true then Float64.fin 1 else Float64.fin r) =
        Float64.fin r := if_neg (by simpa using hr1)
    rw [hsr, float64_mul_fin, hw, toInt_fin_of_range conv w hw0 hw63, hfl]
    simp only [sparkLevels, hle, if_false]
    split
    · omega
    · omega

theorem sparkLevels_bounds (len : Nat) : 1 ≤ sparkLevels len ∧ sparkLevels len ≤ 8 := by
  unfold sparkLevels
  split
  · omega
  · rename_i h
    have h1 : 64 / len ≤ 7 := by
      have : len ≥ 9 := by omega
      calc 64 / len ≤ 64 / 9 := Nat.div_le_div_left this (by norm_num)
        _ = 7 := by norm_num
    omega

theorem mapOrFail_map {α β γ : Type} (f : β → Option γ) (e : α → β) (xs : List α) :
    mapOrFail f (xs.map e) = mapOrFail (fun x => f (e x)) xs := by
  induction xs with
  | nil => rfl
  | cons a rest ih => simp only [List.map_cons, mapOrFail, ih]

theorem mapOrFail_eq_some {α β : Type} (f : α → Option β) (g : α → β) (xs : List α)
    (h : ∀ x ∈ xs, f x = some (g x)) : mapOrFail f xs = some (xs.map g) := by
  induction xs with
  | nil => rfl
  | cons a rest ih =>
    have ha := h a (List.mem_cons_self _ _)
    have hr := ih (fun x hx => h x (List.mem_cons_of_mem _ hx))
    simp only [List.map_cons, mapOrFail, ha, hr]

theorem mapOrFail_some_spec {α β : Type} (f : α → Option β) (xs : List α) (out : List β)
    (h : mapOrFail f xs = some out) :
    out.length = xs.length ∧ ∀ s ∈ out, ∃ x ∈ xs, f x = some s := by
  induction xs generalizing out with
  | nil =>
    simp only [mapOrFail, Option.some.injEq] at h
    subst h
    exact ⟨rfl, fun s hs => absurd hs (List.not_mem_nil s)⟩
  | cons a rest ih =>
    simp only [mapOrFail] at h
    cases ha : f a with
    | none => rw [ha] at h; exact absurd h (by simp)
    | some b =>
      rw [ha] at h
      cases hr : mapOrFail f rest with
      | none => rw [hr] at h; exact absurd h (by simp)
      | some bs =>
        rw [hr] at h
        simp only [Option.some.injEq] at h
        subst h
        obtain ⟨hlen, hmem⟩ := ih bs hr
        refine ⟨by simp [hlen], fun s hs => ?_⟩
        rcases List.mem_cons.mp hs with h1 | h1
        · exact ⟨a, List.mem_cons_self _ _, by rw [h1]; exact ha⟩
        · obtain ⟨x, hx, hfx⟩ := hmem s h1
          exact ⟨x, List.mem_cons_of_mem _ hx, hfx⟩

theorem tickGlyph_of_range (t : Int) (h0 : 0 ≤ t) (h1 : t < 8) :
    tickGlyph t = some (sparklineTicks.getD t.toNat "") := by
  have hlen : sparklineTicks.length = 8 := rfl
  have ht : t.toNat < sparklineTicks.length := by rw [hlen]; omega
  simp only [tickGlyph, hlen]
  rw [if_pos ⟨h0, by exact_mod_cast h1⟩]
  rw [List.getD_eq_getElem?_getD, List.getElem?_eq_getElem ht]
  rfl

theorem tickGlyph_mem (t : Int) (s : String) (h : tickGlyph t = some s) :
    s ∈ sparklineTicks := by
  unfold tickGlyph at h
  split at h
  · exact List.getElem?_mem h
  · exact absurd h (by simp)

theorem tickGlyph_of_neg (t : Int) (h : t < 0) : tickGlyph t = none := by
  unfold tickGlyph
  rw [if_neg (by omega)]

theorem floor_of_bounds (x : ℚ) (z : Int) (h0 : (z : ℚ) ≤ x) (h1 : x < (z : ℚ) + 1) : ⌊x⌋ = z :=
  Int.floor_eq_iff.mpr ⟨h0, h1⟩

theorem mapOrFail_const_replicate {α : Type} (x : α) (m : Nat) :
    mapOrFail (fun _ : α => tickGlyph 0) (List.replicate m x) = some (List.replicate m "▁") := by
  induction m with
  | zero => rfl
  | succ m ih =>
    have h0 : tickGlyph 0 = some "▁" := by decide
    rw [List.replicate_succ, List.replicate_succ]
    simp only [mapOrFail]
    rw [ih, h0]

theorem sparkline_steps (conv : Float64 → Int) (qs : List ℚ) (lo hi : ℚ) (cm : Int)
    (hne : qs ≠ []) (hlen : qs.length < 2 ^ 53) (hrange : 1 / 10000000 ≤ hi - lo) :
    Sparkline conv ⟨qs.map Float64.fin, Float64.fin lo, Float64.fin hi, cm⟩ =
      mapOrFail
        (fun n : ℚ => tickGlyph
          (if Float64.toInt conv (sparkTickValue (sparkLevels qs.length) lo hi n)
              ≥ sparkLevels qs.length then sparkLevels qs.length - 1
            else Float64.toInt conv (sparkTickValue (sparkLevels qs.length) lo hi n)))
        qs := by
  have hpos : (0 : ℚ) < hi - lo := lt_of_lt_of_le (by norm_num) hrange
  have hlen0 : 0 < qs.length := List.length_pos.mpr hne
  have hnt := sparkline_numTicks conv qs.length hlen0 hlen
  cases hqs : qs with
  | nil => exact absurd hqs hne
  | cons q0 rest =>
    rw [← hqs]
    have hdata : (qs.map Float64.fin) = Float64.fin q0 :: rest.map Float64.fin := by
      rw [hqs]; rfl
    unfold Sparkline
    simp only [hdata]
    rw [← hdata]
    have hnz : ¬ (Float64.fin lo = Float64.fin 0 ∧ Float64.fin hi = Float64.fin 0) := by
      rintro ⟨h1, h2⟩
      injection h1 with h1
      injection h2 with h2
      rw [h1, h2, sub_zero] at hpos
      exact lt_irrefl _ hpos
    simp only [hnz, if_false, List.length_map]
    dsimp only at hnt
    rw [hnt, range_test_of_ge lo hi hrange]
    simp only [Bool.false_eq_true, if_false]
    rw [mapOrFail_map]
    rfl

theorem sparkTick_of_value (L : Int) (lo hi n w : ℚ)
    (hv : sparkTickValue L lo hi n = Float64.fin w) :
    sparkTick L lo hi n = min (L - 1) ⌊w⌋ := by
  unfold sparkTick
  rw [hv]
  rfl

theorem sparkline_fixed_range (conv : Float64 → Int) (qs : List ℚ) (lo hi : ℚ) (cm : Int)
    (hne : qs ≠ []) (hlen : qs.length < 2 ^ 53) (hrange : 1 / 10000000 ≤ hi - lo)
    (hq : ∀ n ∈ qs, ∃ w : ℚ,
      sparkTickValue (sparkLevels qs.length) lo hi n = Float64.fin w ∧ 0 ≤ w ∧ w < 2 ^ 63) :
    Sparkline conv ⟨qs.map Float64.fin, Float64.fin lo, Float64.fin hi, cm⟩ =
      some (qs.map (fun n => sparklineTicks.getD (sparkTick (sparkLevels qs.length) lo hi n).toNat
        "")) := by
  obtain ⟨hl1, hl8⟩ := sparkLevels_bounds qs.length
  rw [sparkline_steps conv qs lo hi cm hne hlen hrange]
  apply mapOrFail_eq_some
  intro n hn
  obtain ⟨w, hv, hw0, hw1⟩ := hq n hn
  rw [sparkTick_of_value _ lo hi n w hv, hv, toInt_fin_of_range conv w hw0 hw1]
  have hfl : (0 : Int) ≤ ⌊w⌋ := Int.floor_nonneg.mpr hw0
  have htick : (if ⌊w⌋ ≥ sparkLevels qs.length then sparkLevels qs.length - 1 else ⌊w⌋) =
      min (sparkLevels qs.length - 1) ⌊w⌋ := by
    split
    · rw [min_eq_left (by omega)]
    · rw [min_eq_right (by omega)]
  rw [htick]
  apply tickGlyph_of_range
  · exact le_min (by omega) hfl
  · have := min_le_left (sparkLevels qs.length - 1) ⌊w⌋
    omega

/-- The tick value of a sample from the six float64 operations that produce
it, each given by its exact argument and its rounded result. -/
theorem sparkTickValue_eval (L : Int) (lo hi n A a D d lq l Q s P p V w : ℚ)
    (eA : n - lo = A) (ha : Float64.ofRat A = Float64.fin a)
    (eD : hi - lo = D) (hd : Float64.ofRat D = Float64.fin d) (hd0 : d ≠ 0)
    (el : ((L - 1 : Int) : ℚ) = lq) (hl : Float64.ofRat lq = Float64.fin l)
    (eQ : l / d = Q) (hs : Float64.ofRat Q = Float64.fin s)
    (eP : a * s = P) (hp : Float64.ofRat P = Float64.fin p)
    (eV : p + 1 / 2 = V) (hw : Float64.ofRat V = Float64.fin w) :
    sparkTickValue L lo hi n = Float64.fin w := by
  subst eA eD el eQ eP eV
  unfold sparkTickValue
  rw [float64_sub_fin, ha, float64_sub_fin, hd, Float64.ofInt, hl, float64_div_fin _ _ hd0, hs,
    float64_mul_fin, hp, float64_add_fin, hw]

theorem tickValue_8_0_100_50 :
    sparkTickValue 8 0 100 50 = Float64.fin 4 := by
  have h : sparkTickValue 8 0 100 50 = Float64.fin 4 := by
    have ha : Float64.ofRat (50 : ℚ) = Float64.fin 50 := by
      rw [Float64.ofRat_eval_pos 50 (5) (7036874417766400) (by norm_num) (by norm_num)
        (by norm_num) (by norm_num)
        (roundHalfEven_of_near _ (7036874417766400) (by norm_num) (by norm_num))]
      norm_num
    have hd : Float64.ofRat (100 : ℚ) = Float64.fin 100 := by
      rw [Float64.ofRat_eval_pos 100 (6) (7036874417766400) (by norm_num) (by norm_num)
        (by norm_num) (by norm_num)
        (roundHalfEven_of_near _ (7036874417766400) (by norm_num) (by norm_num))]
      norm_num
    have hl : Float64.ofRat (7 : ℚ) = Float64.fin 7 := by
      rw [Float64.ofRat_eval_pos 7 (2) (7881299347898368) (by norm_num) (by norm_num)
        (by norm_num) (by norm_num)
        (roundHalfEven_of_near _ (7881299347898368) (by norm_num) (by norm_num))]
      norm_num
    have hs : Float64.ofRat ((7 / 100) : ℚ) = Float64.fin (1261007895663739 / 18014398509481984) := by
      rw [Float64.ofRat_eval_pos (7 / 100) (-4) (5044031582654956) (by norm_num) (by norm_num)
        (by norm_num) (by norm_num)
        (roundHalfEven_of_near _ (5044031582654956) (by norm_num) (by norm_num))]
      norm_num
    have hp : Float64.ofRat ((31525197391593475 / 9007199254740992) : ℚ) = Float64.fin (7881299347898369 / 2251799813685248) := by
      rw [Float64.ofRat_eval_pos (31525197391593475 / 9007199254740992) (1) (7881299347898369) (by norm_num) (by norm_num)
        (by norm_num) (by norm_num)
        (roundHalfEven_of_near _ (7881299347898369) (by norm_num) (by norm_num))]
      norm_num
    have hw : Float64.ofRat ((9007199254740993 / 2251799813685248) : ℚ) = Float64.fin 4 := by
      rw [Float64.ofRat_eval_pos (9007199254740993 / 2251799813685248) (2) (4503599627370496) (by norm_num) (by norm_num)
        (by norm_num) (by norm_num)
        (by
          rw [show ((9007199254740993 / 2251799813685248) : ℚ) / (2 : ℚ) ^ ((2 : ℤ) - 52) = ((4503599627370496 : ℤ) : ℚ) + 1 / 2 by norm_num]
          exact roundHalfEven_tie_down (4503599627370496) (by decide))]
      norm_num
    exact sparkTickValue_eval 8 0 100 50 50 50 100 100
      7 7 (7 / 100) (1261007895663739 / 18014398509481984) (31525197391593475 / 9007199254740992) (7881299347898369 / 2251799813685248) (9007199254740993 / 2251799813685248) 4
      (by norm_num) ha (by norm_num) hd (by norm_num) (by norm_num) hl (by norm_num) hs
      (by norm_num) hp (by norm_num) hw
  exact h

theorem tickValue_6_0_100_0 :
    sparkTickValue 6 0 100 0 = Float64.fin (1 / 2) := by
  have h : sparkTickValue 6 0 100 0 = Float64.fin (1 / 2) := by
    have ha : Float64.ofRat (0 : ℚ) = Float64.fin 0 := Float64.ofRat_zero
    have hd : Float64.ofRat (100 : ℚ) = Float64.fin 100 := by
      rw [Float64.ofRat_eval_pos 100 (6) (7036874417766400) (by norm_num) (by norm_num)
        (by norm_num) (by norm_num)
        (roundHalfEven_of_near _ (7036874417766400) (by norm_num) (by norm_num))]
      norm_num
    have hl : Float64.ofRat (5 : ℚ) = Float64.fin 5 := by
      rw [Float64.ofRat_eval_pos 5 (2) (5629499534213120) (by norm_num) (by norm_num)
        (by norm_num) (by norm_num)
        (roundHalfEven_of_near _ (5629499534213120) (by norm_num) (by norm_num))]
      norm_num
    have hs : Float64.ofRat ((1 / 20) : ℚ) = Float64.fin (3602879701896397 / 72057594037927936) := by
      rw [Float64.ofRat_eval_pos (1 / 20) (-5) (7205759403792794) (by norm_num) (by norm_num)
        (by norm_num) (by norm_num)
        (roundHalfEven_of_near _ (7205759403792794) (by norm_num) (by norm_num))]
      norm_num
    have hp : Float64.ofRat (0 : ℚ) = Float64.fin 0 := Float64.ofRat_zero
    have hw : Float64.ofRat ((1 / 2) : ℚ) = Float64.fin (1 / 2) := by
      rw [Float64.ofRat_eval_pos (1 / 2) (-1) (4503599627370496) (by norm_num) (by norm_num)
        (by norm_num) (by norm_num)
        (roundHalfEven_of_near _ (4503599627370496) (by norm_num) (by norm_num))]
      norm_num
    exact sparkTickValue_eval 6 0 100 0 0 0 100 100
      5 5 (1 / 20) (3602879701896397 / 72057594037927936) 0 0 (1 / 2) (1 / 2)
      (by norm_num) ha (by norm_num) hd (by norm_num) (by norm_num) hl (by norm_num) hs
      (by norm_num) hp (by norm_num) hw
  exact h

theorem tickValue_8_0_100_neg100 :
    sparkTickValue 8 0 100 (-100) = Float64.fin (-(7318349394477057 / 1125899906842624)) := by
  have h : sparkTickValue 8 0 100 (-100) = Float64.fin (-(7318349394477057 / 1125899906842624)) := by
    have ha : Float64.ofRat ((-100) : ℚ) = Float64.fin (-100) := by
      rw [Float64.ofRat_eval_neg (-100) (6) (-7036874417766400) (by norm_num) (by norm_num)
        (by norm_num) (by norm_num)
        (roundHalfEven_of_near _ (-7036874417766400) (by norm_num) (by norm_num))]
      norm_num
    have hd : Float64.ofRat (100 : ℚ) = Float64.fin 100 := by
      rw [Float64.ofRat_eval_pos 100 (6) (7036874417766400) (by norm_num) (by norm_num)
        (by norm_num) (by norm_num)
        (roundHalfEven_of_near _ (7036874417766400) (by norm_num) (by norm_num))]
      norm_num
    have hl : Float64.ofRat (7 : ℚ) = Float64.fin 7 := by
      rw [Float64.ofRat_eval_pos 7 (2) (7881299347898368) (by norm_num) (by norm_num)
        (by norm_num) (by norm_num)
        (roundHalfEven_of_near _ (7881299347898368) (by norm_num) (by norm_num))]
      norm_num
    have hs : Float64.ofRat ((7 / 100) : ℚ) = Float64.fin (1261007895663739 / 18014398509481984) := by
      rw [Float64.ofRat_eval_pos (7 / 100) (-4) (5044031582654956) (by norm_num) (by norm_num)
        (by norm_num) (by norm_num)
        (roundHalfEven_of_near _ (5044031582654956) (by norm_num) (by norm_num))]
      norm_num
    have hp : Float64.ofRat ((-(31525197391593475 / 4503599627370496)) : ℚ) = Float64.fin (-(7881299347898369 / 1125899906842624)) := by
      rw [Float64.ofRat_eval_neg (-(31525197391593475 / 4503599627370496)) (2) (-7881299347898369) (by norm_num) (by norm_num)
        (by norm_num) (by norm_num)
        (roundHalfEven_of_near _ (-7881299347898369) (by norm_num) (by norm_num))]
      norm_num
    have hw : Float64.ofRat ((-(7318349394477057 / 1125899906842624)) : ℚ) = Float64.fin (-(7318349394477057 / 1125899906842624)) := by
      rw [Float64.ofRat_eval_neg (-(7318349394477057 / 1125899906842624)) (2) (-7318349394477057) (by norm_num) (by norm_num)
        (by norm_num) (by norm_num)
        (roundHalfEven_of_near _ (-7318349394477057) (by norm_num) (by norm_num))]
      norm_num
    exact sparkTickValue_eval 8 0 100 (-100) (-100) (-100) 100 100
      7 7 (7 / 100) (1261007895663739 / 18014398509481984) (-(31525197391593475 / 4503599627370496)) (-(7881299347898369 / 1125899906842624)) (-(7318349394477057 / 1125899906842624)) (-(7318349394477057 / 1125899906842624))
      (by norm_num) ha (by norm_num) hd (by norm_num) (by norm_num) hl (by norm_num) hs
      (by norm_num) hp (by norm_num) hw
  exact h

theorem sparkTick_8_0_100_50 : sparkTick 8 0 100 50 = 4 := by
  rw [sparkTick_of_value _ _ _ _ _ tickValue_8_0_100_50, floor_of_bounds _ 4 (by norm_num) (by norm_num)]
  decide

theorem sparkTick_6_0_100_0 : sparkTick 6 0 100 0 = 0 := by
  rw [sparkTick_of_value _ _ _ _ _ tickValue_6_0_100_0, floor_of_bounds _ 0 (by norm_num) (by norm_num)]
  decide

theorem sparkline_some_spec (conv : Float64 → Int) (g : Graph) (glyphs : List String)
    (h : Sparkline conv g = some glyphs) :
    glyphs.length = g.Data.length ∧ ∀ s ∈ glyphs, s ∈ sparklineTicks := by
  unfold Sparkline at h
  cases hd : g.Data with
  | nil =>
    rw [hd] at h
    simp only [Option.some.injEq] at h
    subst h
    exact ⟨rfl, fun s hs => absurd hs (List.not_mem_nil s)⟩
  | cons first rest =>
    rw [hd] at h
    simp only [] at h
    have finish : ∀ (f : Float64 → Option String),
        (∀ x s, f x = some s → s ∈ sparklineTicks) →
        mapOrFail f (first :: rest) = some glyphs →
        glyphs.length = (first :: rest).length ∧ ∀ s ∈ glyphs, s ∈ sparklineTicks := by
      intro f hf hm
      obtain ⟨hlen, hmem⟩ := mapOrFail_some_spec _ _ _ hm
      refine ⟨hlen, fun s hs => ?_⟩
      obtain ⟨x, _, hx⟩ := hmem s hs
      exact hf x s hx
    by_cases hc : Float64.lt (Float64.abs (Float64.sub
        (if g.Min = Float64.fin 0 ∧ g.Max = Float64.fin 0 then dataRange (first :: rest) first
          else (g.Min, g.Max)).2
        (if g.Min = Float64.fin 0 ∧ g.Max = Float64.fin 0 then dataRange (first :: rest) first
          else (g.Min, g.Max)).1)) (Float64.ofRat (1 / 10000000)) = true
    · rw [if_pos hc] at h
      exact finish _ (fun x s hx => tickGlyph_mem _ _ hx) h
    · rw [if_neg hc] at h
      exact finish _ (fun x s hx => tickGlyph_mem _ _ hx) h

/-- C13, the failing input. For the one-sample series [-100] with Min = 0 and
Max = 100 the computed tick is -6 and the lookup sparklineTicks[-6] fails at run
time, whatever the implementation does for non-finite conversions; whenever
Sparkline does return, it returns one glyph per sample, each an element of
sparklineTicks, and for the empty series it returns the empty list. -/
theorem sparkline_index_below_range :
    (∀ conv : Float64 → Int,
      Sparkline conv ⟨[Float64.fin (-100)], Float64.fin 0, Float64.fin 100, 0⟩ = none) ∧
    (∀ (conv : Float64 → Int) (g : Graph) (glyphs : List String),
      Sparkline conv g = some glyphs →
      glyphs.length = g.Data.length ∧ ∀ s ∈ glyphs, s ∈ sparklineTicks) ∧
    (∀ (conv : Float64 → Int) (lo hi : Float64) (cm : Int),
      Sparkline conv ⟨[], lo, hi, cm⟩ = some []) := by
  refine ⟨fun conv => ?_, sparkline_some_spec, fun _ _ _ _ => rfl⟩
  have h := sparkline_steps conv [-100] 0 100 0 (by simp) (by simp) (by norm_num)
  have hl : sparkLevels ([-100] : List ℚ).length = 8 := by decide
  rw [hl] at h
  have htr : truncRat (-(7318349394477057 / 1125899906842624)) = -6 := by
    have hneg : ¬ ((0 : ℚ) ≤ (-(7318349394477057 / 1125899906842624))) := by norm_num
    simp only [truncRat, hneg, if_false]
    exact Int.ceil_eq_iff.mpr ⟨by norm_num, by norm_num⟩
  have hti : Float64.toInt conv (Float64.fin (-(7318349394477057 / 1125899906842624))) = -6 := by
    rw [toInt_fin_of_trunc conv _ (by rw [htr]; decide), htr]
  simp only [List.map_cons, List.map_nil] at h
  rw [h]
  simp only [mapOrFail, tickValue_8_0_100_neg100, hti]
  rw [if_neg (by decide), tickGlyph_of_neg _ (by decide)]

theorem dataRange_replicate (c : ℚ) (m : Nat) :
    dataRange (List.replicate m (Float64.fin c)) (Float64.fin c) =
      (Float64.fin c, Float64.fin c) := by
  unfold dataRange
  induction m with
  | zero => rfl
  | succ m ih =>
    rw [List.replicate_succ, List.foldl_cons]
    simp only [Float64.lt, lt_irrefl, decide_False, Bool.false_eq_true, if_false]
    exact ih

/-- C14 (amended). Sparkline of a constant series: for every non-empty series
all of whose samples are the same finite value, and every Min, Max for which
the test math.Abs(max-min) < 0.0000001 of the code holds in float64, Sparkline
returns the minimal glyph ▁ in every position; the auto-range setting
Min = Max = 0 is such a setting. -/
theorem sparkline_constant_series (conv : Float64 → Int) (c lo hi : ℚ) (k : Nat) (cm : Int)
    (h : Float64.lt (Float64.abs (Float64.sub (Float64.fin hi) (Float64.fin lo)))
      (Float64.ofRat (1 / 10000000)) = true) :
    Sparkline conv ⟨List.replicate (k + 1) (Float64.fin c), Float64.fin lo, Float64.fin hi, cm⟩
      = some (List.replicate (k + 1) "▁") ∧
    Sparkline conv ⟨List.replicate (k + 1) (Float64.fin c), Float64.fin 0, Float64.fin 0, cm⟩
      = some (List.replicate (k + 1) "▁") := by
  have habs0 : Float64.lt (Float64.abs (Float64.sub (Float64.fin c) (Float64.fin c)))
      (Float64.ofRat (1 / 10000000)) = true := by
    rw [float64_sub_fin, sub_self, Float64.ofRat_zero, ofRat_rangeEpsilon, float64_abs_fin,
      float64_lt_fin]
    exact decide_eq_true (by norm_num)
  have hauto : Sparkline conv
      ⟨List.replicate (k + 1) (Float64.fin c), Float64.fin 0, Float64.fin 0, cm⟩
      = some (List.replicate (k + 1) "▁") := by
    unfold Sparkline
    simp only [List.replicate_succ]
    rw [← List.replicate_succ]
    simp only [and_self, if_true, dataRange_replicate, habs0]
    exact mapOrFail_const_replicate _ _
  refine ⟨?_, hauto⟩
  by_cases hz : Float64.fin lo = Float64.fin 0 ∧ Float64.fin hi = Float64.fin 0
  · rw [hz.1, hz.2]
    exact hauto
  · unfold Sparkline
    simp only [List.replicate_succ]
    rw [← List.replicate_succ]
    simp only [hz, if_false, h, if_true]
    exact mapOrFail_const_replicate _ _

/-- Witness for C14: three samples of 50 with the auto-range setting. -/
theorem sparkline_constant_series_witness :
    Sparkline (fun _ => 0)
      ⟨[Float64.fin 50, Float64.fin 50, Float64.fin 50], Float64.fin 0, Float64.fin 0, 0⟩ =
      some ["▁", "▁", "▁"] :=
  (sparkline_constant_series (fun _ => 0) 50 0 0 2 0 (by
    rw [float64_sub_fin, sub_self, Float64.ofRat_zero, ofRat_rangeEpsilon, float64_abs_fin,
      float64_lt_fin]
    exact decide_eq_true (by norm_num))).1

/-- Counterexample for C14: three samples of 50 with Min = 0 and Max = 100, the
setting used for CPU usage, give the fifth glyph ▅ in every position. -/
theorem sparkline_constant_fifty_on_percent_scale :
    Sparkline (fun _ => 0)
      ⟨[Float64.fin 50, Float64.fin 50, Float64.fin 50], Float64.fin 0, Float64.fin 100, 0⟩ =
      some ["▅", "▅", "▅"] := by
  have hl : sparkLevels ([50, 50, 50] : List ℚ).length = 8 := by decide
  have h := sparkline_fixed_range (fun _ => 0) [50, 50, 50] 0 100 0 (by simp) (by simp)
    (by norm_num)
    (by
      rw [hl]
      intro n hn
      simp only [List.mem_cons, List.mem_singleton, List.not_mem_nil, or_false] at hn
      rcases hn with h | h | h <;> subst h <;>
        exact ⟨_, tickValue_8_0_100_50, by norm_num, by norm_num⟩)
  rw [hl] at h
  simp only [List.map_cons, List.map_nil, sparkTick_8_0_100_50] at h
  exact h

theorem getSymbolIndex_range (v : Float64) :
    getSymbolIndex v = 1 ∨ getSymbolIndex v = 2 ∨ getSymbolIndex v = 3 ∨ getSymbolIndex v = 4 := by
  unfold getSymbolIndex
  split
  · exact Or.inl rfl
  · split
    · exact Or.inr (Or.inl rfl)
    · split
      · exact Or.inr (Or.inr (Or.inl rfl))
      · exact Or.inr (Or.inr (Or.inr rfl))

/-- C15, the failing input. For the pair (-1, -1) usageToSymbol returns the glyph
of the key 11, not the glyph of the key 00: getSymbolIndex gives a finite sample
the bucket 1 if it is < 25 (negative ones included), 2 if < 50, 3 if < 75 and 4
otherwise, never 0, so the nine table entries with a digit 0 are not
selectable. -/
theorem braille_bucket_zero_is_never_assigned :
    (usageToSymbol (Float64.fin (-1)) (Float64.fin (-1))).1 = "⣀" ∧
    graphSymbols.lookup "11" = some "⣀" ∧
    graphSymbols.lookup "00" = some "⠀" ∧
    (∀ v : Float64, getSymbolIndex v ≠ 0) ∧
    (∀ q : ℚ, getSymbolIndex (Float64.fin q) =
      if q < 25 then 1 else if q < 50 then 2 else if q < 75 then 3 else 4) ∧
    (∀ current next : Float64, (usageToSymbol current next).1 =
      (graphSymbols.lookup
        (toString (getSymbolIndex current) ++ toString (getSymbolIndex next))).getD "") := by
  refine ⟨by decide, by decide, by decide, fun v => ?_, fun q => ?_, fun _ _ => rfl⟩
  · rcases getSymbolIndex_range v with h | h | h | h <;> rw [h] <;> decide
  · simp only [getSymbolIndex, Float64.lt, decide_eq_true_eq]

/-- C16, the failing input. For the pair (-1, -1), both samples below 0,
usageToSymbol returns the blue template, not the bare one; for every pair the
template is the one of the larger of the two buckets getSymbolIndex assigns:
red for 4, orange for 3, yellow for 2, blue for 1. -/
theorem braille_negative_pair_is_blue :
    (usageToSymbol (Float64.fin (-1)) (Float64.fin (-1))).2 = "[#4897d4]%s[none]" ∧
    (∀ current next : Float64, (usageToSymbol current next).2 =
      colourTemplate (max (getSymbolIndex current) (getSymbolIndex next))) ∧
    colourTemplate 4 = "[#fa1e1e]%s[none]" ∧ colourTemplate 3 = "[#E78101]%s[none]" ∧
    colourTemplate 2 = "[#f2e266]%s[none]" ∧ colourTemplate 1 = "[#4897d4]%s[none]" ∧
    colourTemplate 0 = "%s" := by
  refine ⟨by decide, fun current next => ?_, rfl, rfl, rfl, rfl, rfl⟩
  unfold usageToSymbol
  rcases getSymbolIndex_range current with h | h | h | h <;>
    rcases getSymbolIndex_range next with k | k | k | k <;>
    rw [h, k] <;> decide

theorem stringsJoin_foldl (init : String) (parts : List String) :
    parts.foldl (fun acc p => acc ++ p) init = init ++ stringsJoin parts := by
  unfold stringsJoin
  induction parts generalizing init with
  | nil => simp
  | cons a rest ih =>
    rw [List.foldl_cons, List.foldl_cons, ih, ih ("" ++ a)]
    simp [String.append_assoc]

theorem stringsJoin_cons (a : String) (rest : List String) :
    stringsJoin (a :: rest) = a ++ stringsJoin rest := by
  have h := stringsJoin_foldl ("" ++ a) rest
  unfold stringsJoin at h ⊢
  rw [List.foldl_cons, h]
  simp

/-- C17. Braille width: the entries of BrailleLine joined are the columns of the
series joined, one column per pair of samples: there are ceil(N/2) columns,
column j is the formatted usageToSymbol(Data[2j], Data[2j+1]) with a missing
right sample taken as 0, and for N = 0 the result is empty. The result has N
entries, those of odd index being empty strings. -/
theorem braille_width (g : Graph) :
    stringsJoin (BrailleLine g) = stringsJoin (brailleColumns g.Data) ∧
    (brailleColumns g.Data).length = (g.Data.length + 1) / 2 ∧
    (∀ j, j < (brailleColumns g.Data).length →
      (brailleColumns g.Data)[j]? = some (brailleColumn (g.Data.getD (2 * j) (Float64.fin 0))
        (g.Data.getD (2 * j + 1) (Float64.fin 0)))) ∧
    (BrailleLine g).length = g.Data.length ∧
    (g.Data = [] → BrailleLine g = []) := by
  unfold BrailleLine
  generalize g.Data = data
  refine ⟨?_, ?_, ?_, ?_, fun h => by rw [h]; rfl⟩
  · induction data using brailleArray.induct with
    | case1 => rfl
    | case2 current => rfl
    | case3 current next rest ih =>
      simp only [brailleArray, brailleColumns, stringsJoin_cons, ih]
      simp [brailleColumn]
  · induction data using brailleArray.induct with
    | case1 => rfl
    | case2 current => simp [brailleColumns]
    | case3 current next rest ih =>
      simp only [brailleColumns, List.length_cons, ih]
      omega
  · induction data using brailleArray.induct with
    | case1 => intro j hj; simp [brailleColumns] at hj
    | case2 current =>
      intro j hj
      simp only [brailleColumns, List.length_singleton, Nat.lt_one_iff] at hj
      subst hj
      rfl
    | case3 current next rest ih =>
      intro j hj
      cases j with
      | zero => simp [brailleColumns]
      | succ j =>
        simp only [brailleColumns, List.length_cons, Nat.add_lt_add_iff_right] at hj
        have := ih j hj
        have e1 : 2 * (j + 1) = (2 * j) + 1 + 1 := by omega
        rw [e1]
        simp only [brailleColumns, List.getElem?_cons_succ, this, List.getD_cons_succ]
  · induction data using brailleArray.induct with
    | case1 => rfl
    | case2 current => rfl
    | case3 current next rest ih =>
      simp only [brailleArray, List.length_cons, ih]

theorem getDiskIOBytes_total (n : Node) (device : String) (h0 : 0 ≤ n.DiskIOsLimit) :
    ∃ m, getDiskIOBytes n device = some m ∧ m.DiskIOsLimit = n.DiskIOsLimit ∧
      m.DiskIOs = n.DiskIOs := by
  unfold getDiskIOBytes
  by_cases hdev : device.utf8ByteSize = 0
  · exact ⟨n, by simp [hdev], rfl, rfl⟩
  · simp only [hdev, if_false]
    by_cases hlen : (mapGet n.DiskIOs device).length > 1
    · simp only [hlen, dite_true, evictHead_of_nonneg _ _ h0]
      exact ⟨_, rfl, rfl, rfl⟩
    · simp only [hlen, dite_false, evictHead_of_nonneg _ _ h0]
      exact ⟨_, rfl, rfl, rfl⟩

theorem diskUsageFold (r : RemoteFS) (mounts : List Mount) (st : Node × List DiskUsage)
    (hstat : ∀ m ∈ mounts, ∃ d, r.ReadDisk m.MountPoint = some d)
    (h0 : 0 ≤ st.1.DiskIOsLimit) :
    ∃ out, foldOrFail (getDiskUsageStep r) st mounts = some out ∧
      out.2.map (fun u => (u.MountPoint, u.FSType, u.Device, some (Disk.mk u.All u.Used u.Free))) =
        st.2.map (fun u => (u.MountPoint, u.FSType, u.Device, some (Disk.mk u.All u.Used u.Free)))
          ++ (mounts.filter (fun m => fstype m.FSType)).map
            (fun m => (m.MountPoint, m.FSType, m.Device, r.ReadDisk m.MountPoint)) := by
  induction mounts generalizing st with
  | nil => exact ⟨st, rfl, by simp⟩
  | cons m rest ih =>
    obtain ⟨d, hd⟩ := hstat m (List.mem_cons_self _ _)
    have hrest : ∀ x ∈ rest, ∃ d, r.ReadDisk x.MountPoint = some d :=
      fun x hx => hstat x (List.mem_cons_of_mem _ hx)
    by_cases hfs : fstype m.FSType = true
    · obtain ⟨n2, hn2, hlim, _⟩ := getDiskIOBytes_total
        { st.1 with remoteReads := st.1.remoteReads ++ [m.MountPoint] } m.Device h0
      have hstep : getDiskUsageStep r st m = some (n2, st.2 ++
          [⟨m.MountPoint, m.FSType, m.Device, d.All, d.Used, d.Free,
            n2.DiskReadIOBytes, n2.DiskWriteIOBytes⟩]) := by
        simp only [getDiskUsageStep, hd, hfs, if_true, hn2]
      obtain ⟨out, hout, hmap⟩ := ih (n2, st.2 ++
          [⟨m.MountPoint, m.FSType, m.Device, d.All, d.Used, d.Free,
            n2.DiskReadIOBytes, n2.DiskWriteIOBytes⟩]) hrest (by rw [hlim]; exact h0)
      refine ⟨out, by simp only [foldOrFail, hstep, hout], ?_⟩
      rw [hmap]
      simp [List.filter_cons, hfs, hd]
    · have hstep : getDiskUsageStep r st m =
          some ({ st.1 with remoteReads := st.1.remoteReads ++ [m.MountPoint] }, st.2) := by
        simp only [getDiskUsageStep, hd, hfs, Bool.false_eq_true, if_false]
      obtain ⟨out, hout, hmap⟩ := ih
        ({ st.1 with remoteReads := st.1.remoteReads ++ [m.MountPoint] }, st.2) hrest h0
      refine ⟨out, by simp only [foldOrFail, hstep, hout], ?_⟩
      rw [hmap]
      simp [List.filter_cons, hfs]

/-- C18. Filesystem filter: on an alive node with a non-negative DiskIOsLimit,
when /proc/mounts is read and every mountpoint answers its query, GetDiskUsage
returns without error, in mounts order, exactly one entry (mountpoint, type,
device, sizes) for each mount whose fsType is one of ext2, ext3, ext4, btrfs,
xfs, vfat, ntfs, exfat, reiserfs, jfs, zfs, udev, tmpfs and none for any other
type; proc is excluded and ext4 included. -/
theorem disk_usage_filesystem_filter (n : Node) (r : RemoteFS) (mounts : List Mount)
    (hc : r.connected = true) (ha : r.alive = true)
    (hm : r.ReadMounts n.PathProcMounts = some mounts)
    (hstat : ∀ m ∈ mounts, ∃ d, r.ReadDisk m.MountPoint = some d)
    (h0 : 0 ≤ n.DiskIOsLimit) :
    (∃ m us, GetDiskUsage n r = some (m, us, false) ∧
      us.map (fun u => (u.MountPoint, u.FSType, u.Device, some (Disk.mk u.All u.Used u.Free))) =
        (mounts.filter (fun m => fstype m.FSType)).map
          (fun m => (m.MountPoint, m.FSType, m.Device, r.ReadDisk m.MountPoint))) ∧
    (∀ t, fstype t = true ↔
      t ∈ ["ext2", "ext3", "ext4", "btrfs", "xfs", "vfat", "ntfs", "exfat", "reiserfs", "jfs",
        "zfs", "udev", "tmpfs"]) ∧
    fstype "proc" = false ∧ fstype "ext4" = true := by
  refine ⟨?_, fun t => by simp [fstype], by decide, by decide⟩
  obtain ⟨out, hout, hmap⟩ := diskUsageFold r mounts
    ({ n with remoteReads := n.remoteReads ++ [n.PathProcMounts] }, []) hstat h0
  refine ⟨out.1, out.2, ?_, by simpa using hmap⟩
  simp only [GetDiskUsage, hc, ha, Bool.not_true, Bool.false_eq_true, if_false, hm, hout]

/-- Witness for C18: the mounts / (ext4), /proc (proc) and /boot (vfat) yield
exactly the two entries / and /boot. -/
theorem disk_usage_filesystem_filter_witness :
    ∃ m us, GetDiskUsage (NewNode "host") mixedMounts = some (m, us, false) ∧
      us.map (fun u => (u.MountPoint, u.FSType, u.Device, some (Disk.mk u.All u.Used u.Free))) =
        [("/", "ext4", "/dev/sda2", some ⟨1000, 400, 600⟩),
         ("/boot", "vfat", "/dev/sda1", some ⟨1000, 400, 600⟩)] :=
  (disk_usage_filesystem_filter (NewNode "host") mixedMounts
    [⟨"/dev/sda2", "/", "ext4"⟩, ⟨"proc", "/proc", "proc"⟩, ⟨"/dev/sda1", "/boot", "vfat"⟩]
    rfl rfl rfl (fun _ _ => ⟨_, rfl⟩) (by decide)).1

/-- C19, the failing input. For the diskstats entries md-2 and sda1, with
/sys/block/md-2/dm/name containing vg0-root, MonitoringDiskIO stores the sample
of md-2 under /dev/md-2 and nothing under /dev/mapper/vg0-root, and reads no
remote file besides /proc/diskstats; sda1 is stored under /dev/sda1. The test
for the md- form is made on the variable device, which is still empty, so no
step of the loop ever reads a dm/name file. -/
theorem mapper_device_is_not_renamed :
    mapGet ( MonitoringDiskIO (NewNode "host") mapperRemote).DiskIOs "/dev/mapper/vg0-root" = [] ∧
    mapGet ( MonitoringDiskIO (NewNode "host") mapperRemote).DiskIOs "/dev/md-2" =
      [⟨"/dev/md-2", 1, 4096, 1, 4096⟩] ∧
    mapGet ( MonitoringDiskIO (NewNode "host") mapperRemote).DiskIOs "/dev/sda1" =
      [⟨"/dev/sda1", 2, 8192, 2, 8192⟩] ∧
    ( MonitoringDiskIO (NewNode "host") mapperRemote).remoteReads = ["/proc/diskstats"] ∧
    mapperRemote.ReadData "/sys/block/md-2/dm/name" = some "vg0-root" ∧
    (∀ (r : Remote) (n : Node) (stat : DiskStat),
      (monitoringDiskIOStep r n stat).remoteReads = n.remoteReads) := by
  refine ⟨by decide, by decide, by decide, by decide, by decide, fun r n stat => ?_⟩
  rw [monitoringDiskIOStep_eq]

theorem evictHead_of_room {α : Type} (limit : Int) (xs : List α)
    (h : (xs.length : Int) ≤ limit) : evictHead limit xs = some xs := by
  unfold evictHead
  rw [if_neg (by omega)]

theorem appendRate_of_ne_nil {α : Type} (zero : α) (buf : List α) (v : α) (h : buf ≠ []) :
    appendRate zero buf v = buf ++ [v] := by
  unfold appendRate
  rw [if_neg (fun h0 => h (List.length_eq_zero.mp h0))]

theorem evictHead_append_of_room {α : Type} (limit : Int) (xs : List α) (v : α)
    (h : (xs.length : Int) + 1 ≤ limit) : evictHead limit (xs ++ [v]) = some (xs ++ [v]) := by
  apply evictHead_of_room
  simp only [List.length_append, List.length_singleton]
  push_cast
  exact h

theorem getDiskIOBytes_shared (n : Node) (device : String)
    (hR : n.DiskReadIOBytes ≠ []) (hW : n.DiskWriteIOBytes ≠ [])
    (roomR : ((n.DiskReadIOBytes.length : Int) + 1) ≤ n.DiskIOsLimit)
    (roomW : ((n.DiskWriteIOBytes.length : Int) + 1) ≤ n.DiskIOsLimit) :
    getDiskIOBytes n device = some
      { n with
        DiskReadIOBytes := n.DiskReadIOBytes ++ diskRate (fun s => s.ReadBytes) n.DiskIOs device
        DiskWriteIOBytes :=
          n.DiskWriteIOBytes ++ diskRate (fun s => s.WriteBytes) n.DiskIOs device } := by
  unfold getDiskIOBytes diskRate
  by_cases hdev : device.utf8ByteSize = 0
  · simp only [hdev, if_true, List.append_nil]
  · simp only [hdev, if_false]
    by_cases hlen : (mapGet n.DiskIOs device).length > 1
    · simp only [hlen, dite_true, appendRate_of_ne_nil _ _ _ hR, appendRate_of_ne_nil _ _ _ hW,
        evictHead_append_of_room _ _ _ roomR, evictHead_append_of_room _ _ _ roomW]
    · have hr : (n.DiskReadIOBytes.length : Int) ≤ n.DiskIOsLimit := by omega
      have hw : (n.DiskWriteIOBytes.length : Int) ≤ n.DiskIOsLimit := by omega
      simp only [hlen, dite_false, List.append_nil, evictHead_of_room _ _ hr,
        evictHead_of_room _ _ hw]

theorem diskRate_length_le_one (field : DiskIO → Int) (ios : List (String × List DiskIO))
    (device : String) : (diskRate field ios device).length ≤ 1 := by
  unfold diskRate
  split
  · simp
  · simp only []
    split <;> simp

theorem networkRate_length_le_one (field : NetworkIO → Nat)
    (ios : List (String × List NetworkIO)) (device : String) :
    (networkRate field ios device).length ≤ 1 := by
  unfold networkRate
  split
  · simp
  · simp only []
    split <;> simp

theorem getDiskUsageStep_accept (r : RemoteFS) (n : Node) (acc : List DiskUsage) (m : Mount)
    (d : Disk) (hd : r.ReadDisk m.MountPoint = some d) (hfs : fstype m.FSType = true)
    (hR : n.DiskReadIOBytes ≠ []) (hW : n.DiskWriteIOBytes ≠ [])
    (roomR : ((n.DiskReadIOBytes.length : Int) + 1) ≤ n.DiskIOsLimit)
    (roomW : ((n.DiskWriteIOBytes.length : Int) + 1) ≤ n.DiskIOsLimit) :
    ∃ n2, getDiskUsageStep r (n, acc) m = some (n2, acc ++
        [⟨m.MountPoint, m.FSType, m.Device, d.All, d.Used, d.Free,
          n.DiskReadIOBytes ++ diskRate (fun s => s.ReadBytes) n.DiskIOs m.Device,
          n.DiskWriteIOBytes ++ diskRate (fun s => s.WriteBytes) n.DiskIOs m.Device⟩]) ∧
      n2.DiskIOs = n.DiskIOs ∧ n2.DiskIOsLimit = n.DiskIOsLimit ∧
      n2.DiskReadIOBytes =
        n.DiskReadIOBytes ++ diskRate (fun s => s.ReadBytes) n.DiskIOs m.Device ∧
      n2.DiskWriteIOBytes =
        n.DiskWriteIOBytes ++ diskRate (fun s => s.WriteBytes) n.DiskIOs m.Device := by
  have hshared := getDiskIOBytes_shared
    { n with remoteReads := n.remoteReads ++ [m.MountPoint] } m.Device hR hW roomR roomW
  refine ⟨{ n with
      remoteReads := n.remoteReads ++ [m.MountPoint]
      DiskReadIOBytes := n.DiskReadIOBytes ++ diskRate (fun s => s.ReadBytes) n.DiskIOs m.Device
      DiskWriteIOBytes :=
        n.DiskWriteIOBytes ++ diskRate (fun s => s.WriteBytes) n.DiskIOs m.Device },
    ?_, rfl, rfl, rfl, rfl⟩
  unfold getDiskUsageStep
  simp only [hd, hfs, if_true]
  rw [hshared]

theorem diskSeriesFold (r : RemoteFS) (ios : List (String × List DiskIO)) (mounts : List Mount)
    (n : Node) (acc : List DiskUsage)
    (hstat : ∀ m ∈ mounts, ∃ d, r.ReadDisk m.MountPoint = some d)
    (hios : n.DiskIOs = ios)
    (hR : n.DiskReadIOBytes ≠ []) (hW : n.DiskWriteIOBytes ≠ [])
    (roomR : (n.DiskReadIOBytes.length : Int) + mounts.length ≤ n.DiskIOsLimit)
    (roomW : (n.DiskWriteIOBytes.length : Int) + mounts.length ≤ n.DiskIOsLimit) :
    ∃ out, foldOrFail (getDiskUsageStep r) (n, acc) mounts = some out ∧
      out.2.map (fun u => (u.Device, u.ReadIOBytes, u.WriteIOBytes)) =
        acc.map (fun u => (u.Device, u.ReadIOBytes, u.WriteIOBytes)) ++
          diskSeriesAfter ios n.DiskReadIOBytes n.DiskWriteIOBytes
            (mounts.filter (fun m => fstype m.FSType)) := by
  induction mounts generalizing n acc with
  | nil => exact ⟨(n, acc), rfl, by simp [diskSeriesAfter]⟩
  | cons m rest ih =>
    obtain ⟨d, hd⟩ := hstat m (List.mem_cons_self _ _)
    have hrest : ∀ x ∈ rest, ∃ d, r.ReadDisk x.MountPoint = some d :=
      fun x hx => hstat x (List.mem_cons_of_mem _ hx)
    simp only [List.length_cons, Nat.cast_add, Nat.cast_one] at roomR roomW
    by_cases hfs : fstype m.FSType = true
    · obtain ⟨n2, hstep, h2ios, h2lim, h2R, h2W⟩ := getDiskUsageStep_accept r n acc m d hd hfs
        hR hW (by omega) (by omega)
      have h1 := diskRate_length_le_one (fun s => s.ReadBytes) n.DiskIOs m.Device
      have h2 := diskRate_length_le_one (fun s => s.WriteBytes) n.DiskIOs m.Device
      obtain ⟨out, hout, hmap⟩ := ih n2
        (acc ++ [⟨m.MountPoint, m.FSType, m.Device, d.All, d.Used, d.Free,
          n.DiskReadIOBytes ++ diskRate (fun s => s.ReadBytes) n.DiskIOs m.Device,
          n.DiskWriteIOBytes ++ diskRate (fun s => s.WriteBytes) n.DiskIOs m.Device⟩])
        hrest (by rw [h2ios, hios])
        (by rw [h2R]; exact fun h => hR (List.append_eq_nil.mp h).1)
        (by rw [h2W]; exact fun h => hW (List.append_eq_nil.mp h).1)
        (by rw [h2R, h2lim, List.length_append]; push_cast; omega)
        (by rw [h2W, h2lim, List.length_append]; push_cast; omega)
      refine ⟨out, by simp only [foldOrFail, hstep, hout], ?_⟩
      rw [hmap, h2R, h2W, hios]
      simp [List.filter_cons, hfs, diskSeriesAfter]
    · have hstep : getDiskUsageStep r (n, acc) m =
          some ({ n with remoteReads := n.remoteReads ++ [m.MountPoint] }, acc) := by
        simp only [getDiskUsageStep, hd, hfs, Bool.false_eq_true, if_false]
      obtain ⟨out, hout, hmap⟩ := ih
        { n with remoteReads := n.remoteReads ++ [m.MountPoint] } acc hrest hios hR hW
        (by simp only []; omega) (by simp only []; omega)
      refine ⟨out, by simp only [foldOrFail, hstep, hout], ?_⟩
      rw [hmap]
      simp [List.filter_cons, hfs]

theorem getNetworkIO_shared (n : Node) (device : String)
    (hlen : (mapGet n.NetworkIOs device).length > 1)
    (hrxB : n.NetworkRXBytes ≠ []) (htxB : n.NetworkTXBytes ≠ [])
    (hrxP : n.NetworkRXPackets ≠ []) (htxP : n.NetworkTXPackets ≠ [])
    (roomRxB : ((n.NetworkRXBytes.length : Int) + 1) ≤ n.NetworkIOsLimit)
    (roomTxB : ((n.NetworkTXBytes.length : Int) + 1) ≤ n.NetworkIOsLimit)
    (roomRxP : ((n.NetworkRXPackets.length : Int) + 1) ≤ n.NetworkIOsLimit) :
    getNetworkIO n device = some
      { n with
        NetworkRXBytes := n.NetworkRXBytes ++ networkRate (fun s => s.RXBytes) n.NetworkIOs device
        NetworkRXPackets :=
          n.NetworkRXPackets ++ networkRate (fun s => s.RXPackets) n.NetworkIOs device
        NetworkTXBytes := n.NetworkTXBytes ++ networkRate (fun s => s.TXBytes) n.NetworkIOs device
        NetworkTXPackets :=
          n.NetworkTXPackets ++ networkRate (fun s => s.TXPackets) n.NetworkIOs device } := by
  unfold getNetworkIO networkRate
  by_cases hdev : device.utf8ByteSize = 0
  · simp only [hdev, if_true, List.append_nil]
  · simp only [hdev, if_false, hlen, dite_true, appendRate_of_ne_nil _ _ _ hrxB,
      appendRate_of_ne_nil _ _ _ htxB, appendRate_of_ne_nil _ _ _ hrxP,
      appendRate_of_ne_nil _ _ _ htxP, evictHead_append_of_room _ _ _ roomRxB,
      evictHead_append_of_room _ _ _ roomTxB, evictHead_append_of_room _ _ _ roomRxP]

theorem getNetworkUsageStep_accept (n : Node) (acc : List NetworkUsage) (device : String)
    (hlen : (mapGet n.NetworkIOs device).length > 1)
    (hrxB : n.NetworkRXBytes ≠ []) (htxB : n.NetworkTXBytes ≠ [])
    (hrxP : n.NetworkRXPackets ≠ []) (htxP : n.NetworkTXPackets ≠ [])
    (roomRxB : ((n.NetworkRXBytes.length : Int) + 1) ≤ n.NetworkIOsLimit)
    (roomTxB : ((n.NetworkTXBytes.length : Int) + 1) ≤ n.NetworkIOsLimit)
    (roomRxP : ((n.NetworkRXPackets.length : Int) + 1) ≤ n.NetworkIOsLimit) :
    ∃ n2, getNetworkUsageStep (n, acc) device = some (n2, acc ++
        [⟨device, "", "",
          n.NetworkRXBytes ++ networkRate (fun s => s.RXBytes) n.NetworkIOs device,
          n.NetworkTXBytes ++ networkRate (fun s => s.TXBytes) n.NetworkIOs device,
          n.NetworkRXPackets ++ networkRate (fun s => s.RXPackets) n.NetworkIOs device,
          n.NetworkTXPackets ++ networkRate (fun s => s.TXPackets) n.NetworkIOs device⟩]) ∧
      n2.NetworkIOs = n.NetworkIOs ∧ n2.NetworkIOsLimit = n.NetworkIOsLimit ∧
      n2.NetworkRXBytes =
        n.NetworkRXBytes ++ networkRate (fun s => s.RXBytes) n.NetworkIOs device ∧
      n2.NetworkTXBytes =
        n.NetworkTXBytes ++ networkRate (fun s => s.TXBytes) n.NetworkIOs device ∧
      n2.NetworkRXPackets =
        n.NetworkRXPackets ++ networkRate (fun s => s.RXPackets) n.NetworkIOs device ∧
      n2.NetworkTXPackets =
        n.NetworkTXPackets ++ networkRate (fun s => s.TXPackets) n.NetworkIOs device := by
  have hshared := getNetworkIO_shared n device hlen hrxB htxB hrxP htxP roomRxB roomTxB roomRxP
  refine ⟨{ n with
      NetworkRXBytes := n.NetworkRXBytes ++ networkRate (fun s => s.RXBytes) n.NetworkIOs device
      NetworkRXPackets :=
        n.NetworkRXPackets ++ networkRate (fun s => s.RXPackets) n.NetworkIOs device
      NetworkTXBytes := n.NetworkTXBytes ++ networkRate (fun s => s.TXBytes) n.NetworkIOs device
      NetworkTXPackets :=
        n.NetworkTXPackets ++ networkRate (fun s => s.TXPackets) n.NetworkIOs device },
    ?_, rfl, rfl, rfl, rfl, rfl, rfl⟩
  unfold getNetworkUsageStep
  simp only [hlen, if_true]
  rw [hshared]

theorem networkSeriesFold (ios : List (String × List NetworkIO)) (order : List String)
    (n : Node) (acc : List NetworkUsage) (hios : n.NetworkIOs = ios)
    (hrxB : n.NetworkRXBytes ≠ []) (htxB : n.NetworkTXBytes ≠ [])
    (hrxP : n.NetworkRXPackets ≠ []) (htxP : n.NetworkTXPackets ≠ [])
    (roomRxB : (n.NetworkRXBytes.length : Int) + order.length ≤ n.NetworkIOsLimit)
    (roomTxB : (n.NetworkTXBytes.length : Int) + order.length ≤ n.NetworkIOsLimit)
    (roomRxP : (n.NetworkRXPackets.length : Int) + order.length ≤ n.NetworkIOsLimit) :
    ∃ out, foldOrFail getNetworkUsageStep (n, acc) order = some out ∧
      out.2.map (fun u => (u.Device, u.RXBytes, u.TXBytes, u.RXPackets, u.TXPackets)) =
        acc.map (fun u => (u.Device, u.RXBytes, u.TXBytes, u.RXPackets, u.TXPackets)) ++
          networkSeriesAfter ios n.NetworkRXBytes n.NetworkTXBytes n.NetworkRXPackets
            n.NetworkTXPackets
            (order.filter (fun d => decide ((mapGet ios d).length > 1))) := by
  induction order generalizing n acc with
  | nil => exact ⟨(n, acc), rfl, by simp [networkSeriesAfter]⟩
  | cons d rest ih =>
    simp only [List.length_cons, Nat.cast_add, Nat.cast_one] at roomRxB roomTxB roomRxP
    by_cases hlen : (mapGet n.NetworkIOs d).length > 1
    · obtain ⟨n2, hstep, h2ios, h2lim, h2a, h2b, h2c, h2d⟩ := getNetworkUsageStep_accept n acc d
        hlen hrxB htxB hrxP htxP (by omega) (by omega) (by omega)
      have l1 := networkRate_length_le_one (fun s => s.RXBytes) n.NetworkIOs d
      have l2 := networkRate_length_le_one (fun s => s.TXBytes) n.NetworkIOs d
      have l3 := networkRate_length_le_one (fun s => s.RXPackets) n.NetworkIOs d
      obtain ⟨out, hout, hmap⟩ := ih n2
        (acc ++ [⟨d, "", "",
          n.NetworkRXBytes ++ networkRate (fun s => s.RXBytes) n.NetworkIOs d,
          n.NetworkTXBytes ++ networkRate (fun s => s.TXBytes) n.NetworkIOs d,
          n.NetworkRXPackets ++ networkRate (fun s => s.RXPackets) n.NetworkIOs d,
          n.NetworkTXPackets ++ networkRate (fun s => s.TXPackets) n.NetworkIOs d⟩])
        (by rw [h2ios, hios])
        (by rw [h2a]; exact fun h => hrxB (List.append_eq_nil.mp h).1)
        (by rw [h2b]; exact fun h => htxB (List.append_eq_nil.mp h).1)
        (by rw [h2c]; exact fun h => hrxP (List.append_eq_nil.mp h).1)
        (by rw [h2d]; exact fun h => htxP (List.append_eq_nil.mp h).1)
        (by rw [h2a, h2lim, List.length_append]; push_cast; omega)
        (by rw [h2b, h2lim, List.length_append]; push_cast; omega)
        (by rw [h2c, h2lim, List.length_append]; push_cast; omega)
      refine ⟨out, by simp only [foldOrFail, hstep, hout], ?_⟩
      have hlen' : (mapGet ios d).length > 1 := by rw [← hios]; exact hlen
      rw [hmap, h2a, h2b, h2c, h2d, hios]
      simp [List.filter_cons, hlen', networkSeriesAfter]
    · have hstep : getNetworkUsageStep (n, acc) d = some (n, acc) := by
        simp only [getNetworkUsageStep, hlen, if_false]
      obtain ⟨out, hout, hmap⟩ := ih n acc hios hrxB htxB hrxP htxP
        (by omega) (by omega) (by omega)
      refine ⟨out, by simp only [foldOrFail, hstep, hout], ?_⟩
      have hlen' : ¬ (mapGet ios d).length > 1 := by rw [← hios]; exact hlen
      rw [hmap]
      simp [List.filter_cons, hlen']

theorem setAddresses_series (r : RemoteNet) (u : NetworkUsage) :
    ((setAddresses r u).Device, (setAddresses r u).RXBytes, (setAddresses r u).TXBytes,
      (setAddresses r u).RXPackets, (setAddresses r u).TXPackets) =
    (u.Device, u.RXBytes, u.TXBytes, u.RXPackets, u.TXPackets) := by
  unfold setAddresses
  cases r.GetIPv4 with
  | none => rfl
  | some ipv4 =>
    cases r.GetIPV6 with
    | none => rfl
    | some ipv6 =>
      simp only []
      cases List.find? (fun ip => decide (ip.Interface = u.Device)) ipv4 with
      | none =>
        simp only []
        cases List.find? (fun ip => decide (ip.Interface = u.Device)) ipv6 <;> rfl
      | some a =>
        simp only []
        cases List.find? (fun ip => decide (ip.Interface = u.Device)) ipv6 <;> rfl

/-- C20 (amended). Rate series are shared by all devices: on an alive node whose
rate buffers are non-empty and have room for one more value per device, the
ReadIOBytes / WriteIOBytes series that GetDiskUsage reports for a device is the
series reported for the device listed before it (the node's buffer for the
first one) followed by the device's own first difference, and the same holds
for the four series GetNetworkUsage reports for an interface; so the series of
a device also holds the first differences of the devices processed before
it. -/
theorem rate_series_are_shared (n : Node) (r : RemoteFS) (q : RemoteNet)
    (mounts : List Mount) (order : List String)
    (hc : r.connected = true) (ha : r.alive = true)
    (hm : r.ReadMounts n.PathProcMounts = some mounts)
    (hstat : ∀ m ∈ mounts, ∃ d, r.ReadDisk m.MountPoint = some d)
    (hR : n.DiskReadIOBytes ≠ []) (hW : n.DiskWriteIOBytes ≠ [])
    (roomR : (n.DiskReadIOBytes.length : Int) + mounts.length ≤ n.DiskIOsLimit)
    (roomW : (n.DiskWriteIOBytes.length : Int) + mounts.length ≤ n.DiskIOsLimit)
    (hqa : q.alive = true) (hqc : q.connected = true) (hnio : n.NetworkIOs ≠ [])
    (hrxB : n.NetworkRXBytes ≠ []) (htxB : n.NetworkTXBytes ≠ [])
    (hrxP : n.NetworkRXPackets ≠ []) (htxP : n.NetworkTXPackets ≠ [])
    (roomRxB : (n.NetworkRXBytes.length : Int) + order.length ≤ n.NetworkIOsLimit)
    (roomTxB : (n.NetworkTXBytes.length : Int) + order.length ≤ n.NetworkIOsLimit)
    (roomRxP : (n.NetworkRXPackets.length : Int) + order.length ≤ n.NetworkIOsLimit) :
    (∃ m us, GetDiskUsage n r = some (m, us, false) ∧
      us.map (fun u => (u.Device, u.ReadIOBytes, u.WriteIOBytes)) =
        diskSeriesAfter n.DiskIOs n.DiskReadIOBytes n.DiskWriteIOBytes
          (mounts.filter (fun m => fstype m.FSType))) ∧
    (∃ m us, GetNetworkUsage n q order = some (m, us, false) ∧
      us.map (fun u => (u.Device, u.RXBytes, u.TXBytes, u.RXPackets, u.TXPackets)) =
        networkSeriesAfter n.NetworkIOs n.NetworkRXBytes n.NetworkTXBytes n.NetworkRXPackets
          n.NetworkTXPackets
          (order.filter (fun d => decide ((mapGet n.NetworkIOs d).length > 1)))) := by
  constructor
  · obtain ⟨out, hout, hmap⟩ := diskSeriesFold r n.DiskIOs mounts
      { n with remoteReads := n.remoteReads ++ [n.PathProcMounts] } [] hstat rfl hR hW roomR roomW
    refine ⟨out.1, out.2, ?_, by simpa using hmap⟩
    simp only [GetDiskUsage, hc, ha, Bool.not_true, Bool.false_eq_true, if_false, hm, hout]
  · obtain ⟨out, hout, hmap⟩ := networkSeriesFold n.NetworkIOs order n [] rfl hrxB htxB hrxP htxP
      roomRxB roomTxB roomRxP
    have hne : ¬ n.NetworkIOs.length = 0 := fun h => hnio (List.length_eq_zero.mp h)
    refine ⟨out.1, out.2.map (setAddresses q), ?_, ?_⟩
    · simp only [GetNetworkUsage, hqa, hqc, Bool.not_true, Bool.false_eq_true, if_false, hne,
        hout]
    · rw [List.map_map]
      have hfun : ((fun u : NetworkUsage =>
            (u.Device, u.RXBytes, u.TXBytes, u.RXPackets, u.TXPackets)) ∘ setAddresses q) =
          (fun u => (u.Device, u.RXBytes, u.TXBytes, u.RXPackets, u.TXPackets)) :=
        funext (fun u => setAddresses_series q u)
      rw [hfun]
      simpa using hmap

/-- Witness for C20: on twoDiskNode the series reported for /dev/sdb and for
eth1 are the ones of /dev/sda and eth0 followed by their own differences. -/
theorem rate_series_are_shared_witness :
    (∃ m us, GetDiskUsage twoDiskNode twoDiskMounts = some (m, us, false) ∧
      us.map (fun u => (u.Device, u.ReadIOBytes, u.WriteIOBytes)) =
        [("/dev/sda", [0, 200], [0, 30]), ("/dev/sdb", [0, 200, 7000], [0, 30, 100])]) ∧
    (∃ m us, GetNetworkUsage twoDiskNode plainNet ["eth0", "eth1"] = some (m, us, false) ∧
      us.map (fun u => (u.Device, u.RXBytes, u.TXBytes, u.RXPackets, u.TXPackets)) =
        [("eth0", [0, 600], [0, 900], [0, 5], [0, 7]),
         ("eth1", [0, 600, 40], [0, 900, 70], [0, 5, 3], [0, 7, 5])]) :=
  rate_series_are_shared twoDiskNode twoDiskMounts plainNet
    [⟨"/dev/sda", "/", "ext4"⟩, ⟨"/dev/sdb", "/data", "xfs"⟩] ["eth0", "eth1"]
    rfl rfl rfl (fun _ _ => ⟨_, rfl⟩) (by decide) (by decide) (by decide) (by decide)
    rfl rfl (by decide) (by decide) (by decide) (by decide) (by decide)
    (by decide) (by decide) (by decide)

/-- Counterexample for C20: the read counter of /dev/sdb went from 5000 to
12000, yet the ReadIOBytes series GetDiskUsage reports for /dev/sdb is
[0, 200, 7000]: it holds 200, the first difference of /dev/sda (100 to 300). -/
theorem disk_series_holds_other_device_rate :
    mapGet twoDiskNode.DiskIOs "/dev/sda" =
      [⟨"/dev/sda", 1, 100, 1, 50⟩, ⟨"/dev/sda", 2, 300, 2, 80⟩] ∧
    mapGet twoDiskNode.DiskIOs "/dev/sdb" =
      [⟨"/dev/sdb", 1, 5000, 1, 900⟩, ⟨"/dev/sdb", 2, 12000, 2, 1000⟩] ∧
    Option.map
      (fun res => res.2.1.map (fun u => (u.Device, u.ReadIOBytes)))
      (GetDiskUsage twoDiskNode twoDiskMounts) =
      some [("/dev/sda", [0, 200]), ("/dev/sdb", [0, 200, 7000])] := by
  decide

theorem getDiskIOBytes_few_samples (n : Node) (device : String)
    (hfew : (mapGet n.DiskIOs device).length ≤ 1) (hb : DiskRatesBounded n) :
    getDiskIOBytes n device = some n := by
  obtain ⟨hr, hw⟩ := hb
  unfold getDiskIOBytes
  by_cases hdev : device.utf8ByteSize = 0
  · simp only [hdev, if_true]
  · have hlen : ¬ (mapGet n.DiskIOs device).length > 1 := by omega
    simp only [hdev, if_false, hlen, dite_false, evictHead_of_room _ _ hr,
      evictHead_of_room _ _ hw]

theorem getNetworkIO_few_samples (n : Node) (device : String)
    (hfew : (mapGet n.NetworkIOs device).length ≤ 1) : getNetworkIO n device = some n := by
  unfold getNetworkIO
  by_cases hdev : device.utf8ByteSize = 0
  · simp only [hdev, if_true]
  · have hlen : ¬ (mapGet n.NetworkIOs device).length > 1 := by omega
    simp only [hdev, if_false, hlen, dite_false]

theorem getDiskIOBytes_keeps_bounded (n m : Node) (device : String) (hb : DiskRatesBounded n)
    (h : getDiskIOBytes n device = some m) :
    DiskRatesBounded m ∧ m.DiskIOsLimit = n.DiskIOsLimit := by
  obtain ⟨hr, hw⟩ := hb
  have h0 : (0 : Int) ≤ n.DiskIOsLimit := le_trans (Int.natCast_nonneg _) hr
  unfold getDiskIOBytes at h
  by_cases hdev : device.utf8ByteSize = 0
  · simp only [hdev, if_true, Option.some.injEq] at h
    subst h
    exact ⟨⟨hr, hw⟩, rfl⟩
  · simp only [hdev, if_false] at h
    by_cases hlen : (mapGet n.DiskIOs device).length > 1
    · simp only [hlen, dite_true, evictHead_of_nonneg _ _ h0, Option.some.injEq] at h
      subst h
      refine ⟨⟨?_, ?_⟩, rfl⟩
      · apply dropOverflow_length_le _ _ h0
        simp only [appendRate_eq, List.length_append, List.length_singleton]
        push_cast
        omega
      · apply dropOverflow_length_le _ _ h0
        simp only [appendRate_eq, List.length_append, List.length_singleton]
        push_cast
        omega
    · simp only [hlen, dite_false, evictHead_of_room _ _ hr, evictHead_of_room _ _ hw,
        Option.some.injEq] at h
      subst h
      exact ⟨⟨hr, hw⟩, rfl⟩

theorem getNetworkIO_keeps_disk_rates (n m : Node) (device : String)
    (h : getNetworkIO n device = some m) :
    m.DiskReadIOBytes = n.DiskReadIOBytes ∧ m.DiskWriteIOBytes = n.DiskWriteIOBytes ∧
      m.DiskIOsLimit = n.DiskIOsLimit := by
  unfold getNetworkIO at h
  by_cases hdev : device.utf8ByteSize = 0
  · simp only [hdev, if_true, Option.some.injEq] at h
    subst h
    exact ⟨rfl, rfl, rfl⟩
  · simp only [hdev, if_false] at h
    by_cases hlen : (mapGet n.NetworkIOs device).length > 1
    · simp only [hlen, dite_true] at h
      split at h
      · exact absurd h (by simp)
      · split at h
        · exact absurd h (by simp)
        · split at h
          · exact absurd h (by simp)
          · split at h
            · exact absurd h (by simp)
            · simp only [Option.some.injEq] at h
              subst h
              exact ⟨rfl, rfl, rfl⟩
    · simp only [hlen, dite_false, Option.some.injEq] at h
      subst h
      exact ⟨rfl, rfl, rfl⟩

theorem monitoring_keeps_disk_rates (n : Node) (r : Remote) :
    ((MonitoringCPUUsage n r).DiskReadIOBytes = n.DiskReadIOBytes ∧
      (MonitoringCPUUsage n r).DiskWriteIOBytes = n.DiskWriteIOBytes ∧
      (MonitoringCPUUsage n r).DiskIOsLimit = n.DiskIOsLimit) ∧
    (( MonitoringDiskIO n r).DiskReadIOBytes = n.DiskReadIOBytes ∧
      ( MonitoringDiskIO n r).DiskWriteIOBytes = n.DiskWriteIOBytes ∧
      ( MonitoringDiskIO n r).DiskIOsLimit = n.DiskIOsLimit) ∧
    (( MonitoringNetworkIO n r).DiskReadIOBytes = n.DiskReadIOBytes ∧
      ( MonitoringNetworkIO n r).DiskWriteIOBytes = n.DiskWriteIOBytes ∧
      ( MonitoringNetworkIO n r).DiskIOsLimit = n.DiskIOsLimit) := by
  refine ⟨?_, ?_, ?_⟩
  · unfold MonitoringCPUUsage
    cases r.alive with
    | false => exact ⟨rfl, rfl, rfl⟩
    | true => cases r.ReadStat n.PathProcStat <;> exact ⟨rfl, rfl, rfl⟩
  · unfold MonitoringDiskIO
    cases r.alive with
    | false => exact ⟨rfl, rfl, rfl⟩
    | true =>
      cases r.ReadDiskStats n.PathProcDiskStats with
      | none => exact ⟨rfl, rfl, rfl⟩
      | some stats =>
        simp only [Bool.not_true, Bool.false_eq_true, if_false]
        obtain ⟨m, hm⟩ := diskFold_frame r stats
          { n with remoteReads := n.remoteReads ++ [n.PathProcDiskStats] }
        rw [hm]
        exact ⟨rfl, rfl, rfl⟩
  · unfold MonitoringNetworkIO
    cases r.alive with
    | false => exact ⟨rfl, rfl, rfl⟩
    | true =>
      cases r.ReadNetworkStat "/proc/net/dev" with
      | none => exact ⟨rfl, rfl, rfl⟩
      | some stats =>
        simp only [Bool.not_true, Bool.false_eq_true, if_false]
        obtain ⟨m, hm⟩ := networkFold_frame stats
          { n with remoteReads := n.remoteReads ++ ["/proc/net/dev"] }
        rw [hm]
        exact ⟨rfl, rfl, rfl⟩

theorem run_keeps_disk_rates_bounded (actions : List Action) (n m : Node)
    (hb : DiskRatesBounded n) (h : run n actions = some m) : DiskRatesBounded m := by
  induction actions generalizing n with
  | nil =>
    simp only [run, Option.some.injEq] at h
    subst h
    exact hb
  | cons a rest ih =>
    simp only [run] at h
    cases hs : step n a with
    | none => rw [hs] at h; exact absurd h (by simp)
    | some k =>
      rw [hs] at h
      refine ih k ?_ h
      obtain ⟨hr, hw⟩ := hb
      have hm := monitoring_keeps_disk_rates n
      cases a with
      | cpu r =>
        simp only [step, Option.some.injEq] at hs
        subst hs
        obtain ⟨h1, h2, h3⟩ := (hm r).1
        exact ⟨by rw [h1, h3]; exact hr, by rw [h2, h3]; exact hw⟩
      | disk r =>
        simp only [step, Option.some.injEq] at hs
        subst hs
        obtain ⟨h1, h2, h3⟩ := (hm r).2.1
        exact ⟨by rw [h1, h3]; exact hr, by rw [h2, h3]; exact hw⟩
      | network r =>
        simp only [step, Option.some.injEq] at hs
        subst hs
        obtain ⟨h1, h2, h3⟩ := (hm r).2.2
        exact ⟨by rw [h1, h3]; exact hr, by rw [h2, h3]; exact hw⟩
      | diskRate device =>
        simp only [step] at hs
        exact (getDiskIOBytes_keeps_bounded n k device ⟨hr, hw⟩ hs).1
      | networkRate device =>
        simp only [step] at hs
        obtain ⟨h1, h2, h3⟩ := getNetworkIO_keeps_disk_rates n k device hs
        exact ⟨by rw [h1, h3]; exact hr, by rw [h2, h3]; exact hw⟩

/-- C21. No rate from fewer than two samples: for a node whose disk rate buffers
are within DiskIOsLimit, which holds in every state reached from NewNode by the
samplers and the rate functions, and for a device with zero or one stored
sample, getDiskIOBytes returns the node as it was; for an interface with zero
or one stored sample getNetworkIO returns the node as it was, in every node
state. No value, and no 0 either, is appended to a rate buffer. -/
theorem no_rate_from_fewer_than_two_samples (n : Node) (device : String)
    (hb : DiskRatesBounded n) :
    ((mapGet n.DiskIOs device).length ≤ 1 → getDiskIOBytes n device = some n) ∧
    ((mapGet n.NetworkIOs device).length ≤ 1 → getNetworkIO n device = some n) ∧
    (∀ (name : String) (actions : List Action) (m : Node),
      run (NewNode name) actions = some m → DiskRatesBounded m) :=
  ⟨fun h => getDiskIOBytes_few_samples n device h hb,
    fun h => getNetworkIO_few_samples n device h,
    fun name actions m h =>
      run_keeps_disk_rates_bounded actions (NewNode name) m
        ⟨by simp [NewNode], by simp [NewNode]⟩ h⟩

/-- Witness for C21: oneSampleNode holds one sample of /dev/sda and of eth0; both
rate functions leave it as it is. -/
theorem no_rate_from_fewer_than_two_samples_witness :
    getDiskIOBytes oneSampleNode "/dev/sda" = some oneSampleNode ∧
    getNetworkIO oneSampleNode "eth0" = some oneSampleNode :=
  ⟨(no_rate_from_fewer_than_two_samples oneSampleNode "/dev/sda"
      ⟨by decide, by decide⟩).1 (by decide),
    (no_rate_from_fewer_than_two_samples oneSampleNode "eth0"
      ⟨by decide, by decide⟩).2.1 (by decide)⟩

/-- C22. Memory usage in bytes: when the node is alive and MemInfo is read,
GetMemoryUsage returns, without error, memUsed = (MemTotal − MemFree − Buffers −
Cached) × 1024, memTotal = MemTotal × 1024, swapUsed = (SwapTotal − SwapFree) ×
1024 and swapTotal = SwapTotal × 1024 in uint64 arithmetic, which are the exact
values when nothing wraps around; MemTotal = 8388608 with MemFree = Buffers =
Cached = 0 gives 8388608 · 1024 bytes used; and a node that is not alive gets
the error "Node is not connected". -/
theorem memory_usage_in_bytes (n : Node) (r : RemoteMem) (mi : MemInfo)
    (ha : r.alive = true) (hr : r.ReadMemInfo n.PathProcMeminfo = Except.ok mi) :
    GetMemoryUsage n r =
      ⟨mulUint64 (subUint64 (subUint64 (subUint64 mi.MemTotal mi.MemFree) mi.Buffers) mi.Cached)
          1024,
        mulUint64 mi.MemTotal 1024, mulUint64 (subUint64 mi.SwapTotal mi.SwapFree) 1024,
        mulUint64 mi.SwapTotal 1024, none⟩ ∧
    (mi.MemFree + mi.Buffers + mi.Cached ≤ mi.MemTotal → mi.MemTotal * 1024 < 2 ^ 64 →
      (GetMemoryUsage n r).memUsed = (mi.MemTotal - mi.MemFree - mi.Buffers - mi.Cached) * 1024 ∧
      (GetMemoryUsage n r).memTotal = mi.MemTotal * 1024) ∧
    (mi.SwapFree ≤ mi.SwapTotal → mi.SwapTotal * 1024 < 2 ^ 64 →
      (GetMemoryUsage n r).swapUsed = (mi.SwapTotal - mi.SwapFree) * 1024 ∧
      (GetMemoryUsage n r).swapTotal = mi.SwapTotal * 1024) ∧
    (mi.MemTotal = 8388608 → mi.MemFree = 0 → mi.Buffers = 0 → mi.Cached = 0 →
      (GetMemoryUsage n r).memUsed = 8388608 * 1024) ∧
    (∀ (k : Node) (q : RemoteMem), q.alive = false →
      GetMemoryUsage k q = ⟨0, 0, 0, 0, some "Node is not connected"⟩) := by
  have hmain : GetMemoryUsage n r =
      ⟨mulUint64 (subUint64 (subUint64 (subUint64 mi.MemTotal mi.MemFree) mi.Buffers) mi.Cached)
          1024,
        mulUint64 mi.MemTotal 1024, mulUint64 (subUint64 mi.SwapTotal mi.SwapFree) 1024,
        mulUint64 mi.SwapTotal 1024, none⟩ := by
    simp only [GetMemoryUsage, ha, Bool.not_true, Bool.false_eq_true, if_false, hr]
  refine ⟨hmain, ?_, ?_, ?_, ?_⟩
  · intro h1 h2
    rw [hmain]
    simp only [mulUint64, subUint64]
    constructor <;> omega
  · intro h1 h2
    rw [hmain]
    simp only [mulUint64, subUint64]
    constructor <;> omega
  · intro h1 h2 h3 h4
    rw [hmain, h1, h2, h3, h4]
    show mulUint64 (subUint64 (subUint64 (subUint64 8388608 0) 0) 0) 1024 = 8388608 * 1024
    decide
  · intro k q hq
    simp only [GetMemoryUsage, hq, Bool.not_false, if_true]

/-- Witness for C22: 8388608 kB of memory, none free, buffered or cached. -/
theorem memory_usage_in_bytes_witness :
    (GetMemoryUsage (NewNode "a")
      ⟨true, fun _ => Except.ok ⟨8388608, 0, 0, 0, 0, 0⟩⟩).memUsed = 8388608 * 1024 :=
  (memory_usage_in_bytes (NewNode "a") ⟨true, fun _ => Except.ok ⟨8388608, 0, 0, 0, 0, 0⟩⟩
    ⟨8388608, 0, 0, 0, 0, 0⟩ rfl rfl).2.2.2.1 rfl rfl rfl rfl

theorem monitoringCPUUsage_frame (n : Node) (r : Remote) :
    ∃ c rr, MonitoringCPUUsage n r = { n with cpuUsage := c, remoteReads := rr } := by
  unfold MonitoringCPUUsage
  by_cases ha : r.alive = true
  · cases hs : r.ReadStat n.PathProcStat with
    | none => exact ⟨n.cpuUsage, n.remoteReads ++ [n.PathProcStat], by simp [ha, hs]⟩
    | some stat =>
      exact ⟨appendEvict n.cpuUsageLimit n.cpuUsage ⟨stat.CPUStatAll, stat.CPUStats, r.now⟩,
        n.remoteReads ++ [n.PathProcStat], by simp [ha, hs]⟩
  · exact ⟨[], n.remoteReads, by simp [ha]⟩

theorem monitoringDiskIO_frame (n : Node) (r : Remote) :
    ∃ m rr, MonitoringDiskIO n r = { n with DiskIOs := m, remoteReads := rr } := by
  unfold MonitoringDiskIO
  by_cases ha : r.alive = true
  · cases hs : r.ReadDiskStats n.PathProcDiskStats with
    | none => exact ⟨n.DiskIOs, n.remoteReads ++ [n.PathProcDiskStats], by simp [ha, hs]⟩
    | some stats =>
      obtain ⟨m, hm⟩ := diskFold_frame r stats
        { n with remoteReads := n.remoteReads ++ [n.PathProcDiskStats] }
      exact ⟨m, n.remoteReads ++ [n.PathProcDiskStats], by simp [ha, hs, hm]⟩
  · exact ⟨[], n.remoteReads, by simp [ha]⟩

theorem monitoringNetworkIO_frame (n : Node) (r : Remote) :
    ∃ m rr, MonitoringNetworkIO n r = { n with NetworkIOs := m, remoteReads := rr } := by
  unfold MonitoringNetworkIO
  by_cases ha : r.alive = true
  · cases hs : r.ReadNetworkStat "/proc/net/dev" with
    | none => exact ⟨n.NetworkIOs, n.remoteReads ++ ["/proc/net/dev"], by simp [ha, hs]⟩
    | some stats =>
      obtain ⟨m, hm⟩ := networkFold_frame stats
        { n with remoteReads := n.remoteReads ++ ["/proc/net/dev"] }
      exact ⟨m, n.remoteReads ++ ["/proc/net/dev"], by simp [ha, hs, hm]⟩
  · exact ⟨[], n.remoteReads, by simp [ha]⟩

theorem diskFold_congr (r : Remote) (stats : List DiskStat) (n k : Node)
    (h1 : n.DiskIOs = k.DiskIOs) (h2 : n.DiskIOsLimit = k.DiskIOsLimit) :
    (stats.foldl (monitoringDiskIOStep r) n).DiskIOs =
      (stats.foldl (monitoringDiskIOStep r) k).DiskIOs := by
  induction stats generalizing n k with
  | nil => exact h1
  | cons a rest ih =>
    rw [List.foldl_cons, List.foldl_cons]
    apply ih
    · rw [monitoringDiskIOStep_eq, monitoringDiskIOStep_eq]
      simp only [h1, h2]
    · rw [monitoringDiskIOStep_eq, monitoringDiskIOStep_eq]
      exact h2

theorem networkFold_congr (stats : List NetworkStat) (n k : Node)
    (h1 : n.NetworkIOs = k.NetworkIOs) (h2 : n.NetworkIOsLimit = k.NetworkIOsLimit) :
    (stats.foldl monitoringNetworkIOStep n).NetworkIOs =
      (stats.foldl monitoringNetworkIOStep k).NetworkIOs := by
  induction stats generalizing n k with
  | nil => exact h1
  | cons a rest ih =>
    rw [List.foldl_cons, List.foldl_cons]
    apply ih
    · simp only [monitoringNetworkIOStep, h1, h2]
    · exact h2

theorem monitoringDiskIO_congr (r : Remote) (n k : Node)
    (h1 : n.DiskIOs = k.DiskIOs) (h2 : n.DiskIOsLimit = k.DiskIOsLimit)
    (h3 : n.PathProcDiskStats = k.PathProcDiskStats) :
    ( MonitoringDiskIO n r).DiskIOs = ( MonitoringDiskIO k r).DiskIOs := by
  unfold MonitoringDiskIO
  by_cases ha : r.alive = true
  · simp only [ha, Bool.not_true, Bool.false_eq_true, if_false, h3]
    cases hs : r.ReadDiskStats k.PathProcDiskStats with
    | none => exact h1
    | some stats => exact diskFold_congr r stats _ _ h1 h2
  · simp [ha]

theorem monitoringNetworkIO_congr (r : Remote) (n k : Node)
    (h1 : n.NetworkIOs = k.NetworkIOs) (h2 : n.NetworkIOsLimit = k.NetworkIOsLimit) :
    ( MonitoringNetworkIO n r).NetworkIOs = ( MonitoringNetworkIO k r).NetworkIOs := by
  unfold MonitoringNetworkIO
  by_cases ha : r.alive = true
  · simp only [ha, Bool.not_true, Bool.false_eq_true, if_false]
    cases hs : r.ReadNetworkStat "/proc/net/dev" with
    | none => exact h1
    | some stats => exact networkFold_congr stats _ _ h1 h2
  · simp [ha]


theorem diskFold_series (r : Remote) (stats : List DiskStat) (n : Node) :
    (stats.foldl (monitoringDiskIOStep r) n).DiskIOs =
      stats.foldl
        (fun m s =>
          mapSet m ("/dev/" ++ s.Name)
            (appendEvict n.DiskIOsLimit (mapGet m ("/dev/" ++ s.Name))
              ⟨"/dev/" ++ s.Name, s.ReadIOs, s.GetReadBytes, s.WriteIOs, s.GetWriteBytes⟩))
        n.DiskIOs := by
  induction stats generalizing n with
  | nil => rfl
  | cons a rest ih =>
    rw [List.foldl_cons, List.foldl_cons, ih, monitoringDiskIOStep_eq]
    rfl

theorem networkFold_series (stats : List NetworkStat) (n : Node) :
    (stats.foldl monitoringNetworkIOStep n).NetworkIOs =
      stats.foldl
        (fun m s =>
          mapSet m s.Iface
            (appendEvict n.NetworkIOsLimit (mapGet m s.Iface)
              ⟨s.Iface, s.RxPackets, s.RxBytes, s.TxPackets, s.TxBytes⟩))
        n.NetworkIOs := by
  induction stats generalizing n with
  | nil => rfl
  | cons a rest ih =>
    rw [List.foldl_cons, List.foldl_cons, ih]
    rfl

theorem monitoringCPUUsage_series (n : Node) (r : Remote) (ha : r.alive = true) :
    (∀ stat, r.ReadStat n.PathProcStat = some stat →
      (MonitoringCPUUsage n r).cpuUsage =
        appendEvict n.cpuUsageLimit n.cpuUsage ⟨stat.CPUStatAll, stat.CPUStats, r.now⟩) ∧
    (r.ReadStat n.PathProcStat = none → (MonitoringCPUUsage n r).cpuUsage = n.cpuUsage) := by
  constructor
  · intro stat h
    simp only [MonitoringCPUUsage, ha, Bool.not_true, Bool.false_eq_true, if_false, h]
  · intro h
    simp only [MonitoringCPUUsage, ha, Bool.not_true, Bool.false_eq_true, if_false, h]

theorem monitoringDiskIO_series (n : Node) (r : Remote) (ha : r.alive = true) :
    (∀ stats, r.ReadDiskStats n.PathProcDiskStats = some stats →
      ( MonitoringDiskIO n r).DiskIOs =
        stats.foldl
          (fun m s =>
            mapSet m ("/dev/" ++ s.Name)
              (appendEvict n.DiskIOsLimit (mapGet m ("/dev/" ++ s.Name))
                ⟨"/dev/" ++ s.Name, s.ReadIOs, s.GetReadBytes, s.WriteIOs, s.GetWriteBytes⟩))
          n.DiskIOs) ∧
    (r.ReadDiskStats n.PathProcDiskStats = none → ( MonitoringDiskIO n r).DiskIOs = n.DiskIOs) := by
  constructor
  · intro stats h
    simp only [ MonitoringDiskIO, ha, Bool.not_true, Bool.false_eq_true, if_false, h]
    rw [diskFold_series]
  · intro h
    simp only [ MonitoringDiskIO, ha, Bool.not_true, Bool.false_eq_true, if_false, h]

theorem monitoringNetworkIO_series (n : Node) (r : Remote) (ha : r.alive = true) :
    (∀ stats, r.ReadNetworkStat "/proc/net/dev" = some stats →
      ( MonitoringNetworkIO n r).NetworkIOs =
        stats.foldl
          (fun m s =>
            mapSet m s.Iface
              (appendEvict n.NetworkIOsLimit (mapGet m s.Iface)
                ⟨s.Iface, s.RxPackets, s.RxBytes, s.TxPackets, s.TxBytes⟩))
          n.NetworkIOs) ∧
    (r.ReadNetworkStat "/proc/net/dev" = none →
      ( MonitoringNetworkIO n r).NetworkIOs = n.NetworkIOs) := by
  constructor
  · intro stats h
    simp only [ MonitoringNetworkIO, ha, Bool.not_true, Bool.false_eq_true, if_false, h]
    rw [networkFold_series]
  · intro h
    simp only [ MonitoringNetworkIO, ha, Bool.not_true, Bool.false_eq_true, if_false, h]

/-- The three series after one pass of the ticker loop are those of the three
samplers applied to the node the pass started from. -/
theorem startMonitoringTick_series (n : Node) (r1 r2 r3 : Remote) :
    (startMonitoringTick n r1 r2 r3).cpuUsage = (MonitoringCPUUsage n r1).cpuUsage ∧
    (startMonitoringTick n r1 r2 r3).DiskIOs = ( MonitoringDiskIO n r2).DiskIOs ∧
    (startMonitoringTick n r1 r2 r3).NetworkIOs = ( MonitoringNetworkIO n r3).NetworkIOs := by
  unfold startMonitoringTick
  obtain ⟨c, rr1, h1⟩ := monitoringCPUUsage_frame n r1
  obtain ⟨m2, rr2, h2⟩ := monitoringDiskIO_frame (MonitoringCPUUsage n r1) r2
  obtain ⟨m3, rr3, h3⟩ := monitoringNetworkIO_frame
    ( MonitoringDiskIO (MonitoringCPUUsage n r1) r2) r3
  have hd : ( MonitoringDiskIO (MonitoringCPUUsage n r1) r2).DiskIOs =
      ( MonitoringDiskIO n r2).DiskIOs :=
    monitoringDiskIO_congr r2 _ _ (by rw [h1]) (by rw [h1]) (by rw [h1])
  have hn : ( MonitoringNetworkIO ( MonitoringDiskIO (MonitoringCPUUsage n r1) r2) r3).NetworkIOs =
      ( MonitoringNetworkIO n r3).NetworkIOs :=
    monitoringNetworkIO_congr r3 _ _ (by rw [h2, h1]) (by rw [h2, h1])
  refine ⟨?_, ?_, hn⟩
  · rw [h3, h2]
  · rw [h3]
    exact hd

/-- C25. A failed read is skipped, not fatal: on an alive node a failed read of
the stat file makes MonitoringCPUUsage return the node with cpuUsage and every
other field of the source unchanged (only the log of remote reads grows), and
likewise for a failed read of the diskstats file and of /proc/net/dev. Within
one tick of StartMonitoring, whatever the other two readers return (a failure
included): a successful read of the stat file appends its sample to cpuUsage
(dropping the oldest sample when the series exceeds its limit) and a failed one
leaves cpuUsage as it was; a successful read of the diskstats file appends, entry
after entry, the sample of each entry to the series of its device in DiskIOs,
and a failed one leaves DiskIOs as it was; a successful read of /proc/net/dev
appends the sample of each interface to its series in NetworkIOs, and a failed
one leaves NetworkIOs as it was. In every case each series after the tick is the
one its own sampler produces from the node the tick started from. -/
theorem sampler_read_failure_is_skipped (n : Node) (r : Remote) (ha : r.alive = true) :
    (r.ReadStat n.PathProcStat = none →
      MonitoringCPUUsage n r = { n with remoteReads := n.remoteReads ++ [n.PathProcStat] }) ∧
    (r.ReadDiskStats n.PathProcDiskStats = none →
      MonitoringDiskIO n r =
        { n with remoteReads := n.remoteReads ++ [n.PathProcDiskStats] }) ∧
    (r.ReadNetworkStat "/proc/net/dev" = none →
      MonitoringNetworkIO n r = { n with remoteReads := n.remoteReads ++ ["/proc/net/dev"] }) ∧
    (∀ r1 r2 r3 : Remote,
      (startMonitoringTick n r1 r2 r3).cpuUsage = (MonitoringCPUUsage n r1).cpuUsage ∧
      (startMonitoringTick n r1 r2 r3).DiskIOs = ( MonitoringDiskIO n r2).DiskIOs ∧
      (startMonitoringTick n r1 r2 r3).NetworkIOs = ( MonitoringNetworkIO n r3).NetworkIOs) ∧
    (∀ r1 r2 r3 : Remote, r1.alive = true →
      (∀ stat, r1.ReadStat n.PathProcStat = some stat →
        (startMonitoringTick n r1 r2 r3).cpuUsage =
          appendEvict n.cpuUsageLimit n.cpuUsage ⟨stat.CPUStatAll, stat.CPUStats, r1.now⟩) ∧
      (r1.ReadStat n.PathProcStat = none →
        (startMonitoringTick n r1 r2 r3).cpuUsage = n.cpuUsage)) ∧
    (∀ r1 r2 r3 : Remote, r2.alive = true →
      (∀ stats, r2.ReadDiskStats n.PathProcDiskStats = some stats →
        (startMonitoringTick n r1 r2 r3).DiskIOs =
          stats.foldl
            (fun m s =>
              mapSet m ("/dev/" ++ s.Name)
                (appendEvict n.DiskIOsLimit (mapGet m ("/dev/" ++ s.Name))
                  ⟨"/dev/" ++ s.Name, s.ReadIOs, s.GetReadBytes, s.WriteIOs,
                    s.GetWriteBytes⟩))
            n.DiskIOs) ∧
      (r2.ReadDiskStats n.PathProcDiskStats = none →
        (startMonitoringTick n r1 r2 r3).DiskIOs = n.DiskIOs)) ∧
    (∀ r1 r2 r3 : Remote, r3.alive = true →
      (∀ stats, r3.ReadNetworkStat "/proc/net/dev" = some stats →
        (startMonitoringTick n r1 r2 r3).NetworkIOs =
          stats.foldl
            (fun m s =>
              mapSet m s.Iface
                (appendEvict n.NetworkIOsLimit (mapGet m s.Iface)
                  ⟨s.Iface, s.RxPackets, s.RxBytes, s.TxPackets, s.TxBytes⟩))
            n.NetworkIOs) ∧
      (r3.ReadNetworkStat "/proc/net/dev" = none →
        (startMonitoringTick n r1 r2 r3).NetworkIOs = n.NetworkIOs)) := by
  refine ⟨?_, ?_, ?_, ?_, ?_, ?_, ?_⟩
  · intro h
    simp only [MonitoringCPUUsage, ha, Bool.not_true, Bool.false_eq_true, if_false, h]
  · intro h
    simp only [ MonitoringDiskIO, ha, Bool.not_true, Bool.false_eq_true, if_false, h]
  · intro h
    simp only [ MonitoringNetworkIO, ha, Bool.not_true, Bool.false_eq_true, if_false, h]
  · intro r1 r2 r3
    exact startMonitoringTick_series n r1 r2 r3
  · intro r1 r2 r3 h1
    rw [(startMonitoringTick_series n r1 r2 r3).1]
    exact monitoringCPUUsage_series n r1 h1
  · intro r1 r2 r3 h2
    rw [(startMonitoringTick_series n r1 r2 r3).2.1]
    exact monitoringDiskIO_series n r2 h2
  · intro r1 r2 r3 h3
    rw [(startMonitoringTick_series n r1 r2 r3).2.2]
    exact monitoringNetworkIO_series n r3 h3

/-- Witness for C25, on a node that holds one CPU sample at capacity 1 and no
disk or network sample. When the stat file cannot be read the node keeps its CPU
sample and gets its disk and network samples; when the diskstats file cannot be
read the new CPU sample replaces the old one, DiskIOs stays empty and the
network sample arrives; when /proc/net/dev cannot be read the CPU and disk
samples arrive and NetworkIOs stays empty. -/
theorem sampler_read_failure_is_skipped_witness :
    (MonitoringCPUUsage fullNode statFailsRemote =
      { fullNode with remoteReads := fullNode.remoteReads ++ [fullNode.PathProcStat] } ∧
     (startMonitoringTick fullNode statFailsRemote demoRemote demoRemote).cpuUsage =
       [⟨⟨"cpu", 1, 0, 1, 8, 0, 0, 0, 0, 0, 0⟩, [], 5⟩] ∧
     (startMonitoringTick fullNode statFailsRemote demoRemote demoRemote).DiskIOs =
       [("/dev/sda", [⟨"/dev/sda", 3, 16 * 512, 2, 8 * 512⟩])] ∧
     (startMonitoringTick fullNode statFailsRemote demoRemote demoRemote).NetworkIOs =
       [("eth0", [⟨"eth0", 10, 1000, 20, 2000⟩])]) ∧
    ( MonitoringDiskIO fullNode diskFailsRemote =
      { fullNode with remoteReads := fullNode.remoteReads ++ [fullNode.PathProcDiskStats] } ∧
     (startMonitoringTick fullNode demoRemote diskFailsRemote demoRemote).cpuUsage =
       [⟨⟨"cpu", 10, 0, 5, 80, 1, 0, 0, 0, 0, 0⟩, [], 7⟩] ∧
     (startMonitoringTick fullNode demoRemote diskFailsRemote demoRemote).DiskIOs = [] ∧
     (startMonitoringTick fullNode demoRemote diskFailsRemote demoRemote).NetworkIOs =
       [("eth0", [⟨"eth0", 10, 1000, 20, 2000⟩])]) ∧
    ( MonitoringNetworkIO fullNode netFailsRemote =
      { fullNode with remoteReads := fullNode.remoteReads ++ ["/proc/net/dev"] } ∧
     (startMonitoringTick fullNode demoRemote demoRemote netFailsRemote).cpuUsage =
       [⟨⟨"cpu", 10, 0, 5, 80, 1, 0, 0, 0, 0, 0⟩, [], 7⟩] ∧
     (startMonitoringTick fullNode demoRemote demoRemote netFailsRemote).DiskIOs =
       [("/dev/sda", [⟨"/dev/sda", 3, 16 * 512, 2, 8 * 512⟩])] ∧
     (startMonitoringTick fullNode demoRemote demoRemote netFailsRemote).NetworkIOs = []) :=
  ⟨⟨(sampler_read_failure_is_skipped fullNode statFailsRemote rfl).1 rfl,
    ((sampler_read_failure_is_skipped fullNode statFailsRemote rfl).2.2.2.2.1
      statFailsRemote demoRemote demoRemote rfl).2 rfl,
    ((sampler_read_failure_is_skipped fullNode statFailsRemote rfl).2.2.2.2.2.1
      statFailsRemote demoRemote demoRemote rfl).1 [⟨"sda", 3, 16, 2, 8⟩] rfl,
    ((sampler_read_failure_is_skipped fullNode statFailsRemote rfl).2.2.2.2.2.2
      statFailsRemote demoRemote demoRemote rfl).1 [⟨"eth0", 1000, 10, 2000, 20⟩] rfl⟩,
   ⟨(sampler_read_failure_is_skipped fullNode diskFailsRemote rfl).2.1 rfl,
    ((sampler_read_failure_is_skipped fullNode diskFailsRemote rfl).2.2.2.2.1
      demoRemote diskFailsRemote demoRemote rfl).1
        ⟨⟨"cpu", 10, 0, 5, 80, 1, 0, 0, 0, 0, 0⟩, []⟩ rfl,
    ((sampler_read_failure_is_skipped fullNode diskFailsRemote rfl).2.2.2.2.2.1
      demoRemote diskFailsRemote demoRemote rfl).2 rfl,
    ((sampler_read_failure_is_skipped fullNode diskFailsRemote rfl).2.2.2.2.2.2
      demoRemote diskFailsRemote demoRemote rfl).1 [⟨"eth0", 1000, 10, 2000, 20⟩] rfl⟩,
   ⟨(sampler_read_failure_is_skipped fullNode netFailsRemote rfl).2.2.1 rfl,
    ((sampler_read_failure_is_skipped fullNode netFailsRemote rfl).2.2.2.2.1
      demoRemote demoRemote netFailsRemote rfl).1
        ⟨⟨"cpu", 10, 0, 5, 80, 1, 0, 0, 0, 0, 0⟩, []⟩ rfl,
    ((sampler_read_failure_is_skipped fullNode netFailsRemote rfl).2.2.2.2.2.1
      demoRemote demoRemote netFailsRemote rfl).1 [⟨"sda", 3, 16, 2, 8⟩] rfl,
    ((sampler_read_failure_is_skipped fullNode netFailsRemote rfl).2.2.2.2.2.2
      demoRemote demoRemote netFailsRemote rfl).2 rfl⟩⟩

theorem ulpExp_le_zero (q : ℚ) (h : |q| < 2 ^ 53) : ulpExp q ≤ 0 := by
  by_cases hq : q = 0
  · subst hq
    simp [ulpExp]
  · have := ulpExp_le q 53 hq (by exact_mod_cast h) (by norm_num)
    omega

theorem ofRat_eq_of_eq (q q2 r : ℚ) (e : q = q2) (h : Float64.ofRat q2 = Float64.fin r) :
    Float64.ofRat q = Float64.fin r := by
  rw [e]
  exact h

/-- A ratio between 0 and 1 rounds to a float64 between 0 and 1 that is at most
2^-53 away. -/
theorem unit_fraction_round (q : ℚ) (h0 : 0 ≤ q) (h1 : q ≤ 1) :
    ∃ r : ℚ, Float64.ofRat q = Float64.fin r ∧ 0 ≤ r ∧ r ≤ 1 ∧ |r - q| ≤ 1 / 2 ^ 53 := by
  have habs : |q| < (2 : ℚ) ^ (1 : ℤ) := by
    rw [abs_of_nonneg h0]
    norm_num
    linarith
  obtain ⟨r, hr, herr, -, hr0, -⟩ := Float64.ofRat_near q 1 habs (by norm_num) (by norm_num)
  have hu : ulpExp q ≤ 0 := ulpExp_le_zero q (lt_trans habs (by norm_num))
  have hr1 : r ≤ ((1 : Int) : ℚ) := Float64.ofRat_le_intCast q r 1 hu (by push_cast; exact h1) hr
  push_cast at hr1
  refine ⟨r, hr, hr0 h0, hr1, ?_⟩
  have e : (2 : ℚ) ^ ((1 : ℤ) - 54) = 1 / 2 ^ 53 := by
    rw [show (1 : ℤ) - 54 = -53 by norm_num, zpow_neg]
    norm_num
  rw [e] at herr
  exact herr

theorem ofInt_thirty : Float64.ofInt 30 = Float64.fin 30 := by
  have h := Float64.ofRat_intCast 30 (by norm_num)
  rw [Int.cast_ofNat] at h
  exact h

/-- The segment length int(x * float64(barLength)) of a fraction x between 0 and
1: the integer part of a float64 value that is not negative and within 2^-49
of 30 x. -/
theorem barLength_of_fraction (conv : Float64 → Int) (x : ℚ) (h0 : 0 ≤ x) (h1 : x ≤ 1) :
    ∃ z : ℚ, Float64.mul (Float64.fin x) (Float64.ofInt 30) = Float64.fin z ∧
      Float64.toInt conv (Float64.mul (Float64.fin x) (Float64.ofInt 30)) = ⌊z⌋ ∧
      0 ≤ z ∧ |z - x * 30| ≤ 1 / 2 ^ 49 := by
  have hq0 : 0 ≤ x * 30 := by positivity
  have habs : |x * 30| < (2 : ℚ) ^ (5 : ℤ) := by
    rw [abs_of_nonneg hq0]
    norm_num
    linarith
  obtain ⟨z, hz, herr, -, hz0, -⟩ := Float64.ofRat_near (x * 30) 5 habs (by norm_num)
    (by norm_num)
  have e : (2 : ℚ) ^ ((5 : ℤ) - 54) = 1 / 2 ^ 49 := by
    rw [show (5 : ℤ) - 54 = -49 by norm_num, zpow_neg]
    norm_num
  rw [e] at herr
  have hm : Float64.mul (Float64.fin x) (Float64.ofInt 30) = Float64.fin z := by
    rw [ofInt_thirty, float64_mul_fin, hz]
  refine ⟨z, hm, ?_, hz0 hq0, herr⟩
  rw [hm]
  rw [abs_le] at herr
  exact toInt_fin_of_range conv z (hz0 hq0) (by linarith [herr.2])

theorem coreUsageBetween_of_sums (l p : CPUStat) (a b : ℚ)
    (hl : sumFloat64 (tenCounters l) = Float64.fin a)
    (hp : sumFloat64 (tenCounters p) = Float64.fin b) :
    coreUsageBetween l p =
      ⟨Float64.div (Float64.ofNat (subUint64 l.Nice p.Nice))
          (Float64.sub (Float64.fin a) (Float64.fin b)),
        Float64.div (Float64.ofNat (subUint64 l.User p.User))
          (Float64.sub (Float64.fin a) (Float64.fin b)),
        Float64.div (Float64.ofNat (subUint64 l.System p.System))
          (Float64.sub (Float64.fin a) (Float64.fin b)),
        Float64.div (Float64.ofNat (subUint64 l.Guest p.Guest))
          (Float64.sub (Float64.fin a) (Float64.fin b)),
        Float64.div (Float64.sub (Float64.sub (Float64.fin a) (Float64.fin b))
            (Float64.sub (Float64.ofNat l.Idle) (Float64.ofNat p.Idle)))
          (Float64.sub (Float64.fin a) (Float64.fin b))⟩ := by
  simp only [coreUsageBetween, hl, hp]

theorem coreUsageBetween_eq (l p : CPUStat) (hl : tenSum l < 2 ^ 53) (hp : tenSum p < 2 ^ 53) :
    coreUsageBetween l p =
      ⟨Float64.div (Float64.ofNat (subUint64 l.Nice p.Nice))
          (Float64.fin ((tenSum l : ℚ) - tenSum p)),
        Float64.div (Float64.ofNat (subUint64 l.User p.User))
          (Float64.fin ((tenSum l : ℚ) - tenSum p)),
        Float64.div (Float64.ofNat (subUint64 l.System p.System))
          (Float64.fin ((tenSum l : ℚ) - tenSum p)),
        Float64.div (Float64.ofNat (subUint64 l.Guest p.Guest))
          (Float64.fin ((tenSum l : ℚ) - tenSum p)),
        Float64.div
          (Float64.fin (((tenSum l : ℚ) - tenSum p) - ((l.Idle : ℚ) - p.Idle)))
          (Float64.fin ((tenSum l : ℚ) - tenSum p))⟩ := by
  have hil := idle_le_tenSum l
  have hip := idle_le_tenSum p
  have h1 : Float64.sub (Float64.fin ((tenSum l : Int) : ℚ)) (Float64.fin ((tenSum p : Int) : ℚ)) =
      Float64.fin (((tenSum l : Int) : ℚ) - (tenSum p : Int)) :=
    Float64.sub_intCast _ _ (by rw [abs_lt]; omega)
  have h2 : Float64.sub (Float64.fin ((l.Idle : Int) : ℚ)) (Float64.fin ((p.Idle : Int) : ℚ)) =
      Float64.fin (((l.Idle : Int) : ℚ) - (p.Idle : Int)) :=
    Float64.sub_intCast _ _ (by rw [abs_lt]; omega)
  have h3 : Float64.sub
      (Float64.fin ((((tenSum l : Int) - (tenSum p : Int) : Int)) : ℚ))
      (Float64.fin ((((l.Idle : Int) - (p.Idle : Int) : Int)) : ℚ)) =
      Float64.fin (((((tenSum l : Int) - (tenSum p : Int) : Int)) : ℚ) -
        (((l.Idle : Int) - (p.Idle : Int) : Int))) :=
    Float64.sub_intCast _ _ (by rw [abs_lt]; omega)
  push_cast at h1 h2 h3
  rw [coreUsageBetween_of_sums l p _ _ (sumFloat64_tenCounters l hl)
    (sumFloat64_tenCounters p hp), Float64.ofNat_of_lt l.Idle (by omega),
    Float64.ofNat_of_lt p.Idle (by omega), h1, h2, h3]

theorem div_ofNat_fin (x : Nat) (d : ℚ) (hx : x < 2 ^ 53) (hd : d ≠ 0) :
    Float64.div (Float64.ofNat x) (Float64.fin d) = Float64.ofRat ((x : ℚ) / d) := by
  rw [Float64.ofNat_of_lt x hx, float64_div_fin _ _ hd]

theorem coreUsages_of_length_le (ls ps : List CPUStat) (h : ls.length ≤ ps.length) :
    coreUsages ls ps = some (List.zipWith coreUsageBetween ls ps) := by
  induction ls generalizing ps with
  | nil => simp [coreUsages]
  | cons l rest ih =>
    cases ps with
    | nil => simp at h
    | cons p ps =>
      have h2 : rest.length ≤ ps.length := by simpa using h
      simp [coreUsages, ih ps h2]

theorem coreUsages_of_length_gt (ls ps : List CPUStat) (h : ps.length < ls.length) :
    coreUsages ls ps = none := by
  induction ls generalizing ps with
  | nil => simp at h
  | cons l rest ih =>
    cases ps with
    | nil => simp [coreUsages]
    | cons p ps =>
      have h2 : ps.length < rest.length := by simpa using h
      simp [coreUsages, ih ps h2]

theorem zipWith_coreUsage_getElem (ls ps : List CPUStat) (i : Nat) (l p : CPUStat)
    (hl : ls[i]? = some l) (hp : ps[i]? = some p) :
    (List.zipWith coreUsageBetween ls ps)[i]? = some (coreUsageBetween l p) := by
  induction ls generalizing ps i with
  | nil => simp at hl
  | cons a rest ih =>
    cases ps with
    | nil => simp at hp
    | cons b ps =>
      cases i with
      | zero =>
        simp only [List.getElem?_cons_zero, Option.some.injEq] at hl hp
        subst hl
        subst hp
        simp
      | succ j =>
        simp only [List.getElem?_cons_succ] at hl hp
        simpa using ih ps j hl hp

theorem getCPUCoreUsage_two (n : Node) (pre : List CPUUsage) (p l : CPUUsage)
    (hs : n.cpuUsage = pre ++ [p, l]) :
    GetCPUCoreUsage n true = coreUsages l.Detail p.Detail := by
  have hlen : n.cpuUsage.length ≥ 2 := by simp [hs]
  simp only [GetCPUCoreUsage, Bool.not_true, Bool.false_eq_true, if_false, hlen, dite_true]
  rw [getElem_last_of_two n.cpuUsage pre p l hs, getElem_prev_of_two n.cpuUsage pre p l hs]

theorem subUint64_cast_of_le (a b : Nat) (h : b ≤ a) (ha : a < 2 ^ 64) :
    ((subUint64 a b : Nat) : ℚ) = (a : ℚ) - b := by
  rw [subUint64_of_le a b h ha, Nat.cast_sub h]

theorem ofRat_five_quarters : Float64.ofRat ((5 / 4) : ℚ) = Float64.fin (5 / 4) := by
  rw [Float64.ofRat_eval_pos (5 / 4) (0) (5629499534213120) (by norm_num) (by norm_num)
    (by norm_num) (by norm_num)
    (roundHalfEven_of_near _ (5629499534213120) (by norm_num) (by norm_num))]
  norm_num

theorem ofRat_uint64_minus_two : Float64.ofRat (18446744073709551614 : ℚ) = Float64.fin 18446744073709551616 := by
  rw [Float64.ofRat_eval_pos 18446744073709551614 (63) (9007199254740992) (by norm_num) (by norm_num)
    (by norm_num) (by norm_num)
    (roundHalfEven_of_near _ (9007199254740992) (by norm_num) (by norm_num))]
  norm_num

theorem ofRat_two_pow_61 : Float64.ofRat (2305843009213693952 : ℚ) = Float64.fin 2305843009213693952 := by
  rw [Float64.ofRat_eval_pos 2305843009213693952 (61) (4503599627370496) (by norm_num) (by norm_num)
    (by norm_num) (by norm_num)
    (roundHalfEven_of_near _ (4503599627370496) (by norm_num) (by norm_num))]
  norm_num

theorem ofRat_one : Float64.ofRat (1 : ℚ) = Float64.fin 1 := by
  rw [Float64.ofRat_eval_pos 1 (0) (4503599627370496) (by norm_num) (by norm_num)
    (by norm_num) (by norm_num)
    (roundHalfEven_of_near _ (4503599627370496) (by norm_num) (by norm_num))]
  norm_num

theorem ofRat_tenth : Float64.ofRat ((1 / 10) : ℚ) = Float64.fin (3602879701896397 / 36028797018963968) := by
  rw [Float64.ofRat_eval_pos (1 / 10) (-4) (7205759403792794) (by norm_num) (by norm_num)
    (by norm_num) (by norm_num)
    (roundHalfEven_of_near _ (7205759403792794) (by norm_num) (by norm_num))]
  norm_num

theorem ofRat_fifth : Float64.ofRat ((1 / 5) : ℚ) = Float64.fin (3602879701896397 / 18014398509481984) := by
  rw [Float64.ofRat_eval_pos (1 / 5) (-3) (7205759403792794) (by norm_num) (by norm_num)
    (by norm_num) (by norm_num)
    (roundHalfEven_of_near _ (7205759403792794) (by norm_num) (by norm_num))]
  norm_num

theorem ofRat_three_tenths : Float64.ofRat ((3 / 10) : ℚ) = Float64.fin (5404319552844595 / 18014398509481984) := by
  rw [Float64.ofRat_eval_pos (3 / 10) (-2) (5404319552844595) (by norm_num) (by norm_num)
    (by norm_num) (by norm_num)
    (roundHalfEven_of_near _ (5404319552844595) (by norm_num) (by norm_num))]
  norm_num

theorem ofRat_two_pow_53 : Float64.ofRat (9007199254740992 : ℚ) = Float64.fin 9007199254740992 := by
  rw [Float64.ofRat_eval_pos 9007199254740992 (53) (4503599627370496) (by norm_num) (by norm_num)
    (by norm_num) (by norm_num)
    (roundHalfEven_of_near _ (4503599627370496) (by norm_num) (by norm_num))]
  norm_num

theorem ofRat_two_pow_53_succ : Float64.ofRat (9007199254740993 : ℚ) = Float64.fin 9007199254740992 := by
  rw [Float64.ofRat_eval_pos 9007199254740993 (53) (4503599627370496) (by norm_num) (by norm_num)
    (by norm_num) (by norm_num)
    (by
      rw [show (9007199254740993 : ℚ) / (2 : ℚ) ^ ((53 : ℤ) - 52) = ((4503599627370496 : ℤ) : ℚ) + 1 / 2 by norm_num]
      exact roundHalfEven_tie_down (4503599627370496) (by decide))]
  norm_num

theorem ofNat_small (x : Nat) (q : ℚ) (hx : x < 2 ^ 53) (hq : (x : ℚ) = q) :
    Float64.ofNat x = Float64.fin q := by
  rw [Float64.ofNat_of_lt x hx, hq]

theorem div_nat_eval (x : Nat) (d q r : ℚ) (hx : x < 2 ^ 53) (hd : d ≠ 0) (hq : (x : ℚ) / d = q)
    (hr : Float64.ofRat q = Float64.fin r) :
    Float64.div (Float64.ofNat x) (Float64.fin d) = Float64.fin r := by
  rw [div_ofNat_fin x d hx hd, hq, hr]

theorem div_fin_eval (a d q r : ℚ) (hd : d ≠ 0) (hq : a / d = q)
    (hr : Float64.ofRat q = Float64.fin r) :
    Float64.div (Float64.fin a) (Float64.fin d) = Float64.fin r := by
  rw [float64_div_fin a d hd, hq, hr]

theorem float64_div_zero_zero : Float64.div (Float64.fin 0) (Float64.fin 0) = Float64.nan := by
  simp only [Float64.div, if_true]

theorem float64_div_one_zero : Float64.div (Float64.fin 1) (Float64.fin 0) = Float64.posInf := by
  simp only [Float64.div, if_true, one_ne_zero, if_false, Float64.infOfSign, zero_lt_one]

/-- The per-core figures of guestDropNode: the guest counter went down from 5
to 3, the uint64 difference 2^64 - 2 becomes the float64 2^64, and Guest is
2^61. -/
theorem guestDrop_usage :
    GetCPUCoreUsage guestDropNode true =
      some [⟨Float64.fin 0, Float64.fin (5 / 4), Float64.fin 0,
        Float64.fin 2305843009213693952, Float64.fin 1⟩] := by
  rw [getCPUCoreUsage_two guestDropNode []
    ⟨⟨"cpu", 0, 0, 0, 0, 0, 0, 0, 0, 5, 0⟩, [⟨"cpu0", 0, 0, 0, 0, 0, 0, 0, 0, 5, 0⟩], 0⟩
    ⟨⟨"cpu", 10, 0, 0, 0, 0, 0, 0, 0, 3, 0⟩, [⟨"cpu0", 10, 0, 0, 0, 0, 0, 0, 0, 3, 0⟩], 2⟩ rfl]
  have hc : coreUsages [(⟨"cpu0", 10, 0, 0, 0, 0, 0, 0, 0, 3, 0⟩ : CPUStat)]
      [⟨"cpu0", 0, 0, 0, 0, 0, 0, 0, 0, 5, 0⟩] =
      some [coreUsageBetween ⟨"cpu0", 10, 0, 0, 0, 0, 0, 0, 0, 3, 0⟩
        ⟨"cpu0", 0, 0, 0, 0, 0, 0, 0, 0, 5, 0⟩] := rfl
  rw [hc, coreUsageBetween_eq _ _ (by decide) (by decide)]
  have h1 : subUint64 0 0 = 0 := by decide
  have h2 : subUint64 10 0 = 10 := by decide
  have h3 : subUint64 3 5 = 18446744073709551614 := by decide
  have h4 : tenSum ⟨"cpu0", 10, 0, 0, 0, 0, 0, 0, 0, 3, 0⟩ = 13 := by decide
  have h5 : tenSum ⟨"cpu0", 0, 0, 0, 0, 0, 0, 0, 0, 5, 0⟩ = 5 := by decide
  simp only [h1, h2, h3, h4, h5]
  have hd : ((13 : Nat) : ℚ) - ((5 : Nat) : ℚ) = 8 := by norm_num
  have hi : ((0 : Nat) : ℚ) - ((0 : Nat) : ℚ) = 0 := by norm_num
  rw [hd, hi]
  have e0 : Float64.div (Float64.ofNat 0) (Float64.fin 8) = Float64.fin 0 :=
    div_nat_eval 0 8 0 0 (by norm_num) (by norm_num) (by norm_num) Float64.ofRat_zero
  have e1 : Float64.div (Float64.ofNat 10) (Float64.fin 8) = Float64.fin (5 / 4) :=
    div_nat_eval 10 8 (5 / 4) (5 / 4) (by norm_num) (by norm_num) (by norm_num)
      ofRat_five_quarters
  have e2 : Float64.div (Float64.ofNat 18446744073709551614) (Float64.fin 8) =
      Float64.fin 2305843009213693952 := by
    have hn : Float64.ofNat 18446744073709551614 = Float64.fin 18446744073709551616 := by
      rw [Float64.ofNat, Nat.cast_ofNat]
      exact ofRat_uint64_minus_two
    rw [hn]
    exact div_fin_eval _ 8 2305843009213693952 _ (by norm_num) (by norm_num) ofRat_two_pow_61
  have e3 : Float64.div (Float64.fin (8 - 0)) (Float64.fin 8) = Float64.fin 1 :=
    div_fin_eval _ 8 1 1 (by norm_num) (by norm_num) ofRat_one
  rw [e0, e1, e2, e3]

/-- The per-core figures of hugeCoreNode: the user counter went from 2^53 to
2^53 + 1, both sums are 2^53 as float64, Δtotal is 0 and the fractions are NaN
and +Inf. -/
theorem hugeCore_usage :
    GetCPUCoreUsage hugeCoreNode true =
      some [⟨Float64.nan, Float64.posInf, Float64.nan, Float64.nan, Float64.nan⟩] := by
  rw [getCPUCoreUsage_two hugeCoreNode []
    ⟨⟨"cpu", 9007199254740992, 0, 0, 0, 0, 0, 0, 0, 0, 0⟩,
      [⟨"cpu0", 9007199254740992, 0, 0, 0, 0, 0, 0, 0, 0, 0⟩], 0⟩
    ⟨⟨"cpu", 9007199254740993, 0, 0, 0, 0, 0, 0, 0, 0, 0⟩,
      [⟨"cpu0", 9007199254740993, 0, 0, 0, 0, 0, 0, 0, 0, 0⟩], 2⟩ rfl]
  have hc : coreUsages [(⟨"cpu0", 9007199254740993, 0, 0, 0, 0, 0, 0, 0, 0, 0⟩ : CPUStat)]
      [⟨"cpu0", 9007199254740992, 0, 0, 0, 0, 0, 0, 0, 0, 0⟩] =
      some [coreUsageBetween ⟨"cpu0", 9007199254740993, 0, 0, 0, 0, 0, 0, 0, 0, 0⟩
        ⟨"cpu0", 9007199254740992, 0, 0, 0, 0, 0, 0, 0, 0, 0⟩] := rfl
  have hz : Float64.ofNat 0 = Float64.fin 0 := ofNat_small 0 0 (by norm_num) (by norm_num)
  have ho : Float64.ofNat 1 = Float64.fin 1 := ofNat_small 1 1 (by norm_num) (by norm_num)
  have hsl2 := sumFloat64_user_only "cpu0" 9007199254740993 9007199254740992
    (by rw [Float64.ofNat, Nat.cast_ofNat]; exact ofRat_two_pow_53_succ) ofRat_two_pow_53
  have hsp2 := sumFloat64_user_only "cpu0" 9007199254740992 9007199254740992
    (by rw [Float64.ofNat, Nat.cast_ofNat]; exact ofRat_two_pow_53) ofRat_two_pow_53
  rw [hc, coreUsageBetween_of_sums _ _ _ _ hsl2 hsp2]
  have h1 : subUint64 0 0 = 0 := by decide
  have h2 : subUint64 9007199254740993 9007199254740992 = 1 := by decide
  simp only [h1, h2]
  simp only [hz, ho, float64_sub_fin, sub_self, Float64.ofRat_zero, float64_div_zero_zero,
    float64_div_one_zero]

/-- C23 (amended). Per-core decomposition: on an alive node whose two latest
samples are pU and lU, the previous one listing at least as many cores as the
later one, GetCPUCoreUsage returns one entry per core of the later sample, and
for every core i listed in both with counter sums below 2^53 and
Δtotal_i = sum(l) − sum(p) > 0 the entry is Low = float64(Δnice)/Δtotal_i,
Normal = float64(Δuser)/Δtotal_i, Kernel = float64(Δsystem)/Δtotal_i,
Guest = float64(Δguest)/Δtotal_i and Total = (Δtotal_i − Δidle)/Δtotal_i, each
quotient rounded to float64; Δtotal_i and Δidle are the exact differences, and
Δnice, Δuser, Δsystem and Δguest are the later counter minus the previous one
in uint64 arithmetic: the plain difference when the counter did not decrease,
the difference plus 2^64 when it did. A difference below 2^53 is converted
exactly, so that the quotient is the float64 nearest to the exact ratio. -/
theorem per_core_decomposition (n : Node) (pre : List CPUUsage) (pU lU : CPUUsage) (i : Nat)
    (l p : CPUStat) (hs : n.cpuUsage = pre ++ [pU, lU])
    (hlen : lU.Detail.length ≤ pU.Detail.length)
    (hl : lU.Detail[i]? = some l) (hp : pU.Detail[i]? = some p)
    (hl53 : tenSum l < 2 ^ 53) (hpos : tenSum p < tenSum l) :
    ∃ usages : List CPUUsageTop,
      GetCPUCoreUsage n true = some usages ∧ usages.length = lU.Detail.length ∧
      usages[i]? = some
        ⟨Float64.div (Float64.ofNat (subUint64 l.Nice p.Nice))
            (Float64.fin ((tenSum l : ℚ) - tenSum p)),
          Float64.div (Float64.ofNat (subUint64 l.User p.User))
            (Float64.fin ((tenSum l : ℚ) - tenSum p)),
          Float64.div (Float64.ofNat (subUint64 l.System p.System))
            (Float64.fin ((tenSum l : ℚ) - tenSum p)),
          Float64.div (Float64.ofNat (subUint64 l.Guest p.Guest))
            (Float64.fin ((tenSum l : ℚ) - tenSum p)),
          Float64.ofRat ((((tenSum l : ℚ) - tenSum p) - ((l.Idle : ℚ) - p.Idle)) /
            ((tenSum l : ℚ) - tenSum p))⟩ ∧
      (∀ (x : Nat) (d : ℚ), x < 2 ^ 53 → d ≠ 0 →
        Float64.div (Float64.ofNat x) (Float64.fin d) = Float64.ofRat ((x : ℚ) / d)) ∧
      (∀ a b : Nat, b ≤ a → a < 2 ^ 64 → ((subUint64 a b : Nat) : ℚ) = (a : ℚ) - b) ∧
      (∀ a b : Nat, a < b → b < 2 ^ 64 → ((subUint64 a b : Nat) : ℚ) = (a : ℚ) - b + 2 ^ 64) := by
  have hlt : (tenSum p : ℚ) < tenSum l := by exact_mod_cast hpos
  have hne : (tenSum l : ℚ) - tenSum p ≠ 0 := by linarith
  refine ⟨List.zipWith coreUsageBetween lU.Detail pU.Detail, ?_, ?_, ?_, ?_, ?_, ?_⟩
  · rw [getCPUCoreUsage_two n pre pU lU hs, coreUsages_of_length_le _ _ hlen]
  · simp only [List.length_zipWith]
    omega
  · rw [zipWith_coreUsage_getElem _ _ i l p hl hp,
      coreUsageBetween_eq l p hl53 (by omega), float64_div_fin _ _ hne]
  · intro x d hx hd
    exact div_ofNat_fin x d hx hd
  · exact subUint64_cast_of_le
  · intro a b hab hb
    rw [subUint64_of_lt a b hab hb]
    have h1 : b ≤ a + 2 ^ 64 := by omega
    rw [Nat.cast_sub h1]
    push_cast
    ring

/-- Witness for C23: one core, 100 ticks between the samples. -/
theorem per_core_decomposition_witness :
    ∃ usages : List CPUUsageTop,
      GetCPUCoreUsage oneCoreNode true = some usages ∧ usages.length = 1 ∧
      usages[0]? = some
        ⟨Float64.div (Float64.ofNat (subUint64 10 0))
            (Float64.fin (((100 : Nat) : ℚ) - (0 : Nat))),
          Float64.div (Float64.ofNat (subUint64 40 0))
            (Float64.fin (((100 : Nat) : ℚ) - (0 : Nat))),
          Float64.div (Float64.ofNat (subUint64 20 0))
            (Float64.fin (((100 : Nat) : ℚ) - (0 : Nat))),
          Float64.div (Float64.ofNat (subUint64 5 0))
            (Float64.fin (((100 : Nat) : ℚ) - (0 : Nat))),
          Float64.ofRat (((((100 : Nat) : ℚ) - (0 : Nat)) - (((25 : Nat) : ℚ) - (0 : Nat))) /
            (((100 : Nat) : ℚ) - (0 : Nat)))⟩ := by
  obtain ⟨usages, h1, h2, h3, _⟩ := per_core_decomposition oneCoreNode []
    ⟨⟨"cpu", 0, 0, 0, 0, 0, 0, 0, 0, 0, 0⟩, [⟨"cpu0", 0, 0, 0, 0, 0, 0, 0, 0, 0, 0⟩], 0⟩
    ⟨⟨"cpu", 40, 10, 20, 25, 0, 0, 0, 0, 5, 0⟩, [⟨"cpu0", 40, 10, 20, 25, 0, 0, 0, 0, 5, 0⟩], 2⟩
    0 ⟨"cpu0", 40, 10, 20, 25, 0, 0, 0, 0, 5, 0⟩ ⟨"cpu0", 0, 0, 0, 0, 0, 0, 0, 0, 0, 0⟩
    rfl (by decide) rfl rfl (by decide) (by decide)
  exact ⟨usages, h1, h2, h3⟩

/-- Counterexample for C23: with a guest counter that went down from 5 to 3
while the total grew by 8, GetCPUCoreUsage returns Guest = 2^61, the float64
value of the uint64 difference 2^64 − 2 divided by 8, and not (3 − 5)/8; when
a second core is listed only in the later sample, the call fails although
core 0 is present in both samples with a positive Δtotal; and with a user
counter of 2^53 and then 2^53 + 1 the two sums are equal as float64, Δtotal is
0 and Normal is +Inf, not Δuser/Δtotal = 1. -/
theorem per_core_guest_wraps_around :
    GetCPUCoreUsage guestDropNode true =
      some [⟨Float64.fin 0, Float64.fin (5 / 4), Float64.fin 0,
        Float64.fin 2305843009213693952, Float64.fin 1⟩] ∧
    Float64.fin 2305843009213693952 ≠ Float64.fin ((3 - 5) / 8) ∧
    GetCPUCoreUsage newCoreNode true = none ∧
    GetCPUCoreUsage hugeCoreNode true =
      some [⟨Float64.nan, Float64.posInf, Float64.nan, Float64.nan, Float64.nan⟩] := by
  refine ⟨guestDrop_usage, float64_fin_ne _ _ (by norm_num), ?_, hugeCore_usage⟩
  rw [getCPUCoreUsage_two newCoreNode [] _ _ rfl]
  exact coreUsages_of_length_gt _ _ (by decide)

theorem topCPUBarCells_eq (a b c d : Int) (ha : 0 ≤ a) (hb : 0 ≤ b) (hc : 0 ≤ c) (hd : 0 ≤ d)
    (hs : a + b + c + d ≤ 30) :
    topCPUBarCells a b c d =
      List.replicate a.toNat "[blue]|" ++ List.replicate b.toNat "[green]|" ++
      List.replicate c.toNat "[red]|" ++ List.replicate d.toNat "[yellow]|" ++
      List.replicate (30 - (a + b + c + d)).toNat "[node] " := by
  have h1 : addInt a b = a + b := wrapInt64_of_range _ (by omega) (by omega)
  have h2 : addInt (a + b) c = a + b + c := wrapInt64_of_range _ (by omega) (by omega)
  have h3 : addInt (a + b + c) d = a + b + c + d := wrapInt64_of_range _ (by omega) (by omega)
  have e1 : a - 0 = a := by omega
  have e2 : a + b - a = b := by omega
  have e3 : a + b + c - (a + b) = c := by omega
  have e4 : a + b + c + d - (a + b + c) = d := by omega
  simp only [topCPUBarCells, barSegment, h1, h2, h3, e1, e2, e3, e4]

theorem topCPUBarCells_length (a b c d : Int) (ha : 0 ≤ a) (hb : 0 ≤ b) (hc : 0 ≤ c)
    (hd : 0 ≤ d) (hs : a + b + c + d ≤ 30) : (topCPUBarCells a b c d).length = 30 := by
  rw [topCPUBarCells_eq a b c d ha hb hc hd hs]
  simp only [List.length_append, List.length_replicate]
  omega

/-- A counter difference x out of a total d, 0 ≤ x ≤ d, 0 < d < 2^53: the
fraction float64(x)/d and its segment length int(fraction × 30). -/
theorem core_fraction (conv : Float64 → Int) (x : Nat) (d : ℚ) (hd : 0 < d)
    (hx : (x : ℚ) ≤ d) (h53 : d < 2 ^ 53) :
    ∃ r z : ℚ, Float64.div (Float64.ofNat x) (Float64.fin d) = Float64.fin r ∧
      0 ≤ r ∧ r ≤ 1 ∧ |r - (x : ℚ) / d| ≤ 1 / 2 ^ 53 ∧
      Float64.toInt conv (Float64.mul (Float64.fin r) (Float64.ofInt 30)) = ⌊z⌋ ∧
      0 ≤ z ∧ |z - r * 30| ≤ 1 / 2 ^ 49 := by
  have hx53 : x < 2 ^ 53 := by
    have : (x : ℚ) < ((2 ^ 53 : Nat) : ℚ) := by
      push_cast
      linarith
    exact_mod_cast this
  have hq0 : 0 ≤ (x : ℚ) / d := div_nonneg (by positivity) (le_of_lt hd)
  have hq1 : (x : ℚ) / d ≤ 1 := (div_le_one hd).mpr hx
  obtain ⟨r, hr, hr0, hr1, herr⟩ := unit_fraction_round _ hq0 hq1
  obtain ⟨z, -, hz, hz0, hzerr⟩ := barLength_of_fraction conv r hr0 hr1
  exact ⟨r, z, by rw [div_ofNat_fin x d hx53 (ne_of_gt hd), hr], hr0, hr1, herr, hz, hz0, hzerr⟩

theorem tenSum_cast (c : CPUStat) :
    (tenSum c : ℚ) = c.User + c.Nice + c.System + c.Idle + c.IOWait + c.IRQ +
      c.SoftIRQ + c.Steal + c.Guest + c.GuestNice := by
  simp only [tenSum]
  push_cast
  ring

/-- C30 (amended). The stacked per-core bar never overflows: for a core listed
in the two latest samples of an alive node with non-decreasing uint64 counters,
counter sums below 2^53 and Δtotal > 0, the CPUUsageTop that GetCPUCoreUsage
returns for it has finite fractions Low, Normal, Kernel, Guest and Total
between 0 and 1, each within 2^-53 of the exact ratio, and
Low + Normal + Kernel + Guest ≤ Total + 5/2^53; the four segment lengths of
TopCPUUsage.Update are not negative, each is the integer part of a float64
value within 2^-49 of the fraction times 30, and they add up to at most 30;
and the bar consists of exactly 30 cells, the coloured segments followed by the
blank background, before the closing tag. -/
theorem stacked_bar_never_overflows (conv : Float64 → Int) (n : Node) (pre : List CPUUsage)
    (pU lU : CPUUsage) (i : Nat) (l p : CPUStat) (hs : n.cpuUsage = pre ++ [pU, lU])
    (hlen : lU.Detail.length ≤ pU.Detail.length)
    (hl : lU.Detail[i]? = some l) (hp : pU.Detail[i]? = some p)
    (hu : CountersUint64 l) (hmono : CountersNonDecreasing p l) (hl53 : tenSum l < 2 ^ 53)
    (hpos : tenSum p < tenSum l) :
    ∃ (usages : List CPUUsageTop) (lo no ke gu tot : ℚ) (a b c d : Int),
      GetCPUCoreUsage n true = some usages ∧
      usages[i]? = some ⟨Float64.fin lo, Float64.fin no, Float64.fin ke, Float64.fin gu,
        Float64.fin tot⟩ ∧
      0 ≤ lo ∧ lo ≤ 1 ∧ 0 ≤ no ∧ no ≤ 1 ∧ 0 ≤ ke ∧ ke ≤ 1 ∧ 0 ≤ gu ∧ gu ≤ 1 ∧
      0 ≤ tot ∧ tot ≤ 1 ∧
      |lo - ((l.Nice : ℚ) - p.Nice) / ((tenSum l : ℚ) - tenSum p)| ≤ 1 / 2 ^ 53 ∧
      |no - ((l.User : ℚ) - p.User) / ((tenSum l : ℚ) - tenSum p)| ≤ 1 / 2 ^ 53 ∧
      |ke - ((l.System : ℚ) - p.System) / ((tenSum l : ℚ) - tenSum p)| ≤ 1 / 2 ^ 53 ∧
      |gu - ((l.Guest : ℚ) - p.Guest) / ((tenSum l : ℚ) - tenSum p)| ≤ 1 / 2 ^ 53 ∧
      |tot - (((tenSum l : ℚ) - tenSum p) - ((l.Idle : ℚ) - p.Idle)) /
          ((tenSum l : ℚ) - tenSum p)| ≤ 1 / 2 ^ 53 ∧
      lo + no + ke + gu ≤ tot + 5 / 2 ^ 53 ∧
      topCPUBarLengths conv ⟨Float64.fin lo, Float64.fin no, Float64.fin ke, Float64.fin gu,
        Float64.fin tot⟩ = (a, b, c, d) ∧
      0 ≤ a ∧ 0 ≤ b ∧ 0 ≤ c ∧ 0 ≤ d ∧
      (a : ℚ) ≤ lo * 30 + 1 / 2 ^ 49 ∧ lo * 30 - 1 - 1 / 2 ^ 49 < a ∧
      (b : ℚ) ≤ no * 30 + 1 / 2 ^ 49 ∧ no * 30 - 1 - 1 / 2 ^ 49 < b ∧
      (c : ℚ) ≤ ke * 30 + 1 / 2 ^ 49 ∧ ke * 30 - 1 - 1 / 2 ^ 49 < c ∧
      (d : ℚ) ≤ gu * 30 + 1 / 2 ^ 49 ∧ gu * 30 - 1 - 1 / 2 ^ 49 < d ∧
      a + b + c + d ≤ 30 ∧
      topCPUBarCells a b c d =
        List.replicate a.toNat "[blue]|" ++ List.replicate b.toNat "[green]|" ++
        List.replicate c.toNat "[red]|" ++ List.replicate d.toNat "[yellow]|" ++
        List.replicate (30 - (a + b + c + d)).toNat "[node] " ∧
      (topCPUBarCells a b c d).length = 30 ∧
      topCPUBar conv ⟨Float64.fin lo, Float64.fin no, Float64.fin ke, Float64.fin gu,
        Float64.fin tot⟩ = stringsJoin (topCPUBarCells a b c d) ++ "[none]" := by
  obtain ⟨u1, u2, u3, u4, u5, u6, u7, u8, u9, u10⟩ := hu
  obtain ⟨m1, m2, m3, m4, m5, m6, m7, m8, m9, m10⟩ := hmono
  have hp53 : tenSum p < 2 ^ 53 := by omega
  have hlt : (tenSum p : ℚ) < tenSum l := by exact_mod_cast hpos
  have hd : (0 : ℚ) < (tenSum l : ℚ) - tenSum p := by linarith
  have hd53 : (tenSum l : ℚ) - tenSum p < 2 ^ 53 := by
    have h1 : (tenSum l : ℚ) < ((2 ^ 53 : Nat) : ℚ) := by exact_mod_cast hl53
    have h2 : (0 : ℚ) ≤ (tenSum p : ℚ) := by positivity
    push_cast at h1
    linarith
  have q1 : (p.User : ℚ) ≤ l.User := by exact_mod_cast m1
  have q2 : (p.Nice : ℚ) ≤ l.Nice := by exact_mod_cast m2
  have q3 : (p.System : ℚ) ≤ l.System := by exact_mod_cast m3
  have q4 : (p.Idle : ℚ) ≤ l.Idle := by exact_mod_cast m4
  have q5 : (p.IOWait : ℚ) ≤ l.IOWait := by exact_mod_cast m5
  have q6 : (p.IRQ : ℚ) ≤ l.IRQ := by exact_mod_cast m6
  have q7 : (p.SoftIRQ : ℚ) ≤ l.SoftIRQ := by exact_mod_cast m7
  have q8 : (p.Steal : ℚ) ≤ l.Steal := by exact_mod_cast m8
  have q9 : (p.Guest : ℚ) ≤ l.Guest := by exact_mod_cast m9
  have q10 : (p.GuestNice : ℚ) ≤ l.GuestNice := by exact_mod_cast m10
  have hlc := tenSum_cast l
  have hpc := tenSum_cast p
  have c1 := subUint64_cast_of_le _ _ m2 u2
  have c2 := subUint64_cast_of_le _ _ m1 u1
  have c3 := subUint64_cast_of_le _ _ m3 u3
  have c4 := subUint64_cast_of_le _ _ m9 u9
  obtain ⟨lo, za, e1, lo0, lo1, loe, ta, za0, zae⟩ := core_fraction conv
    (subUint64 l.Nice p.Nice) _ hd (by rw [c1]; linarith) hd53
  obtain ⟨no, zb, e2, no0, no1, noe, tb, zb0, zbe⟩ := core_fraction conv
    (subUint64 l.User p.User) _ hd (by rw [c2]; linarith) hd53
  obtain ⟨ke, zc, e3, ke0, ke1, kee, tc, zc0, zce⟩ := core_fraction conv
    (subUint64 l.System p.System) _ hd (by rw [c3]; linarith) hd53
  obtain ⟨gu, zd, e4, gu0, gu1, gue, td, zd0, zde⟩ := core_fraction conv
    (subUint64 l.Guest p.Guest) _ hd (by rw [c4]; linarith) hd53
  rw [c1] at loe
  rw [c2] at noe
  rw [c3] at kee
  rw [c4] at gue
  have ht0 : 0 ≤ (((tenSum l : ℚ) - tenSum p) - ((l.Idle : ℚ) - p.Idle)) /
      ((tenSum l : ℚ) - tenSum p) := div_nonneg (by linarith) (le_of_lt hd)
  have ht1 : (((tenSum l : ℚ) - tenSum p) - ((l.Idle : ℚ) - p.Idle)) /
      ((tenSum l : ℚ) - tenSum p) ≤ 1 := by
    rw [div_le_one hd]
    linarith
  obtain ⟨tot, e5, tot0, tot1, tote⟩ := unit_fraction_round _ ht0 ht1
  have hsum : ((l.Nice : ℚ) - p.Nice) / ((tenSum l : ℚ) - tenSum p) +
      ((l.User : ℚ) - p.User) / ((tenSum l : ℚ) - tenSum p) +
      ((l.System : ℚ) - p.System) / ((tenSum l : ℚ) - tenSum p) +
      ((l.Guest : ℚ) - p.Guest) / ((tenSum l : ℚ) - tenSum p) ≤
      (((tenSum l : ℚ) - tenSum p) - ((l.Idle : ℚ) - p.Idle)) /
        ((tenSum l : ℚ) - tenSum p) := by
    rw [← add_div, ← add_div, ← add_div, div_le_div_iff_of_pos_right hd]
    linarith
  rw [abs_le] at loe noe kee gue tote zae zbe zce zde
  have fa := Int.floor_le za
  have fb := Int.floor_le zb
  have fc := Int.floor_le zc
  have fd := Int.floor_le zd
  have ga := Int.lt_floor_add_one za
  have gb := Int.lt_floor_add_one zb
  have gc := Int.lt_floor_add_one zc
  have gd := Int.lt_floor_add_one zd
  have a0 : 0 ≤ ⌊za⌋ := Int.floor_nonneg.mpr za0
  have b0 : 0 ≤ ⌊zb⌋ := Int.floor_nonneg.mpr zb0
  have c0 : 0 ≤ ⌊zc⌋ := Int.floor_nonneg.mpr zc0
  have d0 : 0 ≤ ⌊zd⌋ := Int.floor_nonneg.mpr zd0
  have hfrac : lo + no + ke + gu ≤ tot + 5 / 2 ^ 53 := by
    linarith only [loe.2, noe.2, kee.2, gue.2, tote.1, hsum]
  have h30 : ⌊za⌋ + ⌊zb⌋ + ⌊zc⌋ + ⌊zd⌋ ≤ 30 := by
    have h : ((⌊za⌋ + ⌊zb⌋ + ⌊zc⌋ + ⌊zd⌋ : Int) : ℚ) < ((31 : Int) : ℚ) := by
      push_cast
      have : lo + no + ke + gu ≤ 1 + 5 / 2 ^ 53 := by linarith only [hfrac, tot1]
      linarith only [this, fa, fb, fc, fd, zae.2, zbe.2, zce.2, zde.2]
    have : ⌊za⌋ + ⌊zb⌋ + ⌊zc⌋ + ⌊zd⌋ < 31 := by exact_mod_cast h
    omega
  have hlens : topCPUBarLengths conv
      ⟨Float64.fin lo, Float64.fin no, Float64.fin ke, Float64.fin gu, Float64.fin tot⟩ =
      (⌊za⌋, ⌊zb⌋, ⌊zc⌋, ⌊zd⌋) := by
    simp only [topCPUBarLengths]
    rw [ta, tb, tc, td]
  have hget : GetCPUCoreUsage n true =
      some (List.zipWith coreUsageBetween lU.Detail pU.Detail) := by
    rw [getCPUCoreUsage_two n pre pU lU hs, coreUsages_of_length_le _ _ hlen]
  have hentry : (List.zipWith coreUsageBetween lU.Detail pU.Detail)[i]? =
      some ⟨Float64.fin lo, Float64.fin no, Float64.fin ke, Float64.fin gu, Float64.fin tot⟩ := by
    rw [zipWith_coreUsage_getElem _ _ i l p hl hp, coreUsageBetween_eq l p hl53 hp53,
      e1, e2, e3, e4, float64_div_fin _ _ (ne_of_gt hd), e5]
  have hbar : topCPUBar conv
      ⟨Float64.fin lo, Float64.fin no, Float64.fin ke, Float64.fin gu, Float64.fin tot⟩ =
      stringsJoin (topCPUBarCells ⌊za⌋ ⌊zb⌋ ⌊zc⌋ ⌊zd⌋) ++ "[none]" := by
    simp only [topCPUBar, hlens]
  have ba1 : (⌊za⌋ : ℚ) ≤ lo * 30 + 1 / 2 ^ 49 := by linarith only [fa, zae.2]
  have ba2 : lo * 30 - 1 - 1 / 2 ^ 49 < (⌊za⌋ : ℚ) := by linarith only [ga, zae.1]
  have bb1 : (⌊zb⌋ : ℚ) ≤ no * 30 + 1 / 2 ^ 49 := by linarith only [fb, zbe.2]
  have bb2 : no * 30 - 1 - 1 / 2 ^ 49 < (⌊zb⌋ : ℚ) := by linarith only [gb, zbe.1]
  have bc1 : (⌊zc⌋ : ℚ) ≤ ke * 30 + 1 / 2 ^ 49 := by linarith only [fc, zce.2]
  have bc2 : ke * 30 - 1 - 1 / 2 ^ 49 < (⌊zc⌋ : ℚ) := by linarith only [gc, zce.1]
  have bd1 : (⌊zd⌋ : ℚ) ≤ gu * 30 + 1 / 2 ^ 49 := by linarith only [fd, zde.2]
  have bd2 : gu * 30 - 1 - 1 / 2 ^ 49 < (⌊zd⌋ : ℚ) := by linarith only [gd, zde.1]
  exact ⟨List.zipWith coreUsageBetween lU.Detail pU.Detail, lo, no, ke, gu, tot,
    ⌊za⌋, ⌊zb⌋, ⌊zc⌋, ⌊zd⌋, hget, hentry, lo0, lo1, no0, no1, ke0, ke1, gu0, gu1, tot0, tot1,
    abs_le.mpr loe, abs_le.mpr noe, abs_le.mpr kee, abs_le.mpr gue, abs_le.mpr tote, hfrac,
    hlens, a0, b0, c0, d0, ba1, ba2, bb1, bb2, bc1, bc2, bd1, bd2, h30,
    topCPUBarCells_eq _ _ _ _ a0 b0 c0 d0 h30,
    topCPUBarCells_length _ _ _ _ a0 b0 c0 d0 h30, hbar⟩

/-- Witness for C30: one core, 100 ticks between the samples, 10 nice, 40 user,
20 system and 5 guest. -/
theorem stacked_bar_never_overflows_witness :
    ∃ (usages : List CPUUsageTop) (lo no ke gu tot : ℚ) (a b c d : Int),
      GetCPUCoreUsage oneCoreNode true = some usages ∧
      usages[0]? = some ⟨Float64.fin lo, Float64.fin no, Float64.fin ke, Float64.fin gu,
        Float64.fin tot⟩ ∧
      lo + no + ke + gu ≤ tot + 5 / 2 ^ 53 ∧ tot ≤ 1 ∧
      topCPUBarLengths (fun _ => 0) ⟨Float64.fin lo, Float64.fin no, Float64.fin ke,
        Float64.fin gu, Float64.fin tot⟩ = (a, b, c, d) ∧
      a + b + c + d ≤ 30 ∧
      (topCPUBarCells a b c d).length = 30 := by
  obtain ⟨usages, lo, no, ke, gu, tot, a, b, c, d, h1, h2, _, _, _, _, _, _, _, _, _, h3, _, _,
      _, _, _, h4, h5, _, _, _, _, _, _, _, _, _, _, _, _, h6, _, h7, _⟩ :=
    stacked_bar_never_overflows (fun _ => 0) oneCoreNode []
      ⟨⟨"cpu", 0, 0, 0, 0, 0, 0, 0, 0, 0, 0⟩, [⟨"cpu0", 0, 0, 0, 0, 0, 0, 0, 0, 0, 0⟩], 0⟩
      ⟨⟨"cpu", 40, 10, 20, 25, 0, 0, 0, 0, 5, 0⟩, [⟨"cpu0", 40, 10, 20, 25, 0, 0, 0, 0, 5, 0⟩], 2⟩
      0 ⟨"cpu0", 40, 10, 20, 25, 0, 0, 0, 0, 5, 0⟩ ⟨"cpu0", 0, 0, 0, 0, 0, 0, 0, 0, 0, 0⟩
      rfl (by decide) rfl rfl (by simp [CountersUint64]) (by simp [CountersNonDecreasing])
      (by decide) (by decide)
  exact ⟨usages, lo, no, ke, gu, tot, a, b, c, d, h1, h2, h4, h3, h5, h6, h7⟩

/-- The per-core figures of tenthsNode: 1 nice, 2 user and 7 idle ticks out of
10 give Low = float64(0.1), Normal = float64(0.2) and Total = float64(0.3). -/
theorem tenths_usage :
    GetCPUCoreUsage tenthsNode true =
      some [⟨Float64.fin (3602879701896397 / 36028797018963968), Float64.fin (3602879701896397 / 18014398509481984), Float64.fin 0, Float64.fin 0,
        Float64.fin (5404319552844595 / 18014398509481984)⟩] := by
  rw [getCPUCoreUsage_two tenthsNode []
    ⟨⟨"cpu", 0, 0, 0, 0, 0, 0, 0, 0, 0, 0⟩, [⟨"cpu0", 0, 0, 0, 0, 0, 0, 0, 0, 0, 0⟩], 0⟩
    ⟨⟨"cpu", 2, 1, 0, 7, 0, 0, 0, 0, 0, 0⟩, [⟨"cpu0", 2, 1, 0, 7, 0, 0, 0, 0, 0, 0⟩], 2⟩ rfl]
  have hc : coreUsages [(⟨"cpu0", 2, 1, 0, 7, 0, 0, 0, 0, 0, 0⟩ : CPUStat)]
      [⟨"cpu0", 0, 0, 0, 0, 0, 0, 0, 0, 0, 0⟩] =
      some [coreUsageBetween ⟨"cpu0", 2, 1, 0, 7, 0, 0, 0, 0, 0, 0⟩
        ⟨"cpu0", 0, 0, 0, 0, 0, 0, 0, 0, 0, 0⟩] := rfl
  rw [hc, coreUsageBetween_eq _ _ (by decide) (by decide)]
  have h1 : subUint64 1 0 = 1 := by decide
  have h2 : subUint64 2 0 = 2 := by decide
  have h3 : subUint64 0 0 = 0 := by decide
  have h4 : tenSum ⟨"cpu0", 2, 1, 0, 7, 0, 0, 0, 0, 0, 0⟩ = 10 := by decide
  have h5 : tenSum ⟨"cpu0", 0, 0, 0, 0, 0, 0, 0, 0, 0, 0⟩ = 0 := by decide
  simp only [h1, h2, h3, h4, h5]
  have hd : ((10 : Nat) : ℚ) - ((0 : Nat) : ℚ) = 10 := by norm_num
  have hi : ((7 : Nat) : ℚ) - ((0 : Nat) : ℚ) = 7 := by norm_num
  rw [hd, hi]
  have e0 : Float64.div (Float64.ofNat 0) (Float64.fin 10) = Float64.fin 0 :=
    div_nat_eval 0 10 0 0 (by norm_num) (by norm_num) (by norm_num) Float64.ofRat_zero
  have e1 : Float64.div (Float64.ofNat 1) (Float64.fin 10) = Float64.fin (3602879701896397 / 36028797018963968) :=
    div_nat_eval 1 10 (1 / 10) (3602879701896397 / 36028797018963968) (by norm_num) (by norm_num) (by norm_num) ofRat_tenth
  have e2 : Float64.div (Float64.ofNat 2) (Float64.fin 10) = Float64.fin (3602879701896397 / 18014398509481984) :=
    div_nat_eval 2 10 (1 / 5) (3602879701896397 / 18014398509481984) (by norm_num) (by norm_num) (by norm_num) ofRat_fifth
  have e3 : Float64.div (Float64.fin (10 - 7)) (Float64.fin 10) = Float64.fin (5404319552844595 / 18014398509481984) :=
    div_fin_eval _ 10 (3 / 10) _ (by norm_num) (by norm_num) ofRat_three_tenths
  rw [e0, e1, e2, e3]

/-- Counterexample for C30: with 1 nice, 2 user and 7 idle ticks out of 10 the
returned fractions are the float64 values of 0.1, 0.2 and 0.3, and
Low + Normal + Kernel + Guest = 0.1 + 0.2 exceeds Total = 0.3; and with a
user counter of 2^53 and then 2^53 + 1, where the counters do not decrease and
Δtotal = 1, the fractions are NaN and +Inf. -/
theorem stacked_fractions_exceed_total :
    GetCPUCoreUsage tenthsNode true =
      some [⟨Float64.fin (3602879701896397 / 36028797018963968), Float64.fin (3602879701896397 / 18014398509481984), Float64.fin 0, Float64.fin 0,
        Float64.fin (5404319552844595 / 18014398509481984)⟩] ∧
    ((5404319552844595 / 18014398509481984) : ℚ) < (3602879701896397 / 36028797018963968) + (3602879701896397 / 18014398509481984) + 0 + 0 ∧
    GetCPUCoreUsage hugeCoreNode true =
      some [⟨Float64.nan, Float64.posInf, Float64.nan, Float64.nan, Float64.nan⟩] :=
  ⟨tenths_usage, by norm_num, hugeCore_usage⟩

/-- The float64 computation 75 / 100 * 100: the quotient 0.75 is exact and so is
the product. -/
theorem percent_of_three_quarters :
    Float64.mul (Float64.div (Float64.fin 75) (Float64.fin 100)) (Float64.fin 100) =
      Float64.fin 75 := by
  have h34 : Float64.ofRat (3 / 4) = Float64.fin (3 / 4) := by
    have h := Float64.ofRat_fixed 3 (-2) (by norm_num) (by norm_num)
      (by rw [abs_of_pos (by norm_num)]; norm_num)
    norm_num at h
    exact h
  have h75 : Float64.ofRat 75 = Float64.fin 75 := by
    have h := Float64.ofRat_natCast 75 (by norm_num)
    rw [Nat.cast_ofNat] at h
    exact h
  rw [float64_div_fin _ _ (by norm_num), ofRat_eq_of_eq (75 / 100) (3 / 4) (3 / 4) (by norm_num) h34,
    float64_mul_fin, ofRat_eq_of_eq (3 / 4 * 100) 75 75 (by norm_num) h75]

theorem cpuWindowEntry_short (n : Node) (k : Nat) (h : n.cpuUsage.length < k + 3) :
    cpuWindowEntry n k = Float64.fin 0 := by
  unfold cpuWindowEntry
  rw [dif_pos h]

theorem cpuUsageWindow_length (n : Node) (bound : Nat) :
    (cpuUsageWindow n bound).length = bound - 1 := by
  simp [cpuUsageWindow]

theorem cpuUsageWindow_getElem (n : Node) (bound k : Nat) (h : k < bound - 1) :
    (cpuUsageWindow n bound)[k]? = some (cpuWindowEntry n k) := by
  simp [cpuUsageWindow, List.getElem?_range h]

theorem cpuUsageWindow_short (n : Node) (bound : Nat) (h : n.cpuUsage.length ≤ 2) :
    cpuUsageWindow n bound = List.replicate (bound - 1) (Float64.fin 0) := by
  rw [List.eq_replicate_iff]
  refine ⟨cpuUsageWindow_length n bound, ?_⟩
  intro b hb
  simp only [cpuUsageWindow, List.mem_map, List.mem_range] at hb
  obtain ⟨k, _, hk⟩ := hb
  rw [← hk]
  exact cpuWindowEntry_short n k (by omega)

theorem sparkline_of_ten_zeros (conv : Float64 → Int) (cm : Int) :
    Sparkline conv ⟨List.replicate 10 (Float64.fin 0), Float64.fin 0, Float64.fin 100, cm⟩ =
      some (List.replicate 10 "▁") := by
  have hl : sparkLevels (List.replicate 10 (0 : ℚ)).length = 6 := by decide
  have h := sparkline_fixed_range conv (List.replicate 10 0) 0 100 cm (by simp) (by simp)
    (by norm_num)
    (by
      rw [hl]
      intro n hn
      rw [List.eq_of_mem_replicate hn]
      exact ⟨_, tickValue_6_0_100_0, by norm_num, by norm_num⟩)
  rw [hl] at h
  simp only [List.map_replicate, sparkTick_6_0_100_0] at h
  exact h

theorem cpu_sparkline_of_short_history (conv : Float64 → Int) (n : Node)
    (h : n.cpuUsage.length ≤ 2) :
    GetCPUUsageWithSparkline conv n true = some (Float64.fin 0, "▁▁▁▁▁▁▁▁▁▁") := by
  have hw : cpuUsageWindow n 11 = List.replicate 10 (Float64.fin 0) := cpuUsageWindow_short n 11 h
  simp only [GetCPUUsageWithSparkline, Bool.not_true, Bool.false_eq_true, if_false, hw,
    sparkline_of_ten_zeros]
  decide

theorem cpu_braille_of_short_history (n : Node) (h : n.cpuUsage.length ≤ 2) :
    (GetCPUUsageWithBrailleLine n true).map Prod.fst = some (Float64.fin 0) := by
  have hw : cpuUsageWindow n 22 = List.replicate 21 (Float64.fin 0) := cpuUsageWindow_short n 22 h
  simp only [GetCPUUsageWithBrailleLine, Bool.not_true, Bool.false_eq_true, if_false, hw]
  simp [List.replicate]

theorem getCPUUsage_short (n : Node) (h : n.cpuUsage.length ≤ 1) :
    GetCPUUsage n true = Float64.fin 0 := by
  have h2 : ¬ n.cpuUsage.length ≥ 2 := by omega
  simp only [GetCPUUsage, Bool.not_true, Bool.false_eq_true, if_false, h2, dite_false]

theorem cpuWindowEntry_newest (n : Node) (pre : List CPUUsage) (q p l : CPUUsage)
    (hs : n.cpuUsage = pre ++ [q, p, l]) :
    cpuWindowEntry n 0 = usageBetween l.toCPUStat p.toCPUStat := by
  have hlen : ¬ n.cpuUsage.length < (0 + 2) + 1 := by simp [hs]
  have hs2 : n.cpuUsage = (pre ++ [q]) ++ [p, l] := by simp [hs]
  unfold cpuWindowEntry
  rw [dif_neg hlen]
  simp only
  have e1 : n.cpuUsage.length - (0 + 1) = n.cpuUsage.length - 1 := rfl
  have e2 : n.cpuUsage.length - (0 + 2) = n.cpuUsage.length - 2 := rfl
  simp only [e1, e2]
  rw [getElem_last_of_two n.cpuUsage (pre ++ [q]) p l hs2,
    getElem_prev_of_two n.cpuUsage (pre ++ [q]) p l hs2]

theorem cpu_readers_agree_from_three_samples (conv : Float64 → Int) (n : Node)
    (pre : List CPUUsage) (q p l : CPUUsage) (hs : n.cpuUsage = pre ++ [q, p, l]) :
    (GetCPUUsageWithBrailleLine n true).map Prod.fst = some (GetCPUUsage n true) ∧
    (∀ r, GetCPUUsageWithSparkline conv n true = some r → r.1 = GetCPUUsage n true) ∧
    (cpuUsageWindow n 22).length = 21 ∧ (cpuUsageWindow n 11).length = 10 := by
  have hg : GetCPUUsage n true = usageBetween l.toCPUStat p.toCPUStat :=
    getCPUUsage_two n (pre ++ [q]) p l (by simp [hs])
  have hb : (cpuUsageWindow n 22)[0]? = some (cpuWindowEntry n 0) :=
    cpuUsageWindow_getElem n 22 0 (by decide)
  have hsp : (cpuUsageWindow n 11)[0]? = some (cpuWindowEntry n 0) :=
    cpuUsageWindow_getElem n 11 0 (by decide)
  have he := cpuWindowEntry_newest n pre q p l hs
  refine ⟨?_, ?_, cpuUsageWindow_length n 22, cpuUsageWindow_length n 11⟩
  · simp only [GetCPUUsageWithBrailleLine, Bool.not_true, Bool.false_eq_true, if_false, hb,
      cpuUsageWindow_length]
    simp [he, hg]
  · intro r hr
    simp only [GetCPUUsageWithSparkline, Bool.not_true, Bool.false_eq_true, if_false, hsp,
      cpuUsageWindow_length] at hr
    rw [hg, ← he]
    cases hspark : Sparkline conv ⟨cpuUsageWindow n 11, Float64.fin 0, Float64.fin 100, 0⟩ with
    | none => simp [hspark] at hr
    | some glyphs =>
      simp [hspark] at hr
      rw [← hr]

/-- C24 (amended). With exactly one CPU sample on an alive node, GetCPUUsage
returns the percentage 0, and GetCPUUsageWithSparkline returns the percentage 0
together with a sparkline of ten minimal glyphs. -/
theorem cpu_figures_with_one_sample (conv : Float64 → Int) (n : Node)
    (h : n.cpuUsage.length = 1) :
    GetCPUUsage n true = Float64.fin 0 ∧
    GetCPUUsageWithSparkline conv n true = some (Float64.fin 0, "▁▁▁▁▁▁▁▁▁▁") :=
  ⟨getCPUUsage_short n (by omega), cpu_sparkline_of_short_history conv n (by omega)⟩

/-- Witness for C24: the node after its first CPU sample. -/
theorem cpu_figures_with_one_sample_witness :
    firstTickNode.cpuUsage.length = 1 ∧
    GetCPUUsage firstTickNode true = Float64.fin 0 ∧
    GetCPUUsageWithSparkline (fun _ => 0) firstTickNode true =
      some (Float64.fin 0, "▁▁▁▁▁▁▁▁▁▁") :=
  ⟨rfl, cpu_figures_with_one_sample (fun _ => 0) firstTickNode rfl⟩

/-- Counterexample for C24: after the first CPU sample both readers deliver the
number 0, and the sparkline is a string of ten glyphs, not the empty string. -/
theorem one_sample_yields_zero_and_glyphs :
    firstTickNode.cpuUsage.length = 1 ∧
    GetCPUUsage firstTickNode true = Float64.fin 0 ∧
    GetCPUUsageWithSparkline (fun _ => 0) firstTickNode true =
      some (Float64.fin 0, "▁▁▁▁▁▁▁▁▁▁") ∧
    "▁▁▁▁▁▁▁▁▁▁" ≠ "" :=
  ⟨rfl, getCPUUsage_short firstTickNode (by decide),
    cpu_sparkline_of_short_history (fun _ => 0) firstTickNode (by decide), by decide⟩

/-- C29 (code at the failing input). With exactly two samples, 100 ticks apart
of which 25 idle, GetCPUUsage returns 75 while GetCPUUsageWithSparkline and
GetCPUUsageWithBrailleLine return the usage 0: their test
len(n.cpuUsage) < p+1 asks for three samples before the newest pair is used.
The two windows hold 10 and 21 values. -/
theorem windowed_readers_lag_one_sample :
    busyNode.cpuUsage.length = 2 ∧
    GetCPUUsage busyNode true = Float64.fin 75 ∧
    (GetCPUUsageWithSparkline (fun _ => 0) busyNode true).map Prod.fst = some (Float64.fin 0) ∧
    (GetCPUUsageWithBrailleLine busyNode true).map Prod.fst = some (Float64.fin 0) ∧
    (cpuUsageWindow busyNode 11).length = 10 ∧ (cpuUsageWindow busyNode 22).length = 21 := by
  refine ⟨rfl, ?_, ?_, cpu_braille_of_short_history busyNode (by decide),
    cpuUsageWindow_length busyNode 11, cpuUsageWindow_length busyNode 22⟩
  · rw [getCPUUsage_two busyNode [] zeroSample busySample rfl,
      usageBetween_eq _ _ (by decide) (by decide)]
    have h1 : tenSum busySample.toCPUStat = 100 := by decide
    have h2 : tenSum zeroSample.toCPUStat = 0 := by decide
    have h3 : busySample.toCPUStat.Idle = 25 := rfl
    have h4 : zeroSample.toCPUStat.Idle = 0 := rfl
    simp only [h1, h2, h3, h4]
    rw [show ((100 : Nat) : ℚ) - ((0 : Nat) : ℚ) - (((25 : Nat) : ℚ) - ((0 : Nat) : ℚ)) = 75 by
      norm_num, show ((100 : Nat) : ℚ) - ((0 : Nat) : ℚ) = 100 by norm_num]
    exact percent_of_three_quarters
  · rw [cpu_sparkline_of_short_history (fun _ => 0) busyNode (by decide)]
    rfl

theorem splitAtSpaces_ne_nil (cs : List Char) : splitAtSpaces cs ≠ [] := by
  cases cs with
  | nil => simp [splitAtSpaces]
  | cons c cs =>
    simp only [splitAtSpaces]
    split
    · simp
    · split <;> simp

theorem splitAtSpaces_length (cs : List Char) :
    (splitAtSpaces cs).length = cs.count ' ' + 1 := by
  induction cs with
  | nil => simp [splitAtSpaces]
  | cons c cs ih =>
    by_cases hc : c = ' '
    · subst hc
      simp [splitAtSpaces, ih]
    · have hne := splitAtSpaces_ne_nil cs
      have hcount : (c :: cs).count ' ' = cs.count ' ' := by
        rw [List.count_cons_of_ne]
        exact fun h => hc h.symm
      rw [hcount, ← ih]
      simp only [splitAtSpaces, hc, if_false]
      cases hsp : splitAtSpaces cs with
      | nil => exact absurd hsp hne
      | cons w ws => simp

theorem splitAtSpaces_word (w rest : List Char) (hw : ' ' ∉ w) :
    splitAtSpaces (w ++ ' ' :: rest) = w :: splitAtSpaces rest := by
  induction w with
  | nil => simp [splitAtSpaces]
  | cons c cs ih =>
    have hc : c ≠ ' ' := fun h => hw (by simp [h])
    have hcs : ' ' ∉ cs := fun h => hw (List.mem_cons_of_mem _ h)
    show splitAtSpaces (c :: (cs ++ ' ' :: rest)) = (c :: cs) :: splitAtSpaces rest
    rw [splitAtSpaces, if_neg hc, ih hcs]

theorem getKernelVersion_ok (r : RemoteData) (data : String) (ha : r.alive = true)
    (hr : r.ReadData "/proc/version" = Except.ok data) :
    GetKernelVersion r =
      if (stringsSplitSpace data).length < 3 then Except.error "Kernel Version is not found"
      else Except.ok (" ".intercalate ((stringsSplitSpace data).take 3)) := by
  simp only [GetKernelVersion, ha, Bool.not_true, Bool.false_eq_true, if_false, hr]

/-- C26 (amended). Kernel version string: for every content of /proc/version
read on an alive node, GetKernelVersion splits the content at every single
space character, which gives one more field than the content has spaces; it
returns the first three fields joined by single spaces, and returns the error
"Kernel Version is not found" exactly when there are fewer than three fields,
that is when the content has fewer than two spaces. When the content starts with
three words without spaces, each followed by one space, the result is these
three words separated by single spaces. -/
theorem kernel_version_string (r : RemoteData) (data : String) (ha : r.alive = true)
    (hr : r.ReadData "/proc/version" = Except.ok data) :
    (stringsSplitSpace data).length = data.toList.count ' ' + 1 ∧
    (2 ≤ data.toList.count ' ' →
      GetKernelVersion r = Except.ok (" ".intercalate ((stringsSplitSpace data).take 3))) ∧
    (GetKernelVersion r = Except.error "Kernel Version is not found" ↔
      data.toList.count ' ' < 2) ∧
    (∀ w1 w2 w3 rest : List Char, ' ' ∉ w1 → ' ' ∉ w2 → ' ' ∉ w3 →
      data = String.mk (w1 ++ ' ' :: (w2 ++ ' ' :: (w3 ++ ' ' :: rest))) →
      GetKernelVersion r =
        Except.ok (String.mk w1 ++ " " ++ String.mk w2 ++ " " ++ String.mk w3)) := by
  have hlen : (stringsSplitSpace data).length = data.toList.count ' ' + 1 := by
    simp [stringsSplitSpace, splitAtSpaces_length]
  have hres := getKernelVersion_ok r data ha hr
  refine ⟨hlen, ?_, ?_, ?_⟩
  · intro h2
    rw [hres, if_neg (by omega)]
  · rw [hres]
    constructor
    · intro h
      by_contra hc
      rw [if_neg (by omega)] at h
      cases h
    · intro h
      rw [if_pos (by omega)]
  · intro w1 w2 w3 rest h1 h2 h3 hd
    have hsplit : stringsSplitSpace data =
        String.mk w1 :: String.mk w2 :: String.mk w3 :: (splitAtSpaces rest).map String.mk := by
      subst hd
      simp [stringsSplitSpace, splitAtSpaces_word _ _ h1, splitAtSpaces_word _ _ h2,
        splitAtSpaces_word _ _ h3]
    rw [hres, hsplit]
    simp [String.intercalate, String.intercalate.go, String.append_assoc]

/-- Witness for C26: the first three fields of a usual /proc/version line. -/
theorem kernel_version_string_witness :
    GetKernelVersion (versionRemote "Linux version 5.4.0-42-generic (buildd@lgw01) #46-Ubuntu") =
      Except.ok "Linux version 5.4.0-42-generic" :=
  ((kernel_version_string
    (versionRemote "Linux version 5.4.0-42-generic (buildd@lgw01) #46-Ubuntu")
    "Linux version 5.4.0-42-generic (buildd@lgw01) #46-Ubuntu" rfl rfl).2.1 (by decide)).trans
    rfl

/-- Counterexample for C26: with two spaces after the first word the result is
"Linux  version", not the first three tokens "Linux version 5.4.0"; a content of
three tokens, the third after a line break, gives the error; and a content of
two tokens followed by a space gives no error. -/
theorem kernel_version_splits_at_single_spaces :
    GetKernelVersion (versionRemote "Linux  version 5.4.0") = Except.ok "Linux  version" ∧
    GetKernelVersion (versionRemote "Linux version\n5.4.0") =
      Except.error "Kernel Version is not found" ∧
    GetKernelVersion (versionRemote "Linux version ") = Except.ok "Linux version " := by
  refine ⟨rfl, rfl, rfl⟩

theorem ioWindow_length (series : List Nat) : (ioWindow series).length = 50 := by
  simp [ioWindow, IOCount]

theorem maxFloat64_ioWindow (series : List Nat) : ∃ m, maxFloat64 (ioWindow series) = some m := by
  have h := ioWindow_length series
  cases hw : ioWindow series with
  | nil => simp [hw] at h
  | cons a rest => exact ⟨_, rfl⟩

theorem txBytesBrailleLine_eq (log10 : Float64 → Float64) (pow : Float64 → Float64 → Float64)
    (u : NetworkUsage) (h : u.TXBytes.length > 0) :
    txBytesBrailleLine log10 pow u =
      some (stringsJoin (brailleArray (if u.RXBytes.length > 0 then ioWindow u.RXBytes else []))) := by
  obtain ⟨m, hm⟩ := maxFloat64_ioWindow u.TXBytes
  simp only [txBytesBrailleLine, h, if_true, hm, BrailleLine]

/-- The window of a series of two rates: the later rate, then 49 zeros. -/
theorem ioWindow_pair (a b : Nat) :
    ioWindow [a, b] = Float64.ofNat b :: List.replicate 49 (Float64.fin 0) := by
  rfl

/-- C28 (code at the failing input). For an interface whose RXBytes series is
[0, 1000] and whose TXBytes series is [0, 0], the Braille line of the TXBytes
cell is the one of the RXBytes cell and differs from the BrailleLine of the
window of TXBytes; it stays the same when the TXBytes series becomes
[0, 1000]. This holds whatever math.Log10 and math.Pow return. -/
theorem tx_graph_shows_rx_data (log10 : Float64 → Float64)
    (pow : Float64 → Float64 → Float64) :
    txBytesBrailleLine log10 pow receivingOnly = rxBytesBrailleLine log10 pow receivingOnly ∧
    txBytesBrailleLine log10 pow receivingOnly ≠ some (txBrailleFromTXData receivingOnly) ∧
    txBytesBrailleLine log10 pow receivingAndSending =
      txBytesBrailleLine log10 pow receivingOnly := by
  have h1 : txBytesBrailleLine log10 pow receivingOnly =
      some (stringsJoin (brailleArray (ioWindow [0, 1000]))) :=
    txBytesBrailleLine_eq log10 pow receivingOnly (by decide)
  have h2 : txBytesBrailleLine log10 pow receivingAndSending =
      some (stringsJoin (brailleArray (ioWindow [0, 1000]))) :=
    txBytesBrailleLine_eq log10 pow receivingAndSending (by decide)
  have h3 : rxBytesBrailleLine log10 pow receivingOnly =
      some (stringsJoin (brailleArray (ioWindow [0, 1000]))) := by
    obtain ⟨m, hm⟩ := maxFloat64_ioWindow [0, 1000]
    simp only [rxBytesBrailleLine, receivingOnly, List.length_cons, List.length_nil,
      Nat.zero_add, Nat.reduceAdd, gt_iff_lt, Nat.ofNat_pos, if_true, hm, BrailleLine]
  refine ⟨by rw [h1, h3], ?_, by rw [h2, h1]⟩
  have htx : txBrailleFromTXData receivingOnly =
      stringsJoin (brailleArray (ioWindow [0, 0])) := rfl
  rw [h1, htx, ioWindow_pair, ioWindow_pair, ofNat_small 1000 1000 (by norm_num) (by norm_num),
    ofNat_small 0 0 (by norm_num) (by norm_num)]
  with_unfolding_all decide

theorem mapSet_mapSet {α : Type} (m : List (String × List α)) (k : String) (v w : List α) :
    mapSet (mapSet m k v) k w = mapSet m k w := by
  induction m with
  | nil => simp [mapSet]
  | cons e rest ih =>
    obtain ⟨k', v'⟩ := e
    by_cases hk : k' = k
    · simp [mapSet, hk]
    · simp [mapSet, hk, ih]

theorem lastNode_append (n : Node) (a b : List Step) :
    lastNode n (a ++ b) = lastNode (lastNode n a) b := by
  induction a generalizing n with
  | nil => rfl
  | cons s rest ih => exact ih s.after

theorem lockAfter_append (held : Bool) (a b : List Step) :
    lockAfter held (a ++ b) = lockAfter (lockAfter held a) b := by
  induction a generalizing held with
  | nil => rfl
  | cons s rest ih => exact ih _

theorem writesLocked_append (held : Bool) (a b : List Step) :
    writesLocked held (a ++ b) = (writesLocked held a && writesLocked (lockAfter held a) b) := by
  induction a generalizing held with
  | nil => simp [writesLocked, lockAfter]
  | cons s rest ih =>
    rw [List.cons_append]
    simp only [writesLocked, lockAfter]
    rw [ih, Bool.and_assoc]

theorem observable_append (held : Bool) (a b : List Step) :
    observable held (a ++ b) = observable held a ++ observable (lockAfter held a) b := by
  induction a generalizing held with
  | nil => simp [observable, lockAfter]
  | cons s rest ih =>
    rw [List.cons_append]
    simp only [observable, lockAfter]
    rw [ih, List.append_assoc]

theorem lastNode_loop {α : Type} (body : Node → α → List Step) (n : Node) (xs : List α) :
    lastNode n (stepsOfLoop body n xs) = xs.foldl (fun m a => lastNode m (body m a)) n := by
  induction xs generalizing n with
  | nil => rfl
  | cons a rest ih => simp only [stepsOfLoop, lastNode_append, ih, List.foldl_cons]

theorem loop_lockAfter {α : Type} (body : Node → α → List Step)
    (hfree : ∀ m a, lockAfter false (body m a) = false) (n : Node) (xs : List α) :
    lockAfter false (stepsOfLoop body n xs) = false := by
  induction xs generalizing n with
  | nil => rfl
  | cons a rest ih => simp only [stepsOfLoop, lockAfter_append, hfree, ih]

theorem loop_writesLocked {α : Type} (body : Node → α → List Step)
    (hfree : ∀ m a, lockAfter false (body m a) = false)
    (hw : ∀ m a, writesLocked false (body m a) = true) (n : Node) (xs : List α) :
    writesLocked false (stepsOfLoop body n xs) = true := by
  induction xs generalizing n with
  | nil => rfl
  | cons a rest ih => simp only [stepsOfLoop, writesLocked_append, hfree, hw, ih, Bool.and_self]

theorem loop_observable {α : Type} (body : Node → α → List Step) (P Q : Node → Prop)
    (hfree : ∀ m a, lockAfter false (body m a) = false)
    (hP : ∀ m a, P m → P (lastNode m (body m a)))
    (hQ : ∀ m a, P m → ∀ k ∈ observable false (body m a), Q k)
    (n : Node) (xs : List α) (hn : P n) :
    ∀ k ∈ observable false (stepsOfLoop body n xs), Q k := by
  induction xs generalizing n with
  | nil => intro k hk; simp [stepsOfLoop, observable] at hk
  | cons a rest ih =>
    intro k hk
    simp only [stepsOfLoop, observable_append, hfree, List.mem_append] at hk
    rcases hk with hk | hk
    · exact hQ n a hn k hk
    · exact ih _ (hP n a hn) k hk

theorem lastNode_cpu (n : Node) (r : Remote) :
    lastNode n (MonitoringCPUUsageSteps n r) = MonitoringCPUUsage n r := by
  unfold MonitoringCPUUsageSteps MonitoringCPUUsage
  by_cases ha : r.alive = true
  · simp only [ha, Bool.not_true, Bool.false_eq_true, if_false]
    cases hs : r.ReadStat n.PathProcStat with
    | none => rfl
    | some stat =>
      simp only [appendEvict]
      split <;> rfl
  · simp only [ha, Bool.not_false, if_true, Bool.not_eq_true] at *
    simp [ha, lastNode]

theorem diskBodySteps_eq (r : Remote) (n : Node) (stat : DiskStat) :
    diskBodySteps r n stat =
      [⟨Access.lock, n⟩, ⟨Access.write Series.DiskIOs, diskAppended n stat⟩,
       ⟨Access.unlock, diskAppended n stat⟩, ⟨Access.lenTest Series.DiskIOs, diskAppended n stat⟩] ++
      (if (((mapGet n.DiskIOs (diskSample stat).Device ++ [diskSample stat]).length : Nat) : Int) >
          n.DiskIOsLimit then
        [⟨Access.lock, diskAppended n stat⟩, ⟨Access.write Series.DiskIOs, diskEvicted n stat⟩,
         ⟨Access.unlock, diskEvicted n stat⟩]
      else []) := by
  simp only [diskBodySteps, matchMdPrefix_empty, Bool.false_eq_true, if_false, diskSample,
    mapGet_mapSet_same, mapSet_mapSet, diskAppended, diskEvicted]

theorem networkBodySteps_eq (n : Node) (stat : NetworkStat) :
    networkBodySteps n stat =
      [⟨Access.lock, n⟩, ⟨Access.write Series.NetworkIOs, networkAppended n stat⟩,
       ⟨Access.unlock, networkAppended n stat⟩,
       ⟨Access.lenTest Series.NetworkIOs, networkAppended n stat⟩] ++
      (if (((mapGet n.NetworkIOs stat.Iface ++ [networkSample stat]).length : Nat) : Int) >
          n.NetworkIOsLimit then
        [⟨Access.lock, networkAppended n stat⟩,
         ⟨Access.write Series.NetworkIOs, networkEvicted n stat⟩,
         ⟨Access.unlock, networkEvicted n stat⟩]
      else []) := by
  simp only [networkBodySteps, networkSample, mapGet_mapSet_same, mapSet_mapSet, networkAppended,
    networkEvicted]

theorem lastNode_diskBody (r : Remote) (n : Node) (stat : DiskStat) :
    lastNode n (diskBodySteps r n stat) = monitoringDiskIOStep r n stat := by
  rw [diskBodySteps_eq, monitoringDiskIOStep_eq]
  simp only [appendEvict]
  split <;> rfl

theorem lastNode_networkBody (n : Node) (stat : NetworkStat) :
    lastNode n (networkBodySteps n stat) = monitoringNetworkIOStep n stat := by
  rw [networkBodySteps_eq]
  simp only [monitoringNetworkIOStep, appendEvict, networkSample]
  split <;> rfl

theorem lastNode_disk (n : Node) (r : Remote) :
    lastNode n ( MonitoringDiskIOSteps n r) = MonitoringDiskIO n r := by
  unfold MonitoringDiskIOSteps MonitoringDiskIO
  by_cases ha : r.alive = true
  · simp only [ha, Bool.not_true, Bool.false_eq_true, if_false]
    cases hs : r.ReadDiskStats n.PathProcDiskStats with
    | none => rfl
    | some stats =>
      have hf : (fun m a => lastNode m (diskBodySteps r m a)) = monitoringDiskIOStep r := by
        funext m a
        exact lastNode_diskBody r m a
      rw [lastNode, lastNode_loop, hf]
  · simp only [Bool.not_eq_true] at ha
    simp [ha, lastNode]

theorem lastNode_network (n : Node) (r : Remote) :
    lastNode n ( MonitoringNetworkIOSteps n r) = MonitoringNetworkIO n r := by
  unfold MonitoringNetworkIOSteps MonitoringNetworkIO
  by_cases ha : r.alive = true
  · simp only [ha, Bool.not_true, Bool.false_eq_true, if_false]
    cases hs : r.ReadNetworkStat "/proc/net/dev" with
    | none => rfl
    | some stats =>
      have hf : (fun m a => lastNode m (networkBodySteps m a)) = monitoringNetworkIOStep := by
        funext m a
        exact lastNode_networkBody m a
      rw [lastNode, lastNode_loop, hf]
  · simp only [Bool.not_eq_true] at ha
    simp [ha, lastNode]

theorem diskBody_lockAfter (r : Remote) (n : Node) (stat : DiskStat) :
    lockAfter false (diskBodySteps r n stat) = false := by
  rw [diskBodySteps_eq]
  split <;> rfl

theorem networkBody_lockAfter (n : Node) (stat : NetworkStat) :
    lockAfter false (networkBodySteps n stat) = false := by
  rw [networkBodySteps_eq]
  split <;> rfl

theorem diskBody_writesLocked (r : Remote) (n : Node) (stat : DiskStat) :
    writesLocked false (diskBodySteps r n stat) = true := by
  rw [diskBodySteps_eq]
  split <;> rfl

theorem networkBody_writesLocked (n : Node) (stat : NetworkStat) :
    writesLocked false (networkBodySteps n stat) = true := by
  rw [networkBodySteps_eq]
  split <;> rfl

theorem diskBody_observable (r : Remote) (n : Node) (stat : DiskStat) :
    observable false (diskBodySteps r n stat) =
      [diskAppended n stat, diskAppended n stat] ++
      (if (((mapGet n.DiskIOs (diskSample stat).Device ++ [diskSample stat]).length : Nat) : Int) >
          n.DiskIOsLimit then [diskEvicted n stat] else []) := by
  rw [diskBodySteps_eq]
  split <;> rfl

theorem networkBody_observable (n : Node) (stat : NetworkStat) :
    observable false (networkBodySteps n stat) =
      [networkAppended n stat, networkAppended n stat] ++
      (if (((mapGet n.NetworkIOs stat.Iface ++ [networkSample stat]).length : Nat) : Int) >
          n.NetworkIOsLimit then [networkEvicted n stat] else []) := by
  rw [networkBodySteps_eq]
  split <;> rfl

theorem mapGet_mapSet_length_le {α : Type} (m : List (String × List α)) (k d : String)
    (v : List α) (b : Int) (hv : (v.length : Int) ≤ b)
    (hm : ((mapGet m d).length : Int) ≤ b) : ((mapGet (mapSet m k v) d).length : Int) ≤ b := by
  by_cases hd : d = k
  · subst hd
    rw [mapGet_mapSet_same]
    exact hv
  · rw [mapGet_mapSet_other _ _ _ _ hd]
    exact hm

theorem diskBody_keeps_bound (r : Remote) (L : Int) (m : Node) (a : DiskStat)
    (h : m.DiskIOsLimit = L ∧ ∀ d, ((mapGet m.DiskIOs d).length : Int) ≤ L) :
    (lastNode m (diskBodySteps r m a)).DiskIOsLimit = L ∧
    ∀ d, ((mapGet (lastNode m (diskBodySteps r m a)).DiskIOs d).length : Int) ≤ L := by
  obtain ⟨h1, h2⟩ := h
  rw [lastNode_diskBody, monitoringDiskIOStep_eq]
  refine ⟨h1, fun d => ?_⟩
  apply mapGet_mapSet_length_le _ _ _ _ _ _ (h2 d)
  rw [h1]
  exact appendEvict_length_le _ _ _ (h2 _)

theorem networkBody_keeps_bound (L : Int) (m : Node) (a : NetworkStat)
    (h : m.NetworkIOsLimit = L ∧ ∀ d, ((mapGet m.NetworkIOs d).length : Int) ≤ L) :
    (lastNode m (networkBodySteps m a)).NetworkIOsLimit = L ∧
    ∀ d, ((mapGet (lastNode m (networkBodySteps m a)).NetworkIOs d).length : Int) ≤ L := by
  obtain ⟨h1, h2⟩ := h
  rw [lastNode_networkBody]
  refine ⟨h1, fun d => ?_⟩
  simp only [monitoringNetworkIOStep]
  apply mapGet_mapSet_length_le _ _ _ _ _ _ (h2 d)
  rw [h1]
  exact appendEvict_length_le _ _ _ (h2 _)

theorem diskBody_observable_bound (r : Remote) (L : Int) (m : Node) (a : DiskStat)
    (h : m.DiskIOsLimit = L ∧ ∀ d, ((mapGet m.DiskIOs d).length : Int) ≤ L) :
    ∀ k ∈ observable false (diskBodySteps r m a),
      ∀ d, ((mapGet k.DiskIOs d).length : Int) ≤ L + 1 := by
  obtain ⟨h1, h2⟩ := h
  intro k hk d
  rw [diskBody_observable] at hk
  have happ : ∀ d, ((mapGet (diskAppended m a).DiskIOs d).length : Int) ≤ L + 1 := by
    intro d
    simp only [diskAppended]
    apply mapGet_mapSet_length_le
    · have := h2 (diskSample a).Device
      simp only [List.length_append, List.length_singleton]
      push_cast
      omega
    · have := h2 d
      omega
  have hev : ∀ d, ((mapGet (diskEvicted m a).DiskIOs d).length : Int) ≤ L + 1 := by
    intro d
    simp only [diskEvicted]
    apply mapGet_mapSet_length_le
    · have := h2 (diskSample a).Device
      simp only [List.length_tail, List.length_append, List.length_singleton, Nat.add_sub_cancel]
      omega
    · have := h2 d
      omega
  simp only [List.mem_append, List.mem_cons, List.mem_singleton, List.not_mem_nil, or_false,
    or_self] at hk
  rcases hk with hk | hk
  · rw [hk]
    exact happ d
  · split at hk
    · simp only [List.mem_singleton] at hk
      rw [hk]
      exact hev d
    · simp at hk

theorem networkBody_observable_bound (L : Int) (m : Node) (a : NetworkStat)
    (h : m.NetworkIOsLimit = L ∧ ∀ d, ((mapGet m.NetworkIOs d).length : Int) ≤ L) :
    ∀ k ∈ observable false (networkBodySteps m a),
      ∀ d, ((mapGet k.NetworkIOs d).length : Int) ≤ L + 1 := by
  obtain ⟨h1, h2⟩ := h
  intro k hk d
  rw [networkBody_observable] at hk
  have happ : ∀ d, ((mapGet (networkAppended m a).NetworkIOs d).length : Int) ≤ L + 1 := by
    intro d
    simp only [networkAppended]
    apply mapGet_mapSet_length_le
    · have := h2 a.Iface
      simp only [List.length_append, List.length_singleton]
      push_cast
      omega
    · have := h2 d
      omega
  have hev : ∀ d, ((mapGet (networkEvicted m a).NetworkIOs d).length : Int) ≤ L + 1 := by
    intro d
    simp only [networkEvicted]
    apply mapGet_mapSet_length_le
    · have := h2 a.Iface
      simp only [List.length_tail, List.length_append, List.length_singleton, Nat.add_sub_cancel]
      omega
    · have := h2 d
      omega
  simp only [List.mem_append, List.mem_cons, List.mem_singleton, List.not_mem_nil, or_false,
    or_self] at hk
  rcases hk with hk | hk
  · rw [hk]
    exact happ d
  · split at hk
    · simp only [List.mem_singleton] at hk
      rw [hk]
      exact hev d
    · simp at hk

theorem disk_steps_writesLocked (n : Node) (r : Remote) :
    writesLocked false ( MonitoringDiskIOSteps n r) = true ∧
    lockAfter false ( MonitoringDiskIOSteps n r) = false := by
  unfold MonitoringDiskIOSteps
  by_cases ha : r.alive = true
  · simp only [ha, Bool.not_true, Bool.false_eq_true, if_false]
    cases hs : r.ReadDiskStats n.PathProcDiskStats with
    | none => exact ⟨rfl, rfl⟩
    | some stats =>
      exact ⟨by
          simp only [writesLocked, heldAfter, Bool.true_and]
          exact loop_writesLocked _ (diskBody_lockAfter r) (diskBody_writesLocked r) _ _,
        by
          simp only [lockAfter, heldAfter]
          exact loop_lockAfter _ (diskBody_lockAfter r) _ _⟩
  · simp only [Bool.not_eq_true] at ha
    simp only [ha, Bool.not_false, if_true]
    exact ⟨rfl, rfl⟩

theorem network_steps_writesLocked (n : Node) (r : Remote) :
    writesLocked false ( MonitoringNetworkIOSteps n r) = true ∧
    lockAfter false ( MonitoringNetworkIOSteps n r) = false := by
  unfold MonitoringNetworkIOSteps
  by_cases ha : r.alive = true
  · simp only [ha, Bool.not_true, Bool.false_eq_true, if_false]
    cases hs : r.ReadNetworkStat "/proc/net/dev" with
    | none => exact ⟨rfl, rfl⟩
    | some stats =>
      exact ⟨by
          simp only [writesLocked, heldAfter, Bool.true_and]
          exact loop_writesLocked _ networkBody_lockAfter networkBody_writesLocked _ _,
        by
          simp only [lockAfter, heldAfter]
          exact loop_lockAfter _ networkBody_lockAfter _ _⟩
  · simp only [Bool.not_eq_true] at ha
    simp only [ha, Bool.not_false, if_true]
    exact ⟨rfl, rfl⟩

theorem disk_steps_observable_bound (n : Node) (r : Remote)
    (hb : ∀ d, ((mapGet n.DiskIOs d).length : Int) ≤ n.DiskIOsLimit) :
    ∀ k ∈ observable false ( MonitoringDiskIOSteps n r),
      ∀ d, ((mapGet k.DiskIOs d).length : Int) ≤ n.DiskIOsLimit + 1 := by
  have hL : (0 : Int) ≤ n.DiskIOsLimit := le_trans (Int.ofNat_nonneg _) (hb "")
  unfold MonitoringDiskIOSteps
  by_cases ha : r.alive = true
  · simp only [ha, Bool.not_true, Bool.false_eq_true, if_false]
    cases hs : r.ReadDiskStats n.PathProcDiskStats with
    | none =>
      intro k hk d
      simp only [observable, heldAfter, Bool.false_eq_true, if_false, List.append_nil,
        List.mem_singleton] at hk
      rw [hk]
      have := hb d
      simp only
      omega
    | some stats =>
      intro k hk d
      simp only [observable, heldAfter, Bool.false_eq_true, if_false, List.singleton_append,
        List.mem_cons] at hk
      rcases hk with hk | hk
      · rw [hk]
        have := hb d
        simp only
        omega
      · exact loop_observable (diskBodySteps r)
          (fun m => m.DiskIOsLimit = n.DiskIOsLimit ∧
            ∀ d, ((mapGet m.DiskIOs d).length : Int) ≤ n.DiskIOsLimit)
          (fun k => ∀ d, ((mapGet k.DiskIOs d).length : Int) ≤ n.DiskIOsLimit + 1)
          (diskBody_lockAfter r) (fun m a h => diskBody_keeps_bound r _ m a h)
          (fun m a h => diskBody_observable_bound r _ m a h)
          { n with remoteReads := n.remoteReads ++ [n.PathProcDiskStats] } stats ⟨rfl, hb⟩ k hk d
  · simp only [Bool.not_eq_true] at ha
    simp only [ha, Bool.not_false, if_true]
    intro k hk d
    simp only [observable, heldAfter, Bool.false_eq_true, if_false, if_true, List.append_nil,
      List.nil_append, List.mem_singleton] at hk
    rw [hk]
    simp only [mapGet, List.lookup, List.length_nil]
    omega

theorem network_steps_observable_bound (n : Node) (r : Remote)
    (hb : ∀ d, ((mapGet n.NetworkIOs d).length : Int) ≤ n.NetworkIOsLimit) :
    ∀ k ∈ observable false ( MonitoringNetworkIOSteps n r),
      ∀ d, ((mapGet k.NetworkIOs d).length : Int) ≤ n.NetworkIOsLimit + 1 := by
  have hL : (0 : Int) ≤ n.NetworkIOsLimit := le_trans (Int.ofNat_nonneg _) (hb "")
  unfold MonitoringNetworkIOSteps
  by_cases ha : r.alive = true
  · simp only [ha, Bool.not_true, Bool.false_eq_true, if_false]
    cases hs : r.ReadNetworkStat "/proc/net/dev" with
    | none =>
      intro k hk d
      simp only [observable, heldAfter, Bool.false_eq_true, if_false, List.append_nil,
        List.mem_singleton] at hk
      rw [hk]
      have := hb d
      simp only
      omega
    | some stats =>
      intro k hk d
      simp only [observable, heldAfter, Bool.false_eq_true, if_false, List.singleton_append,
        List.mem_cons] at hk
      rcases hk with hk | hk
      · rw [hk]
        have := hb d
        simp only
        omega
      · exact loop_observable networkBodySteps
          (fun m => m.NetworkIOsLimit = n.NetworkIOsLimit ∧
            ∀ d, ((mapGet m.NetworkIOs d).length : Int) ≤ n.NetworkIOsLimit)
          (fun k => ∀ d, ((mapGet k.NetworkIOs d).length : Int) ≤ n.NetworkIOsLimit + 1)
          networkBody_lockAfter (fun m a h => networkBody_keeps_bound _ m a h)
          (fun m a h => networkBody_observable_bound _ m a h)
          { n with remoteReads := n.remoteReads ++ ["/proc/net/dev"] } stats ⟨rfl, hb⟩ k hk d
  · simp only [Bool.not_eq_true] at ha
    simp only [ha, Bool.not_false, if_true]
    intro k hk d
    simp only [observable, heldAfter, Bool.false_eq_true, if_false, if_true, List.append_nil,
      List.nil_append, List.mem_singleton] at hk
    rw [hk]
    simp only [mapGet, List.lookup, List.length_nil]
    omega

theorem cpu_steps_shape (n : Node) (r : Remote) (stat : Stat) (ha : r.alive = true)
    (hs : r.ReadStat n.PathProcStat = some stat) :
    ∃ (n1 n2 : Node) (rest : List Step),
      MonitoringCPUUsageSteps n r =
        [⟨Access.remoteRead, n1⟩, ⟨Access.write Series.cpuUsage, n2⟩,
         ⟨Access.lenTest Series.cpuUsage, n2⟩] ++ rest ∧
      n2.cpuUsage = n.cpuUsage ++ [⟨stat.CPUStatAll, stat.CPUStats, r.now⟩] ∧
      writesLocked false rest = true ∧ lockAfter false rest = false := by
  simp only [MonitoringCPUUsageSteps, ha, hs, Bool.not_true, Bool.false_eq_true, if_false]
  refine ⟨_, _, _, rfl, rfl, ?_⟩
  split <;> exact ⟨rfl, rfl⟩

theorem disk_lenTest_unlocked (n : Node) (r : Remote) (s : DiskStat) (stats : List DiskStat)
    (ha : r.alive = true) (hs : r.ReadDiskStats n.PathProcDiskStats = some (s :: stats)) :
    lockDiscipline false ( MonitoringDiskIOSteps n r) = false := by
  simp only [ MonitoringDiskIOSteps, ha, hs, Bool.not_true, Bool.false_eq_true, if_false,
    stepsOfLoop, diskBodySteps_eq]
  simp [lockDiscipline, heldAfter]

theorem network_lenTest_unlocked (n : Node) (r : Remote) (s : NetworkStat)
    (stats : List NetworkStat) (ha : r.alive = true)
    (hs : r.ReadNetworkStat "/proc/net/dev" = some (s :: stats)) :
    lockDiscipline false ( MonitoringNetworkIOSteps n r) = false := by
  simp only [ MonitoringNetworkIOSteps, ha, hs, Bool.not_true, Bool.false_eq_true, if_false,
    stepsOfLoop, networkBodySteps_eq]
  simp [lockDiscipline, heldAfter]

/-- C27 (amended). Lock discipline of the samplers, statement by statement, the
last node of each sequence being the result of the sampler: along every
execution of MonitoringDiskIO and of MonitoringNetworkIO every assignment to the
DiskIOs and NetworkIOs series happens while the lock is held, and the lock is
free at the end; in MonitoringCPUUsage the reset of cpuUsage on a dead
connection and the removal of the oldest sample happen while the lock is held.
The length tests of DiskIOs and NetworkIOs happen after the lock has been
released, the append and the removal being two critical sections: on a node
whose series are within their limits, a reader that takes the lock between two
statements of MonitoringDiskIO or MonitoringNetworkIO finds every series with
at most limit + 1 samples. -/
theorem samplers_lock_discipline (n : Node) (r : Remote) (hb : RawSeriesBounded n) :
    (lastNode n (MonitoringCPUUsageSteps n r) = MonitoringCPUUsage n r ∧
      lastNode n ( MonitoringDiskIOSteps n r) = MonitoringDiskIO n r ∧
      lastNode n ( MonitoringNetworkIOSteps n r) = MonitoringNetworkIO n r) ∧
    (writesLocked false ( MonitoringDiskIOSteps n r) = true ∧
      lockAfter false ( MonitoringDiskIOSteps n r) = false) ∧
    (writesLocked false ( MonitoringNetworkIOSteps n r) = true ∧
      lockAfter false ( MonitoringNetworkIOSteps n r) = false) ∧
    (r.alive = false → writesLocked false (MonitoringCPUUsageSteps n r) = true) ∧
    (∀ stat, r.alive = true → r.ReadStat n.PathProcStat = some stat →
      ∃ (n1 n2 : Node) (rest : List Step),
        MonitoringCPUUsageSteps n r =
          [⟨Access.remoteRead, n1⟩, ⟨Access.write Series.cpuUsage, n2⟩,
           ⟨Access.lenTest Series.cpuUsage, n2⟩] ++ rest ∧
        n2.cpuUsage = n.cpuUsage ++ [⟨stat.CPUStatAll, stat.CPUStats, r.now⟩] ∧
        writesLocked false rest = true ∧ lockAfter false rest = false) ∧
    (∀ s stats, r.alive = true → r.ReadDiskStats n.PathProcDiskStats = some (s :: stats) →
      lockDiscipline false ( MonitoringDiskIOSteps n r) = false) ∧
    (∀ s stats, r.alive = true → r.ReadNetworkStat "/proc/net/dev" = some (s :: stats) →
      lockDiscipline false ( MonitoringNetworkIOSteps n r) = false) ∧
    (∀ k ∈ observable false ( MonitoringDiskIOSteps n r),
      ∀ d, ((mapGet k.DiskIOs d).length : Int) ≤ n.DiskIOsLimit + 1) ∧
    (∀ k ∈ observable false ( MonitoringNetworkIOSteps n r),
      ∀ d, ((mapGet k.NetworkIOs d).length : Int) ≤ n.NetworkIOsLimit + 1) := by
  refine ⟨⟨lastNode_cpu n r, lastNode_disk n r, lastNode_network n r⟩,
    disk_steps_writesLocked n r, network_steps_writesLocked n r, ?_,
    fun stat ha hs => cpu_steps_shape n r stat ha hs,
    fun s stats ha hs => disk_lenTest_unlocked n r s stats ha hs,
    fun s stats ha hs => network_lenTest_unlocked n r s stats ha hs,
    disk_steps_observable_bound n r hb.2.1, network_steps_observable_bound n r hb.2.2⟩
  intro ha
  simp only [MonitoringCPUUsageSteps, ha, Bool.not_false, if_true]
  rfl

/-- Witness for C27: the node fullNode is within its limits; the statements of
MonitoringDiskIO against demoRemote keep every assignment under the lock. -/
theorem samplers_lock_discipline_witness :
    RawSeriesBounded fullNode ∧
    writesLocked false ( MonitoringDiskIOSteps fullNode demoRemote) = true ∧
    lockAfter false ( MonitoringDiskIOSteps fullNode demoRemote) = false :=
  ⟨fullNode_bounded, (samplers_lock_discipline fullNode demoRemote fullNode_bounded).2.1⟩

/-- Counterexample for C27: on a node whose three series hold one sample, their
capacity, MonitoringCPUUsage appends to cpuUsage without the lock, all three
samplers test the length without the lock, and between the append and the
removal a reader that takes the lock finds two samples for eth0. -/
theorem append_and_length_test_outside_lock :
    saturatedNode.NetworkIOsLimit = 1 ∧
    writesLocked false (MonitoringCPUUsageSteps saturatedNode demoRemote) = false ∧
    lockDiscipline false (MonitoringCPUUsageSteps saturatedNode demoRemote) = false ∧
    lockDiscipline false ( MonitoringDiskIOSteps saturatedNode demoRemote) = false ∧
    lockDiscipline false ( MonitoringNetworkIOSteps saturatedNode demoRemote) = false ∧
    (observable false ( MonitoringNetworkIOSteps saturatedNode demoRemote)).map
      (fun m => (mapGet m.NetworkIOs "eth0").length) = [1, 2, 2, 1] := by
  decide

end Lsmon
